import Mathlib

/-!
# rebaseDB query layer: `ql_manager.cc` and `printer.cc`

A shallow embedding of the query-language manager (`QL_Manager`) of rebaseDB and
of the properties its specification states about it.

Conventions of the embedding

* A `char *` is the list of bytes that starts at the address (`List Nat`, every
  byte below 256); pointer arithmetic `p + k` is `List.drop k`.  Reading past the
  end of the list yields the byte 0.
* `int` is `Int`; where the source computes with 32-bit integers the result is
  wrapped with `wrapInt32`.
* The headers (`ql.h`, `sm.h`, `rm.h`, `redbase.h`) are not part of the sources at
  hand: the enumerations, records and return codes they declare are modelled from
  the specification and from the way the two source files use them.
-/

namespace RebaseDB

/-! ## Types declared in the headers -/

/-- Modelled from the spec: the attribute types of `redbase.h`
(section 3, "primitive type (INT, FLOAT, STRING)"). -/
inductive AttrType where
  | INT
  | FLOAT
  | STRING
  deriving DecidableEq, Repr, Inhabited

/-- Modelled from the spec: the value tags of the parser interface
(section 3, "type ∈ {INT, FLOAT, STRING, NULL}"). -/
inductive ValueType where
  | VT_NULL
  | VT_INT
  | VT_FLOAT
  | VT_STRING
  deriving DecidableEq, Repr, Inhabited

/-- Modelled from the spec: the comparison operators of `redbase.h`
(section 3, "Operators: {NO_OP, EQ, NE, LT, GT, LE, GE, ISNULL, NOTNULL}"). -/
inductive CompOp where
  | NO_OP
  | EQ_OP
  | NE_OP
  | LT_OP
  | GT_OP
  | LE_OP
  | GE_OP
  | ISNULL_OP
  | NOTNULL_OP
  deriving DecidableEq, Repr, Inhabited

/-- Modelled from the spec: the return codes `RC` of the headers (section 7).
`OK` is the code 0.  `OTHER n` stands for every other non-zero code of the record
and catalog managers.  `ABORTED` is not a return code: it records that the process
was stopped by a failed `CHECK`, a failed `assert` or an integer division by
zero. -/
inductive RC where
  | OK
  | QL_ATTR_NOTEXIST
  | QL_AMBIGUOUS_ATTR_NAME
  | QL_ATTR_TYPES_MISMATCH
  | QL_VALUE_TYPES_MISMATCH
  | QL_ATTR_COUNT_MISMATCH
  | QL_STRING_VAL_TOO_LONG
  | QL_ATTR_IS_NOTNULL
  | QL_FORBIDDEN
  | RM_EOF
  | OTHER (code : Nat)
  | ABORTED
  deriving DecidableEq, Repr, Inhabited

/-- Modelled from the spec: the bit `ATTR_SPEC_NOTNULL` of the specifier bitset
(section 3, "a bitset of specifiers (currently only NOTNULL)"). -/
def ATTR_SPEC_NOTNULL : Nat := 1

/-- Modelled from the spec: the attribute descriptor `DataAttrInfo` of `sm.h`
(section 3), with the fields the two source files read. -/
structure DataAttrInfo where
  relName : String
  attrName : String
  offset : Nat
  attrType : AttrType
  attrSize : Nat
  attrDisplayLength : Nat
  attrSpecs : Nat
  nullableIndex : Int
  deriving DecidableEq, Repr, Inhabited

/-- Modelled from the spec: the catalog entry `RelCatEntry` of `sm.h` (section 3). -/
structure RelCatEntry where
  tupleLength : Nat
  recordCount : Int
  deriving DecidableEq, Repr, Inhabited

/-- Modelled from the spec: the parser's `RelAttr`; `relName = none` is the C
null pointer. -/
structure RelAttr where
  relName : Option String
  attrName : String
  deriving DecidableEq, Repr, Inhabited

/-- Modelled from the spec: the parser's `Value`: a tag and the bytes `data`
points to. -/
structure Value where
  type : ValueType
  data : List Nat
  deriving DecidableEq, Repr, Inhabited

/-- Modelled from the spec: the parser's `Condition`. -/
structure Condition where
  lhsAttr : RelAttr
  op : CompOp
  bRhsIsAttr : Bool
  rhsAttr : RelAttr
  rhsValue : Value
  deriving DecidableEq, Repr, Inhabited

/-- Modelled from the spec: the compiled condition `QL_Condition` of `ql.h`
(section 3, "Condition (compiled)"). -/
structure QL_Condition where
  lhsAttr : DataAttrInfo
  op : CompOp
  bRhsIsAttr : Bool
  rhsAttr : DataAttrInfo
  rhsValue : Value
  deriving DecidableEq, Repr, Inhabited

/-! ## Machine-level helpers -/

/-- Two's-complement wrap of an integer to the range of a 32-bit `int`. -/
def wrapInt32 (x : Int) : Int :=
  (x + 2147483648) % 4294967296 - 2147483648

/-- The byte at index `i` of a buffer (0 past its end). -/
def byteAt (p : List Nat) (i : Nat) : Nat :=
  p.getD i 0 % 256

/-- The 32-bit word stored little-endian at the start of a buffer. -/
def le32 (p : List Nat) : Nat :=
  byteAt p 0 + 256 * byteAt p 1 + 65536 * byteAt p 2 + 16777216 * byteAt p 3

/-- Model of `*(int *)p`. -/
def readInt (p : List Nat) : Int :=
  wrapInt32 (le32 p)

/-- Whether a 32-bit pattern is an IEEE 754 binary32 NaN. -/
def f32IsNaN (w : Nat) : Bool :=
  (w / 8388608) % 256 == 255 && w % 8388608 != 0

/-- An integer that orders the non-NaN binary32 values as IEEE 754 does: the
magnitude bits, negated when the sign bit is set (so that -0 and +0 coincide). -/
def f32Key (w : Nat) : Int :=
  if (w / 2147483648) % 2 == 1 then - ((w % 2147483648 : Nat) : Int)
  else ((w % 2147483648 : Nat) : Int)

/-- Model of `lhs == rhs` on two `float`s given by their bit patterns. -/
def f32Eq (a b : Nat) : Bool :=
  !f32IsNaN a && !f32IsNaN b && f32Key a == f32Key b

/-- Model of `lhs < rhs` on two `float`s given by their bit patterns. -/
def f32Lt (a b : Nat) : Bool :=
  !f32IsNaN a && !f32IsNaN b && decide (f32Key a < f32Key b)

/-- Model of `lhs <= rhs` on two `float`s given by their bit patterns. -/
def f32Le (a b : Nat) : Bool :=
  !f32IsNaN a && !f32IsNaN b && decide (f32Key a ≤ f32Key b)

/-- Model of the C library `strcmp` on two byte buffers: walk both until the
bytes differ or a NUL is met; the result is the difference of the two bytes read
as `unsigned char`.  The end of a buffer reads as NUL. -/
def strcmp : List Nat → List Nat → Int
  | [], [] => 0
  | [], b :: _ => 0 - (b : Int)
  | a :: _, [] => (a : Int)
  | a :: as, b :: bs =>
    if a = b then (if a = 0 then 0 else strcmp as bs) else (a : Int) - (b : Int)

/-- Model of the C library `strlen`: the number of bytes before the first NUL. -/
def strlen (p : List Nat) : Nat :=
  (p.takeWhile (fun b => b != 0)).length

/-! ## `ql_manager.cc`: assignment compatibility and predicate evaluation -/

/-- Source: `can_assign_to`, ql_manager.cc lines 20-26. -/
def can_assign_to (rt : AttrType) (vt : ValueType) (nullable : Bool) : Bool :=
  (vt == ValueType.VT_NULL && nullable) ||
  (vt == ValueType.VT_INT && rt == AttrType.INT) ||
  (vt == ValueType.VT_INT && rt == AttrType.FLOAT) ||
  (vt == ValueType.VT_FLOAT && rt == AttrType.FLOAT) ||
  (vt == ValueType.VT_STRING && rt == AttrType.STRING)

/-- Source: the inner `switch (condition.op)` of the `INT` case of
`checkSatisfy`, lines 620-635; `none` is the `CHECK(false)` of the default
branch. -/
def compareInt (op : CompOp) (lhs rhs : Int) : Option Bool :=
  match op with
  | CompOp.EQ_OP => some (decide (lhs = rhs))
  | CompOp.NE_OP => some (decide (lhs ≠ rhs))
  | CompOp.LT_OP => some (decide (lhs < rhs))
  | CompOp.GT_OP => some (decide (lhs > rhs))
  | CompOp.LE_OP => some (decide (lhs ≤ rhs))
  | CompOp.GE_OP => some (decide (lhs ≥ rhs))
  | _ => none

/-- Source: the inner `switch (condition.op)` of the `FLOAT` case of
`checkSatisfy`, lines 640-655, on the bit patterns of the two floats. -/
def compareFloat (op : CompOp) (lhs rhs : Nat) : Option Bool :=
  match op with
  | CompOp.EQ_OP => some (f32Eq lhs rhs)
  | CompOp.NE_OP => some (!f32Eq lhs rhs)
  | CompOp.LT_OP => some (f32Lt lhs rhs)
  | CompOp.GT_OP => some (f32Lt rhs lhs)
  | CompOp.LE_OP => some (f32Le lhs rhs)
  | CompOp.GE_OP => some (f32Le rhs lhs)
  | _ => none

/-- Source: the inner `switch (condition.op)` of the `STRING` case of
`checkSatisfy`, lines 660-675. -/
def compareString (op : CompOp) (lhs rhs : List Nat) : Option Bool :=
  match op with
  | CompOp.EQ_OP => some (decide (strcmp lhs rhs = 0))
  | CompOp.NE_OP => some (decide (strcmp lhs rhs ≠ 0))
  | CompOp.LT_OP => some (decide (strcmp lhs rhs < 0))
  | CompOp.GT_OP => some (decide (strcmp lhs rhs > 0))
  | CompOp.LE_OP => some (decide (strcmp lhs rhs ≤ 0))
  | CompOp.GE_OP => some (decide (strcmp lhs rhs ≥ 0))
  | _ => none

/-- Source: `QL_Manager::checkSatisfy` (the 5-argument form), lines 603-679.
The result is `some b` when the function returns `b` and `none` when it stops at
a `CHECK(false)`. -/
def checkSatisfy (lhsData : List Nat) (lhsIsnull : Bool) (rhsData : List Nat)
    (rhsIsnull : Bool) (condition : QL_Condition) : Option Bool :=
  match condition.op with
  | CompOp.NO_OP => some true
  | CompOp.ISNULL_OP => some lhsIsnull
  | CompOp.NOTNULL_OP => some (!lhsIsnull)
  | _ =>
    if lhsIsnull || rhsIsnull then some false
    else
      match condition.lhsAttr.attrType with
      | AttrType.INT => compareInt condition.op (readInt lhsData) (readInt rhsData)
      | AttrType.FLOAT => compareFloat condition.op (le32 lhsData) (le32 rhsData)
      | AttrType.STRING => compareString condition.op lhsData rhsData

/-- Whether the descriptor lacks `ATTR_SPEC_NOTNULL`: the test
`(attrSpecs & ATTR_SPEC_NOTNULL) == 0` the source repeats. -/
def isNullable (a : DataAttrInfo) : Bool :=
  (a.attrSpecs &&& ATTR_SPEC_NOTNULL) == 0

/-- Model of `isnull[k]` for an `int` index `k` into a `bool` array. -/
def boolAt (isnull : List Bool) (k : Int) : Bool :=
  isnull.getD k.toNat false

/-- Source: `QL_Manager::checkSatisfy` (the 3-argument form), lines 681-695. -/
def checkSatisfyRec (data : List Nat) (isnull : List Bool) (condition : QL_Condition) :
    Option Bool :=
  if condition.bRhsIsAttr then
    checkSatisfy (data.drop condition.lhsAttr.offset)
      (if isNullable condition.lhsAttr then boolAt isnull condition.lhsAttr.nullableIndex
       else false)
      (data.drop condition.rhsAttr.offset)
      (if isNullable condition.rhsAttr then boolAt isnull condition.rhsAttr.nullableIndex
       else false)
      condition
  else
    checkSatisfy (data.drop condition.lhsAttr.offset)
      (if isNullable condition.lhsAttr then boolAt isnull condition.lhsAttr.nullableIndex
       else false)
      condition.rhsValue.data
      (condition.rhsValue.type == ValueType.VT_NULL)
      condition

/-! ## The specification's reading of STRING comparison -/

/-- The NUL-terminated content of a buffer: the bytes before the first NUL. -/
def content (p : List Nat) : List Nat :=
  p.takeWhile (fun b => b != 0)

/-- Strict lexicographic order on byte strings, bytes compared as unsigned
numbers: the earlier string is a proper prefix of the later one, or at the first
position where they differ it has the smaller byte. -/
def lexLt : List Nat → List Nat → Bool
  | _, [] => false
  | [], _ :: _ => true
  | a :: as, b :: bs => decide (a < b) || (a == b && lexLt as bs)

/-- The comparison the specification ascribes to STRING operands: the six
operators read on the lexicographic order of the contents. -/
def specStringCompare (op : CompOp) (l r : List Nat) : Bool :=
  match op with
  | CompOp.EQ_OP => decide (content l = content r)
  | CompOp.NE_OP => decide (content l ≠ content r)
  | CompOp.LT_OP => lexLt (content l) (content r)
  | CompOp.GT_OP => lexLt (content r) (content l)
  | CompOp.LE_OP => lexLt (content l) (content r) || decide (content l = content r)
  | CompOp.GE_OP => lexLt (content r) (content l) || decide (content l = content r)
  | _ => false

/-! ## The collaborators of the query layer: record manager, catalog, standard output -/

/-- Modelled from the spec: a record as the record manager hands it out
(section 6, "Record.GetData → bytes, Record.GetIsnull → bool[], Record.GetRid → rid"). -/
structure RM_Record where
  data : List Nat
  isnull : List Bool
  rid : Nat
  deriving DecidableEq, Repr, Inhabited

/-- Modelled from the spec: what the catalog and the record manager hold for one
relation: its `RelCatEntry`, its attribute descriptors in the order
`GetDataAttrInfo` returns them, and its records in scan (physical) order. -/
structure Relation where
  relEntry : RelCatEntry
  attrs : List DataAttrInfo
  records : List RM_Record
  deriving DecidableEq, Repr, Inhabited

/-- What the statement writes to standard output, one item per output action of
the source: the header of the printer, a tuple handed to `Printer::Print`, a
progress marker `[pct%] cnt/sum`, the footer with the printer's tuple count, the
summary lines `cnt tuple(s) deleted.` and `cnt tuple(s) updated.`. -/
inductive Output where
  | header (attrs : List DataAttrInfo)
  | row (data : List Nat) (isnull : List Bool)
  | progress (pct cnt sum : Int)
  | footer (iCount : Int)
  | deleted (cnt : Int)
  | updated (cnt : Int)
  deriving DecidableEq, Repr, Inhabited

/-- The calls of the statements that change what is stored, as the record manager
and the catalog receive them: `InsertRec(data, rid, isnull)`, `DeleteRec(rid)` and
`UpdateRec(record)` on the file of a relation, `UpdateRelEntry(relName, entry)`. -/
inductive RMCall where
  | insertRec (file : String) (data : List Nat) (isnull : List Bool)
  | deleteRec (file : String) (rid : Nat)
  | updateRec (file : String) (record : RM_Record)
  | updateRelEntry (relName : String) (entry : RelCatEntry)
  deriving DecidableEq, Repr, Inhabited

/-- Modelled from the spec: the state of the collaborators (section 6).
`catalog` maps a relation name to what is stored for it; `faults` lists the
results the coming record-manager calls are forced to (`OK` or an empty list: the
call runs normally); `files` lists the file handles opened and not yet closed;
`scans i` is the list of records scan object `i` has still to yield, `none` when
that scan is not open; `out` is standard output; `calls` lists the storing calls
received so far, oldest first. -/
structure World where
  catalog : String → Option Relation
  faults : List RC
  files : List String
  scans : Nat → Option (List RM_Record)
  out : List Output
  calls : List RMCall := []

/-- Code of the record manager for a file that does not exist. -/
def RM_NOFILE : RC := RC.OTHER 1

/-- Code of the catalog manager for a relation that does not exist. -/
def SM_NOTFOUND : RC := RC.OTHER 2

/-- Code of the record manager for a scan used in the wrong state. -/
def RM_SCANSTATE : RC := RC.OTHER 3

/-- Overwrite entry `i` of an array given as a function of its index. -/
def setAt {α : Type} (f : Nat → α) (i : Nat) (v : α) : Nat → α :=
  fun j => if j = i then v else f j

/-- Every record-manager call first consults the fault list. -/
def rmCall (w : World) : RC × World :=
  match w.faults with
  | [] => (RC.OK, w)
  | rc :: rest => (rc, { w with faults := rest })

/-- Modelled from the spec: `RM_Manager::OpenFile(name, handle)`.  The handle is
the relation name. -/
def OpenFile (relName : String) (w : World) : RC × World :=
  match rmCall w with
  | (rc, w1) =>
    if rc ≠ RC.OK then (rc, w1)
    else
      match w1.catalog relName with
      | none => (RM_NOFILE, w1)
      | some _ => (RC.OK, { w1 with files := w1.files ++ [relName] })

/-- Modelled from the spec: `SM_Manager::GetRelEntry(name, entry)`. -/
def GetRelEntry (relName : String) (w : World) : Except RC RelCatEntry :=
  match w.catalog relName with
  | none => Except.error SM_NOTFOUND
  | some r => Except.ok r.relEntry

/-- Modelled from the spec: `SM_Manager::GetDataAttrInfo(name, count, attrs, sort)`;
the count is the length of the list. -/
def GetDataAttrInfo (relName : String) (w : World) : Except RC (List DataAttrInfo) :=
  match w.catalog relName with
  | none => Except.error SM_NOTFOUND
  | some r => Except.ok r.attrs

/-- Modelled from the spec: `RM_FileScan::OpenScan(handle, INT, 4, 0, NO_OP, NULL)` on
scan object `i`: a scan without filter over all records of the file. -/
def OpenScan (i : Nat) (fileHandle : Option String) (w : World) : RC × World :=
  match rmCall w with
  | (rc, w1) =>
    if rc ≠ RC.OK then (rc, w1)
    else
      match w1.scans i, fileHandle.bind w1.catalog with
      | none, some r => (RC.OK, { w1 with scans := setAt w1.scans i (some r.records) })
      | _, _ => (RM_SCANSTATE, w1)

/-- Modelled from the spec: `RM_FileScan::GetNextRec(record)` on scan object `i`:
the next record in physical order, `RM_EOF` after the last one. -/
def GetNextRec (i : Nat) (w : World) : RC × RM_Record × World :=
  match rmCall w with
  | (rc, w1) =>
    if rc ≠ RC.OK then (rc, default, w1)
    else
      match w1.scans i with
      | none => (RM_SCANSTATE, default, w1)
      | some [] => (RC.RM_EOF, default, w1)
      | some (r :: rest) => (RC.OK, r, { w1 with scans := setAt w1.scans i (some rest) })

/-- Modelled from the spec: `RM_FileScan::CloseScan()` on scan object `i`. -/
def CloseScan (i : Nat) (w : World) : RC × World :=
  match rmCall w with
  | (rc, w1) =>
    if rc ≠ RC.OK then (rc, w1)
    else
      match w1.scans i with
      | none => (RM_SCANSTATE, w1)
      | some _ => (RC.OK, { w1 with scans := setAt w1.scans i none })

/-- Modelled from the spec: `RM_Record::GetData(data)`. -/
def GetData (r : RM_Record) (w : World) : RC × List Nat × World :=
  match rmCall w with
  | (rc, w1) => if rc ≠ RC.OK then (rc, [], w1) else (RC.OK, r.data, w1)

/-- Modelled from the spec: `RM_Record::GetIsnull(isnull)`. -/
def GetIsnull (r : RM_Record) (w : World) : RC × List Bool × World :=
  match rmCall w with
  | (rc, w1) => if rc ≠ RC.OK then (rc, [], w1) else (RC.OK, r.isnull, w1)

/-- Modelled from the spec: `upper_align<N>(x)` of the headers: `x` rounded up to
a multiple of `N` (section 3, "a slot padded to 4-byte alignment"). -/
def upper_align (n x : Nat) : Nat :=
  (x + (n - 1)) / n * n

/-- Model of `memcpy(dst + dOff, src, n)`: the buffer `dst` after the call.  Bytes
that would land past the end of `dst` are dropped; bytes read past the end of
`src` are 0. -/
def memcpy (dst : List Nat) (dOff : Nat) (src : List Nat) (n : Nat) : List Nat :=
  (List.range dst.length).map
    (fun k => if dOff ≤ k ∧ k < dOff + n then src.getD (k - dOff) 0 else dst.getD k 0)

/-- Model of `isnull[k] = v` for an `int` index `k` into a `bool` array. -/
def setBool (isnull : List Bool) (k : Int) (v : Bool) : List Bool :=
  isnull.set k.toNat v

/-! ## `printer.cc`: the printer as `Select` uses it -/

/-- Source: the members of `Printer` that `Print` and `PrintFooter` read:
the attribute list and the tuple count `iCount`. -/
structure Printer where
  attributes : List DataAttrInfo
  iCount : Int
  deriving DecidableEq, Repr, Inhabited

/-- Source: `Printer::Printer`, printer.cc lines 42-50 (the header layout of lines
52-100 does not influence which tuples are printed). -/
def Printer.new (attributes : List DataAttrInfo) : Printer :=
  { attributes := attributes, iCount := 0 }

/-- Source: `Printer::PrintHeader`, printer.cc lines 120-140, as one output item. -/
def Printer.PrintHeader (p : Printer) (w : World) : World :=
  { w with out := w.out ++ [Output.header p.attributes] }

/-- Source: `Printer::Print`, printer.cc lines 159-217, for a non-null `data`:
the tuple count goes up by one and the tuple is written as one output item. -/
def Printer.Print (p : Printer) (data : List Nat) (isnull : List Bool) (w : World) :
    Printer × World :=
  ({ p with iCount := p.iCount + 1 }, { w with out := w.out ++ [Output.row data isnull] })

/-- Source: `Printer::PrintFooter`, printer.cc lines 145-148. -/
def Printer.PrintFooter (p : Printer) (w : World) : World :=
  { w with out := w.out ++ [Output.footer p.iCount] }

/-! ## `ql_manager.cc`: `QL_Manager::Select` -/

/-- Source: `AttrTag`, the key `(relName, attrName)` of the attribute map. -/
abbrev AttrTag := String × String

/-- A `std::map` as the function from keys to the stored value. -/
abbrev AttrMap := AttrTag → Option DataAttrInfo

/-- Source: `make_tag`, lines 28-31. -/
def make_tag (info : RelAttr) : AttrTag :=
  (match info.relName with
   | some r => r
   | none => "",
   info.attrName)

/-- Model of `m[key] = v` on a `std::map`. -/
def mapInsert {κ ν : Type} [DecidableEq κ] (m : κ → Option ν) (key : κ) (v : ν) : κ → Option ν :=
  fun k => if k = key then some v else m k

/-- Model of reading `m[key]` on a `std::map`: the stored value, or a
value-initialised one when the key is missing. -/
def mapGet {κ ν : Type} [Inhabited ν] (m : κ → Option ν) (key : κ) : ν :=
  match m key with
  | some v => v
  | none => default

/-- Model of `++m[key]` on a `std::map<std::string, int>`. -/
def countIncr (c : String → Int) (key : String) : String → Int :=
  fun k => if k = key then c k + 1 else c k

/-- The arguments of `Select`: the arrays with their lengths. -/
structure SelectArgs where
  selAttrs : List RelAttr
  relations : List String
  conditions : List Condition
  deriving DecidableEq, Repr, Inhabited

/-- Source: lines 43-44, `for (i) TRY(pRmm->OpenFile(relations[i], fileHandles[i]))`. -/
def openFiles : List String → World → RC × World
  | [], w => (RC.OK, w)
  | r :: rest, w =>
    match OpenFile r w with
    | (rc, w1) => if rc ≠ RC.OK then (rc, w1) else openFiles rest w1

/-- Source: lines 46-47, `for (i) TRY(pSmm->GetRelEntry(relations[i], relEntries[i]))`. -/
def getRelEntries (w : World) : List String → Except RC (List RelCatEntry)
  | [] => Except.ok []
  | r :: rest =>
    match GetRelEntry r w with
    | Except.error rc => Except.error rc
    | Except.ok e =>
      match getRelEntries w rest with
      | Except.error rc => Except.error rc
      | Except.ok es => Except.ok (e :: es)

/-- Source: the calls `TRY(pSmm->GetDataAttrInfo(relations[i], attrCount[i],
attrInfo[i], true))` of line 59, for all `i`.  The call reads the catalog only, so
the calls are gathered ahead of the loop bodies of lines 60-65. -/
def getAttrInfos (w : World) : List String → Except RC (List (List DataAttrInfo))
  | [] => Except.ok []
  | r :: rest =>
    match GetDataAttrInfo r w with
    | Except.error rc => Except.error rc
    | Except.ok a =>
      match getAttrInfos w rest with
      | Except.error rc => Except.error rc
      | Except.ok as => Except.ok (a :: as)

/-- Source: lines 61-65, the inner loop for one relation: enter every attribute
under its qualified key and count its name. -/
def addQualified (relName : String) (attrs : List DataAttrInfo)
    (st : AttrMap × (String → Int)) : AttrMap × (String → Int) :=
  attrs.foldl
    (fun acc a => (mapInsert acc.1 (relName, a.attrName) a, countIncr acc.2 a.attrName)) st

/-- Source: lines 58-66, the outer loop over the relations. -/
def buildQualified (rels : List (String × List DataAttrInfo)) :
    AttrMap × (String → Int) :=
  rels.foldl (fun acc ra => addQualified ra.1 ra.2 acc) (fun _ => none, fun _ => 0)

/-- Source: lines 68-72, the inner loop for one relation: enter under the
unqualified key every attribute whose name was counted once. -/
def addUnqualified (attrNameCount : String → Int) (attrs : List DataAttrInfo)
    (m : AttrMap) : AttrMap :=
  attrs.foldl
    (fun acc a => if attrNameCount a.attrName = 1 then mapInsert acc ("", a.attrName) a else acc)
    m

/-- Source: lines 56-72: the attribute map and the name counts `Select` builds
from the FROM list and the descriptors of each relation. -/
def buildAttrMap (relations : List String) (attrInfo : List (List DataAttrInfo)) :
    AttrMap × (String → Int) :=
  let q := buildQualified (relations.zip attrInfo)
  (attrInfo.foldl (fun acc attrs => addUnqualified q.2 attrs acc) q.1, q.2)

/-- Source: line 76, `nSelAttrs == 1 && !strcmp(selAttrs[0].attrName, "*")`. -/
def isSelectStar (selAttrs : List RelAttr) : Bool :=
  match selAttrs with
  | [a] => a.attrName == "*"
  | _ => false

/-- Source: lines 76-77: the select list after `nSelAttrs = 0` for `"*"`. -/
def effectiveSelAttrs (selAttrs : List RelAttr) : List RelAttr :=
  if isSelectStar selAttrs then [] else selAttrs

/-- Source: lines 78-82, the check of the selected attributes (`DEFINE_ATTRINFO`
is the lookup that returns `QL_ATTR_NOTEXIST`, lines 33-36). -/
def checkSelAttrs (attrMap : AttrMap) (attrNameCount : String → Int) : List RelAttr → RC
  | [] => RC.OK
  | a :: rest =>
    match attrMap (make_tag a) with
    | none => RC.QL_ATTR_NOTEXIST
    | some _ =>
      if a.relName = none ∧ attrNameCount a.attrName > 1 then RC.QL_AMBIGUOUS_ATTR_NAME
      else checkSelAttrs attrMap attrNameCount rest

/-- Source: lines 86-99, the check of the conditions. -/
def checkConditions (attrMap : AttrMap) : List Condition → RC
  | [] => RC.OK
  | c :: rest =>
    match attrMap (make_tag c.lhsAttr) with
    | none => RC.QL_ATTR_NOTEXIST
    | some lhsAttr =>
      let nullable := isNullable lhsAttr
      if c.bRhsIsAttr then
        match attrMap (make_tag c.rhsAttr) with
        | none => RC.QL_ATTR_NOTEXIST
        | some rhsAttr =>
          if lhsAttr.attrType ≠ rhsAttr.attrType then RC.QL_ATTR_TYPES_MISMATCH
          else checkConditions attrMap rest
      else
        if !can_assign_to lhsAttr.attrType c.rhsValue.type nullable then
          RC.QL_VALUE_TYPES_MISMATCH
        else checkConditions attrMap rest

/-- Source: lines 105-107, `relNumMap[relations[i]] = i`; a name that is not a key
reads as 0, as `operator[]` of `std::map<std::string, int>` yields. -/
def buildRelNumMap (relations : List String) : String → Nat :=
  (List.range relations.length).foldl
    (fun m i => fun k => if k = relations.getD i "" then i else m k) (fun _ => 0)

/-- Source: the entries `conds[i]`, `lhsAttrRelIndex[i]`, `rhsAttrRelIndex[i]` of
the three parallel arrays of lines 108-110, as one record. -/
structure CompiledCond where
  cond : QL_Condition
  lhsAttrRelIndex : Nat
  rhsAttrRelIndex : Nat
  deriving DecidableEq, Repr, Inhabited

/-- Source: lines 112-125, the body of the loop that compiles one condition. -/
def compileCondition (attrMap : AttrMap) (relNumMap : String → Nat) (c : Condition) :
    CompiledCond :=
  let lhsAttr := mapGet attrMap (make_tag c.lhsAttr)
  if c.bRhsIsAttr then
    let rhsAttr := mapGet attrMap (make_tag c.rhsAttr)
    { cond := { lhsAttr := lhsAttr, op := c.op, bRhsIsAttr := true, rhsAttr := rhsAttr,
                rhsValue := default },
      lhsAttrRelIndex := relNumMap lhsAttr.relName,
      rhsAttrRelIndex := relNumMap rhsAttr.relName }
  else
    { cond := { lhsAttr := lhsAttr, op := c.op, bRhsIsAttr := false, rhsAttr := default,
                rhsValue := c.rhsValue },
      lhsAttrRelIndex := relNumMap lhsAttr.relName,
      rhsAttrRelIndex := 0 }

/-- Source: the entries `projections[i]`, `finalHeaders[i]`, `selAttrRelIndex[i]`
of the three parallel arrays of lines 133-135, as one record. -/
structure Projection where
  projection : DataAttrInfo
  finalHeader : DataAttrInfo
  selAttrRelIndex : Nat
  deriving DecidableEq, Repr, Inhabited

/-- Source: lines 141-144: the double loop `projections[attrCnt++] = attrInfo[i][j]`
over the relations and their attributes; the result pairs the vector with
`attrCnt` as the loop leaves them. -/
def fillProjections (attrInfo : List (List DataAttrInfo)) (projections : List DataAttrInfo)
    (attrCnt : Nat) : List DataAttrInfo × Nat :=
  attrInfo.foldl
    (fun acc attrs => attrs.foldl (fun st a => (st.1.set st.2 a, st.2 + 1)) acc)
    (projections, attrCnt)

/-- Source: lines 137-148: the projection list.  When the select list is empty the
vector is resized to the sum of the attribute counts and filled by the double
loop, else it holds the descriptor of every selected attribute. -/
def buildProjections (attrMap : AttrMap) (attrInfo : List (List DataAttrInfo))
    (selAttrs : List RelAttr) : List DataAttrInfo :=
  if selAttrs.length = 0 then
    (fillProjections attrInfo
      (List.replicate (attrInfo.map List.length).sum default) 0).1
  else selAttrs.map (fun a => mapGet attrMap (make_tag a))

/-- Source: lines 149-159: the layout loop.  The arguments after the list are the
running `finalRecordSize` and `nullableIndex`; the result carries their final
values. -/
def layoutProjections (relNumMap : String → Nat) :
    List DataAttrInfo → Nat → Int → List Projection × Nat × Int
  | [], finalRecordSize, nullableIndex => ([], finalRecordSize, nullableIndex)
  | p :: rest, finalRecordSize, nullableIndex =>
    let header : DataAttrInfo :=
      { p with offset := finalRecordSize,
               nullableIndex := if isNullable p then nullableIndex else -1 }
    let r := layoutProjections relNumMap rest (finalRecordSize + upper_align 4 p.attrSize)
      (if isNullable p then nullableIndex + 1 else nullableIndex)
    ({ projection := p, finalHeader := header, selAttrRelIndex := relNumMap p.relName } :: r.1,
      r.2.1, r.2.2)

/-- Source: lines 164-166, `sumRecords *= relEntries[i].recordCount` in 32 bits. -/
def computeSumRecords (relEntries : List RelCatEntry) : Int :=
  relEntries.foldl (fun s e => wrapInt32 (s * e.recordCount)) 1

/-- What `Select` has computed when the nested loop starts (lines 105-166) and
does not change afterwards. -/
structure SelectPlan where
  nRelations : Nat
  fileHandles : Nat → Option String
  conds : List CompiledCond
  projs : List Projection
  finalRecordSize : Nat
  nullableCount : Int
  sumRecords : Int

/-- Source: lines 105-166 as one function of the validated statement. -/
def makePlan (args : SelectArgs) (relEntries : List RelCatEntry)
    (attrInfo : List (List DataAttrInfo)) (attrMap : AttrMap) : SelectPlan :=
  let relNumMap := buildRelNumMap args.relations
  let layout := layoutProjections relNumMap
    (buildProjections attrMap attrInfo (effectiveSelAttrs args.selAttrs)) 0 0
  { nRelations := args.relations.length,
    fileHandles := fun i => args.relations.get? i,
    conds := args.conditions.map (compileCondition attrMap relNumMap),
    projs := layout.1,
    finalRecordSize := layout.2.1,
    nullableCount := layout.2.2,
    sumRecords := computeSumRecords relEntries }

/-- The variables of the nested loop (lines 127-130, 160-161, 175-178) together
with the state of the collaborators. -/
structure SelState where
  ptr : Int
  cnt : Int
  records : Nat → RM_Record
  data : Nat → List Nat
  isnull : Nat → List Bool
  finalRecordData : List Nat
  finalRecordIsnull : List Bool
  printer : Printer
  w : World

/-- How a piece of the loop ends: `next s` falls through to the code after it,
`ret rc s` is a `return rc` out of `Select` (or the stop of the process, for
`RC.ABORTED`), `outOfFuel` says the bound on the number of iterations was too
small. -/
inductive Ctl (σ : Type) where
  | next (s : σ)
  | ret (rc : RC) (s : σ)
  | outOfFuel

/-- Source: lines 182-188, `while (retcode == RM_EOF && ptr >= 0)`; each pass that
does not leave the loop has `retcode == RM_EOF`. -/
def advanceScan (fuel : Nat) (s : SelState) : Ctl SelState :=
  if 0 ≤ s.ptr then
    match fuel with
    | 0 => Ctl.outOfFuel
    | fuel + 1 =>
      match GetNextRec s.ptr.toNat s.w with
      | (retcode, r, w1) =>
        if retcode = RC.RM_EOF then
          match CloseScan s.ptr.toNat w1 with
          | (rc, w2) =>
            if rc ≠ RC.OK then Ctl.ret rc { s with w := w2 }
            else advanceScan fuel { s with ptr := s.ptr - 1, w := w2 }
        else if retcode ≠ RC.OK then Ctl.ret retcode { s with w := w1 }
        else Ctl.next { s with records := setAt s.records s.ptr.toNat r, w := w1 }
  else Ctl.next s

/-- Source: `TRY(records[ptr].GetData(data[ptr])); TRY(records[ptr].GetIsnull(isnull[ptr]))`,
lines 190-191 and 196-197. -/
def fetchData (s : SelState) : Ctl SelState :=
  match GetData (s.records s.ptr.toNat) s.w with
  | (rc, d, w1) =>
    if rc ≠ RC.OK then Ctl.ret rc { s with w := w1 }
    else
      match GetIsnull (s.records s.ptr.toNat) w1 with
      | (rc2, b, w2) =>
        if rc2 ≠ RC.OK then Ctl.ret rc2 { s with data := setAt s.data s.ptr.toNat d, w := w2 }
        else
          Ctl.next { s with data := setAt s.data s.ptr.toNat d,
                            isnull := setAt s.isnull s.ptr.toNat b, w := w2 }

/-- Source: lines 192-198, `while (ptr + 1 < nRelations)`: open the next scan and
take its first record; every result other than 0 is returned by `TRY`. -/
def descendScans (plan : SelectPlan) (fuel : Nat) (s : SelState) : Ctl SelState :=
  if s.ptr + 1 < plan.nRelations then
    match fuel with
    | 0 => Ctl.outOfFuel
    | fuel + 1 =>
      let p := s.ptr + 1
      match OpenScan p.toNat (plan.fileHandles p.toNat) s.w with
      | (rc, w1) =>
        if rc ≠ RC.OK then Ctl.ret rc { s with ptr := p, w := w1 }
        else
          match GetNextRec p.toNat w1 with
          | (rc2, r, w2) =>
            if rc2 ≠ RC.OK then Ctl.ret rc2 { s with ptr := p, w := w2 }
            else
              match fetchData { s with ptr := p, records := setAt s.records p.toNat r, w := w2 } with
              | Ctl.next s1 => descendScans plan fuel s1
              | other => other
  else Ctl.next s

/-- Source: the operands of lines 207-217: one condition evaluated on the current
records of the relations. -/
def evalCondition (data : Nat → List Nat) (isnull : Nat → List Bool) (c : CompiledCond) :
    Option Bool :=
  if c.cond.bRhsIsAttr then
    checkSatisfy ((data c.lhsAttrRelIndex).drop c.cond.lhsAttr.offset)
      (if isNullable c.cond.lhsAttr then
        boolAt (isnull c.lhsAttrRelIndex) c.cond.lhsAttr.nullableIndex else false)
      ((data c.rhsAttrRelIndex).drop c.cond.rhsAttr.offset)
      (if isNullable c.cond.rhsAttr then
        boolAt (isnull c.rhsAttrRelIndex) c.cond.rhsAttr.nullableIndex else false)
      c.cond
  else
    checkSatisfy ((data c.lhsAttrRelIndex).drop c.cond.lhsAttr.offset)
      (if isNullable c.cond.lhsAttr then
        boolAt (isnull c.lhsAttrRelIndex) c.cond.lhsAttr.nullableIndex else false)
      c.cond.rhsValue.data
      (c.cond.rhsValue.type == ValueType.VT_NULL)
      c.cond

/-- Source: lines 204-219, `for (i = 0; i < nConditions && satisfy; ++i)`; `none`
when a `checkSatisfy` stops at its `CHECK(false)`. -/
def evalConditions (data : Nat → List Nat) (isnull : Nat → List Bool) :
    List CompiledCond → Option Bool
  | [] => some true
  | c :: rest =>
    match evalCondition data isnull c with
    | none => none
    | some satisfy => if satisfy then evalConditions data isnull rest else some false

/-- Source: lines 223-227, the body of the projection loop for one attribute. -/
def materializeOne (data : Nat → List Nat) (isnull : Nat → List Bool)
    (acc : List Nat × List Bool) (p : Projection) : List Nat × List Bool :=
  (memcpy acc.1 p.finalHeader.offset
      ((data p.selAttrRelIndex).drop p.projection.offset) p.projection.attrSize,
   if isNullable p.projection then
     setBool acc.2 p.finalHeader.nullableIndex
       (boolAt (isnull p.selAttrRelIndex) p.projection.nullableIndex)
   else acc.2)

/-- Source: lines 222-228, the projection loop: the output buffer and the output
null-bit array after it. -/
def materializeRow (projs : List Projection) (data : Nat → List Nat)
    (isnull : Nat → List Bool) (buf : List Nat × List Bool) : List Nat × List Bool :=
  projs.foldl (materializeOne data isnull) buf

/-- Source: the test `cnt % ((sumRecords + 99) / 100) == 0` of line 200; `none`
when the divisor is 0. -/
def progressDue (cnt sumRecords : Int) : Option Bool :=
  if (wrapInt32 (sumRecords + 99)).tdiv 100 = 0 then none
  else some (cnt.tmod ((wrapInt32 (sumRecords + 99)).tdiv 100) == 0)

/-- Source: the output of lines 201 and 230, `"[" << 100 * cnt / sumRecords << "%] "
<< cnt << "/" << sumRecords << "\r"`; `none` when `sumRecords` is 0. -/
def printProgress (cnt sumRecords : Int) (w : World) : Option World :=
  if sumRecords = 0 then none
  else some { w with out := w.out ++
    [Output.progress (wrapInt32 ((wrapInt32 (100 * cnt)).tdiv sumRecords)) cnt sumRecords] }

/-- Source: lines 199-232, the part of the loop body after the scans stand on a
candidate tuple: count it, report progress, evaluate the conditions, and print
the projection when they hold. -/
def visitTuple (plan : SelectPlan) (s : SelState) : Ctl SelState :=
  let cnt := wrapInt32 (s.cnt + 1)
  match progressDue cnt plan.sumRecords with
  | none => Ctl.ret RC.ABORTED { s with cnt := cnt }
  | some due =>
    match (if due then printProgress cnt plan.sumRecords s.w else some s.w) with
    | none => Ctl.ret RC.ABORTED { s with cnt := cnt }
    | some w1 =>
      match evalConditions s.data s.isnull plan.conds with
      | none => Ctl.ret RC.ABORTED { s with cnt := cnt, w := w1 }
      | some satisfy =>
        if satisfy then
          let final := materializeRow plan.projs s.data s.isnull
            (s.finalRecordData, s.finalRecordIsnull)
          let pw := s.printer.Print final.1 final.2 w1
          match printProgress cnt plan.sumRecords pw.2 with
          | none =>
            Ctl.ret RC.ABORTED
              { s with cnt := cnt, finalRecordData := final.1, finalRecordIsnull := final.2,
                       printer := pw.1, w := pw.2 }
          | some w2 =>
            Ctl.next
              { s with cnt := cnt, finalRecordData := final.1, finalRecordIsnull := final.2,
                       printer := pw.1, w := w2 }
        else Ctl.next { s with cnt := cnt, w := w1 }

/-- Source: lines 180-233, `while (true)`: `next s` is the state at the `break` of
line 189. -/
def selectLoop (plan : SelectPlan) (fuel : Nat) (s : SelState) : Ctl SelState :=
  match fuel with
  | 0 => Ctl.outOfFuel
  | fuel + 1 =>
    match advanceScan (s.ptr + 1).toNat s with
    | Ctl.next s1 =>
      if s1.ptr < 0 then Ctl.next s1
      else
        match fetchData s1 with
        | Ctl.next s2 =>
          match descendScans plan plan.nRelations s2 with
          | Ctl.next s3 =>
            match visitTuple plan s3 with
            | Ctl.next s4 => selectLoop plan fuel s4
            | other => other
          | other => other
        | other => other
    | other => other

/-- The outcome of a statement: the code returned (`RC.ABORTED` when the process
stopped), the state of the collaborators, and, when the final assertion of
`Select` (line 239) was reached, the two numbers it compares, `cnt` and
`sumRecords`. -/
structure SelectResult where
  rc : RC
  w : World
  final : Option (Int × Int)

/-- Source: the variables of the nested loop as lines 127-130, 160-161, 175 and
177-178 leave them: `ptr = 0`, `cnt = 0`, no record fetched, the output buffer and
the output null-bit array as allocated (their content, indeterminate in C, is
taken to be zero). -/
def initialState (plan : SelectPlan) (printer : Printer) (w : World) : SelState :=
  { ptr := 0, cnt := 0, records := fun _ => default, data := fun _ => [],
    isnull := fun _ => [],
    finalRecordData := List.replicate plan.finalRecordSize 0,
    finalRecordIsnull := List.replicate plan.nullableCount.toNat false,
    printer := printer, w := w }

/-- Source: lines 127 and 175-241: the scan objects `fileScans`, which start
closed, the printer, the nested loop, the footer, the final assertion.  `none`
when `fuel` passes of the outer loop did not finish it. -/
def runSelect (plan : SelectPlan) (fuel : Nat) (w : World) : Option SelectResult :=
  let printer := Printer.new (plan.projs.map (fun p => p.finalHeader))
  let w0 := printer.PrintHeader { w with scans := fun _ => none }
  match OpenScan 0 (plan.fileHandles 0) w0 with
  | (rc, w1) =>
    if rc ≠ RC.OK then some { rc := rc, w := w1, final := none }
    else
      match selectLoop plan fuel (initialState plan printer w1) with
      | Ctl.outOfFuel => none
      | Ctl.ret rc s => some { rc := rc, w := s.w, final := none }
      | Ctl.next s =>
        let w2 := s.printer.PrintFooter
          { s.w with out := s.w.out ++
            [Output.progress 100 plan.sumRecords plan.sumRecords] }
        some { rc := if s.cnt = plan.sumRecords then RC.OK else RC.ABORTED,
               w := w2, final := some (s.cnt, plan.sumRecords) }

/-- Source: `QL_Manager::Select`, lines 38-241.  `fuel` bounds the number of passes
of the outer loop of the join. -/
def Select (fuel : Nat) (args : SelectArgs) (w : World) : Option SelectResult :=
  match openFiles args.relations w with
  | (rc, w1) =>
    if rc ≠ RC.OK then some { rc := rc, w := w1, final := none }
    else
      match getRelEntries w1 args.relations with
      | Except.error rc => some { rc := rc, w := w1, final := none }
      | Except.ok relEntries =>
        match getAttrInfos w1 args.relations with
        | Except.error rc => some { rc := rc, w := w1, final := none }
        | Except.ok attrInfo =>
          let m := buildAttrMap args.relations attrInfo
          if checkSelAttrs m.1 m.2 (effectiveSelAttrs args.selAttrs) ≠ RC.OK then
            some { rc := checkSelAttrs m.1 m.2 (effectiveSelAttrs args.selAttrs), w := w1,
                   final := none }
          else if checkConditions m.1 args.conditions ≠ RC.OK then
            some { rc := checkConditions m.1 args.conditions, w := w1, final := none }
          else runSelect (makePlan args relEntries attrInfo m.1) fuel w1

/-- The tuples handed to `Printer::Print`, in order, as standard output shows
them. -/
def printedRows : List Output → List (List Nat × List Bool)
  | [] => []
  | Output.row d b :: rest => (d, b) :: printedRows rest
  | _ :: rest => printedRows rest

/-! ## `ql_manager.cc`: condition validation for `Delete` and `Update` -/

/-- Source: `checkAttrBelongsToRel`, lines 697-700. -/
def checkAttrBelongsToRel (relAttr : RelAttr) (relName : String) : RC :=
  if relAttr.relName = none ∨ relAttr.relName = some relName then RC.OK
  else RC.QL_ATTR_NOTEXIST

/-- Source: `QL_Manager::CheckConditionsValid`, lines 702-738.  The map is the
`std::map<std::string, DataAttrInfo>` of the caller; the result pairs the return
code with `retConditions` as the call leaves it. -/
def CheckConditionsValid (relName : String) (conditions : List Condition)
    (attrMap : String → Option DataAttrInfo) (retConditions : List QL_Condition) :
    RC × List QL_Condition :=
  match conditions with
  | [] => (RC.OK, retConditions)
  | c :: rest =>
    if checkAttrBelongsToRel c.lhsAttr relName ≠ RC.OK then
      (checkAttrBelongsToRel c.lhsAttr relName, retConditions)
    else if c.bRhsIsAttr = true ∧ checkAttrBelongsToRel c.rhsAttr relName ≠ RC.OK then
      (checkAttrBelongsToRel c.rhsAttr relName, retConditions)
    else
      match attrMap c.lhsAttr.attrName with
      | none => (RC.QL_ATTR_NOTEXIST, retConditions)
      | some lhsAttr =>
        let nullable := isNullable lhsAttr
        if c.bRhsIsAttr then
          match attrMap c.rhsAttr.attrName with
          | none => (RC.QL_ATTR_NOTEXIST, retConditions)
          | some rhsAttr =>
            if lhsAttr.attrType ≠ rhsAttr.attrType then (RC.QL_ATTR_TYPES_MISMATCH, retConditions)
            else
              CheckConditionsValid relName rest attrMap
                (retConditions ++
                  [{ lhsAttr := lhsAttr, op := c.op, bRhsIsAttr := true, rhsAttr := rhsAttr,
                     rhsValue := default }])
        else
          if !can_assign_to lhsAttr.attrType c.rhsValue.type nullable then
            (RC.QL_VALUE_TYPES_MISMATCH, retConditions)
          else
            CheckConditionsValid relName rest attrMap
              (retConditions ++
                [{ lhsAttr := lhsAttr, op := c.op, bRhsIsAttr := false, rhsAttr := default,
                   rhsValue := c.rhsValue }])

/-! ## The specification's reading of the attribute map and of the join -/

/-- The number of FROM relations in which the attribute name `a` occurs. -/
def relationsWith (a : String) (attrInfo : List (List DataAttrInfo)) : Nat :=
  (attrInfo.filter (fun attrs => decide (a ∈ attrs.map (fun d => d.attrName)))).length

/-- What the specification asks of a condition for it to be valid under an
attribute map (section 4.5, SELECT step 2): both operands resolve, and the types
agree (attribute against attribute) or the value is assignable (attribute against
value). -/
def conditionValid (attrMap : AttrMap) (c : Condition) : Prop :=
  ∃ lhsAttr, attrMap (make_tag c.lhsAttr) = some lhsAttr ∧
    (if c.bRhsIsAttr then
      ∃ rhsAttr, attrMap (make_tag c.rhsAttr) = some rhsAttr ∧
        lhsAttr.attrType = rhsAttr.attrType
     else can_assign_to lhsAttr.attrType c.rhsValue.type (isNullable lhsAttr) = true)

/-- The same for the single-relation statements (section 4.5, DELETE): the
operands also have to belong to the relation. -/
def conditionValidIn (relName : String) (attrMap : String → Option DataAttrInfo)
    (c : Condition) : Prop :=
  checkAttrBelongsToRel c.lhsAttr relName = RC.OK ∧
  (c.bRhsIsAttr = true → checkAttrBelongsToRel c.rhsAttr relName = RC.OK) ∧
  ∃ lhsAttr, attrMap c.lhsAttr.attrName = some lhsAttr ∧
    (if c.bRhsIsAttr then
      ∃ rhsAttr, attrMap c.rhsAttr.attrName = some rhsAttr ∧
        lhsAttr.attrType = rhsAttr.attrType
     else can_assign_to lhsAttr.attrType c.rhsValue.type (isNullable lhsAttr) = true)

/-- The Cartesian product of the record lists in lexicographic order of the scan
positions, the first relation outermost: each element holds one record per
relation. -/
def cartesian : List (List RM_Record) → List (List RM_Record)
  | [] => [[]]
  | l :: ls => l.flatMap (fun r => (cartesian ls).map (fun t => r :: t))

/-- The `data` pointers of a combination, by relation index. -/
def tupleData (t : List RM_Record) : Nat → List Nat :=
  fun i => (t.getD i default).data

/-- The `isnull` pointers of a combination, by relation index. -/
def tupleIsnull (t : List RM_Record) : Nat → List Bool :=
  fun i => (t.getD i default).isnull

/-- Every condition's `checkSatisfy` is true on the combination. -/
def satisfiesAll (conds : List CompiledCond) (t : List RM_Record) : Bool :=
  conds.all (fun c => evalCondition (tupleData t) (tupleIsnull t) c == some true)

/-- The projection of a combination onto the selected attributes in select order,
laid out in a fresh output buffer and a fresh null-bit array. -/
def projectTuple (plan : SelectPlan) (t : List RM_Record) : List Nat × List Bool :=
  materializeRow plan.projs (tupleData t) (tupleIsnull t)
    (List.replicate plan.finalRecordSize 0, List.replicate plan.nullableCount.toNat false)

/-- The record lists of the FROM relations, in FROM order (empty for a relation
the catalog does not hold). -/
def fromRecords (w : World) (relations : List String) : List (List RM_Record) :=
  relations.map (fun r => match w.catalog r with
    | some rel => rel.records
    | none => [])

/-- A selected attribute resolves: its key is in the attribute map and it is not
an unqualified name counted more than once. -/
def selAttrResolves (attrMap : AttrMap) (attrNameCount : String → Int) (a : RelAttr) : Prop :=
  (attrMap (make_tag a)).isSome = true ∧ ¬ (a.relName = none ∧ attrNameCount a.attrName > 1)

/-- The catalog holds every relation of the list. -/
def catalogHolds (w : World) (relations : List String) : Prop :=
  ∀ r ∈ relations, ∃ rel, w.catalog r = some rel

/-- The descriptor lists of the FROM relations, in FROM order. -/
def fromAttrs (w : World) (relations : List String) : List (List DataAttrInfo) :=
  relations.map (fun r => match w.catalog r with
    | some rel => rel.attrs
    | none => [])

/-- The catalog entries of the FROM relations, in FROM order. -/
def fromEntries (w : World) (relations : List String) : List RelCatEntry :=
  relations.map (fun r => match w.catalog r with
    | some rel => rel.relEntry
    | none => default)

/-- The plan `Select` computes for a statement on a database: the compiled
conditions and the projection layout of lines 105-166. -/
def planOf (w : World) (args : SelectArgs) : SelectPlan :=
  makePlan args (fromEntries w args.relations) (fromAttrs w args.relations)
    (buildAttrMap args.relations (fromAttrs w args.relations)).1

/-- A valid `Select` (section 4.5, SELECT steps 1 and 2): the catalog holds every
FROM relation, every selected attribute resolves and every condition is valid. -/
def validSelect (w : World) (args : SelectArgs) : Prop :=
  catalogHolds w args.relations ∧
  (∀ a ∈ effectiveSelAttrs args.selAttrs,
    selAttrResolves (buildAttrMap args.relations (fromAttrs w args.relations)).1
      (buildAttrMap args.relations (fromAttrs w args.relations)).2 a) ∧
  (∀ c ∈ args.conditions,
    conditionValid (buildAttrMap args.relations (fromAttrs w args.relations)).1 c)

/-- The catalog's `recordCount` of every relation of the list is the number of
records its scan yields. -/
def countsAgree (w : World) (relations : List String) : Prop :=
  ∀ r ∈ relations, ∀ rel, w.catalog r = some rel →
    rel.relEntry.recordCount = (rel.records.length : Int)

/-! ## A small database for concrete runs

The schema of the specification's end-to-end scenarios, `S(id INT NOT NULL,
name STRING(8))` with the rows `(1, "al")` and `(2, NULL)`, and `T(sid INT NOT NULL,
score FLOAT)` with the rows `(1, 90.5)` and `(2, 75.0)`, together with an empty
relation `U(id INT NOT NULL, score FLOAT)`. -/

/-- Descriptor of `S.id`. -/
def demoSId : DataAttrInfo :=
  { relName := "S", attrName := "id", offset := 0, attrType := AttrType.INT, attrSize := 4,
    attrDisplayLength := 4, attrSpecs := 1, nullableIndex := -1 }

/-- Descriptor of `S.name`. -/
def demoSName : DataAttrInfo :=
  { relName := "S", attrName := "name", offset := 4, attrType := AttrType.STRING,
    attrSize := 9, attrDisplayLength := 8, attrSpecs := 0, nullableIndex := 0 }

/-- Descriptor of `T.sid`. -/
def demoTSid : DataAttrInfo :=
  { relName := "T", attrName := "sid", offset := 0, attrType := AttrType.INT, attrSize := 4,
    attrDisplayLength := 4, attrSpecs := 1, nullableIndex := -1 }

/-- Descriptor of `T.score`. -/
def demoTScore : DataAttrInfo :=
  { relName := "T", attrName := "score", offset := 4, attrType := AttrType.FLOAT,
    attrSize := 4, attrDisplayLength := 4, attrSpecs := 0, nullableIndex := 0 }

/-- Descriptor of `U.id`. -/
def demoUId : DataAttrInfo :=
  { relName := "U", attrName := "id", offset := 0, attrType := AttrType.INT, attrSize := 4,
    attrDisplayLength := 4, attrSpecs := 1, nullableIndex := -1 }

/-- Descriptor of `U.score`. -/
def demoUScore : DataAttrInfo :=
  { relName := "U", attrName := "score", offset := 4, attrType := AttrType.FLOAT,
    attrSize := 4, attrDisplayLength := 4, attrSpecs := 0, nullableIndex := 0 }

/-- Relation `S` with two records. -/
def demoS : Relation :=
  { relEntry := { tupleLength := 13, recordCount := 2 },
    attrs := [demoSId, demoSName],
    records :=
      [{ data := [1, 0, 0, 0, 97, 108, 0, 0, 0, 0, 0, 0, 0], isnull := [false], rid := 1 },
       { data := [2, 0, 0, 0, 0, 0, 0, 0, 0, 0, 0, 0, 0], isnull := [true], rid := 2 }] }

/-- Relation `T` with two records. -/
def demoT : Relation :=
  { relEntry := { tupleLength := 8, recordCount := 2 },
    attrs := [demoTSid, demoTScore],
    records :=
      [{ data := [1, 0, 0, 0, 0, 0, 181, 66], isnull := [false], rid := 1 },
       { data := [2, 0, 0, 0, 0, 0, 150, 66], isnull := [false], rid := 2 }] }

/-- Relation `U` without records. -/
def demoU : Relation :=
  { relEntry := { tupleLength := 8, recordCount := 0 },
    attrs := [demoUId, demoUScore],
    records := [] }

/-- The database: `S`, `T` and `U`, no forced failure, nothing open, nothing
printed. -/
def demoWorld : World :=
  { catalog := fun n =>
      if n = "S" then some demoS else if n = "T" then some demoT
      else if n = "U" then some demoU else none,
    faults := [], files := [], scans := fun _ => none, out := [] }

/-- Statement `SELECT id FROM S, U`: the unqualified `id` occurs in both relations. -/
def demoAmbiguous : SelectArgs :=
  { selAttrs := [{ relName := none, attrName := "id" }],
    relations := ["S", "U"],
    conditions := [] }

/-- Statement `SELECT * FROM S, T WHERE S.id = T.score`: INT against FLOAT. -/
def demoMismatch : SelectArgs :=
  { selAttrs := [{ relName := none, attrName := "*" }],
    relations := ["S", "T"],
    conditions :=
      [{ lhsAttr := { relName := some "S", attrName := "id" }, op := CompOp.EQ_OP,
         bRhsIsAttr := true, rhsAttr := { relName := some "T", attrName := "score" },
         rhsValue := default }] }

/-- Statement `SELECT * FROM S, U`: the outer relation has records, the inner one is empty. -/
def demoEmptyInner : SelectArgs :=
  { selAttrs := [{ relName := none, attrName := "*" }],
    relations := ["S", "U"],
    conditions := [] }

/-- Statement `SELECT * FROM U`: a scan of the empty relation. -/
def demoEmptyScan : SelectArgs :=
  { selAttrs := [{ relName := none, attrName := "*" }],
    relations := ["U"],
    conditions := [] }

/-- Statement `SELECT S.name, T.score FROM S, T WHERE S.id = T.sid`. -/
def demoJoin : SelectArgs :=
  { selAttrs := [{ relName := some "S", attrName := "name" },
                 { relName := some "T", attrName := "score" }],
    relations := ["S", "T"],
    conditions :=
      [{ lhsAttr := { relName := some "S", attrName := "id" }, op := CompOp.EQ_OP,
         bRhsIsAttr := true, rhsAttr := { relName := some "T", attrName := "sid" },
         rhsValue := default }] }

/-- The attribute map of `Delete` and `Update` on relation `T` (lines 748-750). -/
def demoTMap : String → Option DataAttrInfo :=
  fun n => if n = "sid" then some demoTSid else if n = "score" then some demoTScore else none

/-! ## A large database

Two relations `A(x INT NOT NULL)` and `B(y INT NOT NULL)` with 65536 records each:
the number of combinations of a join of the two is 2 ^ 32. -/

/-- The records numbered `n - 1` down to `0`: four data bytes that hold the number,
no null bit. -/
def manyRecords : Nat → List RM_Record
  | 0 => []
  | n + 1 => { data := [n % 256, n / 256 % 256, 0, 0], isnull := [], rid := n } :: manyRecords n

/-- Descriptor of `A.x`. -/
def bigAX : DataAttrInfo :=
  { relName := "A", attrName := "x", offset := 0, attrType := AttrType.INT, attrSize := 4,
    attrDisplayLength := 4, attrSpecs := 1, nullableIndex := -1 }

/-- Descriptor of `B.y`. -/
def bigBY : DataAttrInfo :=
  { relName := "B", attrName := "y", offset := 0, attrType := AttrType.INT, attrSize := 4,
    attrDisplayLength := 4, attrSpecs := 1, nullableIndex := -1 }

/-- Relation `A` with 65536 records. -/
def bigA : Relation :=
  { relEntry := { tupleLength := 4, recordCount := 65536 },
    attrs := [bigAX],
    records := manyRecords 65536 }

/-- Relation `B` with 65536 records. -/
def bigB : Relation :=
  { relEntry := { tupleLength := 4, recordCount := 65536 },
    attrs := [bigBY],
    records := manyRecords 65536 }

/-- The database: `A` and `B`, no forced failure, nothing open, nothing printed. -/
def bigWorld : World :=
  { catalog := fun n => if n = "A" then some bigA else if n = "B" then some bigB else none,
    faults := [], files := [], scans := fun _ => none, out := [] }

/-- Statement `SELECT * FROM A, B`. -/
def bigJoin : SelectArgs :=
  { selAttrs := [{ relName := none, attrName := "*" }],
    relations := ["A", "B"],
    conditions := [] }

/-! ## Definitions that support the proofs about the nested loop -/

/-- The byte at position `j` of the output buffer after the projection loop, as a
function of the byte `x` that was there before. -/
def projByte (data : Nat → List Nat) (j : Nat) : List Projection → Nat → Nat
  | [], x => x
  | p :: ps, x =>
    projByte data j ps
      (if p.finalHeader.offset ≤ j ∧ j < p.finalHeader.offset + p.projection.attrSize then
        ((data p.selAttrRelIndex).drop p.projection.offset).getD (j - p.finalHeader.offset) 0
       else x)

/-- The null bit at position `j` of the output array after the projection loop. -/
def projBit (isnull : Nat → List Bool) (j : Nat) : List Projection → Bool → Bool
  | [], x => x
  | p :: ps, x =>
    projBit isnull j ps
      (if isNullable p.projection = true ∧ j = p.finalHeader.nullableIndex.toNat then
        boolAt (isnull p.selAttrRelIndex) p.projection.nullableIndex
       else x)

/-- The combinations that start with the records `pre`, go on with a record of
`rem` and end with a combination of the relations `inner`, in lexicographic
order. -/
def expandLevel (pre rem : List RM_Record) (inner : List (List RM_Record)) :
    List (List RM_Record) :=
  rem.flatMap (fun r => (cartesian inner).map (fun t => pre ++ r :: t))

/-- The combinations the nested loop has still to visit when the scans of the
levels below `k` are open: `curs i` is the current record of level `i`, `rems i`
the records scan `i` has still to yield, `Ls` the record lists of all relations. -/
def futureFrom (Ls : List (List RM_Record)) (curs : Nat → RM_Record)
    (rems : Nat → List RM_Record) : Nat → List (List RM_Record)
  | 0 => []
  | q + 1 =>
    expandLevel ((List.range q).map curs) (rems q) (Ls.drop (q + 1)) ++
      futureFrom Ls curs rems q

/-- The records scan `i` has still to yield (none when it is not open). -/
def scanRem (w : World) (i : Nat) : List RM_Record :=
  match w.scans i with
  | some l => l
  | none => []

/-- The combinations still to visit in loop state `s` with `k` scans open. -/
def pending (Ls : List (List RM_Record)) (s : SelState) (k : Nat) : List (List RM_Record) :=
  futureFrom Ls s.records (scanRem s.w) k

/-- The invariant of the nested loop with `k` scans open (`ptr = k - 1`): no
forced failure is left, the scans below `k` are open and the others are not, and
the `data` and `isnull` pointers are those of the current records. -/
structure LoopInv (cat : String → Option Relation) (Ls : List (List RM_Record))
    (s : SelState) (k : Nat) : Prop where
  ptr_eq : s.ptr = (k : Int) - 1
  k_le : k ≤ Ls.length
  faults : s.w.faults = []
  catalog : s.w.catalog = cat
  closed : ∀ i, k ≤ i → s.w.scans i = none
  opened : ∀ i, i < k → ∃ rem, s.w.scans i = some rem
  data_eq : ∀ i, s.data i = (s.records i).data
  isnull_eq : ∀ i, s.isnull i = (s.records i).isnull
  rec_default : ∀ i, Ls.length ≤ i → s.records i = default

/-- What the scan steps of the loop leave alone: the counter, standard output, the
printer and the output buffers. -/
structure SameOutput (s s1 : SelState) : Prop where
  cnt : s1.cnt = s.cnt
  out : s1.w.out = s.w.out
  files : s1.w.files = s.w.files
  printer : s1.printer = s.printer
  buf : s1.finalRecordData = s.finalRecordData
  nulls : s1.finalRecordIsnull = s.finalRecordIsnull

/-- The plan opens, for level `i`, the file whose records are `Ls[i]`. -/
def PlanReads (plan : SelectPlan) (cat : String → Option Relation)
    (Ls : List (List RM_Record)) : Prop :=
  plan.nRelations = Ls.length ∧
  ∀ i, i < Ls.length → ∃ rel, (plan.fileHandles i).bind cat = some rel ∧
    rel.records = Ls.getD i []

/-- The output buffers behave like fresh ones under the projection loop: what the
loop leaves in them does not depend on what an earlier row left there. -/
def BufInv (plan : SelectPlan) (s : SelState) : Prop :=
  ∀ (d : Nat → List Nat) (i : Nat → List Bool),
    materializeRow plan.projs d i (s.finalRecordData, s.finalRecordIsnull) =
      materializeRow plan.projs d i
        (List.replicate plan.finalRecordSize 0, List.replicate plan.nullableCount.toNat false)

/-- What the nested loop has done when it leaves at the `break` in state `s1`,
started in state `s` with `k` scans open: the printed tuples, the printer's
count, the counter `cnt`, and every scan closed. -/
def LoopDone (plan : SelectPlan) (cat : String → Option Relation)
    (Ls : List (List RM_Record)) (s : SelState) (k : Nat) (s1 : SelState) : Prop :=
  printedRows s1.w.out = printedRows s.w.out ++
    ((pending Ls s k).filter (satisfiesAll plan.conds)).map (projectTuple plan) ∧
  s1.printer.iCount = s.printer.iCount +
    (((pending Ls s k).filter (satisfiesAll plan.conds)).length : Int) ∧
  s1.cnt = plan.sumRecords ∧ s1.w.files = s.w.files ∧ LoopInv cat Ls s1 0

/-! ## Reading standard output -/

/-- The counts of the footers `n tuple(s).` that standard output shows, in order. -/
def printedFooters : List Output → List Int
  | [] => []
  | Output.footer n :: rest => n :: printedFooters rest
  | _ :: rest => printedFooters rest


/-! ## The storing calls of the record manager and the catalog -/

/-- Code of the record manager for a record id that is not in the file. -/
def RM_NORECORD : RC := RC.OTHER 4

/-- Code of the record manager for a handle that is not open. -/
def RM_NOTOPEN : RC := RC.OTHER 5

/-- Modelled from the spec: `RM_Manager::CloseFile(handle)`. -/
def CloseFile (fileHandle : String) (w : World) : RC × World :=
  match rmCall w with
  | (rc, w1) =>
    if rc ≠ RC.OK then (rc, w1)
    else if fileHandle ∈ w1.files then
      (RC.OK, { w1 with files := w1.files.erase fileHandle })
    else (RM_NOTOPEN, w1)

/-- The state of the collaborators after relation `relName` is replaced by
`rel`. -/
def setRelation (w : World) (relName : String) (rel : Relation) : World :=
  { w with catalog := fun n => if n = relName then some rel else w.catalog n }

/-- A record id no record of the list has. -/
def freshRid (records : List RM_Record) : Nat :=
  (records.map (fun r => r.rid)).foldl max 0 + 1

/-- Modelled from the spec: `RM_FileHandle::InsertRec(data, rid, isnull)`: the
record is stored after the records of the file, under a record id not in use. -/
def InsertRec (fileHandle : String) (data : List Nat) (isnull : List Bool) (w : World) :
    RC × Nat × World :=
  match rmCall { w with calls := w.calls ++ [RMCall.insertRec fileHandle data isnull] } with
  | (rc, w1) =>
    if rc ≠ RC.OK then (rc, 0, w1)
    else
      match w1.catalog fileHandle with
      | none => (RM_NOFILE, 0, w1)
      | some rel =>
        (RC.OK, freshRid rel.records,
          setRelation w1 fileHandle
            { rel with records := rel.records ++
                [{ data := data, isnull := isnull, rid := freshRid rel.records }] })

/-- Modelled from the spec: `RM_FileHandle::DeleteRec(rid)`. -/
def DeleteRec (fileHandle : String) (rid : Nat) (w : World) : RC × World :=
  match rmCall { w with calls := w.calls ++ [RMCall.deleteRec fileHandle rid] } with
  | (rc, w1) =>
    if rc ≠ RC.OK then (rc, w1)
    else
      match w1.catalog fileHandle with
      | none => (RM_NOFILE, w1)
      | some rel =>
        if rel.records.any (fun r => r.rid == rid) then
          (RC.OK, setRelation w1 fileHandle
            { rel with records := rel.records.filter (fun r => r.rid != rid) })
        else (RM_NORECORD, w1)

/-- Modelled from the spec: `RM_FileHandle::UpdateRec(record)`: the stored record
with the record id of `record` takes the data bytes and null bits of `record`. -/
def UpdateRec (fileHandle : String) (record : RM_Record) (w : World) : RC × World :=
  match rmCall { w with calls := w.calls ++ [RMCall.updateRec fileHandle record] } with
  | (rc, w1) =>
    if rc ≠ RC.OK then (rc, w1)
    else
      match w1.catalog fileHandle with
      | none => (RM_NOFILE, w1)
      | some rel =>
        if rel.records.any (fun r => r.rid == record.rid) then
          (RC.OK, setRelation w1 fileHandle
            { rel with records :=
                rel.records.map (fun r => if r.rid = record.rid then record else r) })
        else (RM_NORECORD, w1)

/-- Modelled from the spec: `RM_Record::GetRid(rid)`. -/
def GetRid (r : RM_Record) (w : World) : RC × Nat × World :=
  match rmCall w with
  | (rc, w1) => if rc ≠ RC.OK then (rc, 0, w1) else (RC.OK, r.rid, w1)

/-- Modelled from the spec: `SM_Manager::UpdateRelEntry(relName, entry)`. -/
def UpdateRelEntry (relName : String) (entry : RelCatEntry) (w : World) : RC × World :=
  match w.catalog relName with
  | none =>
    (SM_NOTFOUND, { w with calls := w.calls ++ [RMCall.updateRelEntry relName entry] })
  | some rel =>
    (RC.OK, setRelation { w with calls := w.calls ++ [RMCall.updateRelEntry relName entry] }
      relName { rel with relEntry := entry })

/-- The number of records scan object `i` has still to yield. -/
def scanLength (w : World) (i : Nat) : Nat :=
  match w.scans i with
  | some l => l.length
  | none => 0

/-! ## `ql_manager.cc`: `Insert` (lines 535-601) -/

/-- Source: lines 548-557: the loop that counts the nullable attributes and tests
every value with `can_assign_to`; the result pairs the code (`OK` when the loop
runs to its end) with `nullableNum`. -/
def checkInsertValues : List DataAttrInfo → List Value → Int → RC × Int
  | a :: attributes, v :: values, nullableNum =>
    if !can_assign_to a.attrType v.type (isNullable a) then
      (RC.QL_VALUE_TYPES_MISMATCH, if isNullable a then nullableNum + 1 else nullableNum)
    else
      checkInsertValues attributes values (if isNullable a then nullableNum + 1 else nullableNum)
  | _, _, nullableNum => (RC.OK, nullableNum)

/-- Source: lines 562-587: the loop that fills the record buffer and the null-bit
array; the arguments after the lists are `data`, `isnull` and the running
`nullableIndex`. -/
def fillRecord : List DataAttrInfo → List Value → List Nat → List Bool → Int →
    RC × List Nat × List Bool
  | attr :: attributes, v :: values, data, isnull, nullableIndex =>
    let isnull1 :=
      if isNullable attr then setBool isnull nullableIndex (v.type == ValueType.VT_NULL)
      else isnull
    let nullableIndex1 := if isNullable attr then nullableIndex + 1 else nullableIndex
    if v.type = ValueType.VT_NULL then fillRecord attributes values data isnull1 nullableIndex1
    else
      match attr.attrType with
      | AttrType.INT =>
        fillRecord attributes values (memcpy data attr.offset v.data 4) isnull1 nullableIndex1
      | AttrType.FLOAT =>
        fillRecord attributes values (memcpy data attr.offset v.data 4) isnull1 nullableIndex1
      | AttrType.STRING =>
        if strlen v.data > attr.attrDisplayLength then
          (RC.QL_STRING_VAL_TOO_LONG, data, isnull1)
        else
          fillRecord attributes values (memcpy data attr.offset v.data (strlen v.data + 1))
            isnull1 nullableIndex1
  | _, _, data, isnull, _ => (RC.OK, data, isnull)

/-- Source: `QL_Manager::Insert`, lines 535-601; `nValues` is the length of
`values`.  The buffers of lines 559-560 start as zeros. -/
def Insert (relName : String) (values : List Value) (w : World) : RC × World :=
  if relName = "relcat" ∨ relName = "attrcat" then (RC.QL_FORBIDDEN, w)
  else
    match GetRelEntry relName w with
    | Except.error rc => (rc, w)
    | Except.ok relEntry =>
      match GetDataAttrInfo relName w with
      | Except.error rc => (rc, w)
      | Except.ok attributes =>
        if values.length ≠ attributes.length then (RC.QL_ATTR_COUNT_MISMATCH, w)
        else
          match checkInsertValues attributes values 0 with
          | (rc0, nullableNum) =>
            if rc0 ≠ RC.OK then (rc0, w)
            else
              match fillRecord attributes values (List.replicate relEntry.tupleLength 0)
                (List.replicate nullableNum.toNat false) 0 with
              | (rc1, data, isnull) =>
                if rc1 ≠ RC.OK then (rc1, w)
                else
                  match OpenFile relName w with
                  | (rc2, w1) =>
                    if rc2 ≠ RC.OK then (rc2, w1)
                    else
                      match InsertRec relName data isnull w1 with
                      | (rc3, _, w2) =>
                        if rc3 ≠ RC.OK then (rc3, w2)
                        else
                          match CloseFile relName w2 with
                          | (rc4, w3) =>
                            if rc4 ≠ RC.OK then (rc4, w3)
                            else
                              UpdateRelEntry relName
                                { relEntry with
                                  recordCount := wrapInt32 (relEntry.recordCount + 1) } w3

/-! ## `ql_manager.cc`: `Delete` (lines 740-787) and `Update` (lines 789-868) -/

/-- Source: lines 748-750 and 804-806, `for (auto info : attributes)
attrMap[info.attrName] = info`. -/
def buildNameMap (attributes : List DataAttrInfo) : String → Option DataAttrInfo :=
  attributes.foldl (fun m info => mapInsert m info.attrName info) (fun _ => none)

/-- Source: lines 769-771 and 834-836, `for (i = 0; i < nConditions && should; ++i)
should = checkSatisfy(data, isnull, conds[i])`; `none` when a `checkSatisfy` stops
at its `CHECK(false)`. -/
def checkAll (data : List Nat) (isnull : List Bool) : List QL_Condition → Option Bool
  | [] => some true
  | c :: rest =>
    match checkSatisfyRec data isnull c with
    | none => none
    | some should => if should then checkAll data isnull rest else some false

/-- Source: lines 765-777, the body of the scan loop of `Delete` for the record
`GetNextRec` has yielded; the state is `cnt` and the collaborators. -/
def deleteRecord (relName : String) (conds : List QL_Condition) (cnt : Int)
    (record : RM_Record) (w : World) : Ctl (Int × World) :=
  match GetData record w with
  | (rc1, data, w1) =>
    if rc1 ≠ RC.OK then Ctl.ret rc1 (cnt, w1)
    else
      match GetIsnull record w1 with
      | (rc2, isnull, w2) =>
        if rc2 ≠ RC.OK then Ctl.ret rc2 (cnt, w2)
        else
          match checkAll data isnull conds with
          | none => Ctl.ret RC.ABORTED (cnt, w2)
          | some shouldDelete =>
            if shouldDelete then
              match GetRid record w2 with
              | (rc3, rid, w3) =>
                if rc3 ≠ RC.OK then Ctl.ret rc3 (wrapInt32 (cnt + 1), w3)
                else
                  match DeleteRec relName rid w3 with
                  | (rc4, w4) =>
                    if rc4 ≠ RC.OK then Ctl.ret rc4 (wrapInt32 (cnt + 1), w4)
                    else Ctl.next (wrapInt32 (cnt + 1), w4)
            else Ctl.next (cnt, w2)

/-- Source: lines 762-778, `while ((retcode = scan.GetNextRec(record)) != RM_EOF)`
of `Delete`; `next` is the state when the scan has answered `RM_EOF`. -/
def deleteLoop (relName : String) (conds : List QL_Condition) :
    Nat → Int → World → Ctl (Int × World)
  | 0, _, _ => Ctl.outOfFuel
  | fuel + 1, cnt, w =>
    match GetNextRec 0 w with
    | (retcode, record, w1) =>
      if retcode = RC.RM_EOF then Ctl.next (cnt, w1)
      else if retcode ≠ RC.OK then Ctl.ret retcode (cnt, w1)
      else
        match deleteRecord relName conds cnt record w1 with
        | Ctl.next s => deleteLoop relName conds fuel s.1 s.2
        | other => other

/-- Source: `QL_Manager::Delete`, lines 740-787.  The scan object of line 757 is
scan 0, not open when declared; the loop is given one pass more than the scan has
records, and `none` would say that this bound was too small. -/
def Delete (relName : String) (conditions : List Condition) (w : World) :
    Option (RC × World) :=
  if relName = "relcat" ∨ relName = "attrcat" then some (RC.QL_FORBIDDEN, w)
  else
    match GetRelEntry relName w with
    | Except.error rc => some (rc, w)
    | Except.ok relEntry =>
      match GetDataAttrInfo relName w with
      | Except.error rc => some (rc, w)
      | Except.ok attributes =>
        match CheckConditionsValid relName conditions (buildNameMap attributes) [] with
        | (rc0, conds) =>
          if rc0 ≠ RC.OK then some (rc0, w)
          else
            match OpenFile relName w with
            | (rc1, w1) =>
              if rc1 ≠ RC.OK then some (rc1, w1)
              else
                match OpenScan 0 (some relName) { w1 with scans := fun _ => none } with
                | (rc2, w2) =>
                  if rc2 ≠ RC.OK then some (rc2, w2)
                  else
                    match deleteLoop relName conds (scanLength w2 0 + 1) 0 w2 with
                    | Ctl.outOfFuel => none
                    | Ctl.ret rc s => some (rc, s.2)
                    | Ctl.next s =>
                      match CloseScan 0 s.2 with
                      | (rc3, w3) =>
                        if rc3 ≠ RC.OK then some (rc3, w3)
                        else
                          match CloseFile relName w3 with
                          | (rc4, w4) =>
                            if rc4 ≠ RC.OK then some (rc4, w4)
                            else
                              match UpdateRelEntry relName
                                { relEntry with
                                  recordCount := wrapInt32 (relEntry.recordCount - s.1) }
                                w4 with
                              | (rc5, w5) =>
                                if rc5 ≠ RC.OK then some (rc5, w5)
                                else
                                  some (RC.OK,
                                    { w5 with out := w5.out ++ [Output.deleted s.1] })

/-- Source: lines 839-856: what the update writes into the record's data bytes and
null bits.  `value` of line 845 is the literal's bytes or the record's own bytes
from `valAttrOffset` on; `strcpy` copies the bytes up to and including the NUL. -/
def applyUpdate (updAttrInfo : DataAttrInfo) (valAttrOffset : Nat) (nullable : Bool)
    (bIsValue : Bool) (rhsValue : Value) (data : List Nat) (isnull : List Bool) :
    List Nat × List Bool :=
  if bIsValue && rhsValue.type == ValueType.VT_NULL then
    (data, setBool isnull updAttrInfo.nullableIndex true)
  else
    let isnull1 := if nullable then setBool isnull updAttrInfo.nullableIndex false else isnull
    let value := if bIsValue then rhsValue.data else data.drop valAttrOffset
    match updAttrInfo.attrType with
    | AttrType.INT => (memcpy data updAttrInfo.offset value 4, isnull1)
    | AttrType.FLOAT => (memcpy data updAttrInfo.offset value 4, isnull1)
    | AttrType.STRING => (memcpy data updAttrInfo.offset value (strlen value + 1), isnull1)

/-- Source: lines 830-859, the body of the scan loop of `Update` for the record
`GetNextRec` has yielded. -/
def updateRecord (relName : String) (conds : List QL_Condition) (updAttrInfo : DataAttrInfo)
    (valAttrOffset : Nat) (nullable : Bool) (bIsValue : Bool) (rhsValue : Value) (cnt : Int)
    (record : RM_Record) (w : World) : Ctl (Int × World) :=
  match GetData record w with
  | (rc1, data, w1) =>
    if rc1 ≠ RC.OK then Ctl.ret rc1 (cnt, w1)
    else
      match GetIsnull record w1 with
      | (rc2, isnull, w2) =>
        if rc2 ≠ RC.OK then Ctl.ret rc2 (cnt, w2)
        else
          match checkAll data isnull conds with
          | none => Ctl.ret RC.ABORTED (cnt, w2)
          | some shouldUpdate =>
            if shouldUpdate then
              match UpdateRec relName
                { record with
                  data := (applyUpdate updAttrInfo valAttrOffset nullable bIsValue rhsValue
                    data isnull).1,
                  isnull := (applyUpdate updAttrInfo valAttrOffset nullable bIsValue rhsValue
                    data isnull).2 } w2 with
              | (rc3, w3) =>
                if rc3 ≠ RC.OK then Ctl.ret rc3 (wrapInt32 (cnt + 1), w3)
                else Ctl.next (wrapInt32 (cnt + 1), w3)
            else Ctl.next (cnt, w2)

/-- Source: lines 827-860, `while ((retcode = scan.GetNextRec(record)) != RM_EOF)`
of `Update`. -/
def updateLoop (relName : String) (conds : List QL_Condition) (updAttrInfo : DataAttrInfo)
    (valAttrOffset : Nat) (nullable : Bool) (bIsValue : Bool) (rhsValue : Value) :
    Nat → Int → World → Ctl (Int × World)
  | 0, _, _ => Ctl.outOfFuel
  | fuel + 1, cnt, w =>
    match GetNextRec 0 w with
    | (retcode, record, w1) =>
      if retcode = RC.RM_EOF then Ctl.next (cnt, w1)
      else if retcode ≠ RC.OK then Ctl.ret retcode (cnt, w1)
      else
        match updateRecord relName conds updAttrInfo valAttrOffset nullable bIsValue rhsValue
          cnt record w1 with
        | Ctl.next s =>
          updateLoop relName conds updAttrInfo valAttrOffset nullable bIsValue rhsValue fuel
            s.1 s.2
        | other => other

/-- Source: lines 821-867 of `Update`, from `OpenFile` to the end. -/
def runUpdate (relName : String) (conds : List QL_Condition) (updAttrInfo : DataAttrInfo)
    (valAttrOffset : Nat) (nullable : Bool) (bIsValue : Bool) (rhsValue : Value) (w : World) :
    Option (RC × World) :=
  match OpenFile relName w with
  | (rc1, w1) =>
    if rc1 ≠ RC.OK then some (rc1, w1)
    else
      match OpenScan 0 (some relName) { w1 with scans := fun _ => none } with
      | (rc2, w2) =>
        if rc2 ≠ RC.OK then some (rc2, w2)
        else
          match updateLoop relName conds updAttrInfo valAttrOffset nullable bIsValue rhsValue
            (scanLength w2 0 + 1) 0 w2 with
          | Ctl.outOfFuel => none
          | Ctl.ret rc s => some (rc, s.2)
          | Ctl.next s =>
            match CloseScan 0 s.2 with
            | (rc3, w3) =>
              if rc3 ≠ RC.OK then some (rc3, w3)
              else
                match CloseFile relName w3 with
                | (rc4, w4) =>
                  if rc4 ≠ RC.OK then some (rc4, w4)
                  else some (RC.OK, { w4 with out := w4.out ++ [Output.updated s.1] })

/-- Source: `QL_Manager::Update`, lines 789-868.  `attrMap[name]` of lines 813 and
814 is `mapGet`: a name the map does not hold yields a value-initialised
descriptor.  `none` would say that the bound on the passes of the scan loop was
too small. -/
def Update (relName : String) (updAttr : RelAttr) (bIsValue : Bool) (rhsRelAttr : RelAttr)
    (rhsValue : Value) (conditions : List Condition) (w : World) : Option (RC × World) :=
  if relName = "relcat" ∨ relName = "attrcat" then some (RC.QL_FORBIDDEN, w)
  else
    match GetRelEntry relName w with
    | Except.error rc => some (rc, w)
    | Except.ok _ =>
      if checkAttrBelongsToRel updAttr relName ≠ RC.OK then
        some (checkAttrBelongsToRel updAttr relName, w)
      else if bIsValue = false ∧ checkAttrBelongsToRel rhsRelAttr relName ≠ RC.OK then
        some (checkAttrBelongsToRel rhsRelAttr relName, w)
      else
        match GetDataAttrInfo relName w with
        | Except.error rc => some (rc, w)
        | Except.ok attributes =>
          match CheckConditionsValid relName conditions (buildNameMap attributes) [] with
          | (rc0, conds) =>
            if rc0 ≠ RC.OK then some (rc0, w)
            else if isNullable (mapGet (buildNameMap attributes) updAttr.attrName) = false ∧
                bIsValue = true ∧ rhsValue.type = ValueType.VT_NULL then
              some (RC.QL_ATTR_IS_NOTNULL, w)
            else
              runUpdate relName conds (mapGet (buildNameMap attributes) updAttr.attrName)
                (if bIsValue then 0
                 else (mapGet (buildNameMap attributes) rhsRelAttr.attrName).offset)
                (isNullable (mapGet (buildNameMap attributes) updAttr.attrName))
                bIsValue rhsValue w

/-- The codes the statements return for a statement that does not pass their
validation. -/
def isValidationError (rc : RC) : Bool :=
  match rc with
  | RC.QL_FORBIDDEN => true
  | RC.QL_ATTR_NOTEXIST => true
  | RC.QL_ATTR_TYPES_MISMATCH => true
  | RC.QL_VALUE_TYPES_MISMATCH => true
  | RC.QL_ATTR_COUNT_MISMATCH => true
  | RC.QL_STRING_VAL_TOO_LONG => true
  | RC.QL_ATTR_IS_NOTNULL => true
  | _ => false

/-- The records the catalog holds for a relation (none for a relation it does not
hold). -/
def recordsOf (w : World) (relName : String) : List RM_Record :=
  match w.catalog relName with
  | some rel => rel.records
  | none => []

/-- Statement `UPDATE S SET name = name`. -/
def demoUpdateSelf : Option (RC × World) :=
  Update "S" { relName := none, attrName := "name" } false
    { relName := none, attrName := "name" } default [] demoWorld

/-- Statement `UPDATE S SET nosuch = 5`: `S` has no attribute `nosuch`. -/
def demoUpdateMissing : Option (RC × World) :=
  Update "S" { relName := none, attrName := "nosuch" } true default
    { type := ValueType.VT_INT, data := [5, 0, 0, 0] } [] demoWorld

/-- Statement `UPDATE S SET id = "abc"`: a STRING value for the INT attribute. -/
def demoUpdateString : Option (RC × World) :=
  Update "S" { relName := some "S", attrName := "id" } true default
    { type := ValueType.VT_STRING, data := [97, 98, 99, 0] } [] demoWorld

/-! ## Definitions used in the statements about `Insert`, `Delete` and `Update` -/

/-- No forced result of the coming record-manager calls is one of the query
layer's own validation codes. -/
def cleanFaults (w : World) : Prop :=
  ∀ rc ∈ w.faults, isValidationError rc = false

/-- A piece of a scan loop ended without a validation code, and left the fault
list without one. -/
def ctlClean : Ctl (Int × World) → Prop
  | Ctl.next s => cleanFaults s.2
  | Ctl.ret rc _ => isValidationError rc = false
  | Ctl.outOfFuel => True


/-- A value of an `Insert`, paired with the attribute it is destined for, is a
non-NULL value for a STRING attribute whose length exceeds the display length. -/
def stringTooLong (p : DataAttrInfo × Value) : Prop :=
  p.1.attrType = AttrType.STRING ∧ p.2.type ≠ ValueType.VT_NULL ∧
    strlen p.2.data > p.1.attrDisplayLength


/-- A record satisfies every condition of the list: the scan loops of `Delete` and
`Update` find `should` true for it. -/
def satisfiesConds (conds : List QL_Condition) (r : RM_Record) : Bool :=
  checkAll r.data r.isnull conds == some true

/-- A valid `Delete` (section 4.5, DELETE): the relation is not a catalog
relation, the catalog holds it, and `CheckConditionsValid` accepts the
conditions. -/
def validDelete (w : World) (relName : String) (conditions : List Condition) : Prop :=
  ¬ (relName = "relcat" ∨ relName = "attrcat") ∧
  ∃ rel, w.catalog relName = some rel ∧
    (CheckConditionsValid relName conditions (buildNameMap rel.attrs) []).1 = RC.OK

/-- The conditions of a `Delete` or `Update` as `CheckConditionsValid` hands them
to the scan loop. -/
def compiledConds (w : World) (relName : String) (conditions : List Condition) :
    List QL_Condition :=
  match w.catalog relName with
  | some rel => (CheckConditionsValid relName conditions (buildNameMap rel.attrs) []).2
  | none => []

/-- The `DeleteRec` calls for the records of a list, in order. -/
def deleteCalls (relName : String) (records : List RM_Record) : List RMCall :=
  records.map (fun r => RMCall.deleteRec relName r.rid)

/-- Condition `id = 1` of the statement `DELETE FROM S WHERE id = 1`. -/
def demoIdIsOne : Condition :=
  { lhsAttr := { relName := none, attrName := "id" }, op := CompOp.EQ_OP, bRhsIsAttr := false,
    rhsAttr := default, rhsValue := { type := ValueType.VT_INT, data := [1, 0, 0, 0] } }

/-- Statement `UPDATE S SET id = NULL`: `S.id` is NOT NULL. -/
def demoUpdateNull : Option (RC × World) :=
  Update "S" { relName := none, attrName := "id" } true default
    { type := ValueType.VT_NULL, data := [] } [] demoWorld

/-- The demo database with the third record-manager call forced to fail. -/
def demoFailingWorld : World :=
  { demoWorld with faults := [RC.OK, RC.OK, RC.OTHER 9] }


/-! ## `printer.cc`: the text the printer writes

Text is a list of character codes.  The constant `MAXPRINTSTRING` of the header
`printer.h` and the C library's `%f` conversion are parameters of the
definitions. -/

/-- The characters of a name, as codes. -/
def cstr (s : String) : List Nat :=
  s.toList.map Char.toNat

/-- Source: printer.cc lines 70-76, `for (j = 0; j < attrCount; j++) if (j != i &&
strcmp(attributes[i].attrName, attributes[j].attrName) == 0) { bFound = 1; break; }`;
`name` is `attributes[i].attrName`, the list holds the columns from `j` on. -/
def findOther (name : String) (i : Nat) : List DataAttrInfo → Nat → Bool
  | [], _ => false
  | a :: rest, j => if j ≠ i ∧ name = a.attrName then true else findOther name i rest (j + 1)

/-- Source: printer.cc lines 66-82: the text of `psHeader[i]` after the `sprintf`
or the `strcpy`, before the padding of lines 84-99. -/
def headerText (attributes : List DataAttrInfo) (i : Nat) : List Nat :=
  if findOther (attributes.getD i default).attrName i attributes 0 then
    cstr (attributes.getD i default).relName ++ [46] ++ cstr (attributes.getD i default).attrName
  else cstr (attributes.getD i default).attrName

/-- Source: printer.cc lines 84-87: the value `spaces[i]` is first given, the
width of the column. -/
def columnWidth (MAXPRINTSTRING : Nat) (attributes : List DataAttrInfo) (i : Nat) : Int :=
  if (attributes.getD i default).attrType = AttrType.STRING then
    min ((attributes.getD i default).attrDisplayLength : Int) (MAXPRINTSTRING : Int)
  else max 12 ((headerText attributes i).length : Int)

/-- Source: printer.cc lines 84-99: `psHeader[i]` and `spaces[i]` as the
constructor leaves them. -/
def headerCell (MAXPRINTSTRING : Nat) (attributes : List DataAttrInfo) (i : Nat) :
    List Nat × Int :=
  if columnWidth MAXPRINTSTRING attributes i - ((headerText attributes i).length : Int) < 1 then
    (headerText attributes i ++ [32], 0)
  else
    (headerText attributes i,
      columnWidth MAXPRINTSTRING attributes i - ((headerText attributes i).length : Int))

/-- Source: the array `psHeader` of the constructor (lines 64-100). -/
def Printer.psHeader (MAXPRINTSTRING : Nat) (p : Printer) : List (List Nat) :=
  (List.range p.attributes.length).map (fun i => (headerCell MAXPRINTSTRING p.attributes i).1)

/-- Source: `Spaces`, printer.cc lines 24-27. -/
def Spaces (maxLength : Int) (printedSoFar : Nat) : List Nat :=
  List.replicate (maxLength - (printedSoFar : Int)).toNat 32

/-- Model of the C library `strncpy(dst, src, n)`: the buffer `dst` after the
call; the bytes of `src` before its NUL, then NULs, `n` bytes in all. -/
def strncpy (dst src : List Nat) (n : Nat) : List Nat :=
  (List.range dst.length).map
    (fun k => if k < n then (if k < strlen src then src.getD k 0 else 0) else dst.getD k 0)

/-- The text `NULL`. -/
def nullText : List Nat := [78, 85, 76, 76]

/-- Model of the conversion `%d`: the decimal digits, with a minus sign for a
negative number. -/
def formatInt (a : Int) : List Nat :=
  cstr (toString a)

/-- Source: printer.cc lines 177-214, the body of the loop of `Print` for one
column once `this_isnull` is known: the text written.  `formatFloat` is the
conversion `%f` applied to the 4 bytes of the field. -/
def printCell (MAXPRINTSTRING : Nat) (formatFloat : Nat → List Nat) (attr : DataAttrInfo)
    (psHeader : List Nat) (data : List Nat) (this_isnull : Bool) : List Nat :=
  if attr.attrType = AttrType.STRING ∨ this_isnull = true then
    if attr.attrDisplayLength > MAXPRINTSTRING then
      content (((strncpy (List.replicate MAXPRINTSTRING 0)
          (if this_isnull then nullText else data.drop attr.offset)
          (MAXPRINTSTRING - 1)).set (MAXPRINTSTRING - 3) 46).set (MAXPRINTSTRING - 2) 46) ++
        Spaces MAXPRINTSTRING
          (strlen (((strncpy (List.replicate MAXPRINTSTRING 0)
            (if this_isnull then nullText else data.drop attr.offset)
            (MAXPRINTSTRING - 1)).set (MAXPRINTSTRING - 3) 46).set (MAXPRINTSTRING - 2) 46))
    else
      content (strncpy (List.replicate MAXPRINTSTRING 0)
          (if this_isnull then nullText else data.drop attr.offset)
          (if this_isnull then 4 else attr.attrDisplayLength)) ++
        (if (attr.attrDisplayLength : Int) < (psHeader.length : Int) then
          Spaces psHeader.length
            (strlen (strncpy (List.replicate MAXPRINTSTRING 0)
              (if this_isnull then nullText else data.drop attr.offset)
              (if this_isnull then 4 else attr.attrDisplayLength)))
         else
          Spaces attr.attrDisplayLength
            (strlen (strncpy (List.replicate MAXPRINTSTRING 0)
              (if this_isnull then nullText else data.drop attr.offset)
              (if this_isnull then 4 else attr.attrDisplayLength))))
  else if attr.attrType = AttrType.INT then
    formatInt (readInt (data.drop attr.offset)) ++
      (if psHeader.length < 12 then
        Spaces 12 (formatInt (readInt (data.drop attr.offset))).length
       else Spaces psHeader.length (formatInt (readInt (data.drop attr.offset))).length)
  else
    formatFloat (le32 (data.drop attr.offset)) ++
      (if psHeader.length < 12 then
        Spaces 12 (formatFloat (le32 (data.drop attr.offset))).length
       else Spaces psHeader.length (formatFloat (le32 (data.drop attr.offset))).length)

/-- Source: printer.cc lines 170-176: the values `this_isnull` takes, column by
column; the last argument is the running `nullableIndex`. -/
def nullFlags : List DataAttrInfo → List Bool → Int → List Bool
  | [], _, _ => []
  | a :: rest, isnull, nullableIndex =>
    (if isNullable a then boolAt isnull nullableIndex else false) ::
      nullFlags rest isnull (if isNullable a then nullableIndex + 1 else nullableIndex)

/-- Source: printer.cc lines 170-215, the loop of `Print` over the columns: the
text written; the last argument is the running `nullableIndex`. -/
def printColumns (MAXPRINTSTRING : Nat) (formatFloat : Nat → List Nat) :
    List DataAttrInfo → List (List Nat) → List Nat → List Bool → Int → List Nat
  | a :: attrs, h :: psHeader, data, isnull, nullableIndex =>
    printCell MAXPRINTSTRING formatFloat a h data
        (if isNullable a then boolAt isnull nullableIndex else false) ++
      printColumns MAXPRINTSTRING formatFloat attrs psHeader data isnull
        (if isNullable a then nullableIndex + 1 else nullableIndex)
  | _, _, _, _, _ => []

/-- Source: `Printer::Print`, printer.cc lines 159-217, for a non-null `data`, as
text. -/
def Printer.rowText (MAXPRINTSTRING : Nat) (formatFloat : Nat → List Nat) (p : Printer)
    (data : List Nat) (isnull : List Bool) : List Nat :=
  printColumns MAXPRINTSTRING formatFloat p.attributes (p.psHeader MAXPRINTSTRING) data isnull 0 ++
    [10]

/-- The number of attributes of a list that lack `ATTR_SPEC_NOTNULL`. -/
def nullableCountOf (attrs : List DataAttrInfo) : Nat :=
  (attrs.filter isNullable).length

/-- A nullable STRING column `ab` of display length 2. -/
def demoNarrow : DataAttrInfo :=
  { relName := "S", attrName := "ab", offset := 0, attrType := AttrType.STRING, attrSize := 3,
    attrDisplayLength := 2, attrSpecs := 0, nullableIndex := 0 }

/-- A nullable INT column whose catalog `nullableIndex` is 1. -/
def demoSecondBit : DataAttrInfo :=
  { relName := "S", attrName := "age", offset := 4, attrType := AttrType.INT, attrSize := 4,
    attrDisplayLength := 4, attrSpecs := 0, nullableIndex := 1 }


/-! ## Definitions used in the statements about the null bits and the frame of the storing statements -/

/-- The null bits of a record built from a value list: for the attributes that
lack NOTNULL, in the order of the attribute list, whether the value is NULL. -/
def nullBits (attrs : List DataAttrInfo) (values : List Value) : List Bool :=
  ((attrs.zip values).filter (fun p => isNullable p.1)).map
    (fun p => p.2.type == ValueType.VT_NULL)

/-- The record an `Update` hands to `UpdateRec` for the scanned record `r`: `r`
with the data bytes and null bits lines 839-856 leave. -/
def updatedRecord (updAttrInfo : DataAttrInfo) (valAttrOffset : Nat) (nullable : Bool)
    (bIsValue : Bool) (rhsValue : Value) (r : RM_Record) : RM_Record :=
  { r with
    data := (applyUpdate updAttrInfo valAttrOffset nullable bIsValue rhsValue r.data r.isnull).1,
    isnull := (applyUpdate updAttrInfo valAttrOffset nullable bIsValue rhsValue r.data r.isnull).2 }

/-- The offset `valAttrOffset` of line 814. -/
def rhsOffset (attrs : List DataAttrInfo) (bIsValue : Bool) (rhsRelAttr : RelAttr) : Nat :=
  if bIsValue then 0 else (mapGet (buildNameMap attrs) rhsRelAttr.attrName).offset

/-- The test `bIsValue && rhsValue.type == VT_NULL` of line 839. -/
def isNullLiteral (bIsValue : Bool) (rhsValue : Value) : Bool :=
  bIsValue && rhsValue.type == ValueType.VT_NULL

/-- Statement `UPDATE S SET id = 7 WHERE id = 1`. -/
def demoUpdateId : Option (RC × World) :=
  Update "S" { relName := none, attrName := "id" } true default
    { type := ValueType.VT_INT, data := [7, 0, 0, 0] } [demoIdIsOne] demoWorld


/-! ## The scan invariant of the nested loop -/

/-- Of the `n` scan objects of the loop, those with index `0..ptr` are open and
those with index `ptr+1..n-1` are not. -/
def scansOpenTo (n : Nat) (s : SelState) : Bool :=
  (List.range n).all (fun i => (s.w.scans i).isSome == decide ((i : Int) ≤ s.ptr))

/-- The nested loop of `Select` (lines 180-233, `selectLoop`) with the scan
invariant tested where the advance step begins (line 182), where the conditions
are evaluated (line 204, together with `ptr = nRelations - 1`) and at the `break`
of line 189 (together with `ptr = -1`): `none` when a test fails, else what the
loop gives. -/
def selectLoopChecked (plan : SelectPlan) : Nat → SelState → Option (Ctl SelState)
  | 0, _ => some Ctl.outOfFuel
  | fuel + 1, s =>
    if scansOpenTo plan.nRelations s = false then none
    else
      match advanceScan (s.ptr + 1).toNat s with
      | Ctl.next s1 =>
        if s1.ptr < 0 then
          if s1.ptr = -1 ∧ scansOpenTo plan.nRelations s1 = true then some (Ctl.next s1)
          else none
        else
          match fetchData s1 with
          | Ctl.next s2 =>
            match descendScans plan plan.nRelations s2 with
            | Ctl.next s3 =>
              if s3.ptr = (plan.nRelations : Int) - 1 ∧ scansOpenTo plan.nRelations s3 = true then
                match visitTuple plan s3 with
                | Ctl.next s4 => selectLoopChecked plan fuel s4
                | other => some other
              else none
            | other => some other
          | other => some other
      | other => some other


/-! ## Definitions for the statement `Insert` followed by `SELECT *` -/

/-- The number of bytes lines 574-586 write for a value that is not NULL: 4 for
INT and FLOAT, the content and its NUL for STRING. -/
def writeLength (a : DataAttrInfo) (v : Value) : Nat :=
  match a.attrType with
  | AttrType.STRING => strlen v.data + 1
  | _ => 4

/-- The tuple buffer is laid out by the offsets (section 3, tuple buffer): the
descriptors come in offset order, the slot of each ends where the next one starts
or before, lies within `tupleLength`, and holds 4 bytes for INT and FLOAT and
the display length and a NUL for STRING. -/
def slotsInOrder (rel : Relation) : Prop :=
  rel.attrs.Pairwise (fun a b => a.offset + a.attrSize ≤ b.offset) ∧
  ∀ a ∈ rel.attrs, a.offset + a.attrSize ≤ rel.relEntry.tupleLength ∧
    (a.attrType = AttrType.STRING → a.attrDisplayLength + 1 ≤ a.attrSize) ∧
    (a.attrType ≠ AttrType.STRING → 4 ≤ a.attrSize)

/-- The catalog's `nullableIndex` values number the nullable attributes
`0 .. k-1` in the order of the descriptor list. -/
def nullableNumbered (attrs : List DataAttrInfo) : Prop :=
  ∀ i, i < attrs.length → isNullable (attrs.getD i default) = true →
    (attrs.getD i default).nullableIndex = (nullableCountOf (attrs.take i) : Int)

/-- The record `Insert` hands to `InsertRec` (lines 559-591) as the record manager
stores it. -/
def insertedRecord (rel : Relation) (values : List Value) : RM_Record :=
  { data := (fillRecord rel.attrs values (List.replicate rel.relEntry.tupleLength 0)
      (List.replicate (checkInsertValues rel.attrs values 0).2.toNat false) 0).2.1,
    isnull := (fillRecord rel.attrs values (List.replicate rel.relEntry.tupleLength 0)
      (List.replicate (checkInsertValues rel.attrs values 0).2.toNat false) 0).2.2,
    rid := freshRid rel.records }

/-- Statement `SELECT * FROM relName WHERE conditions`. -/
def selectStarFrom (relName : String) (conditions : List Condition) : SelectArgs :=
  { selAttrs := [{ relName := none, attrName := "*" }],
    relations := [relName],
    conditions := conditions }

/-- The values of statement `INSERT INTO S VALUES (5, "bob")`. -/
def demoInsertValues : List Value :=
  [{ type := ValueType.VT_INT, data := [5, 0, 0, 0] },
   { type := ValueType.VT_STRING, data := [98, 111, 98, 0] }]

/-- Condition `id = 5`. -/
def demoIdIsFive : Condition :=
  { lhsAttr := { relName := none, attrName := "id" }, op := CompOp.EQ_OP, bRhsIsAttr := false,
    rhsAttr := default, rhsValue := { type := ValueType.VT_INT, data := [5, 0, 0, 0] } }


/-! ## The running counter of `Printer::Print` -/

/-- Source: printer.cc lines 168-176: the value the running `nullableIndex` of
`Print` has when the pass for each column starts; the last argument is its
current value. -/
def printCounters : List DataAttrInfo → Int → List Int
  | [], _ => []
  | a :: rest, nullableIndex =>
    nullableIndex :: printCounters rest (if isNullable a then nullableIndex + 1 else nullableIndex)

/-- Statement `SELECT name, id, score FROM S, T` as a projection list: a nullable
column, a NOT NULL column and a nullable column. -/
def demoMixedProjections : List DataAttrInfo :=
  [demoSName, demoSId, demoTScore]

/-- Source: the array `finalHeaders` of lines 134 and 149-159, which `Select` hands
to the printer: the output header of every projection, in select order. -/
def finalHeadersOf (projs : List Projection) : List DataAttrInfo :=
  projs.map (fun p => p.finalHeader)


/-! ## The specification's reading of the rows of a join

These definitions follow the words of the specification (sections 3, 4.2 and 4.5)
and are independent of the plan `Select` computes: they read the catalog, the
statement and the combination of records only. -/

/-- The descriptors the catalog holds for relation `r`. -/
def attrsOf (w : World) (r : String) : List DataAttrInfo :=
  match w.catalog r with
  | some rel => rel.attrs
  | none => []

/-- Section 4.2, resolving a `RelAttr`: with a relation name, the descriptor of
that attribute name in that FROM relation; without one, the descriptor of that
attribute name among the descriptors of the FROM relations. -/
def specResolve (w : World) (relations : List String) (a : RelAttr) : DataAttrInfo :=
  match a.relName with
  | some r =>
    if r ∈ relations then
      ((attrsOf w r).find? (fun d => d.attrName == a.attrName)).getD default
    else default
  | none =>
    ((relations.flatMap (attrsOf w)).find? (fun d => d.attrName == a.attrName)).getD default

/-- The selected attributes in select order (section 4.2): for the select list
`*` every attribute of every FROM relation, in FROM order and in the catalog's
order within a relation; otherwise the descriptor each entry resolves to. -/
def specSelected (w : World) (args : SelectArgs) : List DataAttrInfo :=
  match args.selAttrs with
  | [a] =>
    if a.attrName = "*" then args.relations.flatMap (attrsOf w)
    else [specResolve w args.relations a]
  | l => l.map (specResolve w args.relations)

/-- The record of the combination `t` that comes from the relation named `r`: the
one at the position of `r` in the FROM list. -/
def recordOf (relations : List String) (t : List RM_Record) (r : String) : RM_Record :=
  t.getD (relations.indexOf r) default

/-- Section 3, projected record: the slot of attribute `d`, the `attrSize` bytes of
its field in the record `r` followed by zeros up to the next multiple of 4. -/
def specSlot (r : RM_Record) (d : DataAttrInfo) : List Nat :=
  (List.range (upper_align 4 d.attrSize)).map
    (fun k => if k < d.attrSize then r.data.getD (d.offset + k) 0 else 0)

/-- Section 3, projected record: the slots of the selected attributes in select
order, each taken from the record of the relation the attribute belongs to, and
the null bits of the selected attributes lacking NOTNULL, in select order. -/
def specProject (relations : List String) (sel : List DataAttrInfo) (t : List RM_Record) :
    List Nat × List Bool :=
  (sel.flatMap (fun d => specSlot (recordOf relations t d.relName) d),
   (sel.filter isNullable).map
     (fun d => boolAt (recordOf relations t d.relName).isnull d.nullableIndex))

/-- Section 4.5, SELECT step 4: `checkSatisfy` is true for the condition on the
combination `t`: each attribute operand is the field, with its null flag, in the
record of the relation the attribute belongs to. -/
def specHolds (w : World) (relations : List String) (t : List RM_Record) (c : Condition) :
    Bool :=
  if c.bRhsIsAttr then
    checkSatisfy
      ((recordOf relations t (specResolve w relations c.lhsAttr).relName).data.drop
        (specResolve w relations c.lhsAttr).offset)
      (isNullable (specResolve w relations c.lhsAttr) &&
        boolAt (recordOf relations t (specResolve w relations c.lhsAttr).relName).isnull
          (specResolve w relations c.lhsAttr).nullableIndex)
      ((recordOf relations t (specResolve w relations c.rhsAttr).relName).data.drop
        (specResolve w relations c.rhsAttr).offset)
      (isNullable (specResolve w relations c.rhsAttr) &&
        boolAt (recordOf relations t (specResolve w relations c.rhsAttr).relName).isnull
          (specResolve w relations c.rhsAttr).nullableIndex)
      { lhsAttr := specResolve w relations c.lhsAttr, op := c.op, bRhsIsAttr := true,
        rhsAttr := specResolve w relations c.rhsAttr, rhsValue := default } == some true
  else
    checkSatisfy
      ((recordOf relations t (specResolve w relations c.lhsAttr).relName).data.drop
        (specResolve w relations c.lhsAttr).offset)
      (isNullable (specResolve w relations c.lhsAttr) &&
        boolAt (recordOf relations t (specResolve w relations c.lhsAttr).relName).isnull
          (specResolve w relations c.lhsAttr).nullableIndex)
      c.rhsValue.data (c.rhsValue.type == ValueType.VT_NULL)
      { lhsAttr := specResolve w relations c.lhsAttr, op := c.op, bRhsIsAttr := false,
        rhsAttr := default, rhsValue := c.rhsValue } == some true

/-- The rows the specification asks of a `Select` (section 4.5): the Cartesian
product of the record lists in lexicographic order, the first relation outermost,
restricted to the combinations on which every condition holds, each projected onto
the selected attributes. -/
def specRows (w : World) (args : SelectArgs) : List (List Nat × List Bool) :=
  ((cartesian (fromRecords w args.relations)).filter
    (fun t => args.conditions.all (specHolds w args.relations t))).map
    (specProject args.relations (specSelected w args))

/-- The FROM list names pairwise distinct relations, none by the empty string; in
the catalog the attribute names of each are distinct and every descriptor carries
the name of its relation. -/
def wellNamed (w : World) (relations : List String) : Prop :=
  relations.Nodup ∧ "" ∉ relations ∧
  ∀ r ∈ relations, ((attrsOf w r).map (fun d => d.attrName)).Nodup ∧
    ∀ d ∈ attrsOf w r, d.relName = r

/-- No attribute of the statement is qualified by the empty string. -/
def plainQualifiers (args : SelectArgs) : Prop :=
  (∀ a ∈ args.selAttrs, a.relName ≠ some "") ∧
  ∀ c ∈ args.conditions, c.lhsAttr.relName ≠ some "" ∧
    (c.bRhsIsAttr = true → c.rhsAttr.relName ≠ some "")

/-- Statement `SELECT * FROM S, S`: the FROM list names `S` twice. -/
def demoSelfJoin : SelectArgs :=
  { selAttrs := [{ relName := none, attrName := "*" }],
    relations := ["S", "S"],
    conditions := [] }


/-! ## Predicate evaluation: theorems -/

theorem strcmp_eq_zero_iff (l r : List Nat) : strcmp l r = 0 ↔ content l = content r := by
  induction l generalizing r with
  | nil =>
    cases r with
    | nil => simp [strcmp, content]
    | cons b bs =>
      by_cases hb : b = 0
      · simp [strcmp, content, hb]
      · simp [strcmp, content, hb]
  | cons a as ih =>
    cases r with
    | nil =>
      by_cases ha : a = 0
      · simp [strcmp, content, ha]
      · simp [strcmp, content, ha]
    | cons b bs =>
      by_cases hab : a = b
      · subst hab
        by_cases ha : a = 0
        · simp [strcmp, content, ha]
        · have := ih bs
          simp [strcmp, content, ha] at this ⊢
          exact this
      · by_cases ha : a = 0
        · subst ha
          have hb : b ≠ 0 := fun h => hab h.symm
          simp [strcmp, content, hab, hb]
        · by_cases hb : b = 0
          · subst hb
            simp [strcmp, content, hab, ha]
          · simp [strcmp, content, hab, ha, hb]
            omega

theorem strcmp_neg_iff (l r : List Nat) :
    strcmp l r < 0 ↔ lexLt (content l) (content r) = true := by
  induction l generalizing r with
  | nil =>
    cases r with
    | nil => simp [strcmp, content, lexLt]
    | cons b bs =>
      by_cases hb : b = 0
      · simp [strcmp, content, hb, lexLt]
      · simp [strcmp, content, hb, lexLt]
        omega
  | cons a as ih =>
    cases r with
    | nil =>
      by_cases ha : a = 0
      · simp [strcmp, content, ha, lexLt]
      · simp [strcmp, content, ha, lexLt]
    | cons b bs =>
      by_cases hab : a = b
      · subst hab
        by_cases ha : a = 0
        · simp [strcmp, content, ha, lexLt]
        · have := ih bs
          simp [strcmp, content, ha, lexLt] at this ⊢
          exact this
      · by_cases ha : a = 0
        · subst ha
          have hb : b ≠ 0 := fun h => hab h.symm
          simp [strcmp, content, hab, hb, lexLt]
          omega
        · by_cases hb : b = 0
          · subst hb
            simp [strcmp, content, hab, ha, lexLt]
          · simp [strcmp, content, hab, ha, hb, lexLt]

theorem strcmp_swap (l r : List Nat) : strcmp r l = - strcmp l r := by
  induction l generalizing r with
  | nil =>
    cases r with
    | nil => simp [strcmp]
    | cons b bs => simp [strcmp]
  | cons a as ih =>
    cases r with
    | nil => simp [strcmp]
    | cons b bs =>
      by_cases hab : a = b
      · subst hab
        by_cases ha : a = 0
        · simp [strcmp, ha]
        · simp [strcmp, ha, ih bs]
      · have hba : ¬ b = a := fun h => hab h.symm
        simp [strcmp, hab, hba]

theorem strcmp_pos_iff (l r : List Nat) :
    strcmp l r > 0 ↔ lexLt (content r) (content l) = true := by
  rw [← strcmp_neg_iff, strcmp_swap l r]
  omega

/-- The order `lexLt` is the standard lexicographic order of lists. -/
theorem lexLt_iff_lex (x y : List Nat) :
    lexLt x y = true ↔ List.Lex (fun a b : Nat => a < b) x y := by
  induction x generalizing y with
  | nil =>
    cases y with
    | nil => simp [lexLt]
    | cons b bs => simpa [lexLt] using List.Lex.nil
  | cons a as ih =>
    cases y with
    | nil => simp [lexLt]
    | cons b bs =>
      simp only [lexLt, Bool.or_eq_true, decide_eq_true_eq, Bool.and_eq_true, beq_iff_eq, ih]
      constructor
      · rintro (h | ⟨h, h2⟩)
        · exact List.Lex.rel h
        · subst h
          exact List.Lex.cons h2
      · intro h
        cases h with
        | rel h => exact Or.inl h
        | cons h => exact Or.inr ⟨rfl, h⟩

theorem compareString_spec (op : CompOp) (l r : List Nat)
    (hop : op ∈ [CompOp.EQ_OP, CompOp.NE_OP, CompOp.LT_OP, CompOp.GT_OP, CompOp.LE_OP,
      CompOp.GE_OP]) :
    compareString op l r = some (specStringCompare op l r) := by
  have h0 := strcmp_eq_zero_iff l r
  have h1 := strcmp_neg_iff l r
  have h2 := strcmp_pos_iff l r
  simp only [List.mem_cons, List.mem_singleton, List.not_mem_nil, or_false] at hop
  rcases hop with h | h | h | h | h | h <;> subst h <;>
    simp only [compareString, specStringCompare, Option.some.injEq]
  · simp [h0]
  · simp [h0]
  · by_cases h : strcmp l r < 0 <;> simp_all
  · by_cases h : strcmp l r > 0 <;> simp_all
  · by_cases h : strcmp l r < 0
    · simp_all
      omega
    · by_cases h3 : strcmp l r = 0
      · simp_all
      · have h4 : ¬ strcmp l r ≤ 0 := by omega
        simp_all
  · by_cases h : strcmp l r > 0
    · simp_all
      omega
    · by_cases h3 : strcmp l r = 0
      · simp_all
      · have h4 : ¬ strcmp l r ≥ 0 := by omega
        simp_all

theorem checkSatisfy_isSome (l r : List Nat) (li ri : Bool) (c : QL_Condition) :
    ∃ b, checkSatisfy l li r ri c = some b := by
  unfold checkSatisfy
  cases hop : c.op <;> cases li <;> cases ri <;> cases hty : c.lhsAttr.attrType <;>
    exact ⟨_, rfl⟩

/-- C1, as stated, fails: with `op = NO_OP` (neither `ISNULL_OP` nor `NOTNULL_OP`)
and a null left operand, `checkSatisfy` returns true. -/
theorem checkSatisfy_null_operand_counterexample :
    ((true = true ∨ false = true) ∧
      ({ (default : QL_Condition) with op := CompOp.NO_OP }).op ≠ CompOp.ISNULL_OP ∧
      ({ (default : QL_Condition) with op := CompOp.NO_OP }).op ≠ CompOp.NOTNULL_OP) ∧
    checkSatisfy [7, 0, 0, 0] true [7, 0, 0, 0] false
      { (default : QL_Condition) with op := CompOp.NO_OP } = some true := by
  decide

/-- C1 (amended): when `lhsIsnull` or `rhsIsnull` is true and the operator is none
of `NO_OP`, `ISNULL_OP`, `NOTNULL_OP`, the 5-argument `checkSatisfy` returns
false. -/
theorem checkSatisfy_null_operand_false (l r : List Nat) (li ri : Bool) (c : QL_Condition)
    (hnull : li = true ∨ ri = true) (h0 : c.op ≠ CompOp.NO_OP)
    (h1 : c.op ≠ CompOp.ISNULL_OP) (h2 : c.op ≠ CompOp.NOTNULL_OP) :
    checkSatisfy l li r ri c = some false := by
  unfold checkSatisfy
  cases hop : c.op <;> simp_all

/-- C1 (amended), at a concrete input: `3 = NULL` on an INT attribute. -/
theorem checkSatisfy_null_operand_false_witness :
    checkSatisfy [3, 0, 0, 0] false [] true
      { (default : QL_Condition) with op := CompOp.EQ_OP } = some false :=
  checkSatisfy_null_operand_false [3, 0, 0, 0] [] false true
    { (default : QL_Condition) with op := CompOp.EQ_OP } (Or.inr rfl)
    (by decide) (by decide) (by decide)

/-- C2: for every attribute type, operand bytes and rhs null flag, `checkSatisfy`
returns true when the operator is `NO_OP`, `lhsIsnull` when it is `ISNULL_OP` and
`!lhsIsnull` when it is `NOTNULL_OP`. -/
theorem checkSatisfy_no_op_isnull_notnull (l r : List Nat) (li ri : Bool) (c : QL_Condition) :
    (c.op = CompOp.NO_OP → checkSatisfy l li r ri c = some true) ∧
    (c.op = CompOp.ISNULL_OP → checkSatisfy l li r ri c = some li) ∧
    (c.op = CompOp.NOTNULL_OP → checkSatisfy l li r ri c = some (!li)) := by
  refine ⟨?_, ?_, ?_⟩ <;> intro h <;> simp [checkSatisfy, h]

/-- C2, at concrete inputs: a STRING attribute with a null left operand. -/
theorem checkSatisfy_no_op_isnull_notnull_witness :
    checkSatisfy [97, 0] true [98, 0] false
      { (default : QL_Condition) with op := CompOp.NO_OP } = some true ∧
    checkSatisfy [97, 0] true [98, 0] false
      { (default : QL_Condition) with op := CompOp.ISNULL_OP } = some true ∧
    checkSatisfy [97, 0] true [98, 0] false
      { (default : QL_Condition) with op := CompOp.NOTNULL_OP } = some false :=
  ⟨(checkSatisfy_no_op_isnull_notnull [97, 0] [98, 0] true false
      { (default : QL_Condition) with op := CompOp.NO_OP }).1 rfl,
   (checkSatisfy_no_op_isnull_notnull [97, 0] [98, 0] true false
      { (default : QL_Condition) with op := CompOp.ISNULL_OP }).2.1 rfl,
   (checkSatisfy_no_op_isnull_notnull [97, 0] [98, 0] true false
      { (default : QL_Condition) with op := CompOp.NOTNULL_OP }).2.2 rfl⟩

/-- C3: on two non-null STRING operands and an operator among EQ, NE, LT, GT, LE,
GE, `checkSatisfy` returns the comparison of the two NUL-terminated contents in
lexicographic unsigned-byte order; EQ holds iff the contents are identical and LT
holds iff the lhs content strictly precedes the rhs content. -/
theorem checkSatisfy_string_lexicographic (l r : List Nat) (c : QL_Condition)
    (hty : c.lhsAttr.attrType = AttrType.STRING)
    (hop : c.op ∈ [CompOp.EQ_OP, CompOp.NE_OP, CompOp.LT_OP, CompOp.GT_OP, CompOp.LE_OP,
      CompOp.GE_OP]) :
    checkSatisfy l false r false c = some (specStringCompare c.op l r) ∧
    (c.op = CompOp.EQ_OP →
      (checkSatisfy l false r false c = some true ↔ content l = content r)) ∧
    (c.op = CompOp.LT_OP →
      (checkSatisfy l false r false c = some true ↔
        List.Lex (fun a b : Nat => a < b) (content l) (content r))) := by
  have hmain : checkSatisfy l false r false c = some (specStringCompare c.op l r) := by
    rw [← compareString_spec c.op l r hop]
    simp only [List.mem_cons, List.mem_singleton, List.not_mem_nil, or_false] at hop
    unfold checkSatisfy
    rcases hop with h | h | h | h | h | h <;> simp [h, hty]
  refine ⟨hmain, ?_, ?_⟩
  · intro h
    rw [hmain, h]
    simp [specStringCompare]
  · intro h
    rw [hmain, h, ← lexLt_iff_lex]
    simp [specStringCompare]

/-- C3, at a concrete input: "ab" < "abc" on a STRING attribute, with bytes after
the terminating NUL that differ. -/
theorem checkSatisfy_string_lexicographic_witness :
    checkSatisfy [97, 98, 0, 9] false [97, 98, 99, 0, 1] false
      { (default : QL_Condition) with
        lhsAttr := { (default : DataAttrInfo) with attrType := AttrType.STRING },
        op := CompOp.LT_OP } = some true :=
  (checkSatisfy_string_lexicographic [97, 98, 0, 9] [97, 98, 99, 0, 1]
    { (default : QL_Condition) with
      lhsAttr := { (default : DataAttrInfo) with attrType := AttrType.STRING },
      op := CompOp.LT_OP } rfl (by decide)).1.trans (by decide)

/-- C4: `can_assign_to(rt, vt, nullable)` is true iff (vt = NULL and nullable) or
(vt = INT and rt is INT or FLOAT) or (vt = FLOAT and rt = FLOAT) or (vt = STRING
and rt = STRING); a NULL value is assignable iff nullable, whatever the target. -/
theorem can_assign_to_iff (rt : AttrType) (vt : ValueType) (nullable : Bool) :
    (can_assign_to rt vt nullable = true ↔
      (vt = ValueType.VT_NULL ∧ nullable = true) ∨
      (vt = ValueType.VT_INT ∧ (rt = AttrType.INT ∨ rt = AttrType.FLOAT)) ∨
      (vt = ValueType.VT_FLOAT ∧ rt = AttrType.FLOAT) ∨
      (vt = ValueType.VT_STRING ∧ rt = AttrType.STRING)) ∧
    (can_assign_to rt ValueType.VT_NULL nullable = true ↔ nullable = true) := by
  cases rt <;> cases vt <;> cases nullable <;> decide

/-! ## The attribute map: theorems -/

/-- One step of the loop of lines 61-65 on a (relation name, descriptor) pair. -/
theorem addQualified_eq_foldl (relName : String) (attrs : List DataAttrInfo)
    (st : AttrMap × (String → Int)) :
    addQualified relName attrs st =
      (attrs.map (fun a => (relName, a))).foldl
        (fun acc (p : String × DataAttrInfo) =>
          (mapInsert acc.1 (p.1, p.2.attrName) p.2, countIncr acc.2 p.2.attrName)) st := by
  unfold addQualified
  rw [List.foldl_map]

theorem foldl_addQualified_eq (rels : List (String × List DataAttrInfo))
    (st : AttrMap × (String → Int)) :
    rels.foldl (fun acc ra => addQualified ra.1 ra.2 acc) st =
      (rels.flatMap (fun ra => ra.2.map (fun a => (ra.1, a)))).foldl
        (fun acc (p : String × DataAttrInfo) =>
          (mapInsert acc.1 (p.1, p.2.attrName) p.2, countIncr acc.2 p.2.attrName)) st := by
  induction rels generalizing st with
  | nil => rfl
  | cons ra rest ih =>
    simp only [List.foldl_cons, List.flatMap_cons, List.foldl_append]
    rw [ih, addQualified_eq_foldl]

theorem qualFold_count (pairs : List (String × DataAttrInfo)) (st : AttrMap × (String → Int))
    (a : String) :
    (pairs.foldl
        (fun acc (p : String × DataAttrInfo) =>
          (mapInsert acc.1 (p.1, p.2.attrName) p.2, countIncr acc.2 p.2.attrName)) st).2 a =
      st.2 a + (pairs.countP (fun p => decide (p.2.attrName = a)) : Nat) := by
  induction pairs generalizing st with
  | nil => simp
  | cons p rest ih =>
    simp only [List.foldl_cons]
    rw [ih]
    by_cases h : p.2.attrName = a
    · simp [countIncr, h, List.countP_cons]
      omega
    · have h2 : ¬ a = p.2.attrName := fun e => h e.symm
      simp [countIncr, h, h2, List.countP_cons]

theorem qualFold_other (pairs : List (String × DataAttrInfo)) (st : AttrMap × (String → Int))
    (k : AttrTag) (hk : ∀ p ∈ pairs, (p.1, p.2.attrName) ≠ k) :
    (pairs.foldl
        (fun acc (p : String × DataAttrInfo) =>
          (mapInsert acc.1 (p.1, p.2.attrName) p.2, countIncr acc.2 p.2.attrName)) st).1 k =
      st.1 k := by
  induction pairs generalizing st with
  | nil => rfl
  | cons p rest ih =>
    simp only [List.foldl_cons]
    rw [ih _ (fun q hq => hk q (List.mem_cons_of_mem _ hq))]
    have := hk p (List.mem_cons_self _ _)
    simp only [mapInsert]
    rw [if_neg (fun e => this e.symm)]

theorem qualFold_mem (pairs : List (String × DataAttrInfo)) (st : AttrMap × (String → Int))
    (hnd : (pairs.map (fun p => (p.1, p.2.attrName))).Nodup)
    (p : String × DataAttrInfo) (hp : p ∈ pairs) :
    (pairs.foldl
        (fun acc (p : String × DataAttrInfo) =>
          (mapInsert acc.1 (p.1, p.2.attrName) p.2, countIncr acc.2 p.2.attrName)) st).1
        (p.1, p.2.attrName) = some p.2 := by
  induction pairs generalizing st with
  | nil => cases hp
  | cons q rest ih =>
    simp only [List.map_cons, List.nodup_cons] at hnd
    simp only [List.foldl_cons]
    rcases List.mem_cons.mp hp with h | h
    · subst h
      rw [qualFold_other]
      · simp [mapInsert]
      · intro r hr e
        exact hnd.1 (e ▸ List.mem_map_of_mem (fun p => (p.1, p.2.attrName)) hr)
    · exact ih _ hnd.2 h

theorem pairKeys_nodup (rels : List (String × List DataAttrInfo))
    (hnd : (rels.map Prod.fst).Nodup)
    (hattrs : ∀ ra ∈ rels, (ra.2.map (fun d => d.attrName)).Nodup) :
    ((rels.flatMap (fun ra => ra.2.map (fun a => (ra.1, a)))).map
      (fun p => (p.1, p.2.attrName))).Nodup := by
  induction rels with
  | nil => simp
  | cons ra rest ih =>
    simp only [List.map_cons, List.nodup_cons] at hnd
    simp only [List.flatMap_cons, List.map_append, List.map_map]
    rw [List.nodup_append]
    refine ⟨?_, ih hnd.2 (fun x hx => hattrs x (List.mem_cons_of_mem _ hx)), ?_⟩
    · have h := hattrs ra (List.mem_cons_self _ _)
      have hinj : Function.Injective (fun n : String => (ra.1, n)) := by
        intro x y hxy
        exact (Prod.mk.inj hxy).2
      have := List.Nodup.map hinj h
      simpa [List.map_map, Function.comp] using this
    · intro k hk1 hk2
      simp only [List.mem_map, Function.comp, List.mem_flatMap] at hk1 hk2
      obtain ⟨d, _, hd⟩ := hk1
      obtain ⟨p, ⟨rb, hrb, hp⟩, hk⟩ := hk2
      obtain ⟨e, _, he⟩ := hp
      apply hnd.1
      have : rb.1 = ra.1 := by
        rw [← hd, ← he] at hk
        exact (Prod.mk.inj hk).1
      rw [← this]
      exact List.mem_map_of_mem Prod.fst hrb

theorem countP_name_of_nodup (attrs : List DataAttrInfo) (a : String)
    (h : (attrs.map (fun d => d.attrName)).Nodup) :
    attrs.countP (fun d => decide (d.attrName = a)) =
      if a ∈ attrs.map (fun d => d.attrName) then 1 else 0 := by
  induction attrs with
  | nil => simp
  | cons d rest ih =>
    simp only [List.map_cons, List.nodup_cons] at h
    rw [List.countP_cons, ih h.2]
    by_cases hd : d.attrName = a
    · subst hd
      simp [h.1]
    · have hd2 : ¬ a = d.attrName := fun e => hd e.symm
      simp [hd, hd2]

theorem pairs_countP (rels : List (String × List DataAttrInfo)) (a : String)
    (hattrs : ∀ ra ∈ rels, (ra.2.map (fun d => d.attrName)).Nodup) :
    (rels.flatMap (fun ra => ra.2.map (fun a => (ra.1, a)))).countP
        (fun p => decide (p.2.attrName = a)) =
      relationsWith a (rels.map Prod.snd) := by
  induction rels with
  | nil => simp [relationsWith]
  | cons ra rest ih =>
    have h1 := countP_name_of_nodup ra.2 a (hattrs ra (List.mem_cons_self _ _))
    have h2 := ih (fun x hx => hattrs x (List.mem_cons_of_mem _ hx))
    simp only [List.flatMap_cons, List.countP_append, List.map_cons, relationsWith,
      List.filter_cons] at h2 ⊢
    rw [h2, List.countP_map]
    have : (List.countP ((fun p : String × DataAttrInfo => decide (p.2.attrName = a)) ∘
        fun a => (ra.1, a)) ra.2) = List.countP (fun d => decide (d.attrName = a)) ra.2 := rfl
    rw [this, h1]
    by_cases hm : a ∈ ra.2.map (fun d => d.attrName)
    · simp only [hm, if_true, decide_True, List.length_cons]
      omega
    · simp only [hm, if_false, decide_False]
      simp

theorem addUnqualified_foldl (cnt : String → Int) (attrInfo : List (List DataAttrInfo))
    (m : AttrMap) :
    attrInfo.foldl (fun acc attrs => addUnqualified cnt attrs acc) m =
      attrInfo.flatten.foldl
        (fun acc (a : DataAttrInfo) =>
          if cnt a.attrName = 1 then mapInsert acc ("", a.attrName) a else acc) m := by
  induction attrInfo generalizing m with
  | nil => rfl
  | cons attrs rest ih =>
    simp only [List.foldl_cons, List.flatten_cons, List.foldl_append]
    rw [ih]
    rfl

theorem unqFold_other (cnt : String → Int) (descs : List DataAttrInfo) (m : AttrMap)
    (k : AttrTag) (hk : ∀ d ∈ descs, cnt d.attrName = 1 → ("", d.attrName) ≠ k) :
    (descs.foldl
        (fun acc (a : DataAttrInfo) =>
          if cnt a.attrName = 1 then mapInsert acc ("", a.attrName) a else acc) m) k = m k := by
  induction descs generalizing m with
  | nil => rfl
  | cons d rest ih =>
    simp only [List.foldl_cons]
    rw [ih _ (fun e he => hk e (List.mem_cons_of_mem _ he))]
    by_cases hc : cnt d.attrName = 1
    · have := hk d (List.mem_cons_self _ _) hc
      simp only [hc, if_true, mapInsert]
      rw [if_neg (fun e => this e.symm)]
    · simp [hc]

theorem unqFold_mem (cnt : String → Int) (descs : List DataAttrInfo) (m : AttrMap)
    (d : DataAttrInfo) (hd : d ∈ descs) (hc : cnt d.attrName = 1)
    (huniq : ∀ e ∈ descs, e.attrName = d.attrName → e = d) :
    (descs.foldl
        (fun acc (a : DataAttrInfo) =>
          if cnt a.attrName = 1 then mapInsert acc ("", a.attrName) a else acc) m)
        ("", d.attrName) = some d := by
  induction descs generalizing m with
  | nil => cases hd
  | cons e rest ih =>
    simp only [List.foldl_cons]
    by_cases hmem : d ∈ rest
    · exact ih _ hmem (fun x hx => huniq x (List.mem_cons_of_mem _ hx))
    · have hde : d = e := by
        rcases List.mem_cons.mp hd with h | h
        · exact h
        · exact absurd h hmem
      subst hde
      rw [unqFold_other]
      · simp [hc, mapInsert]
      · intro x hx _ hk
        have hname : x.attrName = d.attrName := (Prod.mk.inj hk).2
        have := huniq x (List.mem_cons_of_mem _ hx) hname
        exact hmem (this ▸ hx)

theorem countP_eq_one_unique {α : Type} (p : α → Bool) (l : List α) (h : l.countP p = 1)
    (x y : α) (hx : x ∈ l) (hy : y ∈ l) (px : p x = true) (py : p y = true) : x = y := by
  induction l with
  | nil => cases hx
  | cons z rest ih =>
    rw [List.countP_cons] at h
    by_cases pz : p z = true
    · simp only [pz, if_true] at h
      have h0 : rest.countP p = 0 := by omega
      rw [List.countP_eq_zero] at h0
      have hxz : x = z := by
        rcases List.mem_cons.mp hx with e | e
        · exact e
        · exact absurd px (h0 x e)
      have hyz : y = z := by
        rcases List.mem_cons.mp hy with e | e
        · exact e
        · exact absurd py (h0 y e)
      rw [hxz, hyz]
    · simp only [pz] at h
      have hx2 : x ∈ rest := by
        rcases List.mem_cons.mp hx with e | e
        · exact absurd (e ▸ px) pz
        · exact e
      have hy2 : y ∈ rest := by
        rcases List.mem_cons.mp hy with e | e
        · exact absurd (e ▸ py) pz
        · exact e
      exact ih (by simpa using h) hx2 hy2

theorem pairs_map_snd (rels : List (String × List DataAttrInfo)) :
    (rels.flatMap (fun ra => ra.2.map (fun a => (ra.1, a)))).map Prod.snd =
      (rels.map Prod.snd).flatten := by
  induction rels with
  | nil => rfl
  | cons ra rest ih =>
    simp only [List.flatMap_cons, List.map_append, List.map_cons, List.flatten_cons, ih,
      List.map_map]
    congr 1
    simp [Function.comp]

/-- The attribute map of lines 56-72, stated on the list of (relation name,
descriptors) pairs. -/
theorem attrMap_of_rels (rels : List (String × List DataAttrInfo))
    (hnd : (rels.map Prod.fst).Nodup) (hne : "" ∉ rels.map Prod.fst)
    (hattrs : ∀ ra ∈ rels, (ra.2.map (fun d => d.attrName)).Nodup) :
    let m := (rels.map Prod.snd).foldl
      (fun acc attrs => addUnqualified (buildQualified rels).2 attrs acc) (buildQualified rels).1
    (∀ a, (buildQualified rels).2 a = (relationsWith a (rels.map Prod.snd) : Nat)) ∧
    (∀ a, relationsWith a (rels.map Prod.snd) ≠ 1 → m ("", a) = none) ∧
    (∀ ra ∈ rels, ∀ d ∈ ra.2, relationsWith d.attrName (rels.map Prod.snd) = 1 →
      m ("", d.attrName) = some d) ∧
    (∀ ra ∈ rels, ∀ d ∈ ra.2, m (ra.1, d.attrName) = some d) := by
  intro m
  have hcount : ∀ a, (buildQualified rels).2 a = (relationsWith a (rels.map Prod.snd) : Nat) := by
    intro a
    unfold buildQualified
    rw [foldl_addQualified_eq, qualFold_count, pairs_countP rels a hattrs]
    simp
  have hq_none : ∀ a, (buildQualified rels).1 ("", a) = none := by
    intro a
    unfold buildQualified
    rw [foldl_addQualified_eq, qualFold_other]
    intro p hp e
    simp only [List.mem_flatMap, List.mem_map] at hp
    obtain ⟨ra, hra, d, _, hd⟩ := hp
    apply hne
    have : ra.1 = "" := by
      rw [← hd] at e
      exact (Prod.mk.inj e).1
    rw [← this]
    exact List.mem_map_of_mem Prod.fst hra
  have hm : m = (rels.map Prod.snd).flatten.foldl
      (fun acc (a : DataAttrInfo) =>
        if (buildQualified rels).2 a.attrName = 1 then mapInsert acc ("", a.attrName) a
        else acc) (buildQualified rels).1 := addUnqualified_foldl _ _ _
  refine ⟨hcount, ?_, ?_, ?_⟩
  · intro a ha
    rw [hm, unqFold_other, hq_none]
    intro d _ hc e
    apply ha
    have hname : d.attrName = a := (Prod.mk.inj e).2
    rw [hname, hcount a] at hc
    exact_mod_cast hc
  · intro ra hra d hd h1
    rw [hm]
    have hmem : d ∈ (rels.map Prod.snd).flatten := by
      rw [List.mem_flatten]
      exact ⟨ra.2, List.mem_map_of_mem Prod.snd hra, hd⟩
    apply unqFold_mem _ _ _ d hmem
    · rw [hcount, h1]
      rfl
    · intro e he hname
      have hc := pairs_countP rels d.attrName hattrs
      have hc2 : ((rels.flatMap (fun ra => ra.2.map (fun a => (ra.1, a)))).map Prod.snd).countP
          (fun x => decide (x.attrName = d.attrName)) = 1 := by
        rw [List.countP_map, ← h1, ← hc]
        rfl
      rw [pairs_map_snd] at hc2
      exact countP_eq_one_unique _ _ hc2 e d he hmem (by simpa using hname) (by simp)
  · intro ra hra d hd
    rw [hm, unqFold_other]
    · unfold buildQualified
      rw [foldl_addQualified_eq]
      have hp : (ra.1, d) ∈ rels.flatMap (fun ra => ra.2.map (fun a => (ra.1, a))) := by
        simp only [List.mem_flatMap, List.mem_map]
        exact ⟨ra, hra, d, hd, rfl⟩
      exact qualFold_mem _ _ (pairKeys_nodup rels hnd hattrs) (ra.1, d) hp
    · intro e _ _ hk
      apply hne
      have : ra.1 = "" := ((Prod.mk.inj hk).1).symm
      rw [← this]
      exact List.mem_map_of_mem Prod.fst hra

theorem zip_map_fst_eq (relations : List String) (attrInfo : List (List DataAttrInfo))
    (hlen : relations.length = attrInfo.length) :
    (relations.zip attrInfo).map Prod.fst = relations :=
  List.map_fst_zip _ _ (le_of_eq hlen)

theorem zip_map_snd_eq (relations : List String) (attrInfo : List (List DataAttrInfo))
    (hlen : relations.length = attrInfo.length) :
    (relations.zip attrInfo).map Prod.snd = attrInfo :=
  List.map_snd_zip _ _ (le_of_eq hlen.symm)

theorem buildAttrMap_facts (relations : List String) (attrInfo : List (List DataAttrInfo))
    (hlen : relations.length = attrInfo.length) (hnd : relations.Nodup)
    (hne : "" ∉ relations)
    (hattrs : ∀ attrs ∈ attrInfo, (attrs.map (fun d => d.attrName)).Nodup) :
    (∀ a, (buildAttrMap relations attrInfo).2 a = (relationsWith a attrInfo : Nat)) ∧
    (∀ a, relationsWith a attrInfo ≠ 1 → (buildAttrMap relations attrInfo).1 ("", a) = none) ∧
    (∀ ra ∈ relations.zip attrInfo, ∀ d ∈ ra.2, relationsWith d.attrName attrInfo = 1 →
      (buildAttrMap relations attrInfo).1 ("", d.attrName) = some d) ∧
    (∀ ra ∈ relations.zip attrInfo, ∀ d ∈ ra.2,
      (buildAttrMap relations attrInfo).1 (ra.1, d.attrName) = some d) := by
  have h := attrMap_of_rels (relations.zip attrInfo)
    (by rw [zip_map_fst_eq _ _ hlen]; exact hnd)
    (by rw [zip_map_fst_eq _ _ hlen]; exact hne)
    (by
      intro ra hra
      apply hattrs
      rw [← zip_map_snd_eq relations attrInfo hlen]
      exact List.mem_map_of_mem Prod.snd hra)
  simp only [zip_map_snd_eq _ _ hlen] at h
  exact h

/-- C6: for a FROM list of pairwise distinct, non-empty relation names (and
attribute names that are distinct within each relation), the attribute map of
`Select` holds the unqualified key `("", a)` iff `a` occurs in exactly one FROM
relation, it then maps to that relation's descriptor for `a`, and every qualified
key `(rel, a)` maps to the descriptor of `a` in `rel`. -/
theorem buildAttrMap_keys (relations : List String) (attrInfo : List (List DataAttrInfo))
    (hlen : relations.length = attrInfo.length) (hnd : relations.Nodup)
    (hne : "" ∉ relations)
    (hattrs : ∀ attrs ∈ attrInfo, (attrs.map (fun d => d.attrName)).Nodup) :
    (∀ a, ((buildAttrMap relations attrInfo).1 ("", a)).isSome = true ↔
      relationsWith a attrInfo = 1) ∧
    (∀ ra ∈ relations.zip attrInfo, ∀ d ∈ ra.2, relationsWith d.attrName attrInfo = 1 →
      (buildAttrMap relations attrInfo).1 ("", d.attrName) = some d) ∧
    (∀ ra ∈ relations.zip attrInfo, ∀ d ∈ ra.2,
      (buildAttrMap relations attrInfo).1 (ra.1, d.attrName) = some d) := by
  obtain ⟨_, h2, h3, h4⟩ := buildAttrMap_facts relations attrInfo hlen hnd hne hattrs
  refine ⟨?_, h3, h4⟩
  intro a
  constructor
  · intro hs
    by_contra hne1
    rw [h2 a hne1] at hs
    simp at hs
  · intro h1
    have hpos : 0 < (attrInfo.filter
        (fun attrs => decide (a ∈ attrs.map (fun d => d.attrName)))).length := by
      unfold relationsWith at h1
      omega
    obtain ⟨attrs, hmem⟩ := List.exists_mem_of_length_pos hpos
    rw [List.mem_filter] at hmem
    obtain ⟨hin, ha⟩ := hmem
    simp only [decide_eq_true_eq, List.mem_map] at ha
    obtain ⟨d, hd, hda⟩ := ha
    rw [← zip_map_snd_eq relations attrInfo hlen, List.mem_map] at hin
    obtain ⟨ra, hra, hra2⟩ := hin
    subst hda
    rw [h3 ra hra d (hra2 ▸ hd) h1]
    rfl

/-! ## Validation in `Select` and `CheckConditionsValid`: theorems -/

theorem rmCall_catalog (w : World) : (rmCall w).2.catalog = w.catalog := by
  unfold rmCall
  cases w.faults <;> rfl

theorem OpenFile_catalog (r : String) (w : World) : (OpenFile r w).2.catalog = w.catalog := by
  have h := rmCall_catalog w
  unfold OpenFile
  rcases hc : rmCall w with ⟨rc, w1⟩
  rw [hc] at h
  simp only at h ⊢
  by_cases hrc : rc = RC.OK
  · simp only [hrc, ne_eq, not_true_eq_false, if_false]
    cases w1.catalog r <;> simp [h]
  · simp [hrc, h]

theorem openFiles_catalog (rels : List String) (w : World) :
    (openFiles rels w).2.catalog = w.catalog := by
  induction rels generalizing w with
  | nil => rfl
  | cons r rest ih =>
    have h := OpenFile_catalog r w
    unfold openFiles
    rcases hc : OpenFile r w with ⟨rc, w1⟩
    rw [hc] at h
    simp only at h ⊢
    by_cases hrc : rc = RC.OK
    · simp only [hrc, ne_eq, not_true_eq_false, if_false]
      rw [ih, h]
    · simp [hrc, h]

theorem getAttrInfos_congr (w1 w : World) (h : w1.catalog = w.catalog) (rels : List String) :
    getAttrInfos w1 rels = getAttrInfos w rels := by
  induction rels with
  | nil => rfl
  | cons r rest ih => simp [getAttrInfos, GetDataAttrInfo, h, ih]

theorem getRelEntries_congr (w1 w : World) (h : w1.catalog = w.catalog) (rels : List String) :
    getRelEntries w1 rels = getRelEntries w rels := by
  induction rels with
  | nil => rfl
  | cons r rest ih => simp [getRelEntries, GetRelEntry, h, ih]

theorem getRelEntries_of_getAttrInfos (w : World) (rels : List String)
    (attrInfo : List (List DataAttrInfo)) (h : getAttrInfos w rels = Except.ok attrInfo) :
    ∃ es, getRelEntries w rels = Except.ok es := by
  induction rels generalizing attrInfo with
  | nil => exact ⟨[], rfl⟩
  | cons r rest ih =>
    simp only [getAttrInfos, GetDataAttrInfo] at h
    simp only [getRelEntries, GetRelEntry]
    cases hc : w.catalog r with
    | none => simp [hc] at h
    | some rel =>
      simp only [hc] at h ⊢
      cases hr : getAttrInfos w rest with
      | error e => simp [hr] at h
      | ok as =>
        obtain ⟨es, hes⟩ := ih as hr
        simp [hes]

/-- `Select` up to the end of validation, when the files open and the catalog
holds every FROM relation. -/
theorem Select_validation (fuel : Nat) (args : SelectArgs) (w : World)
    (attrInfo : List (List DataAttrInfo))
    (hopen : (openFiles args.relations w).1 = RC.OK)
    (hinfo : getAttrInfos w args.relations = Except.ok attrInfo) :
    ∃ relEntries, getRelEntries w args.relations = Except.ok relEntries ∧
      Select fuel args w =
        (if checkSelAttrs (buildAttrMap args.relations attrInfo).1
            (buildAttrMap args.relations attrInfo).2 (effectiveSelAttrs args.selAttrs) ≠ RC.OK
         then
          some { rc := checkSelAttrs (buildAttrMap args.relations attrInfo).1
                   (buildAttrMap args.relations attrInfo).2 (effectiveSelAttrs args.selAttrs),
                 w := (openFiles args.relations w).2, final := none }
         else if checkConditions (buildAttrMap args.relations attrInfo).1 args.conditions
            ≠ RC.OK then
          some { rc := checkConditions (buildAttrMap args.relations attrInfo).1 args.conditions,
                 w := (openFiles args.relations w).2, final := none }
         else runSelect (makePlan args relEntries attrInfo (buildAttrMap args.relations attrInfo).1)
            fuel (openFiles args.relations w).2) := by
  obtain ⟨es, hes⟩ := getRelEntries_of_getAttrInfos w args.relations attrInfo hinfo
  refine ⟨es, hes, ?_⟩
  have hcat := openFiles_catalog args.relations w
  unfold Select
  rcases hc : openFiles args.relations w with ⟨rc, w1⟩
  rw [hc] at hopen hcat
  simp only at hopen hcat
  subst hopen
  simp only [ne_eq, not_true_eq_false, if_false]
  rw [getRelEntries_congr w1 w hcat, getAttrInfos_congr w1 w hcat, hes, hinfo]

theorem checkSelAttrs_ok (attrMap : AttrMap) (cnt : String → Int) (sel : List RelAttr)
    (h : ∀ a ∈ sel, selAttrResolves attrMap cnt a) : checkSelAttrs attrMap cnt sel = RC.OK := by
  induction sel with
  | nil => rfl
  | cons a rest ih =>
    have ha := h a (List.mem_cons_self _ _)
    unfold checkSelAttrs
    unfold selAttrResolves at ha
    cases hm : attrMap (make_tag a) with
    | none => simp [hm] at ha
    | some d =>
      simp only
      rw [if_neg ha.2]
      exact ih (fun b hb => h b (List.mem_cons_of_mem _ hb))

theorem checkConditions_mismatch (attrMap : AttrMap) (pre post : List Condition) (c : Condition)
    (lhsAttr rhsAttr : DataAttrInfo)
    (hpre : ∀ c0 ∈ pre, conditionValid attrMap c0)
    (hrhs : c.bRhsIsAttr = true)
    (hl : attrMap (make_tag c.lhsAttr) = some lhsAttr)
    (hr : attrMap (make_tag c.rhsAttr) = some rhsAttr)
    (hty : lhsAttr.attrType ≠ rhsAttr.attrType) :
    checkConditions attrMap (pre ++ c :: post) = RC.QL_ATTR_TYPES_MISMATCH := by
  induction pre with
  | nil =>
    simp [checkConditions, hl, hr, hrhs, hty]
  | cons c0 rest ih =>
    have h0 := hpre c0 (List.mem_cons_self _ _)
    have ih2 := ih (fun x hx => hpre x (List.mem_cons_of_mem _ hx))
    obtain ⟨l0, hl0, hv⟩ := h0
    simp only [List.cons_append, checkConditions, hl0]
    by_cases hb : c0.bRhsIsAttr = true
    · simp only [hb, if_true] at hv ⊢
      obtain ⟨r0, hr0, ht0⟩ := hv
      simp [hr0, ht0, ih2]
    · have hb0 : c0.bRhsIsAttr = false := by simpa using hb
      rw [hb0] at hv
      simp only [Bool.false_eq_true, if_false] at hv
      simp [hb0, hv, ih2]

theorem CheckConditionsValid_mismatch (relName : String) (attrMap : String → Option DataAttrInfo)
    (pre post : List Condition) (c : Condition) (lhsAttr rhsAttr : DataAttrInfo)
    (ret : List QL_Condition)
    (hpre : ∀ c0 ∈ pre, conditionValidIn relName attrMap c0)
    (hbl : checkAttrBelongsToRel c.lhsAttr relName = RC.OK)
    (hbr : checkAttrBelongsToRel c.rhsAttr relName = RC.OK)
    (hrhs : c.bRhsIsAttr = true)
    (hl : attrMap c.lhsAttr.attrName = some lhsAttr)
    (hr : attrMap c.rhsAttr.attrName = some rhsAttr)
    (hty : lhsAttr.attrType ≠ rhsAttr.attrType) :
    (CheckConditionsValid relName (pre ++ c :: post) attrMap ret).1 =
      RC.QL_ATTR_TYPES_MISMATCH := by
  induction pre generalizing ret with
  | nil =>
    simp [CheckConditionsValid, hl, hr, hrhs, hty, hbl, hbr]
  | cons c0 rest ih =>
    have h0 := hpre c0 (List.mem_cons_self _ _)
    have ih2 := fun r => ih r (fun x hx => hpre x (List.mem_cons_of_mem _ hx))
    obtain ⟨hb1, hb2, l0, hl0, hv⟩ := h0
    simp only [List.cons_append, CheckConditionsValid, hl0, hb1]
    by_cases hb : c0.bRhsIsAttr = true
    · simp only [hb, if_true] at hv ⊢
      obtain ⟨r0, hr0, ht0⟩ := hv
      simp [hr0, ht0, ih2, hb2 hb]
    · have hb0 : c0.bRhsIsAttr = false := by simpa using hb
      rw [hb0] at hv
      simp only [Bool.false_eq_true, if_false] at hv
      simp [hb0, hv, ih2]


/-- C5: the failing input.  In `SELECT id FROM S, U` the unqualified `id` occurs in
both FROM relations and no selected attribute precedes it, yet `Select` returns
`QL_ATTR_NOTEXIST`, not `QL_AMBIGUOUS_ATTR_NAME`: the unqualified key is entered
only for names counted once (line 70), so the lookup of line 79 fails before the
ambiguity test of line 80 is reached. -/
theorem Select_ambiguous_returns_notexist :
    relationsWith "id" [demoS.attrs, demoU.attrs] = 2 ∧
    ∀ fuel, (Select fuel demoAmbiguous demoWorld).map (fun r => r.rc) =
      some RC.QL_ATTR_NOTEXIST := by
  refine ⟨by decide, fun fuel => ?_⟩
  rfl

/-- With pairwise distinct, non-empty relation names, the check of the selected
attributes never returns `QL_AMBIGUOUS_ATTR_NAME`: an unqualified name counted
more than once has no key in the map, so line 79 returns `QL_ATTR_NOTEXIST`
first. -/
theorem checkSelAttrs_not_ambiguous (relations : List String)
    (attrInfo : List (List DataAttrInfo)) (hlen : relations.length = attrInfo.length)
    (hnd : relations.Nodup) (hne : "" ∉ relations)
    (hattrs : ∀ attrs ∈ attrInfo, (attrs.map (fun d => d.attrName)).Nodup)
    (sel : List RelAttr) :
    checkSelAttrs (buildAttrMap relations attrInfo).1 (buildAttrMap relations attrInfo).2 sel ≠
      RC.QL_AMBIGUOUS_ATTR_NAME := by
  obtain ⟨h1, h2, _, _⟩ := buildAttrMap_facts relations attrInfo hlen hnd hne hattrs
  induction sel with
  | nil => simp [checkSelAttrs]
  | cons a rest ih =>
    unfold checkSelAttrs
    cases hm : (buildAttrMap relations attrInfo).1 (make_tag a) with
    | none => simp
    | some d =>
      simp only
      by_cases hc : a.relName = none ∧ (buildAttrMap relations attrInfo).2 a.attrName > 1
      · exfalso
        have htag : make_tag a = ("", a.attrName) := by simp [make_tag, hc.1]
        rw [htag] at hm
        have hone : relationsWith a.attrName attrInfo = 1 := by
          by_contra hne1
          rw [h2 _ hne1] at hm
          cases hm
        have := hc.2
        rw [h1, hone] at this
        simp at this
      · rw [if_neg hc]
        exact ih

/-- C6, on the FROM list `S, U` of the small database: `id` is in both relations,
`name` only in `S`. -/
theorem buildAttrMap_keys_witness :
    (["S", "U"].length = [demoS.attrs, demoU.attrs].length ∧ ["S", "U"].Nodup ∧
      "" ∉ ["S", "U"] ∧
      ∀ attrs ∈ [demoS.attrs, demoU.attrs], (attrs.map (fun d => d.attrName)).Nodup) ∧
    ((∀ a, ((buildAttrMap ["S", "U"] [demoS.attrs, demoU.attrs]).1 ("", a)).isSome = true ↔
        relationsWith a [demoS.attrs, demoU.attrs] = 1) ∧
      (∀ ra ∈ ["S", "U"].zip [demoS.attrs, demoU.attrs], ∀ d ∈ ra.2,
        relationsWith d.attrName [demoS.attrs, demoU.attrs] = 1 →
        (buildAttrMap ["S", "U"] [demoS.attrs, demoU.attrs]).1 ("", d.attrName) = some d) ∧
      (∀ ra ∈ ["S", "U"].zip [demoS.attrs, demoU.attrs], ∀ d ∈ ra.2,
        (buildAttrMap ["S", "U"] [demoS.attrs, demoU.attrs]).1 (ra.1, d.attrName) = some d)) :=
  ⟨⟨rfl, by decide, by decide, by decide⟩,
    buildAttrMap_keys ["S", "U"] [demoS.attrs, demoU.attrs] rfl (by decide) (by decide)
      (by decide)⟩

/-- C7: when the files open, the catalog holds every FROM relation, every
selected attribute resolves, the conditions before `c` are valid and `c` compares
two attributes that resolve to descriptors of different types, `Select` returns
`QL_ATTR_TYPES_MISMATCH`; and `CheckConditionsValid`, the validation of `Delete`
and `Update`, returns `QL_ATTR_TYPES_MISMATCH` under the same conditions on its
map. -/
theorem attr_types_mismatch_reported (pre post : List Condition) (c : Condition)
    (lhsAttr rhsAttr : DataAttrInfo) (hrhs : c.bRhsIsAttr = true)
    (hty : lhsAttr.attrType ≠ rhsAttr.attrType) :
    (∀ (fuel : Nat) (args : SelectArgs) (w : World) (attrInfo : List (List DataAttrInfo)),
      (openFiles args.relations w).1 = RC.OK →
      getAttrInfos w args.relations = Except.ok attrInfo →
      (∀ a ∈ effectiveSelAttrs args.selAttrs,
        selAttrResolves (buildAttrMap args.relations attrInfo).1
          (buildAttrMap args.relations attrInfo).2 a) →
      args.conditions = pre ++ c :: post →
      (∀ c0 ∈ pre, conditionValid (buildAttrMap args.relations attrInfo).1 c0) →
      (buildAttrMap args.relations attrInfo).1 (make_tag c.lhsAttr) = some lhsAttr →
      (buildAttrMap args.relations attrInfo).1 (make_tag c.rhsAttr) = some rhsAttr →
      ∃ res, Select fuel args w = some res ∧ res.rc = RC.QL_ATTR_TYPES_MISMATCH) ∧
    (∀ (relName : String) (attrMap : String → Option DataAttrInfo)
        (retConditions : List QL_Condition),
      (∀ c0 ∈ pre, conditionValidIn relName attrMap c0) →
      checkAttrBelongsToRel c.lhsAttr relName = RC.OK →
      checkAttrBelongsToRel c.rhsAttr relName = RC.OK →
      attrMap c.lhsAttr.attrName = some lhsAttr →
      attrMap c.rhsAttr.attrName = some rhsAttr →
      (CheckConditionsValid relName (pre ++ c :: post) attrMap retConditions).1 =
        RC.QL_ATTR_TYPES_MISMATCH) := by
  constructor
  · intro fuel args w attrInfo hopen hinfo hsel hconds hpre hl hr
    obtain ⟨es, _, hS⟩ := Select_validation fuel args w attrInfo hopen hinfo
    have h1 := checkSelAttrs_ok _ _ _ hsel
    have h2 := checkConditions_mismatch _ pre post c lhsAttr rhsAttr hpre hrhs hl hr hty
    rw [← hconds] at h2
    rw [hS, h1, h2]
    simp
  · intro relName attrMap ret hpre hbl hbr hl hr
    exact CheckConditionsValid_mismatch relName attrMap pre post c lhsAttr rhsAttr ret hpre
      hbl hbr hrhs hl hr hty

/-- C7, on the small database: `SELECT * FROM S, T WHERE S.id = T.score` and the
validation of `sid = score` for a `Delete` on `T`. -/
theorem attr_types_mismatch_reported_witness :
    (∃ res, Select 5 demoMismatch demoWorld = some res ∧
      res.rc = RC.QL_ATTR_TYPES_MISMATCH) ∧
    (CheckConditionsValid "T"
      ([] ++ { lhsAttr := { relName := none, attrName := "sid" }, op := CompOp.EQ_OP,
               bRhsIsAttr := true, rhsAttr := { relName := some "T", attrName := "score" },
               rhsValue := default } :: []) demoTMap []).1 = RC.QL_ATTR_TYPES_MISMATCH :=
  ⟨(attr_types_mismatch_reported [] []
      { lhsAttr := { relName := some "S", attrName := "id" }, op := CompOp.EQ_OP,
        bRhsIsAttr := true, rhsAttr := { relName := some "T", attrName := "score" },
        rhsValue := default } demoSId demoTScore rfl (by decide)).1 5 demoMismatch demoWorld
      [demoS.attrs, demoT.attrs] (by decide) rfl (by intro a ha; cases ha) rfl
      (by intro c0 h0; cases h0) (by decide) (by decide),
   (attr_types_mismatch_reported [] []
      { lhsAttr := { relName := none, attrName := "sid" }, op := CompOp.EQ_OP,
        bRhsIsAttr := true, rhsAttr := { relName := some "T", attrName := "score" },
        rhsValue := default } demoTSid demoTScore rfl (by decide)).2 "T" demoTMap []
      (by intro c0 h0; cases h0) (by decide) (by decide) (by decide) (by decide)⟩

/-- C10: the failing input.  In `SELECT * FROM S, U` every attribute resolves, no
record-manager call fails, `S` has two records and `U` none: the first
`GetNextRec` on the scan of `U` (line 195) yields `RM_EOF`, `TRY` returns it, and
`Select` returns `RM_EOF`. -/
theorem Select_empty_inner_returns_eof :
    demoWorld.faults = [] ∧
    fromRecords demoWorld demoEmptyInner.relations = [demoS.records, []] ∧
    ∀ fuel, (Select (fuel + 1) demoEmptyInner demoWorld).map (fun r => r.rc) =
      some RC.RM_EOF := by
  refine ⟨rfl, by decide, fun fuel => ?_⟩
  rfl


/-! ## The projection loop: theorems -/

theorem memcpy_length (dst : List Nat) (o : Nat) (src : List Nat) (n : Nat) :
    (memcpy dst o src n).length = dst.length := by
  simp [memcpy]

theorem memcpy_getD (dst : List Nat) (o : Nat) (src : List Nat) (n j : Nat)
    (hj : j < dst.length) :
    (memcpy dst o src n).getD j 0 =
      if o ≤ j ∧ j < o + n then src.getD (j - o) 0 else dst.getD j 0 := by
  simp [memcpy, List.getD_eq_getElem?_getD, List.getElem?_map, List.getElem?_range hj]

theorem setBool_length (l : List Bool) (k : Int) (v : Bool) :
    (setBool l k v).length = l.length := by
  simp [setBool]

theorem setBool_getD (l : List Bool) (k : Int) (v : Bool) (j : Nat) (hj : j < l.length) :
    (setBool l k v).getD j false = if j = k.toNat then v else l.getD j false := by
  simp only [setBool, List.getD_eq_getElem?_getD, List.getElem?_set]
  by_cases h : k.toNat = j
  · subst h
    simp [hj]
  · have h2 : ¬ j = k.toNat := fun e => h e.symm
    simp [h, h2]

theorem materializeRow_length (ps : List Projection) (d : Nat → List Nat)
    (i : Nat → List Bool) (b : List Nat × List Bool) :
    (materializeRow ps d i b).1.length = b.1.length ∧
    (materializeRow ps d i b).2.length = b.2.length := by
  induction ps generalizing b with
  | nil => exact ⟨rfl, rfl⟩
  | cons p rest ih =>
    have h := ih (materializeOne d i b p)
    simp only [materializeRow, List.foldl_cons] at h ⊢
    rw [h.1, h.2]
    constructor
    · simp [materializeOne, memcpy_length]
    · simp only [materializeOne]
      split
      · exact setBool_length _ _ _
      · rfl

theorem materializeRow_getD (ps : List Projection) (d : Nat → List Nat)
    (i : Nat → List Bool) (b : List Nat × List Bool) :
    (∀ j, j < b.1.length →
      (materializeRow ps d i b).1.getD j 0 = projByte d j ps (b.1.getD j 0)) ∧
    (∀ j, j < b.2.length →
      (materializeRow ps d i b).2.getD j false = projBit i j ps (b.2.getD j false)) := by
  induction ps generalizing b with
  | nil => exact ⟨fun _ _ => rfl, fun _ _ => rfl⟩
  | cons p rest ih =>
    have h := ih (materializeOne d i b p)
    simp only [materializeRow, List.foldl_cons] at h ⊢
    constructor
    · intro j hj
      rw [h.1 j (by simpa [materializeOne, memcpy_length] using hj)]
      simp only [projByte, materializeOne]
      rw [memcpy_getD _ _ _ _ _ hj]
    · intro j hj
      have hlen : (materializeOne d i b p).2.length = b.2.length := by
        simp only [materializeOne]
        split
        · exact setBool_length _ _ _
        · rfl
      rw [h.2 j (by rw [hlen]; exact hj)]
      simp only [projBit, materializeOne]
      by_cases hn : isNullable p.projection = true
      · simp only [hn, if_true, true_and]
        rw [setBool_getD _ _ _ _ hj]
      · simp [hn]

theorem projByte_idem (d d0 : Nat → List Nat) (j : Nat) (ps : List Projection) (x : Nat) :
    projByte d j ps (projByte d0 j ps x) = projByte d j ps x := by
  induction ps generalizing x with
  | nil => rfl
  | cons p rest ih =>
    simp only [projByte]
    by_cases hc : p.finalHeader.offset ≤ j ∧ j < p.finalHeader.offset + p.projection.attrSize
    · simp only [hc, and_self, if_true]
    · simp only [hc, if_false]
      exact ih x

theorem projBit_idem (i i0 : Nat → List Bool) (j : Nat) (ps : List Projection) (x : Bool) :
    projBit i j ps (projBit i0 j ps x) = projBit i j ps x := by
  induction ps generalizing x with
  | nil => rfl
  | cons p rest ih =>
    simp only [projBit]
    by_cases hc : isNullable p.projection = true ∧ j = p.finalHeader.nullableIndex.toNat
    · simp only [hc, and_self, if_true]
    · simp only [hc, if_false]
      exact ih x

theorem list_ext_getD {α : Type} (a b : List α) (x : α) (hlen : a.length = b.length)
    (h : ∀ j, j < a.length → a.getD j x = b.getD j x) : a = b := by
  apply List.ext_getElem hlen
  intro j h1 h2
  have := h j h1
  simpa [List.getD_eq_getElem?_getD, List.getElem?_eq_getElem h1,
    List.getElem?_eq_getElem h2] using this

/-- The projection loop overwrites everything an earlier run of it wrote: running
it on the buffers an earlier run left gives what it gives on the buffers that run
started from. -/
theorem materializeRow_idem (ps : List Projection) (d d0 : Nat → List Nat)
    (i i0 : Nat → List Bool) (b : List Nat × List Bool) :
    materializeRow ps d i (materializeRow ps d0 i0 b) = materializeRow ps d i b := by
  have hl0 := materializeRow_length ps d0 i0 b
  have hl1 := materializeRow_length ps d i (materializeRow ps d0 i0 b)
  have hl2 := materializeRow_length ps d i b
  have hg0 := materializeRow_getD ps d0 i0 b
  have hg1 := materializeRow_getD ps d i (materializeRow ps d0 i0 b)
  have hg2 := materializeRow_getD ps d i b
  apply Prod.ext
  · apply list_ext_getD _ _ 0 (by rw [hl1.1, hl0.1, hl2.1])
    intro j hj
    have hjb : j < b.1.length := by rw [hl1.1, hl0.1] at hj; exact hj
    rw [hg1.1 j (by rw [hl0.1]; exact hjb), hg0.1 j hjb, hg2.1 j hjb, projByte_idem]
  · apply list_ext_getD _ _ false (by rw [hl1.2, hl0.2, hl2.2])
    intro j hj
    have hjb : j < b.2.length := by rw [hl1.2, hl0.2] at hj; exact hj
    rw [hg1.2 j (by rw [hl0.2]; exact hjb), hg0.2 j hjb, hg2.2 j hjb, projBit_idem]


/-! ## The nested loop: theorems -/

theorem rmCall_ok (w : World) (h : w.faults = []) : rmCall w = (RC.OK, w) := by
  simp [rmCall, h]

theorem GetNextRec_cons (i : Nat) (w : World) (r : RM_Record) (rest : List RM_Record)
    (hf : w.faults = []) (hs : w.scans i = some (r :: rest)) :
    GetNextRec i w = (RC.OK, r, { w with scans := setAt w.scans i (some rest) }) := by
  simp [GetNextRec, rmCall_ok w hf, hs]

theorem GetNextRec_nil (i : Nat) (w : World) (hf : w.faults = []) (hs : w.scans i = some []) :
    GetNextRec i w = (RC.RM_EOF, default, w) := by
  simp [GetNextRec, rmCall_ok w hf, hs]

theorem CloseScan_ok (i : Nat) (w : World) (l : List RM_Record) (hf : w.faults = [])
    (hs : w.scans i = some l) :
    CloseScan i w = (RC.OK, { w with scans := setAt w.scans i none }) := by
  simp [CloseScan, rmCall_ok w hf, hs]

theorem OpenScan_ok (i : Nat) (fh : Option String) (w : World) (rel : Relation)
    (hf : w.faults = []) (hs : w.scans i = none) (hr : fh.bind w.catalog = some rel) :
    OpenScan i fh w = (RC.OK, { w with scans := setAt w.scans i (some rel.records) }) := by
  simp [OpenScan, rmCall_ok w hf, hs, hr]

theorem fetchData_ok (s : SelState) (hf : s.w.faults = []) :
    fetchData s = Ctl.next
      { s with data := setAt s.data s.ptr.toNat (s.records s.ptr.toNat).data,
               isnull := setAt s.isnull s.ptr.toNat (s.records s.ptr.toNat).isnull } := by
  simp [fetchData, GetData, GetIsnull, rmCall_ok s.w hf]

theorem advanceScan_done (fuel : Nat) (s : SelState) (h : s.ptr < 0) :
    advanceScan fuel s = Ctl.next s := by
  unfold advanceScan
  rw [if_neg (by omega)]

theorem advanceScan_hit (fuel : Nat) (s : SelState) (r : RM_Record) (rest : List RM_Record)
    (hp : 0 ≤ s.ptr) (hf : s.w.faults = []) (hs : s.w.scans s.ptr.toNat = some (r :: rest)) :
    advanceScan (fuel + 1) s = Ctl.next
      { s with records := setAt s.records s.ptr.toNat r,
               w := { s.w with scans := setAt s.w.scans s.ptr.toNat (some rest) } } := by
  unfold advanceScan
  rw [if_pos hp]
  simp [GetNextRec_cons _ _ r rest hf hs]

theorem advanceScan_eof (fuel : Nat) (s : SelState)
    (hp : 0 ≤ s.ptr) (hf : s.w.faults = []) (hs : s.w.scans s.ptr.toNat = some []) :
    advanceScan (fuel + 1) s = advanceScan fuel
      { s with ptr := s.ptr - 1,
               w := { s.w with scans := setAt s.w.scans s.ptr.toNat none } } := by
  conv => lhs; unfold advanceScan
  rw [if_pos hp]
  simp [GetNextRec_nil _ _ hf hs, CloseScan_ok _ _ [] hf hs]

theorem futureFrom_congr (Ls : List (List RM_Record)) (curs curs1 : Nat → RM_Record)
    (rems rems1 : Nat → List RM_Record) (k : Nat)
    (hc : ∀ i, i < k → curs1 i = curs i) (hr : ∀ i, i < k → rems1 i = rems i) :
    futureFrom Ls curs1 rems1 k = futureFrom Ls curs rems k := by
  induction k with
  | zero => rfl
  | succ q ih =>
    simp only [futureFrom]
    rw [ih (fun i hi => hc i (by omega)) (fun i hi => hr i (by omega)), hr q (by omega)]
    congr 2
    apply List.map_congr_left
    intro i hi
    have hiq : i < q := by simpa using hi
    exact hc i (by omega)

theorem SameOutput.refl (s : SelState) : SameOutput s s :=
  ⟨rfl, rfl, rfl, rfl, rfl, rfl⟩

theorem SameOutput.trans {s s1 s2 : SelState} (h1 : SameOutput s s1) (h2 : SameOutput s1 s2) :
    SameOutput s s2 :=
  ⟨h2.cnt.trans h1.cnt, h2.out.trans h1.out, h2.files.trans h1.files,
    h2.printer.trans h1.printer, h2.buf.trans h1.buf, h2.nulls.trans h1.nulls⟩

theorem range_succ_map_setAt (f : Nat → RM_Record) (k : Nat) (r : RM_Record) :
    (List.range (k + 1)).map (setAt f k r) = (List.range k).map f ++ [r] := by
  rw [List.range_succ, List.map_append]
  congr 1
  · apply List.map_congr_left
    intro i hi
    have : i < k := by simpa using hi
    simp [setAt, Nat.ne_of_lt this]
  · simp [setAt]

/-- The advance step (lines 182-191) from a state with `k` open scans: either every
open scan is exhausted, all scans get closed and nothing is left to visit, or the
innermost scan `q` that has a record left yields it. -/
theorem advance_spec (cat : String → Option Relation) (Ls : List (List RM_Record)) :
    ∀ (k : Nat) (s : SelState), LoopInv cat Ls s k →
      (∃ s1, advanceScan k s = Ctl.next s1 ∧ s1.ptr < 0 ∧ pending Ls s k = [] ∧
        SameOutput s s1 ∧ LoopInv cat Ls s1 0) ∨
      (∃ s1 s2 q, q < k ∧ advanceScan k s = Ctl.next s1 ∧ 0 ≤ s1.ptr ∧
        fetchData s1 = Ctl.next s2 ∧ LoopInv cat Ls s2 (q + 1) ∧ SameOutput s s2 ∧
        pending Ls s k =
          (cartesian (Ls.drop (q + 1))).map (fun t => (List.range (q + 1)).map s2.records ++ t)
            ++ pending Ls s2 (q + 1)) := by
  intro k
  induction k with
  | zero =>
    intro s inv
    left
    have hp : s.ptr < 0 := by have := inv.ptr_eq; omega
    exact ⟨s, advanceScan_done 0 s hp, hp, rfl, SameOutput.refl s, inv⟩
  | succ k ih =>
    intro s inv
    have hp : s.ptr = (k : Int) := by have := inv.ptr_eq; omega
    have hpn : s.ptr.toNat = k := by omega
    obtain ⟨rem, hrem⟩ := inv.opened k (by omega)
    cases rem with
    | nil =>
      have hstep := advanceScan_eof k s (by omega) inv.faults (by rw [hpn]; exact hrem)
      rw [hpn] at hstep
      have inv1 : LoopInv cat Ls
          { s with ptr := s.ptr - 1, w := { s.w with scans := setAt s.w.scans k none } } k := by
        refine ⟨by simp [hp], by have := inv.k_le; omega, inv.faults, inv.catalog, ?_, ?_,
          inv.data_eq, inv.isnull_eq, inv.rec_default⟩
        · intro i hi
          by_cases hik : i = k
          · simp [setAt, hik]
          · simp only [setAt, hik, if_false]
            exact inv.closed i (by omega)
        · intro i hi
          have hik : i ≠ k := by omega
          simp only [setAt, hik, if_false]
          exact inv.opened i (by omega)
      have hpend : pending Ls s (k + 1) = pending Ls
          { s with ptr := s.ptr - 1, w := { s.w with scans := setAt s.w.scans k none } } k := by
        simp only [pending, futureFrom]
        have h0 : scanRem s.w k = [] := by simp [scanRem, hrem]
        rw [h0]
        simp only [expandLevel, List.flatMap_nil, List.nil_append]
        apply (futureFrom_congr _ _ _ _ _ _ (fun _ _ => rfl) _).symm
        intro i hi
        have hik : i ≠ k := by omega
        simp [scanRem, setAt, hik]
      rcases ih _ inv1 with ⟨s1, h1, h2, h3, h4, h5⟩ | ⟨s1, s2, q, hq, h1, h2, h3, h4, h5, h6⟩
      · left
        exact ⟨s1, by rw [hstep]; exact h1, h2, by rw [hpend]; exact h3,
          ⟨h4.cnt, h4.out, h4.files, h4.printer, h4.buf, h4.nulls⟩, h5⟩
      · right
        exact ⟨s1, s2, q, by omega, by rw [hstep]; exact h1, h2, h3, h4,
          ⟨h5.cnt, h5.out, h5.files, h5.printer, h5.buf, h5.nulls⟩, by rw [hpend]; exact h6⟩
    | cons r rest =>
      right
      have hstep := advanceScan_hit k s r rest (by omega) inv.faults (by rw [hpn]; exact hrem)
      rw [hpn] at hstep
      have hfetch := fetchData_ok
        { s with records := setAt s.records k r,
                 w := { s.w with scans := setAt s.w.scans k (some rest) } } inv.faults
      simp only [hpn] at hfetch
      refine ⟨_, _, k, by omega, hstep, by simp [hp], hfetch, ?_, ?_, ?_⟩
      · refine ⟨by simp [hp], inv.k_le, inv.faults, inv.catalog, ?_, ?_, ?_, ?_, ?_⟩
        · intro i hi
          have hik : i ≠ k := by omega
          simp only [setAt, hik, if_false]
          exact inv.closed i hi
        · intro i hi
          by_cases hik : i = k
          · exact ⟨rest, by simp [setAt, hik]⟩
          · simp only [setAt, hik, if_false]
            exact inv.opened i hi
        · intro i
          by_cases hik : i = k
          · simp [setAt, hik]
          · simp only [setAt, hik, if_false]
            exact inv.data_eq i
        · intro i
          by_cases hik : i = k
          · simp [setAt, hik]
          · simp only [setAt, hik, if_false]
            exact inv.isnull_eq i
        · intro i hi
          have hik : i ≠ k := by have := inv.k_le; omega
          simp only [setAt, hik, if_false]
          exact inv.rec_default i hi
      · exact ⟨rfl, rfl, rfl, rfl, rfl, rfl⟩
      · simp only [pending, futureFrom]
        have h0 : scanRem s.w k = r :: rest := by simp [scanRem, hrem]
        have h1 : scanRem { s.w with scans := setAt s.w.scans k (some rest) } k = rest := by
          simp [scanRem, setAt]
        rw [h0, h1, range_succ_map_setAt]
        have h2 : (List.range k).map (setAt s.records k r) = (List.range k).map s.records := by
          apply List.map_congr_left
          intro i hi
          have : i < k := by simpa using hi
          simp [setAt, Nat.ne_of_lt this]
        rw [h2]
        have h3 : futureFrom Ls (setAt s.records k r)
            (scanRem { s.w with scans := setAt s.w.scans k (some rest) }) k =
            futureFrom Ls s.records (scanRem s.w) k := by
          apply futureFrom_congr
          · intro i hi
            simp [setAt, Nat.ne_of_lt hi]
          · intro i hi
            simp [scanRem, setAt, Nat.ne_of_lt hi]
        rw [h3]
        simp [expandLevel, List.flatMap_cons]

theorem drop_eq_getD_cons (Ls : List (List RM_Record)) (k : Nat) (hk : k < Ls.length) :
    Ls.drop k = Ls.getD k [] :: Ls.drop (k + 1) := by
  rw [List.drop_eq_getElem_cons hk, List.getD_eq_getElem _ _ hk]

/-- The descent (lines 192-198) from a state with `k` open scans: when every
deeper relation has a record, all scans end up open on their first record and the
loop stands on the next combination; when a deeper relation is empty, its first
`GetNextRec` makes `Select` return `RM_EOF`. -/
theorem descend_spec (plan : SelectPlan) (cat : String → Option Relation)
    (Ls : List (List RM_Record)) (hplan : PlanReads plan cat Ls) :
    ∀ (m k : Nat) (s : SelState) (fuel : Nat), LoopInv cat Ls s k → k + m = Ls.length →
      m ≤ fuel →
      ((∀ L ∈ Ls.drop k, L ≠ []) →
        ∃ s3, descendScans plan fuel s = Ctl.next s3 ∧ LoopInv cat Ls s3 Ls.length ∧
          SameOutput s s3 ∧
          (cartesian (Ls.drop k)).map (fun t => (List.range k).map s.records ++ t) ++
              pending Ls s k =
            (List.range Ls.length).map s3.records :: pending Ls s3 Ls.length) ∧
      ((∃ L ∈ Ls.drop k, L = []) → ∃ s3, descendScans plan fuel s = Ctl.ret RC.RM_EOF s3) := by
  intro m
  induction m with
  | zero =>
    intro k s fuel inv hk _
    have hkn : k = Ls.length := by omega
    have hcond : ¬ (s.ptr + 1 < (plan.nRelations : Int)) := by
      have := inv.ptr_eq
      rw [hplan.1]
      omega
    have hd : descendScans plan fuel s = Ctl.next s := by
      unfold descendScans
      rw [if_neg hcond]
    constructor
    · intro _
      refine ⟨s, hd, hkn ▸ inv, SameOutput.refl s, ?_⟩
      subst hkn
      simp [cartesian]
    · rintro ⟨L, hL, _⟩
      rw [hkn] at hL
      simp at hL
  | succ m ih =>
    intro k s fuel inv hk hfuel
    have hkn : k < Ls.length := by omega
    obtain ⟨f, rfl⟩ : ∃ f, fuel = f + 1 := ⟨fuel - 1, by omega⟩
    have hp1 : s.ptr + 1 = (k : Int) := by have := inv.ptr_eq; omega
    have hcond : s.ptr + 1 < (plan.nRelations : Int) := by
      rw [hplan.1]
      omega
    have hpn : (s.ptr + 1).toNat = k := by omega
    obtain ⟨rel, hrel, hrecs⟩ := hplan.2 k hkn
    rw [← inv.catalog] at hrel
    have hopen := OpenScan_ok k (plan.fileHandles k) s.w rel inv.faults (inv.closed k (le_refl k))
      hrel
    have hdrop := drop_eq_getD_cons Ls k hkn
    rw [← hrecs] at hdrop
    cases hrr : rel.records with
    | nil =>
      have hnext := GetNextRec_nil k { s.w with scans := setAt s.w.scans k (some rel.records) }
        inv.faults (by simp [setAt, hrr])
      have hd : ∃ s3, descendScans plan (f + 1) s = Ctl.ret RC.RM_EOF s3 := by
        unfold descendScans
        rw [if_pos hcond]
        simp only [hpn, hopen, hnext]
        simp
      constructor
      · intro hall
        exact absurd hrr (hall rel.records (by rw [hdrop]; exact List.mem_cons_self _ _))
      · intro _
        exact hd
    | cons h tl =>
      have hnext := GetNextRec_cons k { s.w with scans := setAt s.w.scans k (some rel.records) }
        h tl inv.faults (by simp [setAt, hrr])
      have hfetch := fetchData_ok
        { s with ptr := s.ptr + 1, records := setAt s.records k h,
                 w := { s.w with
                        scans := setAt (setAt s.w.scans k (some rel.records)) k (some tl) } }
        inv.faults
      simp only [hpn] at hfetch
      have hd : descendScans plan (f + 1) s = descendScans plan f
          { s with ptr := s.ptr + 1, records := setAt s.records k h,
                   data := setAt s.data k h.data, isnull := setAt s.isnull k h.isnull,
                   w := { s.w with
                          scans := setAt (setAt s.w.scans k (some rel.records)) k (some tl) } } := by
        conv => lhs; unfold descendScans
        rw [if_pos hcond]
        simp only [hpn, hopen, hnext]
        simp [hfetch, setAt]
      have inv1 : LoopInv cat Ls
          { s with ptr := s.ptr + 1, records := setAt s.records k h,
                   data := setAt s.data k h.data, isnull := setAt s.isnull k h.isnull,
                   w := { s.w with
                          scans := setAt (setAt s.w.scans k (some rel.records)) k (some tl) } } (k + 1) := by
        refine ⟨by simp [hp1], by omega, inv.faults, inv.catalog, ?_, ?_, ?_, ?_, ?_⟩
        · intro i hi
          have hik : i ≠ k := by omega
          simp only [setAt, hik, if_false]
          exact inv.closed i (by omega)
        · intro i hi
          by_cases hik : i = k
          · exact ⟨tl, by simp [setAt, hik]⟩
          · simp only [setAt, hik, if_false]
            exact inv.opened i (by omega)
        · intro i
          by_cases hik : i = k
          · simp [setAt, hik]
          · simp only [setAt, hik, if_false]
            exact inv.data_eq i
        · intro i
          by_cases hik : i = k
          · simp [setAt, hik]
          · simp only [setAt, hik, if_false]
            exact inv.isnull_eq i
        · intro i hi
          have hik : i ≠ k := by omega
          simp only [setAt, hik, if_false]
          exact inv.rec_default i hi
      obtain ⟨ih1, ih2⟩ := ih (k + 1) _ f inv1 (by omega) (by omega)
      rw [hd]
      constructor
      · intro hall
        obtain ⟨s3, h1, h2, h3, h4⟩ := ih1 (fun L hL => hall L (by
          rw [hdrop]; exact List.mem_cons_of_mem _ hL))
        refine ⟨s3, h1, h2, ⟨h3.cnt, h3.out, h3.files, h3.printer, h3.buf, h3.nulls⟩, ?_⟩
        rw [← h4]
        simp only [pending, futureFrom, range_succ_map_setAt]
        have hs1 : scanRem
            { s.w with scans := setAt (setAt s.w.scans k (some rel.records)) k (some tl) } k =
            tl := by
          simp [scanRem, setAt]
        have hs2 : (List.range k).map (setAt s.records k h) = (List.range k).map s.records := by
          apply List.map_congr_left
          intro i hi
          have : i < k := by simpa using hi
          simp [setAt, Nat.ne_of_lt this]
        have hs3 : futureFrom Ls (setAt s.records k h)
            (scanRem
              { s.w with scans := setAt (setAt s.w.scans k (some rel.records)) k (some tl) }) k =
            futureFrom Ls s.records (scanRem s.w) k := by
          apply futureFrom_congr
          · intro i hi
            simp [setAt, Nat.ne_of_lt hi]
          · intro i hi
            simp [scanRem, setAt, Nat.ne_of_lt hi]
        rw [hs1, hs2, hs3, hdrop, hrr]
        simp [cartesian, expandLevel, List.flatMap_cons, List.map_flatMap, Function.comp_def]
      · rintro ⟨L, hL, hLe⟩
        rw [hdrop, hrr] at hL
        rcases List.mem_cons.mp hL with e | e
        · rw [e] at hLe
          cases hLe
        · exact ih2 ⟨L, e, hLe⟩


theorem printedRows_append (a b : List Output) :
    printedRows (a ++ b) = printedRows a ++ printedRows b := by
  induction a with
  | nil => rfl
  | cons x rest ih =>
    cases x <;> simp [printedRows, ih]

theorem wrapInt32_of_range (x : Int) (h0 : -2147483648 ≤ x) (h1 : x < 2147483648) :
    wrapInt32 x = x := by
  unfold wrapInt32
  omega

theorem tdiv_hundred_ne_zero (x : Int) (h : 100 ≤ x.natAbs) : x.tdiv 100 ≠ 0 := by
  intro h0
  have h1 := congrArg Int.natAbs h0
  rw [Int.natAbs_tdiv] at h1
  have h2 : x.natAbs / 100 = 0 := h1
  omega

theorem progressDue_isSome (cnt T : Int) (h1 : 1 ≤ T) (hT : T < 2147483648) :
    ∃ b, progressDue cnt T = some b := by
  unfold progressDue
  have hne : (wrapInt32 (T + 99)).tdiv 100 ≠ 0 := by
    apply tdiv_hundred_ne_zero
    unfold wrapInt32
    omega
  rw [if_neg hne]
  exact ⟨_, rfl⟩

theorem range_map_getD (f : Nat → RM_Record) (n i : Nat) :
    ((List.range n).map f).getD i default = if i < n then f i else default := by
  by_cases h : i < n
  · simp [List.getD_eq_getElem?_getD, h]
  · have hn : (List.range n)[i]? = none := by
      apply List.getElem?_eq_none
      simp
      omega
    simp [List.getD_eq_getElem?_getD, h, hn]

theorem evalCondition_isSome (d : Nat → List Nat) (i : Nat → List Bool) (c : CompiledCond) :
    ∃ b, evalCondition d i c = some b := by
  unfold evalCondition
  split <;> exact checkSatisfy_isSome _ _ _ _ _

theorem evalConditions_eq (d : Nat → List Nat) (i : Nat → List Bool)
    (conds : List CompiledCond) :
    evalConditions d i conds =
      some (conds.all (fun c => evalCondition d i c == some true)) := by
  induction conds with
  | nil => rfl
  | cons c rest ih =>
    obtain ⟨b, hb⟩ := evalCondition_isSome d i c
    cases b <;> simp [evalConditions, hb, ih]

theorem tuple_of_state (cat : String → Option Relation) (Ls : List (List RM_Record))
    (s : SelState) (k : Nat) (inv : LoopInv cat Ls s k) :
    tupleData ((List.range Ls.length).map s.records) = s.data ∧
    tupleIsnull ((List.range Ls.length).map s.records) = s.isnull := by
  constructor
  · funext i
    simp only [tupleData, range_map_getD]
    by_cases h : i < Ls.length
    · simp [h, inv.data_eq i]
    · simp [h, inv.data_eq i, inv.rec_default i (by omega)]
  · funext i
    simp only [tupleIsnull, range_map_getD]
    by_cases h : i < Ls.length
    · simp [h, inv.isnull_eq i]
    · simp [h, inv.isnull_eq i, inv.rec_default i (by omega)]

theorem printProgress_ok (cnt T : Int) (w : World) (hT : T ≠ 0) :
    ∃ w1, printProgress cnt T w = some w1 ∧ printedRows w1.out = printedRows w.out ∧
      w1.faults = w.faults ∧ w1.catalog = w.catalog ∧ w1.scans = w.scans ∧
      w1.files = w.files := by
  unfold printProgress
  rw [if_neg hT]
  exact ⟨_, rfl, by simp [printedRows_append, printedRows], rfl, rfl, rfl, rfl⟩

/-- The visit of the combination the scans stand on (lines 199-232): it is counted,
and it is printed, projected as onto fresh buffers, exactly when every condition
holds on it. -/
theorem visitTuple_spec (plan : SelectPlan) (cat : String → Option Relation)
    (Ls : List (List RM_Record)) (s : SelState) (inv : LoopInv cat Ls s Ls.length)
    (hbuf : BufInv plan s) (h1 : 1 ≤ plan.sumRecords) (hT : plan.sumRecords < 2147483648)
    (hc0 : 0 ≤ s.cnt) (hc1 : s.cnt + 1 ≤ plan.sumRecords) :
    ∃ s4, visitTuple plan s = Ctl.next s4 ∧ s4.cnt = s.cnt + 1 ∧
      printedRows s4.w.out = printedRows s.w.out ++
        (if satisfiesAll plan.conds ((List.range Ls.length).map s.records) = true then
          [projectTuple plan ((List.range Ls.length).map s.records)] else []) ∧
      s4.printer.iCount = s.printer.iCount +
        (if satisfiesAll plan.conds ((List.range Ls.length).map s.records) = true then 1
         else 0) ∧
      s4.records = s.records ∧ s4.w.scans = s.w.scans ∧ s4.w.files = s.w.files ∧
      LoopInv cat Ls s4 Ls.length ∧ BufInv plan s4 := by
  obtain ⟨hd, hi⟩ := tuple_of_state cat Ls s Ls.length inv
  have hcnt : wrapInt32 (s.cnt + 1) = s.cnt + 1 := wrapInt32_of_range _ (by omega) (by omega)
  obtain ⟨due, hdue⟩ := progressDue_isSome (s.cnt + 1) plan.sumRecords h1 hT
  have hT0 : plan.sumRecords ≠ 0 := by omega
  have hw1 : ∃ w1, (if due = true then printProgress (s.cnt + 1) plan.sumRecords s.w
      else some s.w) = some w1 ∧ printedRows w1.out = printedRows s.w.out ∧
      w1.faults = s.w.faults ∧ w1.catalog = s.w.catalog ∧ w1.scans = s.w.scans ∧
      w1.files = s.w.files := by
    cases due
    · exact ⟨s.w, by simp, rfl, rfl, rfl, rfl, rfl⟩
    · simpa using printProgress_ok (s.cnt + 1) plan.sumRecords s.w hT0
  obtain ⟨w1, hw1e, hw1o, hw1f, hw1c, hw1s, hw1l⟩ := hw1
  have hev := evalConditions_eq s.data s.isnull plan.conds
  have hsat : satisfiesAll plan.conds ((List.range Ls.length).map s.records) =
      plan.conds.all (fun c => evalCondition s.data s.isnull c == some true) := by
    simp only [satisfiesAll, hd, hi]
  unfold visitTuple
  simp only [hcnt, hdue, hw1e, hev]
  rw [← hsat]
  cases hs : satisfiesAll plan.conds ((List.range Ls.length).map s.records) with
  | false =>
    simp only [Bool.false_eq_true, if_false]
    refine ⟨_, rfl, rfl, by simp [hw1o], by simp, rfl, hw1s, hw1l, ?_, ?_⟩
    · exact ⟨inv.ptr_eq, inv.k_le, hw1f.trans inv.faults, hw1c.trans inv.catalog,
        fun i hi => by rw [hw1s]; exact inv.closed i hi,
        fun i hi => by rw [hw1s]; exact inv.opened i hi,
        inv.data_eq, inv.isnull_eq, inv.rec_default⟩
    · exact hbuf
  | true =>
    obtain ⟨w2, hw2e, hw2o, hw2f, hw2c, hw2s, hw2l⟩ := printProgress_ok (s.cnt + 1)
      plan.sumRecords (s.printer.Print
        (materializeRow plan.projs s.data s.isnull
          (s.finalRecordData, s.finalRecordIsnull)).1
        (materializeRow plan.projs s.data s.isnull
          (s.finalRecordData, s.finalRecordIsnull)).2 w1).2 hT0
    simp only [if_true, hw2e]
    refine ⟨_, rfl, rfl, ?_, by simp [Printer.Print], rfl, ?_, ?_, ?_, ?_⟩
    · simp only [hw2o, Printer.Print, printedRows_append, hw1o, printedRows]
      rw [hbuf s.data s.isnull]
      simp [projectTuple, hd, hi]
    · simp only [hw2s, Printer.Print, hw1s]
    · simp only [hw2l, Printer.Print, hw1l]
    · exact ⟨inv.ptr_eq, inv.k_le, by simp only [hw2f, Printer.Print, hw1f, inv.faults],
        by simp only [hw2c, Printer.Print, hw1c, inv.catalog],
        fun i hi => by simp only [hw2s, Printer.Print, hw1s]; exact inv.closed i hi,
        fun i hi => by simp only [hw2s, Printer.Print, hw1s]; exact inv.opened i hi,
        inv.data_eq, inv.isnull_eq, inv.rec_default⟩
    · intro d i
      simp only [Prod.mk.eta]
      rw [materializeRow_idem]
      exact hbuf d i

theorem pending_congr (Ls : List (List RM_Record)) (s s1 : SelState) (k : Nat)
    (hr : s1.records = s.records) (hs : s1.w.scans = s.w.scans) :
    pending Ls s1 k = pending Ls s k := by
  unfold pending
  rw [hr]
  apply futureFrom_congr
  · intro _ _
    rfl
  · intro i _
    simp [scanRem, hs]

/-- The nested loop (lines 180-233) when every relation has a record: started with
`k` scans open and `m` combinations pending, it runs out of fuel when `fuel ≤ m`,
and otherwise ends at the `break` with every scan closed, having counted every
pending combination and printed, in order, the projection of those that satisfy
all conditions. -/
theorem selectLoop_spec (plan : SelectPlan) (cat : String → Option Relation)
    (Ls : List (List RM_Record)) (hplan : PlanReads plan cat Ls)
    (hne : ∀ L ∈ Ls, L ≠ []) (h1 : 1 ≤ plan.sumRecords)
    (hT : plan.sumRecords < 2147483648) :
    ∀ (m k : Nat) (s : SelState) (fuel : Nat), LoopInv cat Ls s k → BufInv plan s →
      (pending Ls s k).length = m → s.cnt + m = plan.sumRecords → 0 ≤ s.cnt →
      (fuel ≤ m ∧ selectLoop plan fuel s = Ctl.outOfFuel) ∨
      (m < fuel ∧ ∃ s1, selectLoop plan fuel s = Ctl.next s1 ∧ LoopDone plan cat Ls s k s1) := by
  intro m
  induction m with
  | zero =>
    intro k s fuel inv _ hlen hcnt _
    cases fuel with
    | zero => exact Or.inl ⟨le_refl 0, rfl⟩
    | succ f =>
      right
      refine ⟨by omega, ?_⟩
      have hk : (s.ptr + 1).toNat = k := by have := inv.ptr_eq; omega
      have hp0 : pending Ls s k = [] := List.length_eq_zero.mp hlen
      rcases advance_spec cat Ls k s inv with
        ⟨s1, a1, a2, _, a4, a5⟩ | ⟨s1, s2, q, hq, a1, a2, a3, a4, a5, a6⟩
      · refine ⟨s1, ?_, ?_, ?_, ?_, a4.files, a5⟩
        · unfold selectLoop
          simp only [hk, a1]
          rw [if_pos a2]
        · simp [hp0, a4.out]
        · simp [hp0, a4.printer]
        · rw [a4.cnt]
          omega
      · exfalso
        obtain ⟨d1, _⟩ := descend_spec plan cat Ls hplan (Ls.length - (q + 1)) (q + 1) s2
          plan.nRelations a4 (by have := a4.k_le; omega) (by rw [hplan.1]; omega)
        obtain ⟨s3, _, _, _, d5⟩ := d1 (fun L hL => hne L (List.mem_of_mem_drop hL))
        rw [hp0, d5] at a6
        cases a6
  | succ m ih =>
    intro k s fuel inv hbuf hlen hcnt hc0
    cases fuel with
    | zero => exact Or.inl ⟨by omega, rfl⟩
    | succ f =>
      have hk : (s.ptr + 1).toNat = k := by have := inv.ptr_eq; omega
      rcases advance_spec cat Ls k s inv with
        ⟨s1, a1, a2, a3, a4, a5⟩ | ⟨s1, s2, q, hq, a1, a2, a3, a4, a5, a6⟩
      · rw [a3] at hlen
        cases hlen
      · obtain ⟨d1, _⟩ := descend_spec plan cat Ls hplan (Ls.length - (q + 1)) (q + 1) s2
          plan.nRelations a4 (by have := a4.k_le; omega) (by rw [hplan.1]; omega)
        obtain ⟨s3, d2, d3, d4, d5⟩ := d1 (fun L hL => hne L (List.mem_of_mem_drop hL))
        rw [d5] at a6
        have hlen3 : (pending Ls s3 Ls.length).length = m := by
          rw [a6] at hlen
          simpa using hlen
        have hbuf3 : BufInv plan s3 := by
          intro d i
          rw [d4.buf, d4.nulls, a5.buf, a5.nulls]
          exact hbuf d i
        have hcnt3 : s3.cnt = s.cnt := d4.cnt.trans a5.cnt
        obtain ⟨s4, v1, v2, v3, v4, v5, v6, v7, v8, v9⟩ :=
          visitTuple_spec plan cat Ls s3 d3 hbuf3 h1 hT (by omega) (by omega)
        have hp4 : pending Ls s4 Ls.length = pending Ls s3 Ls.length :=
          pending_congr Ls s3 s4 Ls.length v5 v6
        have hstep : selectLoop plan (f + 1) s = selectLoop plan f s4 := by
          conv => lhs; unfold selectLoop
          simp only [hk, a1]
          rw [if_neg (by omega)]
          simp only [a3, d2, v1]
        rw [hstep]
        rcases ih Ls.length s4 f v8 v9 (by rw [hp4]; exact hlen3) (by omega) (by omega) with
          ⟨l0, l1⟩ | ⟨l0, s5, l1, l2, l3, l4, l5, l6⟩
        · exact Or.inl ⟨by omega, l1⟩
        · right
          refine ⟨by omega, s5, l1, ?_, ?_, l4, ?_, l6⟩
          · rw [l2, v3, d4.out, a5.out, hp4, a6]
            by_cases hs : satisfiesAll plan.conds ((List.range Ls.length).map s3.records) = true
            · simp [hs, List.filter_cons]
            · simp [hs, List.filter_cons]
          · rw [l3, v4, d4.printer, a5.printer, hp4, a6]
            by_cases hs : satisfiesAll plan.conds ((List.range Ls.length).map s3.records) = true
            · simp [hs, List.filter_cons]
              omega
            · simp [hs, List.filter_cons]
          · rw [l5, v7, d4.files, a5.files]

theorem cartesian_length (Ls : List (List RM_Record)) :
    (cartesian Ls).length = (Ls.map List.length).prod := by
  induction Ls with
  | nil => rfl
  | cons l ls ih =>
    simp only [cartesian, List.map_cons, List.prod_cons, ← ih]
    induction l with
    | nil => simp
    | cons r rs ihr =>
      simp only [List.flatMap_cons, List.length_append, List.length_map, ihr,
        List.length_cons]
      ring

theorem expandLevel_nil_pre (L : List RM_Record) (inner : List (List RM_Record)) :
    expandLevel [] L inner = cartesian (L :: inner) := by
  simp [expandLevel, cartesian]

theorem wrapInt32_mul_wrap (a b : Int) : wrapInt32 (wrapInt32 a * b) = wrapInt32 (a * b) := by
  have h : wrapInt32 a = a + 4294967296 * (- ((a + 2147483648) / 4294967296)) := by
    unfold wrapInt32
    omega
  rw [h]
  unfold wrapInt32
  have e : (a + 4294967296 * -((a + 2147483648) / 4294967296)) * b + 2147483648 =
      (a * b + 2147483648) + 4294967296 * (-((a + 2147483648) / 4294967296) * b) := by
    ring
  rw [e, Int.add_mul_emod_self_left]

theorem wrapInt32_idem (a : Int) : wrapInt32 (wrapInt32 a) = wrapInt32 a := by
  unfold wrapInt32
  omega

theorem foldl_sumRecords (es : List RelCatEntry) (init : Int) :
    wrapInt32 (es.foldl (fun s e => wrapInt32 (s * e.recordCount)) init) =
      wrapInt32 (init * (es.map (fun e => e.recordCount)).prod) := by
  induction es generalizing init with
  | nil => simp
  | cons e rest ih =>
    simp only [List.foldl_cons, List.map_cons, List.prod_cons]
    rw [ih, ← mul_assoc, wrapInt32_mul_wrap]

theorem foldl_sumRecords_wrapped (es : List RelCatEntry) (init : Int)
    (h : wrapInt32 init = init) :
    wrapInt32 (es.foldl (fun s e => wrapInt32 (s * e.recordCount)) init) =
      es.foldl (fun s e => wrapInt32 (s * e.recordCount)) init := by
  induction es generalizing init with
  | nil => exact h
  | cons e rest ih =>
    simp only [List.foldl_cons]
    exact ih _ (wrapInt32_idem _)

/-- `sumRecords` is the product of the record counts when that product fits in a
32-bit `int`. -/
theorem computeSumRecords_eq (es : List RelCatEntry)
    (h0 : 0 ≤ (es.map (fun e => e.recordCount)).prod)
    (h1 : (es.map (fun e => e.recordCount)).prod < 2147483648) :
    computeSumRecords es = (es.map (fun e => e.recordCount)).prod := by
  unfold computeSumRecords
  rw [← foldl_sumRecords_wrapped es 1 (by decide), foldl_sumRecords, one_mul]
  exact wrapInt32_of_range _ (by omega) h1

/-- The state in which `runSelect` enters the nested loop, when the first scan
opens. -/
theorem runSelect_start (plan : SelectPlan) (cat : String → Option Relation)
    (L0 : List RM_Record) (rest : List (List RM_Record))
    (hplan : PlanReads plan cat (L0 :: rest)) (w : World) (hf : w.faults = [])
    (hc : w.catalog = cat) :
    ∃ s0, LoopInv cat (L0 :: rest) s0 1 ∧ BufInv plan s0 ∧
      pending (L0 :: rest) s0 1 = cartesian (L0 :: rest) ∧ s0.cnt = 0 ∧
      s0.w.scans 0 = some L0 ∧ s0.ptr = 0 ∧
      printedRows s0.w.out = printedRows w.out ∧ s0.w.files = w.files ∧
      s0.printer.iCount = 0 ∧
      ∀ fuel, runSelect plan fuel w =
        match selectLoop plan fuel s0 with
        | Ctl.outOfFuel => none
        | Ctl.ret rc s => some { rc := rc, w := s.w, final := none }
        | Ctl.next s =>
          some { rc := if s.cnt = plan.sumRecords then RC.OK else RC.ABORTED,
                 w := s.printer.PrintFooter
                   { s.w with out := s.w.out ++
                     [Output.progress 100 plan.sumRecords plan.sumRecords] },
                 final := some (s.cnt, plan.sumRecords) } := by
  obtain ⟨rel, hrel, hrecs⟩ := hplan.2 0 (by simp)
  rw [← hc] at hrel
  have hopen := OpenScan_ok 0 (plan.fileHandles 0)
    ((Printer.new (plan.projs.map (fun p => p.finalHeader))).PrintHeader
      { w with scans := fun _ => none }) rel hf rfl hrel
  simp only [List.getD_cons_zero] at hrecs
  refine ⟨initialState plan (Printer.new (plan.projs.map (fun p => p.finalHeader)))
    { (Printer.new (plan.projs.map (fun p => p.finalHeader))).PrintHeader
        { w with scans := fun _ => none } with
      scans := setAt (fun _ => none) 0 (some rel.records) }, ?_, ?_, ?_, rfl, ?_, rfl, ?_, rfl,
      rfl, ?_⟩
  · refine ⟨rfl, by simp, hf, hc, ?_, ?_, fun _ => rfl, fun _ => rfl, fun _ _ => rfl⟩
    · intro i hi
      have : i ≠ 0 := by omega
      simp [initialState, setAt, this]
    · intro i hi
      have : i = 0 := by omega
      exact ⟨rel.records, by simp [initialState, setAt, this]⟩
  · intro d i
    rfl
  · simp only [pending, futureFrom, List.range_zero, List.map_nil, List.append_nil]
    have : scanRem (initialState plan (Printer.new (plan.projs.map (fun p => p.finalHeader)))
        { (Printer.new (plan.projs.map (fun p => p.finalHeader))).PrintHeader
            { w with scans := fun _ => none } with
          scans := setAt (fun _ => none) 0 (some rel.records) }).w 0 = L0 := by
      simp [scanRem, initialState, setAt, hrecs]
    rw [this]
    simpa using expandLevel_nil_pre L0 rest
  · simp [initialState, setAt, hrecs]
  · simp [initialState, Printer.PrintHeader, printedRows_append, printedRows]
  · intro fuel
    unfold runSelect
    simp only [hopen]
    rfl

/-- `runSelect` when every relation has a record and `sumRecords` is the number of
combinations: with enough fuel it returns 0 after printing the projections of the
combinations that satisfy all conditions, in lexicographic order. -/
theorem runSelect_nonempty (plan : SelectPlan) (cat : String → Option Relation)
    (L0 : List RM_Record) (rest : List (List RM_Record))
    (hplan : PlanReads plan cat (L0 :: rest)) (w : World) (hf : w.faults = [])
    (hc : w.catalog = cat) (hne : ∀ L ∈ L0 :: rest, L ≠ [])
    (hsum : plan.sumRecords = ((cartesian (L0 :: rest)).length : Int))
    (hT : plan.sumRecords < 2147483648) (fuel : Nat) :
    (fuel ≤ (cartesian (L0 :: rest)).length ∧ runSelect plan fuel w = none) ∨
    ((cartesian (L0 :: rest)).length < fuel ∧
      ∃ res, runSelect plan fuel w = some res ∧ res.rc = RC.OK ∧
        res.final = some (plan.sumRecords, plan.sumRecords) ∧
        printedRows res.w.out = printedRows w.out ++
          ((cartesian (L0 :: rest)).filter (satisfiesAll plan.conds)).map (projectTuple plan) ∧
        res.w.files = w.files ∧
        ∃ pre, res.w.out = pre ++ [Output.footer
          (((cartesian (L0 :: rest)).filter (satisfiesAll plan.conds)).length : Int)]) := by
  obtain ⟨s0, inv, hbuf, hpend, hcnt, _, _, hout, hfiles, hic, hrun⟩ :=
    runSelect_start plan cat L0 rest hplan w hf hc
  have hpos : 1 ≤ (cartesian (L0 :: rest)).length := by
    rw [cartesian_length]
    apply Nat.succ_le_of_lt
    apply List.prod_pos
    intro a ha
    simp only [List.mem_map] at ha
    obtain ⟨L, hL, rfl⟩ := ha
    exact List.length_pos.mpr (hne L hL)
  rcases selectLoop_spec plan cat (L0 :: rest) hplan hne (by omega) hT
    (cartesian (L0 :: rest)).length 1 s0 fuel inv hbuf (by rw [hpend]) (by omega) (by omega)
    with ⟨l0, l1⟩ | ⟨l0, s1, l1, l2, l3, l4, l5, l6⟩
  · left
    exact ⟨l0, by rw [hrun, l1]⟩
  · right
    refine ⟨l0, _, by rw [hrun, l1], ?_, ?_, ?_, ?_, ?_⟩
    · simp [l4]
    · simp [l4]
    · simp only [Printer.PrintFooter, printedRows_append, printedRows, List.append_nil]
      rw [l2, hout, hpend]
    · simp only [Printer.PrintFooter]
      rw [l5, hfiles]
    · refine ⟨s1.w.out ++ [Output.progress 100 plan.sumRecords plan.sumRecords], ?_⟩
      simp only [Printer.PrintFooter]
      rw [l3, hic, hpend]
      simp

/-- `runSelect` when the first relation has no record: the loop ends at once, no
tuple is counted or printed. -/
theorem runSelect_empty_first (plan : SelectPlan) (cat : String → Option Relation)
    (rest : List (List RM_Record)) (hplan : PlanReads plan cat ([] :: rest)) (w : World)
    (hf : w.faults = []) (hc : w.catalog = cat) (fuel : Nat) :
    ∃ res, runSelect plan (fuel + 1) w = some res ∧
      res.rc = (if (0 : Int) = plan.sumRecords then RC.OK else RC.ABORTED) ∧
      res.final = some (0, plan.sumRecords) ∧
      printedRows res.w.out = printedRows w.out ∧ res.w.files = w.files ∧
      ∃ pre, res.w.out = pre ++ [Output.footer 0] := by
  obtain ⟨s0, inv, _, _, hcnt, hscan, hptr, hout, hfiles, hic, hrun⟩ :=
    runSelect_start plan cat [] rest hplan w hf hc
  have hpn : s0.ptr.toNat = 0 := by omega
  have h1 := advanceScan_eof 0 s0 (by omega) inv.faults (by rw [hpn]; exact hscan)
  have h2 := advanceScan_done 0
    { s0 with ptr := s0.ptr - 1,
              w := { s0.w with scans := setAt s0.w.scans s0.ptr.toNat none } }
    (by show s0.ptr - 1 < 0; omega)
  rw [h2] at h1
  have hloop : selectLoop plan (fuel + 1) s0 = Ctl.next
      { s0 with ptr := s0.ptr - 1,
                w := { s0.w with scans := setAt s0.w.scans s0.ptr.toNat none } } := by
    unfold selectLoop
    have : (s0.ptr + 1).toNat = 0 + 1 := by omega
    simp only [this, h1]
    rw [if_pos (by simp [hptr])]
  refine ⟨_, by rw [hrun, hloop], ?_, ?_, ?_, ?_, ?_⟩
  · simp [hcnt]
  · simp [hcnt]
  · simp [Printer.PrintFooter, printedRows_append, printedRows, hout]
  · simp [Printer.PrintFooter, hfiles]
  · exact ⟨s0.w.out ++ [Output.progress 100 plan.sumRecords plan.sumRecords], by
      simp [Printer.PrintFooter, hic]⟩

/-- `runSelect` when the first relation has a record and a later one has none:
the first descent meets the end of the empty scan and `RM_EOF` is returned. -/
theorem runSelect_empty_inner (plan : SelectPlan) (cat : String → Option Relation)
    (L0 : List RM_Record) (rest : List (List RM_Record))
    (hplan : PlanReads plan cat (L0 :: rest)) (w : World) (hf : w.faults = [])
    (hc : w.catalog = cat) (h0 : L0 ≠ []) (hrest : ∃ L ∈ rest, L = []) (fuel : Nat) :
    ∃ res, runSelect plan (fuel + 1) w = some res ∧ res.rc = RC.RM_EOF ∧
      res.final = none := by
  obtain ⟨s0, inv, _, _, _, hscan, hptr, _, _, _, hrun⟩ :=
    runSelect_start plan cat L0 rest hplan w hf hc
  obtain ⟨r, tl, rfl⟩ : ∃ r tl, L0 = r :: tl := by
    cases L0 with
    | nil => exact absurd rfl h0
    | cons r tl => exact ⟨r, tl, rfl⟩
  have hpn : s0.ptr.toNat = 0 := by omega
  have hhit := advanceScan_hit 0 s0 r tl (by omega) inv.faults (by rw [hpn]; exact hscan)
  rcases advance_spec cat (_ :: rest) 1 s0 inv with
    ⟨s1, a1, a2, _, _, _⟩ | ⟨s1, s2, q, hq, a1, a2, a3, a4, _, _⟩
  · exfalso
    rw [hhit] at a1
    cases a1
    simp [hptr] at a2
  · have hq0 : q = 0 := by omega
    subst hq0
    obtain ⟨_, d2⟩ := descend_spec plan cat (_ :: rest) hplan rest.length 1 s2
      plan.nRelations a4 (by simp; omega) (by rw [hplan.1]; simp)
    obtain ⟨s3, d3⟩ := d2 (by simpa using hrest)
    have hloop : selectLoop plan (fuel + 1) s0 = Ctl.ret RC.RM_EOF s3 := by
      unfold selectLoop
      have : (s0.ptr + 1).toNat = 1 := by omega
      simp only [this, a1]
      rw [if_neg (by omega)]
      simp only [a3, d3]
    exact ⟨_, by rw [hrun, hloop], rfl, rfl⟩

/-! ## `Select` as a whole: theorems -/

theorem getAttrInfos_of_holds (w : World) (rels : List String) (h : catalogHolds w rels) :
    getAttrInfos w rels = Except.ok (fromAttrs w rels) := by
  induction rels with
  | nil => rfl
  | cons r rest ih =>
    obtain ⟨rel, hrel⟩ := h r (List.mem_cons_self _ _)
    have := ih (fun x hx => h x (List.mem_cons_of_mem _ hx))
    simp [getAttrInfos, GetDataAttrInfo, hrel, this, fromAttrs]

theorem getRelEntries_of_holds (w : World) (rels : List String) (h : catalogHolds w rels) :
    getRelEntries w rels = Except.ok (fromEntries w rels) := by
  induction rels with
  | nil => rfl
  | cons r rest ih =>
    obtain ⟨rel, hrel⟩ := h r (List.mem_cons_self _ _)
    have := ih (fun x hx => h x (List.mem_cons_of_mem _ hx))
    simp [getRelEntries, GetRelEntry, hrel, this, fromEntries]

theorem holds_of_getAttrInfos (w : World) (rels : List String)
    (attrInfo : List (List DataAttrInfo)) (h : getAttrInfos w rels = Except.ok attrInfo) :
    catalogHolds w rels := by
  induction rels generalizing attrInfo with
  | nil =>
    intro r hr
    cases hr
  | cons r rest ih =>
    simp only [getAttrInfos, GetDataAttrInfo] at h
    cases hc : w.catalog r with
    | none => simp [hc] at h
    | some rel =>
      simp only [hc] at h
      cases hr : getAttrInfos w rest with
      | error e => simp [hr] at h
      | ok as =>
        intro x hx
        rcases List.mem_cons.mp hx with e | e
        · exact ⟨rel, by rw [e]; exact hc⟩
        · exact ih as hr x e

theorem openFiles_ok (rels : List String) (w : World) (hf : w.faults = [])
    (h : catalogHolds w rels) :
    openFiles rels w = (RC.OK, { w with files := w.files ++ rels }) := by
  induction rels generalizing w with
  | nil => simp [openFiles]
  | cons r rest ih =>
    obtain ⟨rel, hrel⟩ := h r (List.mem_cons_self _ _)
    have hopen : OpenFile r w = (RC.OK, { w with files := w.files ++ [r] }) := by
      simp [OpenFile, rmCall_ok w hf, hrel]
    unfold openFiles
    simp only [hopen, ne_eq, not_true_eq_false, if_false]
    rw [ih { w with files := w.files ++ [r] } hf
      (fun x hx => h x (List.mem_cons_of_mem _ hx))]
    simp

theorem checkConditions_ok (attrMap : AttrMap) (conds : List Condition)
    (h : ∀ c ∈ conds, conditionValid attrMap c) : checkConditions attrMap conds = RC.OK := by
  induction conds with
  | nil => rfl
  | cons c0 rest ih =>
    have h0 := h c0 (List.mem_cons_self _ _)
    have ih2 := ih (fun x hx => h x (List.mem_cons_of_mem _ hx))
    obtain ⟨l0, hl0, hv⟩ := h0
    simp only [checkConditions, hl0]
    by_cases hb : c0.bRhsIsAttr = true
    · simp only [hb, if_true] at hv ⊢
      obtain ⟨r0, hr0, ht0⟩ := hv
      simp [hr0, ht0, ih2]
    · have hb0 : c0.bRhsIsAttr = false := by simpa using hb
      rw [hb0] at hv
      simp only [Bool.false_eq_true, if_false] at hv
      simp [hb0, hv, ih2]

theorem fromRecords_getD (w : World) (rels : List String) (h : catalogHolds w rels) (i : Nat)
    (hi : i < rels.length) :
    ∃ rel, (rels.get? i).bind w.catalog = some rel ∧
      rel.records = (fromRecords w rels).getD i [] := by
  obtain ⟨rel, hrel⟩ := h rels[i] (List.getElem_mem _)
  refine ⟨rel, ?_, ?_⟩
  · simp [List.get?_eq_getElem?, List.getElem?_eq_getElem hi, hrel]
  · simp [fromRecords, List.getD_eq_getElem?_getD, List.getElem?_map,
      List.getElem?_eq_getElem hi, hrel]

theorem planOf_reads (w : World) (args : SelectArgs) (h : catalogHolds w args.relations) :
    PlanReads (planOf w args) w.catalog (fromRecords w args.relations) := by
  constructor
  · simp [planOf, makePlan, fromRecords]
  · intro i hi
    have hi2 : i < args.relations.length := by simpa [fromRecords] using hi
    exact fromRecords_getD w args.relations h i hi2

theorem fromEntries_counts (w : World) (rels : List String) (h : catalogHolds w rels)
    (hc : countsAgree w rels) :
    (fromEntries w rels).map (fun e => e.recordCount) =
      (fromRecords w rels).map (fun L => (L.length : Int)) := by
  induction rels with
  | nil => rfl
  | cons r rest ih =>
    obtain ⟨rel, hrel⟩ := h r (List.mem_cons_self _ _)
    have h1 := hc r (List.mem_cons_self _ _) rel hrel
    have h2 := ih (fun x hx => h x (List.mem_cons_of_mem _ hx))
      (fun x hx => hc x (List.mem_cons_of_mem _ hx))
    simp only [fromEntries, fromRecords, List.map_cons, List.map_map] at h2 ⊢
    rw [h2]
    simp [hrel, h1]

theorem prod_cast (ns : List Nat) :
    (ns.map (fun (n : Nat) => (n : Int))).prod = ((ns.prod : Nat) : Int) := by
  induction ns with
  | nil => rfl
  | cons n rest ih =>
    rw [List.map_cons, List.prod_cons, List.prod_cons, ih, Nat.cast_mul]

/-- `sumRecords` of the plan is the number of combinations, when the catalog counts
agree with the scans and the product of the counts fits in a 32-bit `int`. -/
theorem planOf_sumRecords (w : World) (args : SelectArgs)
    (h : catalogHolds w args.relations) (hc : countsAgree w args.relations)
    (hprod : ((fromRecords w args.relations).map List.length).prod < 2147483648) :
    (planOf w args).sumRecords = ((cartesian (fromRecords w args.relations)).length : Int) := by
  have e : (fromEntries w args.relations).map (fun e => e.recordCount) =
      ((fromRecords w args.relations).map List.length).map (fun (n : Nat) => (n : Int)) := by
    rw [fromEntries_counts w args.relations h hc, List.map_map]
    rfl
  have hp := prod_cast ((fromRecords w args.relations).map List.length)
  simp only [planOf, makePlan]
  rw [computeSumRecords_eq, e, hp, cartesian_length]
  · rw [e, hp]
    exact Int.natCast_nonneg _
  · rw [e, hp]
    exact_mod_cast hprod

/-- A valid `Select` on a database without forced failures runs the nested loop
on the plan of the statement, with the files of the FROM relations open. -/
theorem Select_of_valid (fuel : Nat) (args : SelectArgs) (w : World) (hf : w.faults = [])
    (hv : validSelect w args) :
    Select fuel args w =
      runSelect (planOf w args) fuel { w with files := w.files ++ args.relations } := by
  obtain ⟨hcat, hsel, hcond⟩ := hv
  have hopen := openFiles_ok args.relations w hf hcat
  obtain ⟨es, hes, hS⟩ := Select_validation fuel args w (fromAttrs w args.relations)
    (by rw [hopen]) (getAttrInfos_of_holds w args.relations hcat)
  rw [getRelEntries_of_holds w args.relations hcat] at hes
  cases hes
  rw [hS, checkSelAttrs_ok _ _ _ hsel, checkConditions_ok _ _ hcond, hopen]
  simp [planOf]

/-- When `Select` reaches its final assertion, the catalog holds every FROM
relation and the nested loop was run on the plan of the statement. -/
theorem Select_final_some (fuel : Nat) (args : SelectArgs) (w : World) (res : SelectResult)
    (hf : w.faults = []) (hres : Select fuel args w = some res) (hfin : res.final ≠ none) :
    catalogHolds w args.relations ∧
    runSelect (planOf w args) fuel { w with files := w.files ++ args.relations } = some res := by
  have hcat0 := openFiles_catalog args.relations w
  unfold Select at hres
  rcases hc : openFiles args.relations w with ⟨rc, w1⟩
  rw [hc] at hres hcat0
  simp only at hres hcat0
  by_cases hrc : rc = RC.OK
  · simp only [hrc, ne_eq, not_true_eq_false, if_false] at hres
    rw [getRelEntries_congr w1 w hcat0, getAttrInfos_congr w1 w hcat0] at hres
    cases he : getRelEntries w args.relations with
    | error e =>
      simp only [he] at hres
      cases hres
      exact absurd rfl hfin
    | ok es =>
      simp only [he] at hres
      cases ha : getAttrInfos w args.relations with
      | error e =>
        simp only [ha] at hres
        cases hres
        exact absurd rfl hfin
      | ok attrInfo =>
        simp only [ha] at hres
        have hcat := holds_of_getAttrInfos w args.relations attrInfo ha
        refine ⟨hcat, ?_⟩
        rw [getAttrInfos_of_holds w args.relations hcat] at ha
        rw [getRelEntries_of_holds w args.relations hcat] at he
        cases ha
        cases he
        have hopen := openFiles_ok args.relations w hf hcat
        rw [hopen] at hc
        cases hc
        split at hres
        · cases hres
          exact absurd rfl hfin
        · split at hres
          · cases hres
            exact absurd rfl hfin
          · exact hres
  · simp only [hrc, ne_eq, not_false_eq_true, if_true] at hres
    cases hres
    exact absurd rfl hfin

theorem cartesian_ne_nil (Ls : List (List RM_Record)) (hne : ∀ L ∈ Ls, L ≠ []) :
    cartesian Ls ≠ [] := by
  intro h
  have h1 : (cartesian Ls).length = 0 := by rw [h]; rfl
  rw [cartesian_length] at h1
  have h2 : 0 < (Ls.map List.length).prod := by
    apply List.prod_pos
    intro a ha
    simp only [List.mem_map] at ha
    obtain ⟨L, hL, rfl⟩ := ha
    exact List.length_pos.mpr (hne L hL)
  omega

/-- `runSelect` when every relation has a record but the divisor of the progress
test, `(sumRecords + 99) / 100`, is 0: the first candidate tuple is reached and the
division of line 200 stops the process before anything is printed. -/
theorem runSelect_zero_divisor (plan : SelectPlan) (cat : String → Option Relation)
    (L0 : List RM_Record) (rest : List (List RM_Record))
    (hplan : PlanReads plan cat (L0 :: rest)) (w : World) (hf : w.faults = [])
    (hc : w.catalog = cat) (hne : ∀ L ∈ L0 :: rest, L ≠ [])
    (hz : (wrapInt32 (plan.sumRecords + 99)).tdiv 100 = 0) (fuel : Nat) :
    ∃ res, runSelect plan (fuel + 1) w = some res ∧ res.rc = RC.ABORTED ∧
      printedRows res.w.out = printedRows w.out ∧ res.final = none := by
  obtain ⟨s0, inv, _, hpend, _, _, hptr, hout, _, _, hrun⟩ :=
    runSelect_start plan cat L0 rest hplan w hf hc
  rcases advance_spec cat (L0 :: rest) 1 s0 inv with
    ⟨s1, _, _, a3, _, _⟩ | ⟨s1, s2, q, hq, a1, a2, a3, a4, a5, _⟩
  · rw [hpend] at a3
    exact absurd a3 (cartesian_ne_nil _ hne)
  · obtain ⟨d1, _⟩ := descend_spec plan cat (L0 :: rest) hplan ((L0 :: rest).length - (q + 1))
      (q + 1) s2 plan.nRelations a4 (by have := a4.k_le; omega) (by rw [hplan.1]; omega)
    obtain ⟨s3, d2, _, d4, _⟩ := d1 (fun L hL => hne L (List.mem_of_mem_drop hL))
    have hv : visitTuple plan s3 = Ctl.ret RC.ABORTED { s3 with cnt := wrapInt32 (s3.cnt + 1) } := by
      unfold visitTuple
      simp [progressDue, hz]
    have hloop : selectLoop plan (fuel + 1) s0 =
        Ctl.ret RC.ABORTED { s3 with cnt := wrapInt32 (s3.cnt + 1) } := by
      unfold selectLoop
      have : (s0.ptr + 1).toNat = 1 := by omega
      simp only [this, a1]
      rw [if_neg (by omega)]
      simp only [a3, d2, hv]
    refine ⟨_, by rw [hrun, hloop], rfl, ?_, rfl⟩
    show printedRows s3.w.out = printedRows w.out
    rw [d4.out, a5.out, hout]

theorem manyRecords_length (n : Nat) : (manyRecords n).length = n := by
  induction n with
  | zero => rfl
  | succ k ih => simp [manyRecords, ih]

theorem manyRecords_ne_nil (n : Nat) (h : 0 < n) : manyRecords n ≠ [] := by
  intro e
  have := congrArg List.length e
  rw [manyRecords_length] at this
  simp at this
  omega

theorem bigJoin_valid : validSelect bigWorld bigJoin := by
  refine ⟨?_, ?_, ?_⟩
  · intro r hr
    simp only [bigJoin, List.mem_cons, List.mem_singleton, List.not_mem_nil, or_false] at hr
    rcases hr with rfl | rfl
    · exact ⟨bigA, rfl⟩
    · exact ⟨bigB, rfl⟩
  · intro a ha
    cases ha
  · intro c hc
    cases hc

/-- C8, as stated, fails.  `SELECT * FROM A, B` is valid, both relations hold 65536
records, the catalog counts are right and no record-manager call fails; the
product of the counts, 2 ^ 32, wraps `sumRecords` to 0, the progress test of line
200 divides by 0 at the first candidate tuple, and no tuple reaches the printer,
although the product has combinations and no condition rejects any: the rows the
specification asks for (`specRows`) are not the empty list.  The FROM names are
distinct and the catalog names every descriptor after its relation. -/
theorem Select_join_counterexample :
    (bigWorld.faults = [] ∧ validSelect bigWorld bigJoin ∧ bigJoin.relations ≠ [] ∧
      (∀ L ∈ fromRecords bigWorld bigJoin.relations, L ≠ [])) ∧
    (∀ fuel, ∃ res, Select (fuel + 1) bigJoin bigWorld = some res ∧ res.rc = RC.ABORTED ∧
      printedRows res.w.out = []) ∧
    ((cartesian (fromRecords bigWorld bigJoin.relations)).filter
      (satisfiesAll (planOf bigWorld bigJoin).conds)).map
        (projectTuple (planOf bigWorld bigJoin)) ≠ [] ∧
    specRows bigWorld bigJoin ≠ [] ∧
    (wellNamed bigWorld bigJoin.relations ∧ plainQualifiers bigJoin) := by
  have hrec : fromRecords bigWorld bigJoin.relations =
      [manyRecords 65536, manyRecords 65536] := rfl
  have hne : ∀ L ∈ fromRecords bigWorld bigJoin.relations, L ≠ [] := by
    intro L hL
    rw [hrec] at hL
    simp only [List.mem_cons, List.mem_singleton, List.not_mem_nil, or_false, or_self] at hL
    rw [hL]
    exact manyRecords_ne_nil 65536 (by decide)
  refine ⟨⟨rfl, bigJoin_valid, by decide, hne⟩, ?_, ?_, ?_,
    ⟨by unfold wellNamed; decide, by unfold plainQualifiers; decide⟩⟩
  · intro fuel
    rw [Select_of_valid _ _ _ rfl bigJoin_valid]
    have hplan := planOf_reads bigWorld bigJoin bigJoin_valid.1
    rw [hrec] at hplan hne
    obtain ⟨res, h1, h2, h3, _⟩ := runSelect_zero_divisor (planOf bigWorld bigJoin)
      bigWorld.catalog (manyRecords 65536) [manyRecords 65536] hplan
      { bigWorld with files := bigWorld.files ++ bigJoin.relations } rfl rfl hne
      (by decide) fuel
    exact ⟨res, h1, h2, h3⟩
  · intro h
    have hc : (planOf bigWorld bigJoin).conds = [] := rfl
    have hall : ∀ l : List (List RM_Record), List.filter (satisfiesAll []) l = l :=
      fun l => List.filter_eq_self.mpr (fun _ _ => rfl)
    rw [hc, hall, List.map_eq_nil_iff] at h
    exact cartesian_ne_nil _ hne h
  · intro h
    unfold specRows at h
    have hc : bigJoin.conditions = [] := rfl
    have hall : ∀ l : List (List RM_Record),
        List.filter (fun t => ([] : List Condition).all
          (specHolds bigWorld bigJoin.relations t)) l = l :=
      fun l => List.filter_eq_self.mpr (fun _ _ => rfl)
    rw [hc, hall, List.map_eq_nil_iff] at h
    exact cartesian_ne_nil _ hne h

/-- A valid `Select` over relations that all have a record, on a database whose
catalog counts agree with the scans and whose number of combinations fits in a
32-bit `int`: with more passes allowed than there are combinations, it reaches
the final assertion with `cnt = sumRecords`, returns 0, leaves the FROM files
open, and has printed the projections of the combinations that satisfy every
condition, then the footer with their number. -/
theorem Select_join_run (args : SelectArgs) (w : World) (hf : w.faults = [])
    (hv : validSelect w args) (hn : args.relations ≠ [])
    (hne : ∀ L ∈ fromRecords w args.relations, L ≠ [])
    (hc : countsAgree w args.relations)
    (hprod : ((fromRecords w args.relations).map List.length).prod < 2147483648)
    (fuel : Nat) :
    (fuel ≤ (cartesian (fromRecords w args.relations)).length ∧ Select fuel args w = none) ∨
    ((cartesian (fromRecords w args.relations)).length < fuel ∧
      ∃ res, Select fuel args w = some res ∧ res.rc = RC.OK ∧
        res.final = some ((planOf w args).sumRecords, (planOf w args).sumRecords) ∧
        printedRows res.w.out = printedRows w.out ++
          ((cartesian (fromRecords w args.relations)).filter
            (satisfiesAll (planOf w args).conds)).map (projectTuple (planOf w args)) ∧
        res.w.files = w.files ++ args.relations ∧
        ∃ pre, res.w.out = pre ++ [Output.footer
          (((cartesian (fromRecords w args.relations)).filter
            (satisfiesAll (planOf w args).conds)).length : Int)]) := by
  have hsum := planOf_sumRecords w args hv.1 hc hprod
  have hplan := planOf_reads w args hv.1
  have hT : (planOf w args).sumRecords < 2147483648 := by
    rw [hsum, cartesian_length]
    exact_mod_cast hprod
  rw [Select_of_valid fuel args w hf hv]
  cases hL : fromRecords w args.relations with
  | nil =>
    exfalso
    apply hn
    have := congrArg List.length hL
    simpa [fromRecords] using this
  | cons L0 rest =>
    rw [hL] at hne hsum hplan
    exact runSelect_nonempty (planOf w args) w.catalog L0 rest hplan
      { w with files := w.files ++ args.relations } hf rfl hne hsum hT fuel

/-- A valid `Select` whose first relation has a record and one of whose later
relations has none returns `RM_EOF`, whatever the fuel. -/
theorem Select_empty_inner_eof (args : SelectArgs) (w : World) (hf : w.faults = [])
    (hv : validSelect w args) (L0 : List RM_Record) (rest : List (List RM_Record))
    (hL : fromRecords w args.relations = L0 :: rest) (h0 : L0 ≠ [])
    (hr : ∃ L ∈ rest, L = []) (fuel : Nat) :
    ∃ res, Select (fuel + 1) args w = some res ∧ res.rc = RC.RM_EOF ∧ res.final = none := by
  have hplan := planOf_reads w args hv.1
  rw [hL] at hplan
  rw [Select_of_valid (fuel + 1) args w hf hv]
  exact runSelect_empty_inner (planOf w args) w.catalog L0 rest hplan
    { w with files := w.files ++ args.relations } hf rfl h0 hr fuel

/-- A valid `Select` whose first relation has no record, on a database whose
catalog counts agree with the scans: no tuple is printed, the footer shows 0 and
0 is returned. -/
theorem Select_empty_first_run (args : SelectArgs) (w : World) (hf : w.faults = [])
    (hv : validSelect w args) (hc : countsAgree w args.relations)
    (rest : List (List RM_Record)) (hL : fromRecords w args.relations = [] :: rest)
    (fuel : Nat) :
    ∃ res, Select (fuel + 1) args w = some res ∧ res.rc = RC.OK ∧
      printedRows res.w.out = printedRows w.out ∧
      ∃ pre, res.w.out = pre ++ [Output.footer 0] := by
  have hplan := planOf_reads w args hv.1
  have hsum := planOf_sumRecords w args hv.1 hc (by rw [hL]; simp)
  rw [hL] at hplan
  rw [cartesian_length, hL] at hsum
  rw [Select_of_valid (fuel + 1) args w hf hv]
  obtain ⟨res, h1, h2, _, h4, _, h6⟩ := runSelect_empty_first (planOf w args) w.catalog rest
    hplan { w with files := w.files ++ args.relations } hf rfl fuel
  refine ⟨res, h1, ?_, h4, h6⟩
  rw [h2, hsum]
  simp

theorem demoJoin_valid : validSelect demoWorld demoJoin := by
  refine ⟨?_, ?_, ?_⟩
  · intro r hr
    simp only [demoJoin, List.mem_cons, List.mem_singleton, List.not_mem_nil, or_false] at hr
    rcases hr with rfl | rfl
    · exact ⟨demoS, rfl⟩
    · exact ⟨demoT, rfl⟩
  · intro a ha
    have hs : effectiveSelAttrs demoJoin.selAttrs =
        [{ relName := some "S", attrName := "name" },
         { relName := some "T", attrName := "score" }] := rfl
    rw [hs] at ha
    simp only [List.mem_cons, List.mem_singleton, List.not_mem_nil, or_false] at ha
    rcases ha with rfl | rfl
    · exact ⟨by decide, by decide⟩
    · exact ⟨by decide, by decide⟩
  · intro c hc
    simp only [demoJoin, List.mem_singleton] at hc
    subst hc
    exact ⟨demoSId, by decide, demoTSid, by decide, rfl⟩

theorem demoJoin_counts : countsAgree demoWorld demoJoin.relations := by
  intro r hr rel hrel
  simp only [demoJoin, List.mem_cons, List.mem_singleton, List.not_mem_nil, or_false] at hr
  rcases hr with rfl | rfl
  · have : rel = demoS := by
      have h : demoWorld.catalog "S" = some demoS := rfl
      rw [h] at hrel
      exact (Option.some.inj hrel).symm
    subst this
    rfl
  · have : rel = demoT := by
      have h : demoWorld.catalog "T" = some demoT := rfl
      rw [h] at hrel
      exact (Option.some.inj hrel).symm
    subst this
    rfl

/-- `runSelect` without relations: the first `OpenScan` has no file handle and
fails. -/
theorem runSelect_no_relation (plan : SelectPlan) (fuel : Nat) (w : World) (res : SelectResult)
    (h0 : plan.fileHandles 0 = none) (hres : runSelect plan fuel w = some res) :
    res.final = none := by
  unfold runSelect at hres
  rcases hc : rmCall ((Printer.new (plan.projs.map (fun p => p.finalHeader))).PrintHeader
    { w with scans := fun _ => none }) with ⟨rc, w1⟩
  by_cases hrc : rc = RC.OK
  · simp [OpenScan, hc, hrc, h0, RM_SCANSTATE] at hres
    rw [← hres]
  · simp [OpenScan, hc, hrc] at hres
    rw [← hres]

/-- C9: on a database without forced failures, whose catalog `recordCount` of each
FROM relation is the number of records its scan yields and whose product of these
counts fits in a 32-bit signed `int`: whenever `Select` reaches its final
assertion, the number `cnt` of candidate tuples the driver counted equals
`sumRecords`, which is the product of the relation sizes, so the assertion holds
and `Select` returns 0. -/
theorem Select_assertion_holds (fuel : Nat) (args : SelectArgs) (w : World)
    (res : SelectResult) (cnt sumRecords : Int) (hf : w.faults = [])
    (hc : countsAgree w args.relations)
    (hprod : ((fromRecords w args.relations).map List.length).prod < 2147483648)
    (hres : Select fuel args w = some res) (hfin : res.final = some (cnt, sumRecords)) :
    cnt = sumRecords ∧
    sumRecords = (((fromRecords w args.relations).map List.length).prod : Int) ∧
    res.rc = RC.OK := by
  obtain ⟨hcat, hrun⟩ := Select_final_some fuel args w res hf hres (by rw [hfin]; simp)
  have hsum := planOf_sumRecords w args hcat hc hprod
  have hplan := planOf_reads w args hcat
  have hT : (planOf w args).sumRecords < 2147483648 := by
    rw [hsum, cartesian_length]
    exact_mod_cast hprod
  rw [cartesian_length] at hsum
  cases hL : fromRecords w args.relations with
  | nil =>
    exfalso
    have hnil : args.relations = [] := by
      have := congrArg List.length hL
      simpa [fromRecords] using this
    have h0 : (planOf w args).fileHandles 0 = none := by
      simp [planOf, makePlan, hnil]
    have := runSelect_no_relation _ _ _ _ h0 hrun
    rw [this] at hfin
    cases hfin
  | cons L0 rest =>
    rw [hL] at hplan hsum
    cases fuel with
    | zero =>
      exfalso
      obtain ⟨s0, _, _, _, _, _, _, _, _, _, hrun0⟩ := runSelect_start (planOf w args)
        w.catalog L0 rest hplan { w with files := w.files ++ args.relations } hf rfl
      rw [hrun0 0] at hrun
      cases hrun
    | succ f =>
      by_cases h0 : L0 = []
      · subst h0
        obtain ⟨r, h1, h2, h3, _⟩ := runSelect_empty_first (planOf w args) w.catalog rest
          hplan { w with files := w.files ++ args.relations } hf rfl f
        rw [hrun] at h1
        cases h1
        rw [hfin] at h3
        cases h3
        have hz : (planOf w args).sumRecords = 0 := by
          rw [hsum]
          simp
        refine ⟨hz.symm, ?_, ?_⟩
        · rw [hz]
          simp
        · rw [h2, hz]
          simp
      · by_cases hr : ∃ L ∈ rest, L = []
        · exfalso
          obtain ⟨r, h1, _, h3⟩ := runSelect_empty_inner (planOf w args) w.catalog L0 rest
            hplan { w with files := w.files ++ args.relations } hf rfl h0 hr f
          rw [hrun] at h1
          cases h1
          rw [h3] at hfin
          cases hfin
        · have hne : ∀ L ∈ L0 :: rest, L ≠ [] := by
            intro L hL2
            rcases List.mem_cons.mp hL2 with e | e
            · rw [e]
              exact h0
            · exact fun e2 => hr ⟨L, e, e2⟩
          rcases runSelect_nonempty (planOf w args) w.catalog L0 rest hplan
            { w with files := w.files ++ args.relations } hf rfl hne
            (by rw [hsum, cartesian_length]) hT (f + 1) with ⟨_, h1⟩ | ⟨_, r, h1, h2, h3, _⟩
          · rw [hrun] at h1
            cases h1
          · rw [hrun] at h1
            cases h1
            rw [hfin] at h3
            cases h3
            exact ⟨rfl, hsum, h2⟩

/-- C9, on the small database: `SELECT * FROM U` over the empty relation `U`
reaches the assertion with `cnt = sumRecords = 0`, and
`SELECT S.name, T.score FROM S, T WHERE S.id = T.sid` reaches it with
`cnt = sumRecords = 4`. -/
theorem Select_assertion_holds_witness :
    (∃ res, Select 1 demoEmptyScan demoWorld = some res ∧ res.final = some (0, 0) ∧
      res.rc = RC.OK) ∧
    (∃ res, Select 5 demoJoin demoWorld = some res ∧ res.final = some (4, 4) ∧
      res.rc = RC.OK) := by
  constructor
  · have h : (Select 1 demoEmptyScan demoWorld).map (fun r => r.final) =
        some (some (0, 0)) := rfl
    cases hS : Select 1 demoEmptyScan demoWorld with
    | none =>
      rw [hS] at h
      cases h
    | some res =>
      rw [hS] at h
      have hfin : res.final = some (0, 0) := Option.some.inj h
      have hcounts : countsAgree demoWorld demoEmptyScan.relations := by
        intro r hr rel hrel
        simp only [demoEmptyScan, List.mem_singleton] at hr
        subst hr
        have hU : demoWorld.catalog "U" = some demoU := rfl
        rw [hU] at hrel
        rw [← Option.some.inj hrel]
        rfl
      exact ⟨res, rfl, hfin,
        (Select_assertion_holds 1 demoEmptyScan demoWorld res 0 0 rfl hcounts (by decide) hS
          hfin).2.2⟩
  · rcases Select_join_run demoJoin demoWorld rfl demoJoin_valid (by decide) (by decide)
      demoJoin_counts (by decide) 5 with ⟨h0, _⟩ | ⟨_, res, h1, _, h3, _⟩
    · exact absurd h0 (by decide)
    · have hs : (planOf demoWorld demoJoin).sumRecords = 4 := by decide
      rw [hs] at h3
      exact ⟨res, h1, h3,
        (Select_assertion_holds 5 demoJoin demoWorld res 4 4 rfl demoJoin_counts (by decide)
          h1 h3).2.2⟩


/-! ## The projection layout of `Select` (lines 133-161) -/

theorem upper_align_four_ge (x : Nat) : x ≤ upper_align 4 x := by
  unfold upper_align
  omega

theorem upper_align_four_dvd (x : Nat) : 4 ∣ upper_align 4 x := by
  unfold upper_align
  exact Dvd.intro_left _ rfl

theorem fill_inner (attrs : List DataAttrInfo) :
    ∀ (pre suf : List DataAttrInfo), attrs.length ≤ suf.length →
      attrs.foldl (fun (st : List DataAttrInfo × Nat) a => (st.1.set st.2 a, st.2 + 1))
        (pre ++ suf, pre.length) =
      (pre ++ attrs ++ suf.drop attrs.length, pre.length + attrs.length) := by
  induction attrs with
  | nil => intro pre suf _; simp
  | cons a rest ih =>
    intro pre suf h
    cases suf with
    | nil => simp at h
    | cons x suf1 =>
      have h1 : rest.length ≤ suf1.length := by simpa using h
      have hset : (pre ++ x :: suf1).set pre.length a = (pre ++ [a]) ++ suf1 := by
        simp [List.set_append_right]
      have hlen : pre.length + 1 = (pre ++ [a]).length := by simp
      rw [List.foldl_cons]
      show rest.foldl _ ((pre ++ x :: suf1).set pre.length a, pre.length + 1) = _
      rw [hset, hlen, ih (pre ++ [a]) suf1 h1]
      simp
      omega

theorem fillProjections_spec (attrInfo : List (List DataAttrInfo)) :
    ∀ (pre suf : List DataAttrInfo), (attrInfo.map List.length).sum ≤ suf.length →
      fillProjections attrInfo (pre ++ suf) pre.length =
      (pre ++ attrInfo.flatten ++ suf.drop (attrInfo.map List.length).sum,
        pre.length + (attrInfo.map List.length).sum) := by
  induction attrInfo with
  | nil => intro pre suf _; simp [fillProjections]
  | cons attrs rest ih =>
    intro pre suf h
    have h0 : attrs.length + (rest.map List.length).sum ≤ suf.length := by simpa using h
    have h1 : attrs.length ≤ suf.length := by omega
    have h2 : (rest.map List.length).sum ≤ (suf.drop attrs.length).length := by
      rw [List.length_drop]
      omega
    have hlen : pre.length + attrs.length = (pre ++ attrs).length := by simp
    unfold fillProjections at ih ⊢
    rw [List.foldl_cons, fill_inner attrs pre suf h1, hlen, ih (pre ++ attrs) _ h2]
    simp [List.drop_drop, Nat.add_comm, Nat.add_assoc]
    omega

theorem buildProjections_star (attrMap : AttrMap) (attrInfo : List (List DataAttrInfo)) :
    buildProjections attrMap attrInfo [] = attrInfo.flatten := by
  have h := fillProjections_spec attrInfo []
    (List.replicate (attrInfo.map List.length).sum default) (by simp)
  simp only [List.nil_append, List.length_nil] at h
  simp [buildProjections, h]

theorem layout_projection (m : String → Nat) (ps : List DataAttrInfo) :
    ∀ (s : Nat) (k : Int),
      (layoutProjections m ps s k).1.map (fun p => p.projection) = ps := by
  induction ps with
  | nil => intro s k; rfl
  | cons p rest ih => intro s k; simp [layoutProjections, ih]

theorem layout_size (m : String → Nat) (ps : List DataAttrInfo) :
    ∀ (s : Nat) (k : Int),
      (layoutProjections m ps s k).2.1 =
        s + (ps.map (fun p => upper_align 4 p.attrSize)).sum := by
  induction ps with
  | nil => intro s k; simp [layoutProjections]
  | cons p rest ih => intro s k; simp [layoutProjections, ih, Nat.add_assoc]

theorem layout_header (m : String → Nat) (ps : List DataAttrInfo) :
    ∀ (s : Nat) (k : Int) (i : Nat), i < ps.length →
      ((layoutProjections m ps s k).1.getD i default).finalHeader.offset =
        s + ((ps.take i).map (fun p => upper_align 4 p.attrSize)).sum ∧
      ((layoutProjections m ps s k).1.getD i default).finalHeader.attrSize =
        (ps.getD i default).attrSize := by
  induction ps with
  | nil => intro s k i h; simp at h
  | cons p rest ih =>
    intro s k i h
    cases i with
    | zero => simp [layoutProjections]
    | succ i =>
      have h1 : i < rest.length := by simpa using h
      obtain ⟨e1, e2⟩ := ih (s + upper_align 4 p.attrSize)
        (if isNullable p then k + 1 else k) i h1
      simp only [layoutProjections, List.getD_cons_succ, List.take_succ_cons, List.map_cons,
        List.sum_cons]
      rw [e1, e2]
      exact ⟨by omega, rfl⟩

theorem sum_take_le (l : List Nat) : ∀ (i j : Nat), i < j → j ≤ l.length →
    (l.take i).sum + l.getD i 0 ≤ (l.take j).sum := by
  induction l with
  | nil => intro i j h1 h2; simp at h2; omega
  | cons x rest ih =>
    intro i j h1 h2
    cases j with
    | zero => omega
    | succ j =>
      cases i with
      | zero => simp
      | succ i =>
        have := ih i j (by omega) (by simpa using h2)
        simp only [List.take_succ_cons, List.sum_cons, List.getD_cons_succ]
        omega

/-- C12: in the projection list `Select` builds (sizes are naturals and the running
sum is not reduced modulo 2^32, which is the claim's precondition), every
projected attribute has output offset + size within `finalRecordSize`, every
output offset is a multiple of 4 and equals the sum of `upper_align 4 size` over
the attributes before it, and for two projected attributes the byte range of the
earlier one ends at or before the offset of the later one. -/
theorem Select_projection_layout (args : SelectArgs) (relEntries : List RelCatEntry)
    (attrInfo : List (List DataAttrInfo)) (attrMap : AttrMap) :
    (∀ i, i < (makePlan args relEntries attrInfo attrMap).projs.length →
      (((makePlan args relEntries attrInfo attrMap).projs.getD i default).finalHeader.offset +
        ((makePlan args relEntries attrInfo attrMap).projs.getD i default).finalHeader.attrSize
          ≤ (makePlan args relEntries attrInfo attrMap).finalRecordSize) ∧
      4 ∣ ((makePlan args relEntries attrInfo attrMap).projs.getD i default).finalHeader.offset ∧
      ((makePlan args relEntries attrInfo attrMap).projs.getD i default).finalHeader.offset =
        ((((makePlan args relEntries attrInfo attrMap).projs.take i).map
          (fun p => upper_align 4 p.projection.attrSize)).sum)) ∧
    (∀ i j, i < j → j < (makePlan args relEntries attrInfo attrMap).projs.length →
      ((makePlan args relEntries attrInfo attrMap).projs.getD i default).finalHeader.offset +
        ((makePlan args relEntries attrInfo attrMap).projs.getD i default).finalHeader.attrSize
          ≤ ((makePlan args relEntries attrInfo attrMap).projs.getD j default).finalHeader.offset) := by
  generalize hps : buildProjections attrMap attrInfo (effectiveSelAttrs args.selAttrs) = ps
  have hprojs : (makePlan args relEntries attrInfo attrMap).projs =
      (layoutProjections (buildRelNumMap args.relations) ps 0 0).1 := by
    simp [makePlan, hps]
  have hsize : (makePlan args relEntries attrInfo attrMap).finalRecordSize =
      (layoutProjections (buildRelNumMap args.relations) ps 0 0).2.1 := by
    simp [makePlan, hps]
  have hmap := layout_projection (buildRelNumMap args.relations) ps 0 0
  have hlen : (layoutProjections (buildRelNumMap args.relations) ps 0 0).1.length = ps.length := by
    have := congrArg List.length hmap
    simpa using this
  have htake : ∀ i, ((layoutProjections (buildRelNumMap args.relations) ps 0 0).1.take i).map
      (fun p => upper_align 4 p.projection.attrSize) =
      (ps.map (fun p => upper_align 4 p.attrSize)).take i := by
    intro i
    rw [List.map_take]
    conv_rhs => rw [← hmap]
    rw [List.map_map]
    rfl
  have hget : ∀ i, i < ps.length →
      (ps.map (fun p => upper_align 4 p.attrSize)).getD i 0 =
        upper_align 4 (ps.getD i default).attrSize := by
    intro i hi
    simp [List.getD_eq_getElem?_getD, List.getElem?_eq_getElem, hi]
  have hall : ((ps.map (fun p => upper_align 4 p.attrSize)).take ps.length).sum =
      (ps.map (fun p => upper_align 4 p.attrSize)).sum := by
    rw [List.take_of_length_le (by simp)]
  rw [hprojs, hsize, hlen]
  constructor
  · intro i hi
    obtain ⟨e1, e2⟩ := layout_header (buildRelNumMap args.relations) ps 0 0 i hi
    rw [List.map_take] at e1
    have hs := sum_take_le (ps.map (fun p => upper_align 4 p.attrSize)) i ps.length hi (by simp)
    rw [hget i hi, hall] at hs
    have hge := upper_align_four_ge (ps.getD i default).attrSize
    rw [htake i, e1, e2, layout_size]
    refine ⟨by omega, ?_, by omega⟩
    rw [Nat.zero_add]
    apply List.dvd_sum
    intro x hx
    obtain ⟨y, _, rfl⟩ := List.mem_map.mp (List.mem_of_mem_take hx)
    exact upper_align_four_dvd _
  · intro i j hij hj
    obtain ⟨e1, e2⟩ := layout_header (buildRelNumMap args.relations) ps 0 0 i (by omega)
    obtain ⟨f1, _⟩ := layout_header (buildRelNumMap args.relations) ps 0 0 j hj
    rw [List.map_take] at e1 f1
    have hs := sum_take_le (ps.map (fun p => upper_align 4 p.attrSize)) i j hij
      (by simp; omega)
    rw [hget i (by omega)] at hs
    have hge := upper_align_four_ge (ps.getD i default).attrSize
    rw [e1, e2, f1]
    omega

/-- C13: when the select list is the single attribute named `*`, the projection
list of the plan is the concatenation of the descriptor lists of the FROM
relations, in FROM order and each in the order `GetDataAttrInfo` returned it, and
its length is the sum of the attribute counts. -/
theorem Select_star_projections (args : SelectArgs) (relEntries : List RelCatEntry)
    (attrInfo : List (List DataAttrInfo)) (attrMap : AttrMap) (a : RelAttr)
    (hsel : args.selAttrs = [a]) (ha : a.attrName = "*") :
    (makePlan args relEntries attrInfo attrMap).projs.map (fun p => p.projection) =
      attrInfo.flatten ∧
    (makePlan args relEntries attrInfo attrMap).projs.length =
      (attrInfo.map List.length).sum := by
  have he : effectiveSelAttrs args.selAttrs = [] := by
    simp [effectiveSelAttrs, isSelectStar, hsel, ha]
  have hp : (makePlan args relEntries attrInfo attrMap).projs.map (fun p => p.projection) =
      attrInfo.flatten := by
    simp only [makePlan, he, buildProjections_star]
    exact layout_projection _ _ 0 0
  refine ⟨hp, ?_⟩
  have := congrArg List.length hp
  simpa [List.length_flatten] using this

theorem Select_star_projections_witness :
    (makePlan demoEmptyInner (fromEntries demoWorld ["S", "U"]) (fromAttrs demoWorld ["S", "U"])
      (buildAttrMap ["S", "U"] (fromAttrs demoWorld ["S", "U"])).1).projs.map
        (fun p => p.projection) = [demoSId, demoSName, demoUId, demoUScore] ∧
    (makePlan demoEmptyInner (fromEntries demoWorld ["S", "U"]) (fromAttrs demoWorld ["S", "U"])
      (buildAttrMap ["S", "U"] (fromAttrs demoWorld ["S", "U"])).1).projs.length = 2 + 2 :=
  Select_star_projections demoEmptyInner (fromEntries demoWorld ["S", "U"])
    (fromAttrs demoWorld ["S", "U"]) (buildAttrMap ["S", "U"] (fromAttrs demoWorld ["S", "U"])).1
    { relName := none, attrName := "*" } rfl rfl

/-- C11: the failing input.  In `SELECT * FROM S, U` the relation `U` has no
record and `S` has two; no record-manager call fails.  `Select` returns `RM_EOF`
from the first `GetNextRec` on the scan of `U` (line 195), before the footer of
line 236: no row and no footer is printed. -/
theorem Select_empty_inner_no_footer :
    validSelect demoWorld demoEmptyInner ∧ demoWorld.faults = [] ∧
    fromRecords demoWorld demoEmptyInner.relations = [demoS.records, []] ∧
    ∀ fuel, (Select (fuel + 1) demoEmptyInner demoWorld).map
      (fun r => (r.rc, printedRows r.w.out, printedFooters r.w.out)) =
        some (RC.RM_EOF, [], []) := by
  refine ⟨⟨?_, ?_, ?_⟩, rfl, by decide, fun fuel => rfl⟩
  · intro r hr
    simp only [demoEmptyInner, List.mem_cons, List.mem_singleton, List.not_mem_nil,
      or_false] at hr
    rcases hr with rfl | rfl
    · exact ⟨demoS, rfl⟩
    · exact ⟨demoU, rfl⟩
  · intro a ha
    have hs : effectiveSelAttrs demoEmptyInner.selAttrs = [] := rfl
    rw [hs] at ha
    cases ha
  · intro c hc
    simp [demoEmptyInner] at hc

/-- C14: the failing input.  `SELECT * FROM U` on the demo database, where no file
is open before the statement: `Select` returns 0 and the handle it opened on `U`
with `OpenFile` (line 44) is still open, no `CloseFile` being called anywhere in
lines 38-241. -/
theorem Select_leaves_file_open :
    demoWorld.files = [] ∧
    ∀ fuel, (Select (fuel + 1) demoEmptyScan demoWorld).map (fun r => (r.rc, r.w.files)) =
      some (RC.OK, ["U"]) := by
  refine ⟨rfl, fun fuel => ?_⟩
  rfl

/-! ## Validation errors of `Insert`, `Delete` and `Update` come before any storing call -/

theorem rmCall_clean (w : World) (h : cleanFaults w) :
    isValidationError (rmCall w).1 = false ∧ cleanFaults (rmCall w).2 := by
  unfold rmCall
  cases hf : w.faults with
  | nil => exact ⟨rfl, by intro rc hrc; simp [hf] at hrc⟩
  | cons rc rest =>
    refine ⟨h rc (by simp [hf]), ?_⟩
    intro x hx
    exact h x (by simp only [hf]; exact List.mem_cons_of_mem _ hx)

theorem rmCall_calls (w : World) (c : List RMCall) :
    rmCall { w with calls := c } = ((rmCall w).1, { (rmCall w).2 with calls := c }) := by
  unfold rmCall
  cases hf : w.faults <;> simp [hf]

theorem rmCall_scans (w : World) : (rmCall w).2.scans = w.scans := by
  unfold rmCall
  cases w.faults <;> rfl

theorem OpenFile_clean (r : String) (w : World) (h : cleanFaults w) :
    isValidationError (OpenFile r w).1 = false ∧ cleanFaults (OpenFile r w).2 := by
  obtain ⟨h1, h2⟩ := rmCall_clean w h
  unfold OpenFile
  rcases hr : rmCall w with ⟨rc, w1⟩
  rw [hr] at h1 h2
  simp only
  split_ifs
  · exact ⟨h1, h2⟩
  · split
    · exact ⟨rfl, h2⟩
    · exact ⟨rfl, h2⟩

theorem OpenScan_clean (i : Nat) (fh : Option String) (w : World) (h : cleanFaults w) :
    isValidationError (OpenScan i fh w).1 = false ∧ cleanFaults (OpenScan i fh w).2 := by
  obtain ⟨h1, h2⟩ := rmCall_clean w h
  unfold OpenScan
  rcases hr : rmCall w with ⟨rc, w1⟩
  rw [hr] at h1 h2
  simp only
  split_ifs
  · exact ⟨h1, h2⟩
  · split
    · exact ⟨rfl, h2⟩
    · exact ⟨rfl, h2⟩

theorem GetNextRec_clean (i : Nat) (w : World) (h : cleanFaults w) :
    isValidationError (GetNextRec i w).1 = false ∧ cleanFaults (GetNextRec i w).2.2 := by
  obtain ⟨h1, h2⟩ := rmCall_clean w h
  unfold GetNextRec
  rcases hr : rmCall w with ⟨rc, w1⟩
  rw [hr] at h1 h2
  simp only
  split_ifs
  · exact ⟨h1, h2⟩
  · split
    · exact ⟨rfl, h2⟩
    · exact ⟨rfl, h2⟩
    · exact ⟨rfl, h2⟩

theorem CloseScan_clean (i : Nat) (w : World) (h : cleanFaults w) :
    isValidationError (CloseScan i w).1 = false ∧ cleanFaults (CloseScan i w).2 := by
  obtain ⟨h1, h2⟩ := rmCall_clean w h
  unfold CloseScan
  rcases hr : rmCall w with ⟨rc, w1⟩
  rw [hr] at h1 h2
  simp only
  split_ifs
  · exact ⟨h1, h2⟩
  · split
    · exact ⟨rfl, h2⟩
    · exact ⟨rfl, h2⟩

theorem CloseFile_clean (fh : String) (w : World) (h : cleanFaults w) :
    isValidationError (CloseFile fh w).1 = false ∧ cleanFaults (CloseFile fh w).2 := by
  obtain ⟨h1, h2⟩ := rmCall_clean w h
  unfold CloseFile
  rcases hr : rmCall w with ⟨rc, w1⟩
  rw [hr] at h1 h2
  simp only
  split_ifs
  · exact ⟨h1, h2⟩
  · exact ⟨rfl, h2⟩
  · exact ⟨rfl, h2⟩

theorem GetData_clean (r : RM_Record) (w : World) (h : cleanFaults w) :
    isValidationError (GetData r w).1 = false ∧ cleanFaults (GetData r w).2.2 := by
  obtain ⟨h1, h2⟩ := rmCall_clean w h
  unfold GetData
  rcases hr : rmCall w with ⟨rc, w1⟩
  rw [hr] at h1 h2
  simp only
  split_ifs
  · exact ⟨h1, h2⟩
  · exact ⟨rfl, h2⟩

theorem GetIsnull_clean (r : RM_Record) (w : World) (h : cleanFaults w) :
    isValidationError (GetIsnull r w).1 = false ∧ cleanFaults (GetIsnull r w).2.2 := by
  obtain ⟨h1, h2⟩ := rmCall_clean w h
  unfold GetIsnull
  rcases hr : rmCall w with ⟨rc, w1⟩
  rw [hr] at h1 h2
  simp only
  split_ifs
  · exact ⟨h1, h2⟩
  · exact ⟨rfl, h2⟩

theorem GetRid_clean (r : RM_Record) (w : World) (h : cleanFaults w) :
    isValidationError (GetRid r w).1 = false ∧ cleanFaults (GetRid r w).2.2 := by
  obtain ⟨h1, h2⟩ := rmCall_clean w h
  unfold GetRid
  rcases hr : rmCall w with ⟨rc, w1⟩
  rw [hr] at h1 h2
  simp only
  split_ifs
  · exact ⟨h1, h2⟩
  · exact ⟨rfl, h2⟩

theorem InsertRec_clean (fh : String) (d : List Nat) (b : List Bool) (w : World)
    (h : cleanFaults w) :
    isValidationError (InsertRec fh d b w).1 = false ∧ cleanFaults (InsertRec fh d b w).2.2 := by
  obtain ⟨h1, h2⟩ := rmCall_clean w h
  unfold InsertRec
  rw [rmCall_calls]
  rcases hr : rmCall w with ⟨rc, w1⟩
  rw [hr] at h1 h2
  simp only
  split_ifs
  · exact ⟨h1, h2⟩
  · split
    · exact ⟨rfl, h2⟩
    · exact ⟨rfl, h2⟩

theorem DeleteRec_clean (fh : String) (rid : Nat) (w : World) (h : cleanFaults w) :
    isValidationError (DeleteRec fh rid w).1 = false ∧ cleanFaults (DeleteRec fh rid w).2 := by
  obtain ⟨h1, h2⟩ := rmCall_clean w h
  unfold DeleteRec
  rw [rmCall_calls]
  rcases hr : rmCall w with ⟨rc, w1⟩
  rw [hr] at h1 h2
  simp only
  split_ifs
  · exact ⟨h1, h2⟩
  · split
    · exact ⟨rfl, h2⟩
    · split_ifs
      · exact ⟨rfl, h2⟩
      · exact ⟨rfl, h2⟩

theorem UpdateRec_clean (fh : String) (r : RM_Record) (w : World) (h : cleanFaults w) :
    isValidationError (UpdateRec fh r w).1 = false ∧ cleanFaults (UpdateRec fh r w).2 := by
  obtain ⟨h1, h2⟩ := rmCall_clean w h
  unfold UpdateRec
  rw [rmCall_calls]
  rcases hr : rmCall w with ⟨rc, w1⟩
  rw [hr] at h1 h2
  simp only
  split_ifs
  · exact ⟨h1, h2⟩
  · split
    · exact ⟨rfl, h2⟩
    · split_ifs
      · exact ⟨rfl, h2⟩
      · exact ⟨rfl, h2⟩

theorem UpdateRelEntry_clean (r : String) (e : RelCatEntry) (w : World) :
    isValidationError (UpdateRelEntry r e w).1 = false := by
  unfold UpdateRelEntry
  split <;> rfl

theorem GetData_scans (r : RM_Record) (w : World) : (GetData r w).2.2.scans = w.scans := by
  have h := rmCall_scans w
  unfold GetData
  rcases hr : rmCall w with ⟨rc, w1⟩
  rw [hr] at h
  simp only
  split_ifs <;> exact h

theorem GetIsnull_scans (r : RM_Record) (w : World) : (GetIsnull r w).2.2.scans = w.scans := by
  have h := rmCall_scans w
  unfold GetIsnull
  rcases hr : rmCall w with ⟨rc, w1⟩
  rw [hr] at h
  simp only
  split_ifs <;> exact h

theorem GetRid_scans (r : RM_Record) (w : World) : (GetRid r w).2.2.scans = w.scans := by
  have h := rmCall_scans w
  unfold GetRid
  rcases hr : rmCall w with ⟨rc, w1⟩
  rw [hr] at h
  simp only
  split_ifs <;> exact h

theorem DeleteRec_scans (fh : String) (rid : Nat) (w : World) :
    (DeleteRec fh rid w).2.scans = w.scans := by
  have h := rmCall_scans w
  unfold DeleteRec
  rw [rmCall_calls]
  rcases hr : rmCall w with ⟨rc, w1⟩
  rw [hr] at h
  simp only
  split_ifs
  · exact h
  · split
    · exact h
    · split_ifs <;> exact h

theorem UpdateRec_scans (fh : String) (r : RM_Record) (w : World) :
    (UpdateRec fh r w).2.scans = w.scans := by
  have h := rmCall_scans w
  unfold UpdateRec
  rw [rmCall_calls]
  rcases hr : rmCall w with ⟨rc, w1⟩
  rw [hr] at h
  simp only
  split_ifs
  · exact h
  · split
    · exact h
    · split_ifs <;> exact h

theorem GetNextRec_scanLength (w : World) (h : (GetNextRec 0 w).1 = RC.OK) :
    scanLength (GetNextRec 0 w).2.2 0 < scanLength w 0 := by
  have hs := rmCall_scans w
  unfold GetNextRec at h ⊢
  rcases hr : rmCall w with ⟨rc, w1⟩
  rw [hr] at hs h
  simp only at h ⊢
  split_ifs at h ⊢ with hc
  · exact absurd h hc
  · cases hsc : w1.scans 0 with
    | none => rw [hsc] at h; simp [RM_SCANSTATE] at h
    | some l =>
      cases l with
      | nil => rw [hsc] at h; simp at h
      | cons r rest =>
        simp only [hsc]
        simp [scanLength, setAt, ← hs, hsc]

theorem deleteRecord_clean (relName : String) (conds : List QL_Condition) (cnt : Int)
    (record : RM_Record) (w : World) (h : cleanFaults w) :
    ctlClean (deleteRecord relName conds cnt record w) := by
  unfold deleteRecord
  obtain ⟨a1, a2⟩ := GetData_clean record w h
  rcases h1 : GetData record w with ⟨rc1, data, w1⟩
  rw [h1] at a1 a2
  simp only at a1 a2 ⊢
  by_cases e1 : rc1 = RC.OK
  swap
  · rw [if_pos e1]; exact a1
  rw [if_neg (not_not.mpr e1)]
  obtain ⟨b1, b2⟩ := GetIsnull_clean record w1 a2
  rcases h2 : GetIsnull record w1 with ⟨rc2, isnull, w2⟩
  rw [h2] at b1 b2
  simp only at b1 b2 ⊢
  by_cases e2 : rc2 = RC.OK
  swap
  · rw [if_pos e2]; exact b1
  rw [if_neg (not_not.mpr e2)]
  cases checkAll data isnull conds with
  | none => exact rfl
  | some should =>
    simp only
    cases should with
    | false => exact b2
    | true =>
      rw [if_pos rfl]
      obtain ⟨c1, c2⟩ := GetRid_clean record w2 b2
      rcases h3 : GetRid record w2 with ⟨rc3, rid, w3⟩
      rw [h3] at c1 c2
      simp only at c1 c2 ⊢
      by_cases e3 : rc3 = RC.OK
      swap
      · rw [if_pos e3]; exact c1
      rw [if_neg (not_not.mpr e3)]
      obtain ⟨d1, d2⟩ := DeleteRec_clean relName rid w3 c2
      rcases h4 : DeleteRec relName rid w3 with ⟨rc4, w4⟩
      rw [h4] at d1 d2
      simp only at d1 d2 ⊢
      by_cases e4 : rc4 = RC.OK
      swap
      · rw [if_pos e4]; exact d1
      rw [if_neg (not_not.mpr e4)]
      exact d2

theorem deleteRecord_scans (relName : String) (conds : List QL_Condition) (cnt : Int)
    (record : RM_Record) (w : World) :
    deleteRecord relName conds cnt record w ≠ Ctl.outOfFuel ∧
    ∀ s, deleteRecord relName conds cnt record w = Ctl.next s → s.2.scans = w.scans := by
  unfold deleteRecord
  have a := GetData_scans record w
  rcases h1 : GetData record w with ⟨rc1, data, w1⟩
  rw [h1] at a
  simp only at a ⊢
  by_cases e1 : rc1 = RC.OK
  swap
  · rw [if_pos e1]; exact ⟨by simp, by simp⟩
  rw [if_neg (not_not.mpr e1)]
  have b := GetIsnull_scans record w1
  rcases h2 : GetIsnull record w1 with ⟨rc2, isnull, w2⟩
  rw [h2] at b
  simp only at b ⊢
  by_cases e2 : rc2 = RC.OK
  swap
  · rw [if_pos e2]; exact ⟨by simp, by simp⟩
  rw [if_neg (not_not.mpr e2)]
  cases checkAll data isnull conds with
  | none => exact ⟨by simp, by simp⟩
  | some should =>
    simp only
    cases should with
    | false =>
      refine ⟨by simp, ?_⟩
      intro s hs
      simp only [Bool.false_eq_true, if_false, Ctl.next.injEq] at hs
      subst hs
      simp only
      rw [b, a]
    | true =>
      rw [if_pos rfl]
      have c := GetRid_scans record w2
      rcases h3 : GetRid record w2 with ⟨rc3, rid, w3⟩
      rw [h3] at c
      simp only at c ⊢
      by_cases e3 : rc3 = RC.OK
      swap
      · rw [if_pos e3]; exact ⟨by simp, by simp⟩
      rw [if_neg (not_not.mpr e3)]
      have d := DeleteRec_scans relName rid w3
      rcases h4 : DeleteRec relName rid w3 with ⟨rc4, w4⟩
      rw [h4] at d
      simp only at d ⊢
      by_cases e4 : rc4 = RC.OK
      swap
      · rw [if_pos e4]; exact ⟨by simp, by simp⟩
      rw [if_neg (not_not.mpr e4)]
      refine ⟨by simp, ?_⟩
      intro s hs
      simp only [Ctl.next.injEq] at hs
      subst hs
      simp only
      rw [d, c, b, a]

theorem deleteLoop_clean (relName : String) (conds : List QL_Condition) :
    ∀ (fuel : Nat) (cnt : Int) (w : World), cleanFaults w →
      ctlClean (deleteLoop relName conds fuel cnt w) := by
  intro fuel
  induction fuel with
  | zero => intro cnt w _; exact trivial
  | succ fuel ih =>
    intro cnt w h
    unfold deleteLoop
    obtain ⟨a1, a2⟩ := GetNextRec_clean 0 w h
    rcases h1 : GetNextRec 0 w with ⟨rc, record, w1⟩
    rw [h1] at a1 a2
    simp only at a1 a2 ⊢
    by_cases e1 : rc = RC.RM_EOF
    · rw [if_pos e1]; exact a2
    rw [if_neg e1]
    by_cases e2 : rc = RC.OK
    swap
    · rw [if_pos e2]; exact a1
    rw [if_neg (not_not.mpr e2)]
    · have hb := deleteRecord_clean relName conds cnt record w1 a2
      cases hd : deleteRecord relName conds cnt record w1 with
      | next s => rw [hd] at hb; exact ih s.1 s.2 hb
      | ret rc s => rw [hd] at hb; exact hb
      | outOfFuel => exact trivial

theorem deleteLoop_total (relName : String) (conds : List QL_Condition) :
    ∀ (fuel : Nat) (cnt : Int) (w : World), scanLength w 0 < fuel →
      deleteLoop relName conds fuel cnt w ≠ Ctl.outOfFuel := by
  intro fuel
  induction fuel with
  | zero => intro cnt w h; omega
  | succ fuel ih =>
    intro cnt w h
    unfold deleteLoop
    have a := GetNextRec_scanLength w
    rcases h1 : GetNextRec 0 w with ⟨rc, record, w1⟩
    rw [h1] at a
    simp only at a ⊢
    by_cases e1 : rc = RC.RM_EOF
    · rw [if_pos e1]; simp
    rw [if_neg e1]
    by_cases e2 : rc = RC.OK
    swap
    · rw [if_pos e2]; simp
    rw [if_neg (not_not.mpr e2)]
    · have hlt := a e2
      obtain ⟨b1, b2⟩ := deleteRecord_scans relName conds cnt record w1
      cases hd : deleteRecord relName conds cnt record w1 with
      | next s =>
        have hs := b2 s hd
        apply ih
        unfold scanLength at hlt h ⊢
        rw [hs]
        omega
      | ret rc s => simp
      | outOfFuel => exact absurd hd b1

theorem updateRecord_clean (relName : String) (conds : List QL_Condition) (u : DataAttrInfo)
    (off : Nat) (nullable bIsValue : Bool) (v : Value) (cnt : Int)
    (record : RM_Record) (w : World) (h : cleanFaults w) :
    ctlClean (updateRecord relName conds u off nullable bIsValue v cnt record w) := by
  unfold updateRecord
  obtain ⟨a1, a2⟩ := GetData_clean record w h
  rcases h1 : GetData record w with ⟨rc1, data, w1⟩
  rw [h1] at a1 a2
  simp only at a1 a2 ⊢
  by_cases e1 : rc1 = RC.OK
  swap
  · rw [if_pos e1]; exact a1
  rw [if_neg (not_not.mpr e1)]
  obtain ⟨b1, b2⟩ := GetIsnull_clean record w1 a2
  rcases h2 : GetIsnull record w1 with ⟨rc2, isnull, w2⟩
  rw [h2] at b1 b2
  simp only at b1 b2 ⊢
  by_cases e2 : rc2 = RC.OK
  swap
  · rw [if_pos e2]; exact b1
  rw [if_neg (not_not.mpr e2)]
  cases checkAll data isnull conds with
  | none => exact rfl
  | some should =>
    simp only
    cases should with
    | false => exact b2
    | true =>
      rw [if_pos rfl]
      generalize ({ record with
        data := (applyUpdate u off nullable bIsValue v data isnull).1,
        isnull := (applyUpdate u off nullable bIsValue v data isnull).2 } : RM_Record) = r1
      obtain ⟨d1, d2⟩ := UpdateRec_clean relName r1 w2 b2
      rcases h4 : UpdateRec relName r1 w2 with ⟨rc4, w4⟩
      rw [h4] at d1 d2
      simp only at d1 d2 ⊢
      by_cases e4 : rc4 = RC.OK
      swap
      · rw [if_pos e4]; exact d1
      rw [if_neg (not_not.mpr e4)]
      exact d2

theorem updateRecord_scans (relName : String) (conds : List QL_Condition) (u : DataAttrInfo)
    (off : Nat) (nullable bIsValue : Bool) (v : Value) (cnt : Int)
    (record : RM_Record) (w : World) :
    updateRecord relName conds u off nullable bIsValue v cnt record w ≠ Ctl.outOfFuel ∧
    ∀ s, updateRecord relName conds u off nullable bIsValue v cnt record w = Ctl.next s →
      s.2.scans = w.scans := by
  unfold updateRecord
  have a := GetData_scans record w
  rcases h1 : GetData record w with ⟨rc1, data, w1⟩
  rw [h1] at a
  simp only at a ⊢
  by_cases e1 : rc1 = RC.OK
  swap
  · rw [if_pos e1]; exact ⟨by simp, by simp⟩
  rw [if_neg (not_not.mpr e1)]
  have b := GetIsnull_scans record w1
  rcases h2 : GetIsnull record w1 with ⟨rc2, isnull, w2⟩
  rw [h2] at b
  simp only at b ⊢
  by_cases e2 : rc2 = RC.OK
  swap
  · rw [if_pos e2]; exact ⟨by simp, by simp⟩
  rw [if_neg (not_not.mpr e2)]
  cases checkAll data isnull conds with
  | none => exact ⟨by simp, by simp⟩
  | some should =>
    simp only
    cases should with
    | false =>
      refine ⟨by simp, ?_⟩
      intro s hs
      simp only [Bool.false_eq_true, if_false, Ctl.next.injEq] at hs
      subst hs
      simp only
      rw [b, a]
    | true =>
      rw [if_pos rfl]
      generalize ({ record with
        data := (applyUpdate u off nullable bIsValue v data isnull).1,
        isnull := (applyUpdate u off nullable bIsValue v data isnull).2 } : RM_Record) = r1
      have d := UpdateRec_scans relName r1 w2
      rcases h4 : UpdateRec relName r1 w2 with ⟨rc4, w4⟩
      rw [h4] at d
      simp only at d ⊢
      by_cases e4 : rc4 = RC.OK
      swap
      · rw [if_pos e4]; exact ⟨by simp, by simp⟩
      rw [if_neg (not_not.mpr e4)]
      refine ⟨by simp, ?_⟩
      intro s hs
      simp only [Ctl.next.injEq] at hs
      subst hs
      simp only
      rw [d, b, a]

theorem updateLoop_clean (relName : String) (conds : List QL_Condition) (u : DataAttrInfo)
    (off : Nat) (nullable bIsValue : Bool) (v : Value) :
    ∀ (fuel : Nat) (cnt : Int) (w : World), cleanFaults w →
      ctlClean (updateLoop relName conds u off nullable bIsValue v fuel cnt w) := by
  intro fuel
  induction fuel with
  | zero => intro cnt w _; exact trivial
  | succ fuel ih =>
    intro cnt w h
    unfold updateLoop
    obtain ⟨a1, a2⟩ := GetNextRec_clean 0 w h
    rcases h1 : GetNextRec 0 w with ⟨rc, record, w1⟩
    rw [h1] at a1 a2
    simp only at a1 a2 ⊢
    by_cases e1 : rc = RC.RM_EOF
    · rw [if_pos e1]; exact a2
    rw [if_neg e1]
    by_cases e2 : rc = RC.OK
    swap
    · rw [if_pos e2]; exact a1
    rw [if_neg (not_not.mpr e2)]
    have hb := updateRecord_clean relName conds u off nullable bIsValue v cnt record w1 a2
    cases hd : updateRecord relName conds u off nullable bIsValue v cnt record w1 with
    | next s => rw [hd] at hb; exact ih s.1 s.2 hb
    | ret rc s => rw [hd] at hb; exact hb
    | outOfFuel => exact trivial

theorem updateLoop_total (relName : String) (conds : List QL_Condition) (u : DataAttrInfo)
    (off : Nat) (nullable bIsValue : Bool) (v : Value) :
    ∀ (fuel : Nat) (cnt : Int) (w : World), scanLength w 0 < fuel →
      updateLoop relName conds u off nullable bIsValue v fuel cnt w ≠ Ctl.outOfFuel := by
  intro fuel
  induction fuel with
  | zero => intro cnt w h; omega
  | succ fuel ih =>
    intro cnt w h
    unfold updateLoop
    have a := GetNextRec_scanLength w
    rcases h1 : GetNextRec 0 w with ⟨rc, record, w1⟩
    rw [h1] at a
    simp only at a ⊢
    by_cases e1 : rc = RC.RM_EOF
    · rw [if_pos e1]; simp
    rw [if_neg e1]
    by_cases e2 : rc = RC.OK
    swap
    · rw [if_pos e2]; simp
    rw [if_neg (not_not.mpr e2)]
    have hlt := a e2
    obtain ⟨b1, b2⟩ := updateRecord_scans relName conds u off nullable bIsValue v cnt record w1
    cases hd : updateRecord relName conds u off nullable bIsValue v cnt record w1 with
    | next s =>
      have hs := b2 s hd
      apply ih
      unfold scanLength at hlt h ⊢
      rw [hs]
      omega
    | ret rc s => simp
    | outOfFuel => exact absurd hd b1

/-- After its validation `Delete` never returns a validation code, and it always
returns. -/
theorem Delete_validation (relName : String) (conditions : List Condition) (w : World)
    (h : cleanFaults w) :
    ∃ res, Delete relName conditions w = some res ∧
      (isValidationError res.1 = true → res.2 = w) := by
  unfold Delete
  by_cases hcat : relName = "relcat" ∨ relName = "attrcat"
  · rw [if_pos hcat]; exact ⟨_, rfl, fun _ => rfl⟩
  rw [if_neg hcat]
  cases GetRelEntry relName w with
  | error rc => exact ⟨_, rfl, fun _ => rfl⟩
  | ok relEntry =>
    simp only
    cases GetDataAttrInfo relName w with
    | error rc => exact ⟨_, rfl, fun _ => rfl⟩
    | ok attributes =>
      simp only
      rcases CheckConditionsValid relName conditions (buildNameMap attributes) [] with ⟨rc0, conds⟩
      simp only
      by_cases e0 : rc0 = RC.OK
      swap
      · rw [if_pos e0]; exact ⟨_, rfl, fun _ => rfl⟩
      rw [if_neg (not_not.mpr e0)]
      obtain ⟨a1, a2⟩ := OpenFile_clean relName w h
      rcases h1 : OpenFile relName w with ⟨rc1, w1⟩
      rw [h1] at a1 a2
      simp only at a1 a2 ⊢
      by_cases e1 : rc1 = RC.OK
      swap
      · rw [if_pos e1]; exact ⟨_, rfl, fun hv => by simp [a1] at hv⟩
      rw [if_neg (not_not.mpr e1)]
      obtain ⟨b1, b2⟩ := OpenScan_clean 0 (some relName) { w1 with scans := fun _ => none } a2
      rcases h2 : OpenScan 0 (some relName) { w1 with scans := fun _ => none } with ⟨rc2, w2⟩
      rw [h2] at b1 b2
      simp only at b1 b2 ⊢
      by_cases e2 : rc2 = RC.OK
      swap
      · rw [if_pos e2]; exact ⟨_, rfl, fun hv => by simp [b1] at hv⟩
      rw [if_neg (not_not.mpr e2)]
      have hc := deleteLoop_clean relName conds (scanLength w2 0 + 1) 0 w2 b2
      have ht := deleteLoop_total relName conds (scanLength w2 0 + 1) 0 w2 (by omega)
      cases hd : deleteLoop relName conds (scanLength w2 0 + 1) 0 w2 with
      | outOfFuel => exact absurd hd ht
      | ret rc s =>
        rw [hd] at hc
        exact ⟨_, rfl, fun hv => by simp [show isValidationError rc = false from hc] at hv⟩
      | next s =>
        rw [hd] at hc
        simp only
        obtain ⟨c1, c2⟩ := CloseScan_clean 0 s.2 hc
        rcases h3 : CloseScan 0 s.2 with ⟨rc3, w3⟩
        rw [h3] at c1 c2
        simp only at c1 c2 ⊢
        by_cases e3 : rc3 = RC.OK
        swap
        · rw [if_pos e3]; exact ⟨_, rfl, fun hv => by simp [c1] at hv⟩
        rw [if_neg (not_not.mpr e3)]
        obtain ⟨d1, d2⟩ := CloseFile_clean relName w3 c2
        rcases h4 : CloseFile relName w3 with ⟨rc4, w4⟩
        rw [h4] at d1 d2
        simp only at d1 d2 ⊢
        by_cases e4 : rc4 = RC.OK
        swap
        · rw [if_pos e4]; exact ⟨_, rfl, fun hv => by simp [d1] at hv⟩
        rw [if_neg (not_not.mpr e4)]
        have f1 := UpdateRelEntry_clean relName
          { relEntry with recordCount := wrapInt32 (relEntry.recordCount - s.1) } w4
        rcases h5 : UpdateRelEntry relName
          { relEntry with recordCount := wrapInt32 (relEntry.recordCount - s.1) } w4 with ⟨rc5, w5⟩
        rw [h5] at f1
        simp only at f1 ⊢
        by_cases e5 : rc5 = RC.OK
        swap
        · rw [if_pos e5]; exact ⟨_, rfl, fun hv => by simp [f1] at hv⟩
        rw [if_neg (not_not.mpr e5)]
        exact ⟨_, rfl, fun hv => by simp [isValidationError] at hv⟩

theorem runUpdate_clean (relName : String) (conds : List QL_Condition) (u : DataAttrInfo)
    (off : Nat) (nullable bIsValue : Bool) (v : Value) (w : World) (h : cleanFaults w) :
    ∃ res, runUpdate relName conds u off nullable bIsValue v w = some res ∧
      isValidationError res.1 = false := by
  unfold runUpdate
  obtain ⟨a1, a2⟩ := OpenFile_clean relName w h
  rcases h1 : OpenFile relName w with ⟨rc1, w1⟩
  rw [h1] at a1 a2
  simp only at a1 a2 ⊢
  by_cases e1 : rc1 = RC.OK
  swap
  · rw [if_pos e1]; exact ⟨_, rfl, a1⟩
  rw [if_neg (not_not.mpr e1)]
  obtain ⟨b1, b2⟩ := OpenScan_clean 0 (some relName) { w1 with scans := fun _ => none } a2
  rcases h2 : OpenScan 0 (some relName) { w1 with scans := fun _ => none } with ⟨rc2, w2⟩
  rw [h2] at b1 b2
  simp only at b1 b2 ⊢
  by_cases e2 : rc2 = RC.OK
  swap
  · rw [if_pos e2]; exact ⟨_, rfl, b1⟩
  rw [if_neg (not_not.mpr e2)]
  have hc := updateLoop_clean relName conds u off nullable bIsValue v (scanLength w2 0 + 1) 0 w2 b2
  have ht := updateLoop_total relName conds u off nullable bIsValue v (scanLength w2 0 + 1) 0 w2
    (by omega)
  cases hd : updateLoop relName conds u off nullable bIsValue v (scanLength w2 0 + 1) 0 w2 with
  | outOfFuel => exact absurd hd ht
  | ret rc s =>
    rw [hd] at hc
    exact ⟨_, rfl, hc⟩
  | next s =>
    rw [hd] at hc
    simp only
    obtain ⟨c1, c2⟩ := CloseScan_clean 0 s.2 hc
    rcases h3 : CloseScan 0 s.2 with ⟨rc3, w3⟩
    rw [h3] at c1 c2
    simp only at c1 c2 ⊢
    by_cases e3 : rc3 = RC.OK
    swap
    · rw [if_pos e3]; exact ⟨_, rfl, c1⟩
    rw [if_neg (not_not.mpr e3)]
    obtain ⟨d1, d2⟩ := CloseFile_clean relName w3 c2
    rcases h4 : CloseFile relName w3 with ⟨rc4, w4⟩
    rw [h4] at d1 d2
    simp only at d1 d2 ⊢
    by_cases e4 : rc4 = RC.OK
    swap
    · rw [if_pos e4]; exact ⟨_, rfl, d1⟩
    rw [if_neg (not_not.mpr e4)]
    exact ⟨_, rfl, rfl⟩

/-- After its validation `Update` never returns a validation code, and it always
returns. -/
theorem Update_validation (relName : String) (updAttr : RelAttr) (bIsValue : Bool)
    (rhsRelAttr : RelAttr) (rhsValue : Value) (conditions : List Condition) (w : World)
    (h : cleanFaults w) :
    ∃ res, Update relName updAttr bIsValue rhsRelAttr rhsValue conditions w = some res ∧
      (isValidationError res.1 = true → res.2 = w) := by
  unfold Update
  by_cases hcat : relName = "relcat" ∨ relName = "attrcat"
  · rw [if_pos hcat]; exact ⟨_, rfl, fun _ => rfl⟩
  rw [if_neg hcat]
  cases GetRelEntry relName w with
  | error rc => exact ⟨_, rfl, fun _ => rfl⟩
  | ok relEntry =>
    simp only
    by_cases hb1 : checkAttrBelongsToRel updAttr relName ≠ RC.OK
    · rw [if_pos hb1]; exact ⟨_, rfl, fun _ => rfl⟩
    rw [if_neg hb1]
    by_cases hb2 : bIsValue = false ∧ checkAttrBelongsToRel rhsRelAttr relName ≠ RC.OK
    · rw [if_pos hb2]; exact ⟨_, rfl, fun _ => rfl⟩
    rw [if_neg hb2]
    cases GetDataAttrInfo relName w with
    | error rc => exact ⟨_, rfl, fun _ => rfl⟩
    | ok attributes =>
      simp only
      rcases CheckConditionsValid relName conditions (buildNameMap attributes) [] with ⟨rc0, conds⟩
      simp only
      by_cases e0 : rc0 = RC.OK
      swap
      · rw [if_pos e0]; exact ⟨_, rfl, fun _ => rfl⟩
      rw [if_neg (not_not.mpr e0)]
      by_cases hn : isNullable (mapGet (buildNameMap attributes) updAttr.attrName) = false ∧
          bIsValue = true ∧ rhsValue.type = ValueType.VT_NULL
      · rw [if_pos hn]; exact ⟨_, rfl, fun _ => rfl⟩
      rw [if_neg hn]
      obtain ⟨res, hres, hrc⟩ := runUpdate_clean relName conds
        (mapGet (buildNameMap attributes) updAttr.attrName)
        (if bIsValue then 0 else (mapGet (buildNameMap attributes) rhsRelAttr.attrName).offset)
        (isNullable (mapGet (buildNameMap attributes) updAttr.attrName)) bIsValue rhsValue w h
      exact ⟨res, hres, fun hv => by simp [hrc] at hv⟩

/-- After its validation `Insert` never returns a validation code. -/
theorem Insert_validation (relName : String) (values : List Value) (w : World)
    (h : cleanFaults w) (hv : isValidationError (Insert relName values w).1 = true) :
    (Insert relName values w).2 = w := by
  unfold Insert at hv ⊢
  by_cases hcat : relName = "relcat" ∨ relName = "attrcat"
  · rw [if_pos hcat]
  rw [if_neg hcat] at hv ⊢
  cases hre : GetRelEntry relName w with
  | error rc => rfl
  | ok relEntry =>
    rw [hre] at hv
    simp only at hv ⊢
    cases hda : GetDataAttrInfo relName w with
    | error rc => rfl
    | ok attributes =>
      rw [hda] at hv
      simp only at hv ⊢
      by_cases hl : values.length ≠ attributes.length
      · rw [if_pos hl]
      rw [if_neg hl] at hv ⊢
      rcases hci : checkInsertValues attributes values 0 with ⟨rc0, nullableNum⟩
      rw [hci] at hv
      simp only at hv ⊢
      by_cases e0 : rc0 = RC.OK
      swap
      · rw [if_pos e0]
      rw [if_neg (not_not.mpr e0)] at hv ⊢
      rcases hfr : fillRecord attributes values (List.replicate relEntry.tupleLength 0)
        (List.replicate nullableNum.toNat false) 0 with ⟨rc1, data, isnull⟩
      rw [hfr] at hv
      simp only at hv ⊢
      by_cases e1 : rc1 = RC.OK
      swap
      · rw [if_pos e1]
      rw [if_neg (not_not.mpr e1)] at hv ⊢
      exfalso
      obtain ⟨a1, a2⟩ := OpenFile_clean relName w h
      rcases h1 : OpenFile relName w with ⟨rc2, w1⟩
      rw [h1] at a1 a2 hv
      simp only at a1 a2 hv
      by_cases e2 : rc2 = RC.OK
      swap
      · rw [if_pos e2] at hv; simp [a1] at hv
      rw [if_neg (not_not.mpr e2)] at hv
      obtain ⟨b1, b2⟩ := InsertRec_clean relName data isnull w1 a2
      rcases h2 : InsertRec relName data isnull w1 with ⟨rc3, rid, w2⟩
      rw [h2] at b1 b2 hv
      simp only at b1 b2 hv
      by_cases e3 : rc3 = RC.OK
      swap
      · rw [if_pos e3] at hv; simp [b1] at hv
      rw [if_neg (not_not.mpr e3)] at hv
      obtain ⟨c1, c2⟩ := CloseFile_clean relName w2 b2
      rcases h3 : CloseFile relName w2 with ⟨rc4, w3⟩
      rw [h3] at c1 c2 hv
      simp only at c1 c2 hv
      by_cases e4 : rc4 = RC.OK
      swap
      · rw [if_pos e4] at hv; simp [c1] at hv
      rw [if_neg (not_not.mpr e4)] at hv
      simp [UpdateRelEntry_clean] at hv

/-- C15: on a database whose forced record-manager results hold no validation
code, whenever `Insert`, `Delete` or `Update` returns `QL_FORBIDDEN`,
`QL_ATTR_NOTEXIST`, `QL_ATTR_TYPES_MISMATCH`, `QL_VALUE_TYPES_MISMATCH`,
`QL_ATTR_COUNT_MISMATCH`, `QL_STRING_VAL_TOO_LONG` or `QL_ATTR_IS_NOTNULL`, the list
of storing calls (`InsertRec`, `DeleteRec`, `UpdateRec`, `UpdateRelEntry`) is the
one before the statement and the catalog with its stored records and record
counts is unchanged; `Delete` and `Update` always return. -/
theorem validation_error_stores_nothing (w : World) (h : cleanFaults w) :
    (∀ relName values, isValidationError (Insert relName values w).1 = true →
      (Insert relName values w).2.calls = w.calls ∧
      (Insert relName values w).2.catalog = w.catalog) ∧
    (∀ relName conditions, ∃ res, Delete relName conditions w = some res ∧
      (isValidationError res.1 = true →
        res.2.calls = w.calls ∧ res.2.catalog = w.catalog)) ∧
    (∀ relName updAttr bIsValue rhsRelAttr rhsValue conditions,
      ∃ res, Update relName updAttr bIsValue rhsRelAttr rhsValue conditions w = some res ∧
        (isValidationError res.1 = true →
          res.2.calls = w.calls ∧ res.2.catalog = w.catalog)) := by
  refine ⟨?_, ?_, ?_⟩
  · intro relName values hv
    rw [Insert_validation relName values w h hv]
    exact ⟨rfl, rfl⟩
  · intro relName conditions
    obtain ⟨res, h1, h2⟩ := Delete_validation relName conditions w h
    exact ⟨res, h1, fun hv => by rw [h2 hv]; exact ⟨rfl, rfl⟩⟩
  · intro relName updAttr bIsValue rhsRelAttr rhsValue conditions
    obtain ⟨res, h1, h2⟩ :=
      Update_validation relName updAttr bIsValue rhsRelAttr rhsValue conditions w h
    exact ⟨res, h1, fun hv => by rw [h2 hv]; exact ⟨rfl, rfl⟩⟩

/-! ## `Insert`: the string length test -/

theorem checkInsertValues_ok (attrs : List DataAttrInfo) :
    ∀ (values : List Value) (n : Int),
      (∀ p ∈ attrs.zip values, can_assign_to p.1.attrType p.2.type (isNullable p.1) = true) →
      (checkInsertValues attrs values n).1 = RC.OK := by
  induction attrs with
  | nil => intro values n _; rfl
  | cons a rest ih =>
    intro values n h
    cases values with
    | nil => rfl
    | cons v vs =>
      have h0 := h (a, v) (by simp)
      simp only at h0
      unfold checkInsertValues
      simp only [h0, Bool.not_true, Bool.false_eq_true, if_false]
      exact ih vs _ (fun p hp => h p (by simp only [List.zip_cons_cons]; exact List.mem_cons_of_mem _ hp))

theorem fillRecord_rc (attrs : List DataAttrInfo) :
    ∀ (values : List Value) (data : List Nat) (isnull : List Bool) (idx : Int),
      ((fillRecord attrs values data isnull idx).1 = RC.OK ∧
        ¬ ∃ p ∈ attrs.zip values, stringTooLong p) ∨
      ((fillRecord attrs values data isnull idx).1 = RC.QL_STRING_VAL_TOO_LONG ∧
        ∃ p ∈ attrs.zip values, stringTooLong p) := by
  induction attrs with
  | nil => intro values data isnull idx; left; exact ⟨rfl, by simp⟩
  | cons a rest ih =>
    intro values data isnull idx
    cases values with
    | nil => left; exact ⟨rfl, by simp⟩
    | cons v vs =>
      have step : ∀ (d : List Nat) (b : List Bool) (k : Int), ¬ stringTooLong (a, v) →
          fillRecord (a :: rest) (v :: vs) data isnull idx = fillRecord rest vs d b k →
          ((fillRecord (a :: rest) (v :: vs) data isnull idx).1 = RC.OK ∧
            ¬ ∃ p ∈ (a :: rest).zip (v :: vs), stringTooLong p) ∨
          ((fillRecord (a :: rest) (v :: vs) data isnull idx).1 = RC.QL_STRING_VAL_TOO_LONG ∧
            ∃ p ∈ (a :: rest).zip (v :: vs), stringTooLong p) := by
        intro d b k hhead heq
        rw [heq]
        rcases ih vs d b k with ⟨h1, h2⟩ | ⟨h1, h2⟩
        · left
          refine ⟨h1, ?_⟩
          rintro ⟨p, hp, hs⟩
          simp only [List.zip_cons_cons, List.mem_cons] at hp
          rcases hp with rfl | hp
          · exact hhead hs
          · exact h2 ⟨p, hp, hs⟩
        · right
          obtain ⟨p, hp, hs⟩ := h2
          exact ⟨h1, p, by simp only [List.zip_cons_cons]; exact List.mem_cons_of_mem _ hp, hs⟩
      by_cases hnull : v.type = ValueType.VT_NULL
      · apply step _ _ _ (fun hs => hs.2.1 hnull)
        rw [fillRecord, if_pos hnull]
      · cases hty : a.attrType with
        | INT =>
          apply step _ _ _ (fun hs => by rw [stringTooLong, hty] at hs; cases hs.1)
          rw [fillRecord, if_neg hnull, hty]
        | FLOAT =>
          apply step _ _ _ (fun hs => by rw [stringTooLong, hty] at hs; cases hs.1)
          rw [fillRecord, if_neg hnull, hty]
        | STRING =>
          by_cases hlong : strlen v.data > a.attrDisplayLength
          · right
            refine ⟨?_, (a, v), by simp, hty, hnull, hlong⟩
            rw [fillRecord, if_neg hnull, hty]
            simp only
            rw [if_pos hlong]
          · apply step _ _ _ (fun hs => hlong hs.2.2)
            rw [fillRecord, if_neg hnull, hty]
            simp only
            rw [if_neg hlong]

/-- Once the record of an `Insert` is filled, the code returned is the record
manager's or the catalog's, or 0. -/
theorem Insert_stores_rc (relName : String) (values : List Value) (w : World)
    (rel : Relation) (hname : ¬ (relName = "relcat" ∨ relName = "attrcat"))
    (hrel : w.catalog relName = some rel) (hlen : values.length = rel.attrs.length)
    (hci : (checkInsertValues rel.attrs values 0).1 = RC.OK)
    (hfill : (fillRecord rel.attrs values (List.replicate rel.relEntry.tupleLength 0)
      (List.replicate (checkInsertValues rel.attrs values 0).2.toNat false) 0).1 = RC.OK)
    (h : cleanFaults w) :
    isValidationError (Insert relName values w).1 = false := by
  have hre : GetRelEntry relName w = Except.ok rel.relEntry := by simp [GetRelEntry, hrel]
  have hda : GetDataAttrInfo relName w = Except.ok rel.attrs := by simp [GetDataAttrInfo, hrel]
  unfold Insert
  rw [if_neg hname, hre]
  simp only
  rw [hda]
  simp only
  rw [if_neg (not_not.mpr hlen)]
  rcases hc : checkInsertValues rel.attrs values 0 with ⟨rc0, n⟩
  rw [hc] at hci hfill
  simp only at hci hfill ⊢
  rw [if_neg (not_not.mpr hci)]
  rcases hf : fillRecord rel.attrs values (List.replicate rel.relEntry.tupleLength 0)
    (List.replicate n.toNat false) 0 with ⟨rc1, data, isnull⟩
  rw [hf] at hfill
  simp only at hfill ⊢
  rw [if_neg (not_not.mpr hfill)]
  obtain ⟨a1, a2⟩ := OpenFile_clean relName w h
  rcases h1 : OpenFile relName w with ⟨rc2, w1⟩
  rw [h1] at a1 a2
  simp only at a1 a2 ⊢
  by_cases e2 : rc2 = RC.OK
  swap
  · rw [if_pos e2]; exact a1
  rw [if_neg (not_not.mpr e2)]
  obtain ⟨b1, b2⟩ := InsertRec_clean relName data isnull w1 a2
  rcases h2 : InsertRec relName data isnull w1 with ⟨rc3, rid, w2⟩
  rw [h2] at b1 b2
  simp only at b1 b2 ⊢
  by_cases e3 : rc3 = RC.OK
  swap
  · rw [if_pos e3]; exact b1
  rw [if_neg (not_not.mpr e3)]
  obtain ⟨c1, c2⟩ := CloseFile_clean relName w2 b2
  rcases h3 : CloseFile relName w2 with ⟨rc4, w3⟩
  rw [h3] at c1 c2
  simp only at c1 c2 ⊢
  by_cases e4 : rc4 = RC.OK
  swap
  · rw [if_pos e4]; exact c1
  rw [if_neg (not_not.mpr e4)]
  exact UpdateRelEntry_clean _ _ _

/-- C16: for an `Insert` into a relation of the catalog other than `relcat` and
`attrcat`, with as many values as attributes and every value assignable to its
attribute, on a database whose forced record-manager results hold no validation
code: `Insert` returns `QL_STRING_VAL_TOO_LONG` exactly when some non-NULL value
destined for a STRING attribute has `strlen` strictly greater than the attribute's
display length, and then the state of the record manager and of the catalog is
the one before the statement. -/
theorem Insert_string_too_long (relName : String) (values : List Value) (w : World)
    (rel : Relation) (hname : ¬ (relName = "relcat" ∨ relName = "attrcat"))
    (hrel : w.catalog relName = some rel) (hlen : values.length = rel.attrs.length)
    (hassign : ∀ p ∈ rel.attrs.zip values,
      can_assign_to p.1.attrType p.2.type (isNullable p.1) = true)
    (hclean : cleanFaults w) :
    ((Insert relName values w).1 = RC.QL_STRING_VAL_TOO_LONG ↔
      ∃ p ∈ rel.attrs.zip values, stringTooLong p) ∧
    ((Insert relName values w).1 = RC.QL_STRING_VAL_TOO_LONG →
      (Insert relName values w).2 = w) := by
  refine ⟨?_, fun hrc => Insert_validation relName values w hclean (by rw [hrc]; rfl)⟩
  have hre : GetRelEntry relName w = Except.ok rel.relEntry := by simp [GetRelEntry, hrel]
  have hda : GetDataAttrInfo relName w = Except.ok rel.attrs := by simp [GetDataAttrInfo, hrel]
  have hci := checkInsertValues_ok rel.attrs values 0 hassign
  have hfr := fillRecord_rc rel.attrs values (List.replicate rel.relEntry.tupleLength 0)
    (List.replicate (checkInsertValues rel.attrs values 0).2.toNat false) 0
  have hI : (fillRecord rel.attrs values (List.replicate rel.relEntry.tupleLength 0)
      (List.replicate (checkInsertValues rel.attrs values 0).2.toNat false) 0).1 ≠ RC.OK →
      Insert relName values w = ((fillRecord rel.attrs values
        (List.replicate rel.relEntry.tupleLength 0)
        (List.replicate (checkInsertValues rel.attrs values 0).2.toNat false) 0).1, w) := by
    intro hne
    unfold Insert
    rw [if_neg hname, hre]
    simp only
    rw [hda]
    simp only
    rw [if_neg (not_not.mpr hlen)]
    rcases hc : checkInsertValues rel.attrs values 0 with ⟨rc0, n⟩
    rw [hc] at hci hne
    simp only at hci hne ⊢
    rw [if_neg (not_not.mpr hci)]
    rcases hf : fillRecord rel.attrs values (List.replicate rel.relEntry.tupleLength 0)
      (List.replicate n.toNat false) 0 with ⟨rc1, data, isnull⟩
    rw [hf] at hne
    simp only at hne ⊢
    rw [if_pos hne]
  constructor
  · intro hrc
    rcases hfr with ⟨h1, _⟩ | ⟨_, h2⟩
    · have := Insert_stores_rc relName values w rel hname hrel hlen hci h1 hclean
      rw [hrc] at this
      cases this
    · exact h2
  · intro hex
    rcases hfr with ⟨_, h2⟩ | ⟨h1, _⟩
    · exact absurd hex h2
    · rw [hI (by rw [h1]; decide)]
      exact h1

theorem Insert_string_too_long_witness :
    ((Insert "S" [{ type := ValueType.VT_INT, data := [5, 0, 0, 0] },
        { type := ValueType.VT_STRING, data := [97, 98, 99, 100, 101, 102, 103, 104, 0] }]
        demoWorld).1 = RC.QL_STRING_VAL_TOO_LONG ↔
      ∃ p ∈ demoS.attrs.zip [{ type := ValueType.VT_INT, data := [5, 0, 0, 0] },
        { type := ValueType.VT_STRING, data := [97, 98, 99, 100, 101, 102, 103, 104, 0] }],
        stringTooLong p) ∧
    ((Insert "S" [{ type := ValueType.VT_INT, data := [5, 0, 0, 0] },
        { type := ValueType.VT_STRING, data := [97, 98, 99, 100, 101, 102, 103, 104, 0] }]
        demoWorld).1 = RC.QL_STRING_VAL_TOO_LONG →
      (Insert "S" [{ type := ValueType.VT_INT, data := [5, 0, 0, 0] },
        { type := ValueType.VT_STRING, data := [97, 98, 99, 100, 101, 102, 103, 104, 0] }]
        demoWorld).2 = demoWorld) :=
  Insert_string_too_long "S" _ demoWorld demoS (by decide) rfl rfl (by decide)
    (fun rc hrc => by cases hrc)

theorem validation_error_stores_nothing_witness :
    cleanFaults demoWorld ∧
    (Insert "S" [] demoWorld).1 = RC.QL_ATTR_COUNT_MISMATCH ∧
    (Insert "S" [] demoWorld).2.calls = demoWorld.calls ∧
    (Insert "S" [] demoWorld).2.catalog = demoWorld.catalog :=
  ⟨(fun rc hrc => by cases hrc), by decide,
    (validation_error_stores_nothing demoWorld (fun rc hrc => by cases hrc)).1 "S" []
      (by decide)⟩

/-! ## `Delete`: the records deleted and the count written back -/

theorem GetData_ok (r : RM_Record) (w : World) (hf : w.faults = []) :
    GetData r w = (RC.OK, r.data, w) := by
  simp [GetData, rmCall_ok w hf]

theorem GetIsnull_ok (r : RM_Record) (w : World) (hf : w.faults = []) :
    GetIsnull r w = (RC.OK, r.isnull, w) := by
  simp [GetIsnull, rmCall_ok w hf]

theorem GetRid_ok (r : RM_Record) (w : World) (hf : w.faults = []) :
    GetRid r w = (RC.OK, r.rid, w) := by
  simp [GetRid, rmCall_ok w hf]

theorem DeleteRec_ok (fh : String) (rid : Nat) (w : World) (rel : Relation)
    (hf : w.faults = []) (hrel : w.catalog fh = some rel)
    (hany : rel.records.any (fun r => r.rid == rid) = true) :
    DeleteRec fh rid w =
      (RC.OK, setRelation { w with calls := w.calls ++ [RMCall.deleteRec fh rid] } fh
        { rel with records := rel.records.filter (fun r => r.rid != rid) }) := by
  unfold DeleteRec
  rw [rmCall_calls, rmCall_ok w hf]
  simp only [ne_eq, not_true_eq_false, if_false, hrel, hany, if_true]

theorem CloseFile_ok (fh : String) (w : World) (hf : w.faults = []) (hm : fh ∈ w.files) :
    CloseFile fh w = (RC.OK, { w with files := w.files.erase fh }) := by
  simp [CloseFile, rmCall_ok w hf, hm]

theorem checkSatisfyRec_isSome (data : List Nat) (isnull : List Bool) (c : QL_Condition) :
    ∃ b, checkSatisfyRec data isnull c = some b := by
  unfold checkSatisfyRec
  split
  · exact checkSatisfy_isSome _ _ _ _ _
  · exact checkSatisfy_isSome _ _ _ _ _

theorem checkAll_isSome (data : List Nat) (isnull : List Bool) (conds : List QL_Condition) :
    ∃ b, checkAll data isnull conds = some b := by
  induction conds with
  | nil => exact ⟨true, rfl⟩
  | cons c rest ih =>
    obtain ⟨b, hb⟩ := checkSatisfyRec_isSome data isnull c
    unfold checkAll
    rw [hb]
    cases b with
    | true => simpa using ih
    | false => exact ⟨false, rfl⟩

theorem checkAll_eq (conds : List QL_Condition) (r : RM_Record) :
    checkAll r.data r.isnull conds = some (satisfiesConds conds r) := by
  obtain ⟨b, hb⟩ := checkAll_isSome r.data r.isnull conds
  unfold satisfiesConds
  rw [hb]
  cases b <;> rfl

theorem deleteRecord_ok (relName : String) (conds : List QL_Condition) (cnt : Int)
    (r : RM_Record) (w : World) (relk : Relation) (hf : w.faults = [])
    (hrel : w.catalog relName = some relk) (hr : r ∈ relk.records) :
    deleteRecord relName conds cnt r w =
      if satisfiesConds conds r then
        Ctl.next (wrapInt32 (cnt + 1),
          setRelation { w with calls := w.calls ++ [RMCall.deleteRec relName r.rid] } relName
            { relk with records := relk.records.filter (fun x => x.rid != r.rid) })
      else Ctl.next (cnt, w) := by
  unfold deleteRecord
  rw [GetData_ok r w hf]
  simp only [ne_eq, not_true_eq_false, if_false]
  rw [GetIsnull_ok r w hf]
  simp only [ne_eq, not_true_eq_false, if_false]
  rw [checkAll_eq]
  simp only
  cases hs : satisfiesConds conds r with
  | false => simp
  | true =>
    simp only [if_true]
    rw [GetRid_ok r w hf]
    simp only [ne_eq, not_true_eq_false, if_false]
    rw [DeleteRec_ok relName r.rid w relk hf hrel
      (List.any_eq_true.mpr ⟨r, hr, by simp⟩)]
    simp only [ne_eq, not_true_eq_false, if_false]

theorem filter_rids (l : List RM_Record) (p : RM_Record → Bool)
    (hn : (l.map (fun r => r.rid)).Nodup) :
    l.filter (fun x => decide (x.rid ∉ (l.filter p).map (fun r => r.rid))) =
      l.filter (fun x => !p x) := by
  apply List.filter_congr
  intro x hx
  have hinj := List.inj_on_of_nodup_map hn
  by_cases hp : p x = true
  · have : x.rid ∈ (l.filter p).map (fun r => r.rid) :=
      List.mem_map.mpr ⟨x, List.mem_filter.mpr ⟨hx, hp⟩, rfl⟩
    simp [this, hp]
  · have : x.rid ∉ (l.filter p).map (fun r => r.rid) := by
      intro hm
      obtain ⟨y, hy, hxy⟩ := List.mem_map.mp hm
      obtain ⟨hy1, hy2⟩ := List.mem_filter.mp hy
      have := hinj hy1 hx hxy
      subst this
      exact hp hy2
    simp [this, hp]

theorem deleteLoop_spec (relName : String) (conds : List QL_Condition) :
    ∀ (rem : List RM_Record) (fuel : Nat) (cnt : Int) (w : World) (relk : Relation),
      w.faults = [] → w.scans 0 = some rem → w.catalog relName = some relk →
      (∀ r ∈ rem, r ∈ relk.records) → (rem.map (fun r => r.rid)).Nodup →
      rem.length < fuel → 0 ≤ cnt → cnt + (rem.length : Int) < 2147483648 →
      ∃ w1, deleteLoop relName conds fuel cnt w =
          Ctl.next (cnt + ((rem.filter (satisfiesConds conds)).length : Int), w1) ∧
        w1.faults = [] ∧ w1.scans 0 = some [] ∧ w1.files = w.files ∧ w1.out = w.out ∧
        w1.calls = w.calls ++ deleteCalls relName (rem.filter (satisfiesConds conds)) ∧
        w1.catalog relName = some
          { relk with
            records := relk.records.filter (fun x => decide (x.rid ∉
              (rem.filter (satisfiesConds conds)).map (fun r => r.rid))) } ∧
        ∀ n, n ≠ relName → w1.catalog n = w.catalog n := by
  intro rem
  induction rem with
  | nil =>
    intro fuel cnt w relk hf hs hrel _ _ hfuel _ _
    cases fuel with
    | zero => simp at hfuel
    | succ fuel =>
      refine ⟨w, ?_, hf, hs, rfl, rfl, by simp [deleteCalls], ?_, fun _ _ => rfl⟩
      · unfold deleteLoop
        rw [GetNextRec_nil 0 w hf hs]
        simp
      · rw [hrel]
        simp
  | cons r rest ih =>
    intro fuel cnt w relk hf hs hrel hsub hnd hfuel hcnt hbound
    cases fuel with
    | zero => simp at hfuel
    | succ fuel =>
      have hlen : ((r :: rest).length : Int) = (rest.length : Int) + 1 := by simp
      have hnd1 : (rest.map (fun r => r.rid)).Nodup := (List.nodup_cons.mp hnd).2
      have hnotin : r.rid ∉ rest.map (fun r => r.rid) := (List.nodup_cons.mp hnd).1
      have hstep : deleteLoop relName conds (fuel + 1) cnt w =
          match deleteRecord relName conds cnt r
            { w with scans := setAt w.scans 0 (some rest) } with
          | Ctl.next s => deleteLoop relName conds fuel s.1 s.2
          | other => other := by
        rw [deleteLoop, GetNextRec_cons 0 w r rest hf hs]
        simp
      rw [hstep, deleteRecord_ok relName conds cnt r
        { w with scans := setAt w.scans 0 (some rest) } relk hf hrel
        (hsub r (List.mem_cons_self _ _))]
      cases hsat : satisfiesConds conds r with
      | false =>
        simp only [Bool.false_eq_true, if_false]
        obtain ⟨w1, h1, h2, h3, h4, h5, h6, h7, h8⟩ := ih fuel cnt
          { w with scans := setAt w.scans 0 (some rest) } relk hf (by simp [setAt]) hrel
          (fun x hx => hsub x (List.mem_cons_of_mem _ hx)) hnd1
          (by simp at hfuel; omega) hcnt (by omega)
        refine ⟨w1, ?_, h2, h3, h4, h5, ?_, ?_, h8⟩
        · rw [h1, List.filter_cons_of_neg (by simp [hsat])]
        · rw [h6, List.filter_cons_of_neg (by simp [hsat])]
        · rw [h7, List.filter_cons_of_neg (by simp [hsat])]
      | true =>
        simp only [if_true]
        have hw : wrapInt32 (cnt + 1) = cnt + 1 := wrapInt32_of_range _ (by omega) (by omega)
        rw [hw]
        obtain ⟨w1, h1, h2, h3, h4, h5, h6, h7, h8⟩ := ih fuel (cnt + 1)
          (setRelation
            { w with scans := setAt w.scans 0 (some rest),
                     calls := w.calls ++ [RMCall.deleteRec relName r.rid] } relName
            { relk with records := relk.records.filter (fun x => x.rid != r.rid) })
          { relk with records := relk.records.filter (fun x => x.rid != r.rid) }
          hf (by simp [setRelation, setAt]) (by simp [setRelation])
          (fun x hx => by
            refine List.mem_filter.mpr ⟨hsub x (List.mem_cons_of_mem _ hx), ?_⟩
            have : x.rid ≠ r.rid := fun he => hnotin (List.mem_map.mpr ⟨x, hx, he⟩)
            simpa using this)
          hnd1 (by simp at hfuel; omega) (by omega) (by omega)
        refine ⟨w1, ?_, h2, h3, h4, h5, ?_, ?_, ?_⟩
        · rw [h1, List.filter_cons_of_pos (by simp [hsat])]
          simp only [List.length_cons, Nat.cast_add, Nat.cast_one]
          congr 2
          omega
        · rw [h6, List.filter_cons_of_pos (by simp [hsat])]
          simp [deleteCalls, setRelation]
        · rw [h7, List.filter_cons_of_pos (by simp [hsat])]
          simp only [List.filter_filter, List.map_cons, List.mem_cons, not_or]
          congr 2
          apply List.filter_congr
          intro x _
          by_cases hx : x.rid = r.rid <;> simp [hx]
        · intro n hn
          rw [h8 n hn]
          simp [setRelation, hn]

theorem satisfiesConds_iff (conds : List QL_Condition) (r : RM_Record) :
    satisfiesConds conds r = true ↔
      ∀ c ∈ conds, checkSatisfyRec r.data r.isnull c = some true := by
  induction conds with
  | nil => simp [satisfiesConds, checkAll]
  | cons c rest ih =>
    obtain ⟨b, hb⟩ := checkSatisfyRec_isSome r.data r.isnull c
    have hrest : (checkAll r.data r.isnull rest == some true) = true ↔
        ∀ c ∈ rest, checkSatisfyRec r.data r.isnull c = some true := ih
    unfold satisfiesConds checkAll
    rw [hb]
    cases b with
    | true =>
      simp only [if_true, List.mem_cons, forall_eq_or_imp, hb, true_and]
      exact hrest
    | false =>
      simp [hb]

/-- C17: for every valid `Delete` on a relation whose records have distinct record
ids, fewer than 2^31 in number, with a catalog `recordCount` in `0 .. 2^31 - 1` and
with no forced record-manager failure: `Delete` returns 0; the storing calls it
makes are `DeleteRec` for exactly the scanned records that satisfy every
condition, in scan order (all records when there is no condition), followed by
`UpdateRelEntry` with the previous `recordCount` minus their number `n`; it
reports `n tuple(s) deleted.`; and afterwards the relation holds the records that
do not satisfy the conditions.  A record satisfies the conditions when
`checkSatisfy` is true for each of them. -/
theorem Delete_deletes_satisfying (relName : String) (conditions : List Condition) (w : World)
    (rel : Relation) (hv : validDelete w relName conditions)
    (hrel : w.catalog relName = some rel) (hf : w.faults = [])
    (hrid : (rel.records.map (fun r => r.rid)).Nodup)
    (hsize : rel.records.length < 2147483648)
    (hcount : 0 ≤ rel.relEntry.recordCount ∧ rel.relEntry.recordCount < 2147483648) :
    ∃ res, Delete relName conditions w = some res ∧ res.1 = RC.OK ∧
      res.2.calls = w.calls ++
        deleteCalls relName
          (rel.records.filter (satisfiesConds (compiledConds w relName conditions))) ++
        [RMCall.updateRelEntry relName
          { rel.relEntry with
            recordCount := rel.relEntry.recordCount -
              ((rel.records.filter
                (satisfiesConds (compiledConds w relName conditions))).length : Int) }] ∧
      res.2.out = w.out ++ [Output.deleted
        ((rel.records.filter
          (satisfiesConds (compiledConds w relName conditions))).length : Int)] ∧
      res.2.catalog relName = some
        { relEntry :=
            { rel.relEntry with
              recordCount := rel.relEntry.recordCount -
                ((rel.records.filter
                  (satisfiesConds (compiledConds w relName conditions))).length : Int) },
          attrs := rel.attrs,
          records := rel.records.filter
            (fun r => !satisfiesConds (compiledConds w relName conditions) r) } ∧
      (conditions = [] →
        rel.records.filter (satisfiesConds (compiledConds w relName conditions)) =
          rel.records) ∧
      (∀ r, satisfiesConds (compiledConds w relName conditions) r = true ↔
        ∀ c ∈ compiledConds w relName conditions,
          checkSatisfyRec r.data r.isnull c = some true) := by
  obtain ⟨hname, rel1, hrel1, hck⟩ := hv
  rw [hrel] at hrel1
  cases hrel1
  have hconds : compiledConds w relName conditions =
      (CheckConditionsValid relName conditions (buildNameMap rel.attrs) []).2 := by
    simp [compiledConds, hrel]
  rw [hconds]
  have hre : GetRelEntry relName w = Except.ok rel.relEntry := by simp [GetRelEntry, hrel]
  have hda : GetDataAttrInfo relName w = Except.ok rel.attrs := by simp [GetDataAttrInfo, hrel]
  have hopen : OpenFile relName w = (RC.OK, { w with files := w.files ++ [relName] }) := by
    simp [OpenFile, rmCall_ok w hf, hrel]
  have hscan : OpenScan 0 (some relName)
      { w with files := w.files ++ [relName], scans := fun _ => none } =
      (RC.OK, { w with files := w.files ++ [relName],
                       scans := setAt (fun _ => none) 0 (some rel.records) }) :=
    OpenScan_ok 0 (some relName) _ rel hf rfl (by simpa using hrel)
  have hfilt : ((rel.records.filter (satisfiesConds
      (CheckConditionsValid relName conditions (buildNameMap rel.attrs) []).2)).length : Int)
      ≤ (rel.records.length : Int) := by
    exact_mod_cast List.length_filter_le _ _
  obtain ⟨w1, h1, h2, h3, h4, h5, h6, h7, h8⟩ := deleteLoop_spec relName
    (CheckConditionsValid relName conditions (buildNameMap rel.attrs) []).2 rel.records
    (rel.records.length + 1) 0
    { w with files := w.files ++ [relName],
             scans := setAt (fun _ => none) 0 (some rel.records) } rel hf
    (by simp [setAt]) hrel (fun r hr => hr) hrid (by omega) (by omega) (by omega)
  have hclose : CloseFile relName { w1 with scans := setAt w1.scans 0 none } =
      (RC.OK, { w1 with scans := setAt w1.scans 0 none,
                        files := (w.files ++ [relName]).erase relName }) := by
    have hm : relName ∈ w1.files := by rw [h4]; simp
    rw [CloseFile_ok relName { w1 with scans := setAt w1.scans 0 none } h2 hm]
    simp [h4]
  have hwrap : wrapInt32 (rel.relEntry.recordCount - (0 + ((rel.records.filter (satisfiesConds
      (CheckConditionsValid relName conditions (buildNameMap rel.attrs) []).2)).length : Int))) =
      rel.relEntry.recordCount - ((rel.records.filter (satisfiesConds
      (CheckConditionsValid relName conditions (buildNameMap rel.attrs) []).2)).length : Int) := by
    rw [Int.zero_add]
    apply wrapInt32_of_range <;> omega
  refine ⟨(RC.OK,
    { catalog := fun n =>
        if n = relName then
          some
            { relEntry :=
                { rel.relEntry with
                  recordCount := wrapInt32 (rel.relEntry.recordCount -
                    (0 + ((rel.records.filter (satisfiesConds
                      (CheckConditionsValid relName conditions
                        (buildNameMap rel.attrs) []).2)).length : Int))) },
              attrs := rel.attrs,
              records := rel.records.filter (fun x => decide (x.rid ∉
                (rel.records.filter (satisfiesConds
                  (CheckConditionsValid relName conditions
                    (buildNameMap rel.attrs) []).2)).map (fun r => r.rid))) }
        else w1.catalog n,
      faults := w1.faults,
      files := (w.files ++ [relName]).erase relName,
      scans := setAt w1.scans 0 none,
      out := w1.out ++ [Output.deleted
        (0 + ((rel.records.filter (satisfiesConds
          (CheckConditionsValid relName conditions
            (buildNameMap rel.attrs) []).2)).length : Int))],
      calls := w1.calls ++ [RMCall.updateRelEntry relName
        { rel.relEntry with
          recordCount := wrapInt32 (rel.relEntry.recordCount -
            (0 + ((rel.records.filter (satisfiesConds
              (CheckConditionsValid relName conditions
                (buildNameMap rel.attrs) []).2)).length : Int))) }] }), ?hD, ?hP⟩
  case hD =>
    unfold Delete
    rw [if_neg hname, hre]
    simp only
    rw [hda]
    simp only
    rw [show CheckConditionsValid relName conditions (buildNameMap rel.attrs) [] =
      (RC.OK, (CheckConditionsValid relName conditions (buildNameMap rel.attrs) []).2) from
      Prod.ext hck rfl]
    simp only
    rw [if_neg (not_not.mpr rfl), hopen]
    simp only [ne_eq, not_true_eq_false, if_false]
    rw [hscan]
    simp only [ne_eq, not_true_eq_false, if_false]
    have hlen : ∀ (f : List String) (l : List RM_Record),
        scanLength { w with files := f, scans := setAt (fun _ => none) 0 (some l) } 0 =
          l.length := by
      intro f l
      simp [scanLength, setAt]
    rw [hlen, h1]
    simp only
    rw [CloseScan_ok 0 w1 [] h2 h3]
    simp only [ne_eq, not_true_eq_false, if_false]
    rw [hclose]
    simp only [ne_eq, not_true_eq_false, if_false]
    unfold UpdateRelEntry
    simp only [h7, ne_eq, not_true_eq_false, if_false]
    rfl
  case hP =>
    simp only
    rw [hwrap, Int.zero_add]
    refine ⟨trivial, ?_, ?_, ?_, ?_, fun r => satisfiesConds_iff _ r⟩
    · simp [h6]
    · simp [h5]
    · simp only [if_true]
      rw [filter_rids rel.records _ hrid]
    · intro hnil
      subst hnil
      apply List.filter_eq_self.mpr
      intro r _
      rfl

theorem Delete_deletes_satisfying_witness :
    ∃ res, Delete "S" [demoIdIsOne] demoWorld = some res ∧ res.1 = RC.OK ∧
      res.2.calls = demoWorld.calls ++
        deleteCalls "S"
          (demoS.records.filter (satisfiesConds (compiledConds demoWorld "S" [demoIdIsOne]))) ++
        [RMCall.updateRelEntry "S"
          { demoS.relEntry with
            recordCount := demoS.relEntry.recordCount -
              ((demoS.records.filter
                (satisfiesConds (compiledConds demoWorld "S" [demoIdIsOne]))).length : Int) }] ∧
      res.2.out = demoWorld.out ++ [Output.deleted
        ((demoS.records.filter
          (satisfiesConds (compiledConds demoWorld "S" [demoIdIsOne]))).length : Int)] ∧
      res.2.catalog "S" = some
        { relEntry :=
            { demoS.relEntry with
              recordCount := demoS.relEntry.recordCount -
                ((demoS.records.filter
                  (satisfiesConds (compiledConds demoWorld "S" [demoIdIsOne]))).length : Int) },
          attrs := demoS.attrs,
          records := demoS.records.filter
            (fun r => !satisfiesConds (compiledConds demoWorld "S" [demoIdIsOne]) r) } ∧
      ([demoIdIsOne] = [] →
        demoS.records.filter (satisfiesConds (compiledConds demoWorld "S" [demoIdIsOne])) =
          demoS.records) ∧
      (∀ r, satisfiesConds (compiledConds demoWorld "S" [demoIdIsOne]) r = true ↔
        ∀ c ∈ compiledConds demoWorld "S" [demoIdIsOne],
          checkSatisfyRec r.data r.isnull c = some true) :=
  Delete_deletes_satisfying "S" [demoIdIsOne] demoWorld demoS
    ⟨by decide, demoS, rfl, by decide⟩ rfl rfl (by decide) (by decide) (by decide)

/-- What the statement `DELETE FROM S WHERE id = 1` does on the demo database, by
evaluation: one `DeleteRec`, for record 1, the count written back is 1. -/
theorem Delete_demo_run :
    (Delete "S" [demoIdIsOne] demoWorld).map (fun r => (r.1, r.2.calls, r.2.out)) =
      some (RC.OK,
        [RMCall.deleteRec "S" 1,
         RMCall.updateRelEntry "S" { tupleLength := 13, recordCount := 1 }],
        [Output.deleted 1]) := by
  decide

/-- A failing `GetNextRec` makes `Delete` return with its scan and its file handle
open (line 764). -/
theorem Delete_error_leaves_open :
    (Delete "S" [] demoFailingWorld).map
      (fun r => (r.1, r.2.files, (r.2.scans 0).isSome)) = some (RC.OTHER 9, ["S"], true) := by
  decide

/-- C18: the failing input.  On the demo database record 2 of `S` has `name` NULL
(null bit 0 set).  `UPDATE S SET name = name` returns 0 and leaves record 2 with
the null bit cleared: line 844 clears the bit of the target whenever the
right-hand side is not the literal NULL, without looking at the null bit of the
right-hand attribute. -/
theorem Update_self_clears_null_bit :
    recordsOf demoWorld "S" =
      [{ data := [1, 0, 0, 0, 97, 108, 0, 0, 0, 0, 0, 0, 0], isnull := [false], rid := 1 },
       { data := [2, 0, 0, 0, 0, 0, 0, 0, 0, 0, 0, 0, 0], isnull := [true], rid := 2 }] ∧
    demoUpdateSelf.map (fun r => (r.1, recordsOf r.2 "S")) =
      some (RC.OK,
        [{ data := [1, 0, 0, 0, 97, 108, 0, 0, 0, 0, 0, 0, 0], isnull := [false], rid := 1 },
         { data := [2, 0, 0, 0, 0, 0, 0, 0, 0, 0, 0, 0, 0], isnull := [false], rid := 2 }]) := by
  decide

/-- C19: the failing input.  `S` has the attributes `id` and `name`;
`UPDATE S SET nosuch = 5` returns 0 and reports two tuples updated: line 796 tests
only the relation qualifier of the target, and line 813 reads `attrMap[nosuch]`
without testing that the map holds the name. -/
theorem Update_missing_attribute_returns_ok :
    "nosuch" ∉ demoS.attrs.map (fun a => a.attrName) ∧
    demoUpdateMissing.map (fun r => (r.1, r.2.out)) =
      some (RC.OK, [Output.updated 2]) := by
  decide

/-- C20: the failing input.  `S.id` is INT and NOT NULL, and the STRING literal
`"abc"` is not assignable to it (`can_assign_to` is false); `UPDATE S SET id = "abc"`
returns 0, not `QL_VALUE_TYPES_MISMATCH`, and writes the bytes of the string over
the INT field of both records: lines 807-817 of `Update` hold the NOT NULL guard
only, where `Insert` (line 553) and `CheckConditionsValid` (line 728) call
`can_assign_to`. -/
theorem Update_string_into_int :
    can_assign_to demoSId.attrType ValueType.VT_STRING (isNullable demoSId) = false ∧
    demoUpdateString.map (fun r => (r.1, recordsOf r.2 "S")) =
      some (RC.OK,
        [{ data := [97, 98, 99, 0, 97, 108, 0, 0, 0, 0, 0, 0, 0], isnull := [false], rid := 1 },
         { data := [97, 98, 99, 0, 0, 0, 0, 0, 0, 0, 0, 0, 0], isnull := [true], rid := 2 }]) ∧
    RC.OK ≠ RC.QL_VALUE_TYPES_MISMATCH := by
  decide

/-- The literal NULL for the NOT NULL attribute `S.id` meets the guard of lines
816-817: `UPDATE S SET id = NULL` returns `QL_ATTR_IS_NOTNULL`, the code the
specification's error table gives for this case. -/
theorem Update_null_counterexample :
    can_assign_to demoSId.attrType ValueType.VT_NULL (isNullable demoSId) = false ∧
    demoUpdateNull.map (fun r => r.1) = some RC.QL_ATTR_IS_NOTNULL ∧
    RC.QL_ATTR_IS_NOTNULL ≠ RC.QL_VALUE_TYPES_MISMATCH := by
  decide

/-- The guard of lines 816-817: for every `Update` on a relation of the catalog
other than `relcat` and `attrcat`, whose target passes `checkAttrBelongsToRel`,
whose conditions `CheckConditionsValid` accepts, whose target attribute is NOT NULL
and whose right-hand side is the literal NULL, `Update` returns
`QL_ATTR_IS_NOTNULL` and leaves the database as it was. -/
theorem Update_null_into_notnull (relName : String) (updAttr rhsRelAttr : RelAttr)
    (rhsValue : Value) (conditions : List Condition) (w : World) (rel : Relation)
    (a : DataAttrInfo) (hname : ¬ (relName = "relcat" ∨ relName = "attrcat"))
    (hrel : w.catalog relName = some rel)
    (hb : checkAttrBelongsToRel updAttr relName = RC.OK)
    (hck : (CheckConditionsValid relName conditions (buildNameMap rel.attrs) []).1 = RC.OK)
    (ha : buildNameMap rel.attrs updAttr.attrName = some a) (hnn : isNullable a = false)
    (hnull : rhsValue.type = ValueType.VT_NULL) :
    can_assign_to a.attrType rhsValue.type (isNullable a) = false ∧
    Update relName updAttr true rhsRelAttr rhsValue conditions w =
      some (RC.QL_ATTR_IS_NOTNULL, w) := by
  constructor
  · rw [hnull, hnn]
    cases a.attrType <;> rfl
  · have hre : GetRelEntry relName w = Except.ok rel.relEntry := by simp [GetRelEntry, hrel]
    have hda : GetDataAttrInfo relName w = Except.ok rel.attrs := by
      simp [GetDataAttrInfo, hrel]
    have hget : mapGet (buildNameMap rel.attrs) updAttr.attrName = a := by
      simp [mapGet, ha]
    unfold Update
    rw [if_neg hname, hre]
    simp only
    rw [if_neg (not_not.mpr hb), if_neg (by simp), hda]
    simp only
    rw [show CheckConditionsValid relName conditions (buildNameMap rel.attrs) [] =
      (RC.OK, (CheckConditionsValid relName conditions (buildNameMap rel.attrs) []).2) from
      Prod.ext hck rfl]
    simp only
    rw [if_neg (not_not.mpr rfl), hget, if_pos ⟨hnn, trivial, hnull⟩]

theorem Update_null_into_notnull_witness :
    can_assign_to demoSId.attrType ValueType.VT_NULL (isNullable demoSId) = false ∧
    Update "S" { relName := none, attrName := "id" } true default
      { type := ValueType.VT_NULL, data := [] } [] demoWorld =
      some (RC.QL_ATTR_IS_NOTNULL, demoWorld) :=
  Update_null_into_notnull "S" { relName := none, attrName := "id" } default
    { type := ValueType.VT_NULL, data := [] } [] demoWorld demoS demoSId (by decide) rfl
    (by decide) (by decide) (by decide) (by decide) rfl

/-! ## The header of the printer (printer.cc lines 64-140) -/

theorem findOther_iff (name : String) (i : Nat) (l : List DataAttrInfo) :
    ∀ j0, findOther name i l j0 = true ↔
      ∃ k, k < l.length ∧ j0 + k ≠ i ∧ name = (l.getD k default).attrName := by
  induction l with
  | nil => intro j0; simp [findOther]
  | cons a rest ih =>
    intro j0
    unfold findOther
    by_cases h : j0 ≠ i ∧ name = a.attrName
    · rw [if_pos h]
      simp only [true_iff]
      exact ⟨0, by simp, by simpa using h.1, by simpa using h.2⟩
    · rw [if_neg h, ih (j0 + 1)]
      constructor
      · rintro ⟨k, hk, h1, h2⟩
        exact ⟨k + 1, by simpa using hk, by omega, by simpa using h2⟩
      · rintro ⟨k, hk, h1, h2⟩
        cases k with
        | zero => exact absurd ⟨by simpa using h1, by simpa using h2⟩ h
        | succ k => exact ⟨k, by simpa using hk, by omega, by simpa using h2⟩

/-- C22: for every attribute list given to the constructor and every column `i`,
the header text before any padding is `attrName` when no other column has the
same `attrName`, and `relName.attrName` when some other column has it. -/
theorem headerText_unique_or_qualified (attributes : List DataAttrInfo) (i : Nat) :
    ((¬ ∃ j, j < attributes.length ∧ j ≠ i ∧
        (attributes.getD j default).attrName = (attributes.getD i default).attrName) →
      headerText attributes i = cstr (attributes.getD i default).attrName) ∧
    ((∃ j, j < attributes.length ∧ j ≠ i ∧
        (attributes.getD j default).attrName = (attributes.getD i default).attrName) →
      headerText attributes i =
        cstr (attributes.getD i default).relName ++ cstr "." ++
          cstr (attributes.getD i default).attrName) := by
  have key := findOther_iff (attributes.getD i default).attrName i attributes 0
  constructor
  · intro hno
    have hf : findOther (attributes.getD i default).attrName i attributes 0 = false := by
      cases hb : findOther (attributes.getD i default).attrName i attributes 0 with
      | false => rfl
      | true =>
        obtain ⟨k, hk, h1, h2⟩ := key.mp hb
        exact absurd ⟨k, hk, by omega, h2.symm⟩ hno
    unfold headerText
    rw [hf]
    rfl
  · rintro ⟨j, hj, hne, hnm⟩
    have hf : findOther (attributes.getD i default).attrName i attributes 0 = true :=
      key.mpr ⟨j, hj, by omega, hnm.symm⟩
    simp only [headerText, hf, if_true]
    rfl

theorem strncpy_length (dst src : List Nat) (n : Nat) :
    (strncpy dst src n).length = dst.length := by
  simp [strncpy]

theorem strncpy_getD (dst src : List Nat) (n j : Nat) (hj : j < dst.length) :
    (strncpy dst src n).getD j 0 =
      if j < n then (if j < strlen src then src.getD j 0 else 0) else dst.getD j 0 := by
  simp [strncpy, List.getD_eq_getElem?_getD, List.getElem?_map, List.getElem?_range hj]

theorem set_getD (l : List Nat) (k v j : Nat) (hj : j < l.length) :
    (l.set k v).getD j 0 = if j = k then v else l.getD j 0 := by
  simp only [List.getD_eq_getElem?_getD, List.getElem?_set]
  by_cases h : k = j
  · subst h
    simp [hj]
  · have h2 : ¬ j = k := fun e => h e.symm
    simp [h, h2]

theorem strlen_getD (src : List Nat) : ∀ k, k < strlen src → src.getD k 0 ≠ 0 := by
  induction src with
  | nil => intro k hk; simp [strlen] at hk
  | cons a rest ih =>
    intro k hk
    unfold strlen at hk
    by_cases ha : a = 0
    · subst ha
      simp at hk
    · have hp : (a != 0) = true := by simpa using ha
      simp only [List.takeWhile_cons, hp, if_true] at hk
      cases k with
      | zero => simpa using ha
      | succ k =>
        simp only [List.getD_cons_succ]
        apply ih
        unfold strlen
        simpa using hk

theorem strlen_le_length (src : List Nat) : strlen src ≤ src.length := by
  unfold strlen
  exact (List.takeWhile_sublist _).length_le

theorem content_eq_take (l : List Nat) : ∀ k, k ≤ l.length → (∀ j, j < k → l.getD j 0 ≠ 0) →
    l.getD k 0 = 0 → content l = l.take k := by
  induction l with
  | nil => intro k _ _ _; simp [content]
  | cons a rest ih =>
    intro k hk h1 h2
    cases k with
    | zero =>
      have ha : a = 0 := by simpa using h2
      subst ha
      simp [content]
    | succ k =>
      have ha : a ≠ 0 := by simpa using h1 0 (by omega)
      have hp : (a != 0) = true := by simpa using ha
      unfold content
      simp only [List.takeWhile_cons, hp, if_true, List.take_succ_cons]
      congr 1
      apply ih k (by simpa using hk)
      · intro j hj
        simpa using h1 (j + 1) (by omega)
      · simpa using h2

theorem strlen_eq_content (l : List Nat) : strlen l = (content l).length := rfl

/-- C24, as stated, fails: with `MAXPRINTSTRING = 53`, a non-null STRING column of
display length 60 and a content of 60 bytes `a`, `Print` writes 53 characters for
the cell, which end in two dots and a space, not in three dots. -/
theorem Print_long_string_counterexample :
    (60 > 53 ∧ 53 ≤ strlen (List.replicate 60 97)) ∧
    printCell 53 (fun _ => [])
      { relName := "S", attrName := "name", offset := 0, attrType := AttrType.STRING,
        attrSize := 61, attrDisplayLength := 60, attrSpecs := 0, nullableIndex := 0 }
      (cstr "name") (List.replicate 60 97 ++ [0]) false =
      List.replicate 50 97 ++ cstr ".. " ∧
    cstr ".. " ≠ cstr "..." := by
  decide

/-- C24 (amended): for every non-null STRING column whose display length is greater
than `MAXPRINTSTRING` (at least 3) and whose content is at least `MAXPRINTSTRING`
bytes long, `Print` writes exactly `MAXPRINTSTRING` characters for the cell: the
first `MAXPRINTSTRING - 3` bytes of the content, two dots and one space. -/
theorem Print_long_string (MAXPRINTSTRING : Nat) (formatFloat : Nat → List Nat)
    (attr : DataAttrInfo) (psHeader data : List Nat) (hM : 3 ≤ MAXPRINTSTRING)
    (hty : attr.attrType = AttrType.STRING) (hdl : attr.attrDisplayLength > MAXPRINTSTRING)
    (hlen : MAXPRINTSTRING ≤ strlen (data.drop attr.offset)) :
    printCell MAXPRINTSTRING formatFloat attr psHeader data false =
      (data.drop attr.offset).take (MAXPRINTSTRING - 3) ++ cstr ".." ++ cstr " " ∧
    (printCell MAXPRINTSTRING formatFloat attr psHeader data false).length = MAXPRINTSTRING := by
  have hsl := strlen_le_length (data.drop attr.offset)
  have hnz := strlen_getD (data.drop attr.offset)
  generalize hsrc : data.drop attr.offset = src at hlen hsl hnz
  generalize hB : ((strncpy (List.replicate MAXPRINTSTRING 0) src
      (MAXPRINTSTRING - 1)).set (MAXPRINTSTRING - 3) 46).set (MAXPRINTSTRING - 2) 46 = B
  have hBlen : B.length = MAXPRINTSTRING := by
    rw [← hB]
    simp [strncpy_length]
  have hBget : ∀ j, j < MAXPRINTSTRING → B.getD j 0 =
      if j = MAXPRINTSTRING - 2 then 46 else if j = MAXPRINTSTRING - 3 then 46
      else if j < MAXPRINTSTRING - 1 then src.getD j 0 else 0 := by
    intro j hj
    rw [← hB, set_getD _ _ _ _ (by simp [strncpy_length]; exact hj),
      set_getD _ _ _ _ (by simp [strncpy_length]; exact hj),
      strncpy_getD _ _ _ _ (by simp; exact hj)]
    have : j < strlen src := by omega
    simp [this]
  have hcont : content B = B.take (MAXPRINTSTRING - 1) := by
    apply content_eq_take B (MAXPRINTSTRING - 1) (by omega)
    · intro j hj
      rw [hBget j (by omega)]
      by_cases a2 : j = MAXPRINTSTRING - 2
      · rw [if_pos a2]; decide
      rw [if_neg a2]
      by_cases a3 : j = MAXPRINTSTRING - 3
      · rw [if_pos a3]; decide
      rw [if_neg a3, if_pos hj]
      exact hnz j (by omega)
    · rw [hBget _ (by omega)]
      rw [if_neg (by omega), if_neg (by omega), if_neg (by omega)]
  have htake : B.take (MAXPRINTSTRING - 1) = src.take (MAXPRINTSTRING - 3) ++ [46, 46] := by
    apply list_ext_getD _ _ 0
    · simp only [List.length_take, List.length_append, List.length_cons, List.length_nil]
      omega
    · intro j hj
      simp only [List.length_take] at hj
      have hj1 : j < MAXPRINTSTRING - 1 := by omega
      rw [List.getD_eq_getElem?_getD, List.getElem?_take_of_lt hj1, ← List.getD_eq_getElem?_getD,
        hBget j (by omega)]
      by_cases h3 : j < MAXPRINTSTRING - 3
      · rw [if_neg (by omega), if_neg (by omega), if_pos hj1]
        rw [List.getD_eq_getElem?_getD (l := _ ++ _), List.getElem?_append_left (by
          simp only [List.length_take]; omega), List.getElem?_take_of_lt h3,
          ← List.getD_eq_getElem?_getD]
      · have hlt : (src.take (MAXPRINTSTRING - 3)).length = MAXPRINTSTRING - 3 := by
          simp only [List.length_take]; omega
        rw [List.getD_eq_getElem?_getD (l := _ ++ _), List.getElem?_append_right (by omega), hlt]
        by_cases h2 : j = MAXPRINTSTRING - 2
        · rw [if_pos h2]
          have : j - (MAXPRINTSTRING - 3) = 1 := by omega
          rw [this]
          rfl
        · have h4 : j = MAXPRINTSTRING - 3 := by omega
          rw [if_neg h2, if_pos h4]
          have : j - (MAXPRINTSTRING - 3) = 0 := by omega
          rw [this]
          rfl
  have hcell : printCell MAXPRINTSTRING formatFloat attr psHeader data false =
      content B ++ Spaces MAXPRINTSTRING (strlen B) := by
    unfold printCell
    rw [if_pos (Or.inl hty), if_pos hdl]
    simp only [Bool.false_eq_true, if_false]
    rw [hsrc, hB]
  have hsp : Spaces MAXPRINTSTRING (strlen B) = [32] := by
    rw [strlen_eq_content, hcont, htake]
    unfold Spaces
    have hl : (src.take (MAXPRINTSTRING - 3) ++ [46, 46]).length = MAXPRINTSTRING - 1 := by
      simp only [List.length_take, List.length_append, List.length_cons, List.length_nil]
      omega
    rw [hl]
    have : ((MAXPRINTSTRING : Int) - ((MAXPRINTSTRING - 1 : Nat) : Int)).toNat = 1 := by omega
    rw [this]
    rfl
  rw [hcell, hsp, hcont, htake]
  refine ⟨rfl, ?_⟩
  simp only [List.length_take, List.length_append, List.length_cons, List.length_nil]
  omega

theorem Print_long_string_witness :
    printCell 53 (fun _ => [])
      { relName := "S", attrName := "name", offset := 4, attrType := AttrType.STRING,
        attrSize := 61, attrDisplayLength := 60, attrSpecs := 0, nullableIndex := 0 }
      (cstr "name") ([1, 0, 0, 0] ++ List.replicate 60 98 ++ [0]) false =
      (([1, 0, 0, 0] ++ List.replicate 60 98 ++ [0]).drop 4).take (53 - 3) ++ cstr ".." ++
        cstr " " ∧
    (printCell 53 (fun _ => [])
      { relName := "S", attrName := "name", offset := 4, attrType := AttrType.STRING,
        attrSize := 61, attrDisplayLength := 60, attrSpecs := 0, nullableIndex := 0 }
      (cstr "name") ([1, 0, 0, 0] ++ List.replicate 60 98 ++ [0]) false).length = 53 :=
  Print_long_string 53 (fun _ => [])
    { relName := "S", attrName := "name", offset := 4, attrType := AttrType.STRING,
      attrSize := 61, attrDisplayLength := 60, attrSpecs := 0, nullableIndex := 0 }
    (cstr "name") ([1, 0, 0, 0] ++ List.replicate 60 98 ++ [0]) (by decide) rfl (by decide)
    (by decide)

theorem null_buffer_content (M n : Nat) (B : List Nat) (hM : 5 ≤ M) (hlen : B.length = M)
    (h0 : B.getD 0 0 = 78) (h1 : B.getD 1 0 = 85) (h2 : B.getD 2 0 = 76) (h3 : B.getD 3 0 = 76)
    (h4 : B.getD 4 0 = 0) (_hn : n = 4) : content B = nullText := by
  have hc : content B = B.take 4 := by
    apply content_eq_take B 4 (by omega)
    · intro j hj
      have : j = 0 ∨ j = 1 ∨ j = 2 ∨ j = 3 := by omega
      rcases this with rfl | rfl | rfl | rfl
      · rw [h0]; decide
      · rw [h1]; decide
      · rw [h2]; decide
      · rw [h3]; decide
    · exact h4
  rw [hc]
  apply list_ext_getD _ _ 0
  · simp only [List.length_take, nullText, List.length_cons, List.length_nil]
    omega
  · intro j hj
    simp only [List.length_take] at hj
    have hj4 : j < 4 := by omega
    rw [List.getD_eq_getElem?_getD, List.getElem?_take_of_lt hj4, ← List.getD_eq_getElem?_getD]
    have : j = 0 ∨ j = 1 ∨ j = 2 ∨ j = 3 := by omega
    rcases this with rfl | rfl | rfl | rfl
    · rw [h0]; rfl
    · rw [h1]; rfl
    · rw [h2]; rfl
    · rw [h3]; rfl

theorem strncpy_null_getD (M n j : Nat) (hj : j < M) (hn : 4 ≤ n) :
    (strncpy (List.replicate M 0) nullText n).getD j 0 = nullText.getD j 0 := by
  rw [strncpy_getD _ _ _ _ (by simpa using hj)]
  have hs : strlen nullText = 4 := by decide
  rw [hs]
  by_cases h4 : j < 4
  · rw [if_pos (by omega), if_pos h4]
  · have hz : nullText.getD j 0 = 0 := by
      simp only [nullText, List.getD_eq_getElem?_getD]
      rw [List.getElem?_eq_none (by simp; omega)]
      rfl
    rw [hz]
    by_cases hjn : j < n
    · rw [if_pos hjn, if_neg h4]
    · rw [if_neg hjn]
      simp [List.getD_eq_getElem?_getD, hj]

theorem Spaces_length (m : Int) (k : Nat) : (Spaces m k).length = (m - (k : Int)).toNat := by
  simp [Spaces]

/-- The text `Print` writes for a null column in the two branches of lines
184-197, when `MAXPRINTSTRING` is at least 8. -/
theorem printCell_null (M : Nat) (formatFloat : Nat → List Nat) (attr : DataAttrInfo)
    (psHeader data : List Nat) (hM : 8 ≤ M) :
    printCell M formatFloat attr psHeader data true =
      nullText ++
        (if attr.attrDisplayLength > M then Spaces M 4
         else if (attr.attrDisplayLength : Int) < (psHeader.length : Int) then
           Spaces psHeader.length 4
         else Spaces attr.attrDisplayLength 4) := by
  have hlong : content (((strncpy (List.replicate M 0) nullText (M - 1)).set (M - 3) 46).set
      (M - 2) 46) = nullText := by
    have hg : ∀ j, j < 5 → (((strncpy (List.replicate M 0) nullText (M - 1)).set (M - 3) 46).set
        (M - 2) 46).getD j 0 = nullText.getD j 0 := by
      intro j hj
      rw [set_getD _ _ _ _ (by simp [strncpy_length]; omega),
        set_getD _ _ _ _ (by simp [strncpy_length]; omega), if_neg (by omega), if_neg (by omega),
        strncpy_null_getD M (M - 1) j (by omega) (by omega)]
    exact null_buffer_content M 4 _ (by omega) (by simp [strncpy_length]) (hg 0 (by omega))
      (hg 1 (by omega)) (hg 2 (by omega)) (hg 3 (by omega)) (hg 4 (by omega)) rfl
  have hshort : content (strncpy (List.replicate M 0) nullText 4) = nullText :=
    null_buffer_content M 4 _ (by omega) (by simp [strncpy_length])
      (strncpy_null_getD M 4 0 (by omega) (le_refl 4))
      (strncpy_null_getD M 4 1 (by omega) (le_refl 4))
      (strncpy_null_getD M 4 2 (by omega) (le_refl 4))
      (strncpy_null_getD M 4 3 (by omega) (le_refl 4))
      (strncpy_null_getD M 4 4 (by omega) (le_refl 4)) rfl
  have h4 : nullText.length = 4 := rfl
  unfold printCell
  rw [if_pos (Or.inr rfl)]
  simp only [if_true]
  by_cases hdl : attr.attrDisplayLength > M
  · rw [if_pos hdl, if_pos hdl, strlen_eq_content, hlong, h4]
  · rw [if_neg hdl, if_neg hdl, strlen_eq_content, hshort, h4]

/-- C25, as stated, fails: with `MAXPRINTSTRING = 53`, the nullable STRING column
`ab` of display length 2 has a header cell of 3 characters (`ab` and one space),
and for a null value `Print` writes the 4 characters `NULL`. -/
theorem Print_null_counterexample :
    (headerCell 53 [demoNarrow] 0).1.length + (headerCell 53 [demoNarrow] 0).2.toNat = 3 ∧
    printCell 53 (fun _ => []) demoNarrow (headerCell 53 [demoNarrow] 0).1 [0, 0, 0] true =
      cstr "NULL" ∧
    (cstr "NULL").length ≠ 3 := by
  decide

/-- A null value of a numeric column is padded by the display length, not to the
12 characters of the header cell: for the nullable FLOAT column `score` of display
length 4 the header cell is 12 wide and the null cell is `NULL` and one space. -/
theorem Print_null_numeric_cell :
    (headerCell 53 [demoTScore] 0).1.length + (headerCell 53 [demoTScore] 0).2.toNat = 12 ∧
    printCell 53 (fun _ => []) demoTScore (headerCell 53 [demoTScore] 0).1
      [0, 0, 0, 0, 0, 0, 0, 0] true = cstr "NULL " := by
  decide

/-- C25 (amended): for every STRING column whose value is null, whose header text
fits the buffer of `MAXPRINTSTRING` characters (`MAXPRINTSTRING` at least 8) and
whose header cell (header text plus `spaces[i]`) is at least 4 characters wide,
`Print` writes `NULL` followed by spaces so that the cell is exactly as wide as the
header cell. -/
theorem Print_null_string_cell (MAXPRINTSTRING : Nat) (formatFloat : Nat → List Nat)
    (attributes : List DataAttrInfo) (i : Nat) (data : List Nat) (hM : 8 ≤ MAXPRINTSTRING)
    (hty : (attributes.getD i default).attrType = AttrType.STRING)
    (hfit : (headerText attributes i).length < MAXPRINTSTRING)
    (hwide : 4 ≤ (headerCell MAXPRINTSTRING attributes i).1.length +
      (headerCell MAXPRINTSTRING attributes i).2.toNat) :
    printCell MAXPRINTSTRING formatFloat (attributes.getD i default)
        (headerCell MAXPRINTSTRING attributes i).1 data true =
      cstr "NULL" ++ List.replicate
        ((headerCell MAXPRINTSTRING attributes i).1.length +
          (headerCell MAXPRINTSTRING attributes i).2.toNat - 4) 32 ∧
    (printCell MAXPRINTSTRING formatFloat (attributes.getD i default)
        (headerCell MAXPRINTSTRING attributes i).1 data true).length =
      (headerCell MAXPRINTSTRING attributes i).1.length +
        (headerCell MAXPRINTSTRING attributes i).2.toNat := by
  have hcell := printCell_null MAXPRINTSTRING formatFloat (attributes.getD i default)
    (headerCell MAXPRINTSTRING attributes i).1 data hM
  have hw : columnWidth MAXPRINTSTRING attributes i =
      min ((attributes.getD i default).attrDisplayLength : Int) (MAXPRINTSTRING : Int) := by
    unfold columnWidth
    rw [if_pos hty]
  have key : (if (attributes.getD i default).attrDisplayLength > MAXPRINTSTRING then
        Spaces MAXPRINTSTRING 4
      else if ((attributes.getD i default).attrDisplayLength : Int) <
          ((headerCell MAXPRINTSTRING attributes i).1.length : Int) then
        Spaces (headerCell MAXPRINTSTRING attributes i).1.length 4
      else Spaces (attributes.getD i default).attrDisplayLength 4) =
      List.replicate ((headerCell MAXPRINTSTRING attributes i).1.length +
          (headerCell MAXPRINTSTRING attributes i).2.toNat - 4) 32 := by
    unfold headerCell at hwide ⊢
    rw [hw] at hwide ⊢
    by_cases hdl : (attributes.getD i default).attrDisplayLength > MAXPRINTSTRING
    · rw [if_pos hdl]
      have hmin : min ((attributes.getD i default).attrDisplayLength : Int)
          (MAXPRINTSTRING : Int) = MAXPRINTSTRING := by omega
      rw [hmin, if_neg (by omega)]
      simp only [Spaces]
      congr 1
      omega
    · rw [if_neg hdl]
      have hmin : min ((attributes.getD i default).attrDisplayLength : Int)
          (MAXPRINTSTRING : Int) = (attributes.getD i default).attrDisplayLength := by omega
      rw [hmin] at hwide ⊢
      by_cases hs : ((attributes.getD i default).attrDisplayLength : Int) -
          ((headerText attributes i).length : Int) < 1
      · rw [if_pos hs] at hwide ⊢
        simp only [List.length_append, List.length_singleton, Nat.cast_add, Nat.cast_one] at hwide ⊢
        rw [if_pos (by omega)]
        simp only [Spaces]
        congr 1
        omega
      · rw [if_neg hs] at hwide ⊢
        simp only at hwide ⊢
        rw [if_neg (by omega)]
        simp only [Spaces]
        congr 1
        omega
  rw [hcell, key]
  refine ⟨rfl, ?_⟩
  simp only [List.length_append, List.length_replicate, nullText, List.length_cons,
    List.length_nil]
  omega

theorem Print_null_string_cell_witness :
    printCell 53 (fun _ => []) ([demoSId, demoSName].getD 1 default)
        (headerCell 53 [demoSId, demoSName] 1).1 [] true =
      cstr "NULL" ++ List.replicate
        ((headerCell 53 [demoSId, demoSName] 1).1.length +
          (headerCell 53 [demoSId, demoSName] 1).2.toNat - 4) 32 ∧
    (printCell 53 (fun _ => []) ([demoSId, demoSName].getD 1 default)
        (headerCell 53 [demoSId, demoSName] 1).1 [] true).length =
      (headerCell 53 [demoSId, demoSName] 1).1.length +
        (headerCell 53 [demoSId, demoSName] 1).2.toNat :=
  Print_null_string_cell 53 (fun _ => []) [demoSId, demoSName] 1 [] (by decide) rfl (by decide)
    (by decide)

/-! ## Which columns `Print` takes to be null (printer.cc lines 170-176) -/

theorem nullFlags_length (attrs : List DataAttrInfo) (isnull : List Bool) :
    ∀ k : Int, (nullFlags attrs isnull k).length = attrs.length := by
  induction attrs with
  | nil => intro k; rfl
  | cons a rest ih => intro k; simp [nullFlags, ih]

theorem nullFlags_getD (attrs : List DataAttrInfo) (isnull : List Bool) :
    ∀ (k : Int) (i : Nat), i < attrs.length →
      (nullFlags attrs isnull k).getD i false =
        (isNullable (attrs.getD i default) &&
          boolAt isnull (k + (nullableCountOf (attrs.take i) : Int))) := by
  induction attrs with
  | nil => intro k i hi; simp at hi
  | cons a rest ih =>
    intro k i hi
    cases i with
    | zero =>
      simp only [nullFlags, List.getD_cons_zero, List.take_zero, nullableCountOf,
        List.filter_nil, List.length_nil, Nat.cast_zero, Int.add_zero]
      cases isNullable a <;> simp
    | succ i =>
      have hi1 : i < rest.length := by simpa using hi
      simp only [nullFlags, List.getD_cons_succ, List.take_succ_cons]
      rw [ih _ i hi1]
      congr 2
      unfold nullableCountOf
      cases h : isNullable a
      · rw [List.filter_cons_of_neg (by simp [h])]
        simp
      · rw [List.filter_cons_of_pos (by simp [h])]
        simp only [if_true, List.length_cons, Nat.cast_add, Nat.cast_one]
        omega

theorem printColumns_eq (M : Nat) (formatFloat : Nat → List Nat) (data : List Nat)
    (isnull : List Bool) (attrs : List DataAttrInfo) :
    ∀ (psHeader : List (List Nat)) (k : Int),
      printColumns M formatFloat attrs psHeader data isnull k =
        ((attrs.zip psHeader).zip (nullFlags attrs isnull k)).flatMap
          (fun c => printCell M formatFloat c.1.1 c.1.2 data c.2) := by
  induction attrs with
  | nil => intro psHeader k; rfl
  | cons a rest ih =>
    intro psHeader k
    cases psHeader with
    | nil => rfl
    | cons h hs =>
      simp only [printColumns, nullFlags, List.zip_cons_cons, List.flatMap_cons]
      rw [ih]

/-- C26, as stated, fails: for the single nullable column `age` whose own
`nullableIndex` is 1 and the null-bit array `[false, true]`, the entry at the
attribute's own `nullableIndex` is true, and `Print` takes the column to be not
null: it reads entry 0, the value of its running counter. -/
theorem Print_null_index_counterexample :
    isNullable demoSecondBit = true ∧
    boolAt [false, true] demoSecondBit.nullableIndex = true ∧
    nullFlags [demoSecondBit] [false, true] 0 = [false] := by
  decide

/-- C26 (amended): for every attribute list and null-bit array given to `Print`,
column `i` is taken to be null iff the attribute lacks the NOTNULL specifier and
the null-bit array entry at the number of columns before `i` that lack NOTNULL is
true; the text `Print` writes is that of the cells with these flags. -/
theorem Print_null_by_running_count (MAXPRINTSTRING : Nat) (formatFloat : Nat → List Nat)
    (attributes : List DataAttrInfo) (data : List Nat) (isnull : List Bool) :
    (nullFlags attributes isnull 0).length = attributes.length ∧
    (∀ i, i < attributes.length →
      ((nullFlags attributes isnull 0).getD i false = true ↔
        isNullable (attributes.getD i default) = true ∧
          boolAt isnull (nullableCountOf (attributes.take i) : Int) = true)) ∧
    (Printer.new attributes).rowText MAXPRINTSTRING formatFloat data isnull =
      ((attributes.zip ((Printer.new attributes).psHeader MAXPRINTSTRING)).zip
        (nullFlags attributes isnull 0)).flatMap
          (fun c => printCell MAXPRINTSTRING formatFloat c.1.1 c.1.2 data c.2) ++ cstr "\n" := by
  refine ⟨nullFlags_length attributes isnull 0, ?_, ?_⟩
  · intro i hi
    rw [nullFlags_getD attributes isnull 0 i hi, Int.zero_add]
    simp
  · unfold Printer.rowText
    rw [printColumns_eq]
    rfl

/-! ## `Insert`: the null-bit array handed to `InsertRec` -/

theorem rmCall_calls_eq (w : World) : (rmCall w).2.calls = w.calls := by
  unfold rmCall
  cases w.faults <;> rfl

theorem OpenFile_calls (r : String) (w : World) : (OpenFile r w).2.calls = w.calls := by
  have h := rmCall_calls_eq w
  unfold OpenFile
  rcases hr : rmCall w with ⟨rc, w1⟩
  rw [hr] at h
  simp only
  split_ifs
  · exact h
  · split <;> exact h

theorem CloseFile_calls (r : String) (w : World) : (CloseFile r w).2.calls = w.calls := by
  have h := rmCall_calls_eq w
  unfold CloseFile
  rcases hr : rmCall w with ⟨rc, w1⟩
  rw [hr] at h
  simp only
  split_ifs <;> exact h

theorem InsertRec_calls (f : String) (d : List Nat) (b : List Bool) (w : World) :
    (InsertRec f d b w).2.2.calls = w.calls ++ [RMCall.insertRec f d b] := by
  have h := rmCall_calls_eq { w with calls := w.calls ++ [RMCall.insertRec f d b] }
  unfold InsertRec
  rcases hr : rmCall { w with calls := w.calls ++ [RMCall.insertRec f d b] } with ⟨rc, w1⟩
  rw [hr] at h
  simp only at h ⊢
  split_ifs
  · exact h
  · split <;> exact h

theorem UpdateRelEntry_calls (r : String) (e : RelCatEntry) (w : World) :
    (UpdateRelEntry r e w).2.calls = w.calls ++ [RMCall.updateRelEntry r e] := by
  unfold UpdateRelEntry
  split <;> rfl

theorem checkInsertValues_count (attrs : List DataAttrInfo) :
    ∀ (values : List Value) (n : Int), values.length = attrs.length →
      (checkInsertValues attrs values n).1 = RC.OK →
      (checkInsertValues attrs values n).2 = n + (nullableCountOf attrs : Int) := by
  induction attrs with
  | nil =>
    intro values n hl _
    cases values with
    | nil => simp [checkInsertValues, nullableCountOf]
    | cons v vs => simp at hl
  | cons a rest ih =>
    intro values n hl hok
    cases values with
    | nil => simp at hl
    | cons v vs =>
      have hl1 : vs.length = rest.length := by simpa using hl
      unfold checkInsertValues at hok ⊢
      by_cases hc : (!can_assign_to a.attrType v.type (isNullable a)) = true
      · rw [if_pos hc] at hok
        cases hok
      · rw [if_neg hc] at hok ⊢
        rw [ih vs _ hl1 hok]
        unfold nullableCountOf
        cases h : isNullable a
        · rw [List.filter_cons_of_neg (by simp [h])]
          simp
        · rw [List.filter_cons_of_pos (by simp [h])]
          simp only [if_true, List.length_cons, Nat.cast_add, Nat.cast_one]
          omega

theorem nullBits_length (attrs : List DataAttrInfo) :
    ∀ (values : List Value), values.length = attrs.length →
      (nullBits attrs values).length = nullableCountOf attrs := by
  induction attrs with
  | nil => intro values _; simp [nullBits, nullableCountOf]
  | cons a rest ih =>
    intro values hl
    cases values with
    | nil => simp at hl
    | cons v vs =>
      have hl1 : vs.length = rest.length := by simpa using hl
      have := ih vs hl1
      unfold nullBits nullableCountOf at this ⊢
      cases h : isNullable a
      · rw [List.zip_cons_cons, List.filter_cons_of_neg (by simp [h]),
          List.filter_cons_of_neg (by simp [h])]
        exact this
      · rw [List.zip_cons_cons, List.filter_cons_of_pos (by simp [h]),
          List.filter_cons_of_pos (by simp [h])]
        simp only [List.map_cons, List.length_cons]
        omega

theorem setBool_append (pre suf : List Bool) (x v : Bool) :
    setBool (pre ++ x :: suf) (pre.length : Int) v = pre ++ v :: suf := by
  simp [setBool]

theorem fillRecord_isnull (attrs : List DataAttrInfo) :
    ∀ (values : List Value) (data : List Nat) (pre suf : List Bool),
      values.length = attrs.length → suf.length = nullableCountOf attrs →
      (fillRecord attrs values data (pre ++ suf) (pre.length : Int)).1 = RC.OK →
      (fillRecord attrs values data (pre ++ suf) (pre.length : Int)).2.2 =
        pre ++ nullBits attrs values := by
  induction attrs with
  | nil =>
    intro values data pre suf hl hs _
    cases values with
    | nil =>
      have : suf = [] := List.length_eq_zero.mp (by simpa [nullableCountOf] using hs)
      simp [fillRecord, nullBits, this]
    | cons v vs => simp at hl
  | cons a rest ih =>
    intro values data pre suf hl hs hok
    cases values with
    | nil => simp at hl
    | cons v vs =>
      have hl1 : vs.length = rest.length := by simpa using hl
      have key : ∀ (d : List Nat) (b1 : List Bool) (k1 : Int),
          b1 = (if isNullable a then setBool (pre ++ suf) (pre.length : Int)
            (v.type == ValueType.VT_NULL) else pre ++ suf) →
          k1 = (if isNullable a then (pre.length : Int) + 1 else (pre.length : Int)) →
          (fillRecord rest vs d b1 k1).1 = RC.OK →
          (fillRecord rest vs d b1 k1).2.2 = pre ++ nullBits (a :: rest) (v :: vs) := by
        intro d b1 k1 hb hk hok1
        cases hn : isNullable a
        · rw [hn] at hb hk
          simp only [Bool.false_eq_true, if_false] at hb hk
          subst hb hk
          have hs1 : suf.length = nullableCountOf rest := by
            rw [hs]
            unfold nullableCountOf
            rw [List.filter_cons_of_neg (by simp [hn])]
          rw [ih vs d pre suf hl1 hs1 hok1]
          unfold nullBits
          rw [List.zip_cons_cons, List.filter_cons_of_neg (by simp [hn])]
        · rw [hn] at hb hk
          simp only [if_true] at hb hk
          have hs0 : suf.length = nullableCountOf rest + 1 := by
            rw [hs]
            unfold nullableCountOf
            rw [List.filter_cons_of_pos (by simp [hn])]
            rfl
          cases suf with
          | nil => simp at hs0
          | cons x suf1 =>
            rw [setBool_append] at hb
            have hb2 : b1 = (pre ++ [v.type == ValueType.VT_NULL]) ++ suf1 := by
              rw [hb]; simp
            have hk2 : k1 = ((pre ++ [v.type == ValueType.VT_NULL]).length : Int) := by
              rw [hk]; simp
            subst hb2 hk2
            rw [ih vs d _ suf1 hl1 (by simpa using hs0) hok1]
            unfold nullBits
            rw [List.zip_cons_cons, List.filter_cons_of_pos (by simp [hn])]
            simp
      by_cases hnull : v.type = ValueType.VT_NULL
      · rw [fillRecord, if_pos hnull] at hok ⊢
        exact key _ _ _ rfl rfl hok
      · cases hty : a.attrType with
        | INT =>
          rw [fillRecord, if_neg hnull, hty] at hok ⊢
          exact key _ _ _ rfl rfl hok
        | FLOAT =>
          rw [fillRecord, if_neg hnull, hty] at hok ⊢
          exact key _ _ _ rfl rfl hok
        | STRING =>
          rw [fillRecord, if_neg hnull, hty] at hok ⊢
          simp only at hok ⊢
          by_cases hlong : strlen v.data > a.attrDisplayLength
          · rw [if_pos hlong] at hok
            cases hok
          · rw [if_neg hlong] at hok ⊢
            exact key _ _ _ rfl rfl hok

/-- C29: for every `Insert` into a relation of the catalog, every `InsertRec` call
the statement makes passes a null-bit array whose length is the number of
attributes of the relation lacking NOTNULL and whose entries are, for these
attributes in the order `GetDataAttrInfo` returns them (offset order), whether the
value supplied is NULL. -/
theorem Insert_null_bit_array (relName : String) (values : List Value) (w : World)
    (rel : Relation) (hrel : w.catalog relName = some rel) :
    ∃ rest, (Insert relName values w).2.calls = w.calls ++ rest ∧
      ∀ f d b, RMCall.insertRec f d b ∈ rest →
        b.length = nullableCountOf rel.attrs ∧ b = nullBits rel.attrs values := by
  have hre : GetRelEntry relName w = Except.ok rel.relEntry := by simp [GetRelEntry, hrel]
  have hda : GetDataAttrInfo relName w = Except.ok rel.attrs := by simp [GetDataAttrInfo, hrel]
  have hnone : ∀ (x : RC × World), x.2.calls = w.calls →
      ∃ rest, x.2.calls = w.calls ++ rest ∧
        ∀ f d b, RMCall.insertRec f d b ∈ rest →
          b.length = nullableCountOf rel.attrs ∧ b = nullBits rel.attrs values := by
    intro x hx
    exact ⟨[], by simpa using hx, by intro f d b hm; cases hm⟩
  unfold Insert
  by_cases hcat : relName = "relcat" ∨ relName = "attrcat"
  · rw [if_pos hcat]; exact hnone _ rfl
  rw [if_neg hcat, hre]
  simp only
  rw [hda]
  simp only
  by_cases hl : values.length ≠ rel.attrs.length
  · rw [if_pos hl]; exact hnone _ rfl
  rw [if_neg hl]
  have hlen : values.length = rel.attrs.length := not_not.mp hl
  have hcount := checkInsertValues_count rel.attrs values 0 hlen
  rcases hci : checkInsertValues rel.attrs values 0 with ⟨rc0, nullableNum⟩
  rw [hci] at hcount
  simp only at hcount ⊢
  by_cases e0 : rc0 = RC.OK
  swap
  · rw [if_pos e0]; exact hnone _ rfl
  rw [if_neg (not_not.mpr e0)]
  have hnum : nullableNum.toNat = nullableCountOf rel.attrs := by
    rw [hcount e0]
    simp
  have hbits := fillRecord_isnull rel.attrs values (List.replicate rel.relEntry.tupleLength 0) []
    (List.replicate nullableNum.toNat false) hlen (by simp [hnum])
  simp only [List.nil_append, List.length_nil, Nat.cast_zero] at hbits
  rcases hfr : fillRecord rel.attrs values (List.replicate rel.relEntry.tupleLength 0)
    (List.replicate nullableNum.toNat false) 0 with ⟨rc1, data, isnull⟩
  rw [hfr] at hbits
  simp only at hbits ⊢
  by_cases e1 : rc1 = RC.OK
  swap
  · rw [if_pos e1]; exact hnone _ rfl
  rw [if_neg (not_not.mpr e1)]
  have hb : isnull = nullBits rel.attrs values := hbits e1
  have a := OpenFile_calls relName w
  rcases h1 : OpenFile relName w with ⟨rc2, w1⟩
  rw [h1] at a
  simp only at a ⊢
  by_cases e2 : rc2 = RC.OK
  swap
  · rw [if_pos e2]; exact hnone _ a
  rw [if_neg (not_not.mpr e2)]
  have hgood : ∀ (tail : List RMCall), (∀ f d b, RMCall.insertRec f d b ∉ tail) →
      ∀ f d b, RMCall.insertRec f d b ∈ RMCall.insertRec relName data isnull :: tail →
        b.length = nullableCountOf rel.attrs ∧ b = nullBits rel.attrs values := by
    intro tail ht f d b hm
    rcases List.mem_cons.mp hm with heq | hm1
    · cases heq
      rw [hb]
      exact ⟨nullBits_length rel.attrs values hlen, rfl⟩
    · exact absurd hm1 (ht f d b)
  have b2 := InsertRec_calls relName data isnull w1
  rcases h2 : InsertRec relName data isnull w1 with ⟨rc3, rid, w2⟩
  rw [h2] at b2
  simp only at b2 ⊢
  rw [a] at b2
  by_cases e3 : rc3 = RC.OK
  swap
  · rw [if_pos e3]
    exact ⟨_, b2, hgood [] (by intro f d b hm; cases hm)⟩
  rw [if_neg (not_not.mpr e3)]
  have c := CloseFile_calls relName w2
  rcases h3 : CloseFile relName w2 with ⟨rc4, w3⟩
  rw [h3] at c
  simp only at c ⊢
  rw [b2] at c
  by_cases e4 : rc4 = RC.OK
  swap
  · rw [if_pos e4]
    exact ⟨_, c, hgood [] (by intro f d b hm; cases hm)⟩
  rw [if_neg (not_not.mpr e4)]
  refine ⟨[RMCall.insertRec relName data isnull, RMCall.updateRelEntry relName
    { rel.relEntry with recordCount := wrapInt32 (rel.relEntry.recordCount + 1) }], ?_, ?_⟩
  · rw [UpdateRelEntry_calls, c]
    simp
  · apply hgood
    intro f d b hm
    simp at hm

theorem Insert_null_bit_array_witness :
    ∃ rest, (Insert "S" [{ type := ValueType.VT_INT, data := [5, 0, 0, 0] },
        { type := ValueType.VT_NULL, data := [] }] demoWorld).2.calls =
        demoWorld.calls ++ rest ∧
      ∀ f d b, RMCall.insertRec f d b ∈ rest →
        b.length = nullableCountOf demoS.attrs ∧
          b = nullBits demoS.attrs [{ type := ValueType.VT_INT, data := [5, 0, 0, 0] },
            { type := ValueType.VT_NULL, data := [] }] :=
  Insert_null_bit_array "S" _ demoWorld demoS rfl

/-- What `INSERT INTO S VALUES (5, NULL)` hands to the record manager on the demo
database, by evaluation. -/
theorem Insert_demo_run :
    (Insert "S" [{ type := ValueType.VT_INT, data := [5, 0, 0, 0] },
        { type := ValueType.VT_NULL, data := [] }] demoWorld).2.calls =
      [RMCall.insertRec "S" [5, 0, 0, 0, 0, 0, 0, 0, 0, 0, 0, 0, 0] [true],
       RMCall.updateRelEntry "S" { tupleLength := 13, recordCount := 3 }] := by
  decide

/-! ## The divisors of the progress computations (lines 200-201 and 230) -/

theorem progress_divisor_ne_zero (x : Int) (h1 : 1 ≤ x) (h2 : x < 2147483648) :
    (wrapInt32 (x + 99)).tdiv 100 ≠ 0 := by
  apply tdiv_hundred_ne_zero
  unfold wrapInt32
  omega

theorem Select_no_fuel (args : SelectArgs) (w : World) (hf : w.faults = [])
    (hv : validSelect w args) (L0 : List RM_Record) (rest : List (List RM_Record))
    (hL : fromRecords w args.relations = L0 :: rest) :
    Select 0 args w = none := by
  have hplan := planOf_reads w args hv.1
  rw [hL] at hplan
  rw [Select_of_valid 0 args w hf hv]
  obtain ⟨s0, _, _, _, _, _, _, _, _, _, hrun⟩ := runSelect_start (planOf w args) w.catalog L0 rest
    hplan { w with files := w.files ++ args.relations } hf rfl
  rw [hrun 0]
  rfl

theorem Select_no_relation (args : SelectArgs) (w : World) (hf : w.faults = [])
    (hv : validSelect w args) (hn : args.relations = []) (fuel : Nat) :
    ∃ res, Select fuel args w = some res ∧ res.rc = RM_SCANSTATE := by
  rw [Select_of_valid fuel args w hf hv]
  have h0 : (planOf w args).fileHandles 0 = none := by
    simp [planOf, makePlan, hn]
  have key : ∀ w0 : World, w0.faults = [] → OpenScan 0 none w0 = (RM_SCANSTATE, w0) := by
    intro w0 h
    unfold OpenScan
    rw [rmCall_ok w0 h]
    simp only [ne_eq, not_true_eq_false, if_false, Option.bind]
    split
    · rename_i h1 h2
      cases h2
    · rfl
  unfold runSelect
  simp only [h0]
  rw [key ((Printer.new (List.map (fun p => p.finalHeader) (planOf w args).projs)).PrintHeader
    { w with files := w.files ++ args.relations, scans := fun _ => none }) hf]
  exact ⟨_, rfl, rfl⟩

/-- C30: for a valid `Select` without forced failure, on a database whose catalog
`recordCount` of each FROM relation is the number of records its scan yields and
whose product of these counts fits in a 32-bit signed `int`: when every relation
has a record (so that a candidate tuple, and with it the progress computations,
can be reached) the divisors `(sumRecords + 99) / 100` and `sumRecords` are not
zero; and no run of `Select` stops at a division: it never ends as an aborted
process. -/
theorem Select_progress_divisors (args : SelectArgs) (w : World) (hf : w.faults = [])
    (hv : validSelect w args) (hc : countsAgree w args.relations)
    (hprod : ((fromRecords w args.relations).map List.length).prod < 2147483648) :
    ((∀ L ∈ fromRecords w args.relations, L ≠ []) →
      (wrapInt32 ((planOf w args).sumRecords + 99)).tdiv 100 ≠ 0 ∧
      (planOf w args).sumRecords ≠ 0 ∧
      ∀ cnt, progressDue cnt (planOf w args).sumRecords ≠ none ∧
        ∀ w1, printProgress cnt (planOf w args).sumRecords w1 ≠ none) ∧
    (∀ fuel res, Select fuel args w = some res → res.rc ≠ RC.ABORTED) := by
  have hsum := planOf_sumRecords w args hv.1 hc hprod
  constructor
  · intro hne
    have hpos : 0 < (cartesian (fromRecords w args.relations)).length :=
      List.length_pos.mpr (cartesian_ne_nil _ hne)
    have h1 : 1 ≤ (planOf w args).sumRecords := by rw [hsum]; exact_mod_cast hpos
    have h2 : (planOf w args).sumRecords < 2147483648 := by
      rw [hsum, cartesian_length]
      exact_mod_cast hprod
    have hd := progress_divisor_ne_zero _ h1 h2
    refine ⟨hd, by omega, fun cnt => ⟨?_, fun w1 => ?_⟩⟩
    · unfold progressDue
      rw [if_neg hd]
      simp
    · unfold printProgress
      rw [if_neg (by omega)]
      simp
  · intro fuel res hres
    cases hL : fromRecords w args.relations with
    | nil =>
      have hn : args.relations = [] := by
        simpa [fromRecords] using hL
      obtain ⟨r, hr, hrc⟩ := Select_no_relation args w hf hv hn fuel
      rw [hr] at hres
      cases hres
      rw [hrc]
      decide
    | cons L0 rest =>
      cases fuel with
      | zero =>
        rw [Select_no_fuel args w hf hv L0 rest hL] at hres
        cases hres
      | succ fuel =>
        by_cases h0 : L0 = []
        · subst h0
          obtain ⟨r, hr, hrc, _⟩ := Select_empty_first_run args w hf hv hc rest hL fuel
          rw [hr] at hres
          cases hres
          rw [hrc]
          decide
        · by_cases hr : ∃ L ∈ rest, L = []
          · obtain ⟨r, hr1, hrc, _⟩ := Select_empty_inner_eof args w hf hv L0 rest hL h0 hr fuel
            rw [hr1] at hres
            cases hres
            rw [hrc]
            decide
          · have hne : ∀ L ∈ fromRecords w args.relations, L ≠ [] := by
              rw [hL]
              intro L hLm
              rcases List.mem_cons.mp hLm with rfl | hm
              · exact h0
              · exact fun he => hr ⟨L, hm, he⟩
            have hn : args.relations ≠ [] := by
              intro he
              rw [he] at hL
              simp [fromRecords] at hL
            rcases Select_join_run args w hf hv hn hne hc hprod (fuel + 1) with
              ⟨_, hnone⟩ | ⟨_, r, hr1, hrc, _⟩
            · rw [hnone] at hres
              cases hres
            · rw [hr1] at hres
              cases hres
              rw [hrc]
              decide

theorem Select_progress_divisors_witness :
    ((∀ L ∈ fromRecords demoWorld demoJoin.relations, L ≠ []) →
      (wrapInt32 ((planOf demoWorld demoJoin).sumRecords + 99)).tdiv 100 ≠ 0 ∧
      (planOf demoWorld demoJoin).sumRecords ≠ 0 ∧
      ∀ cnt, progressDue cnt (planOf demoWorld demoJoin).sumRecords ≠ none ∧
        ∀ w1, printProgress cnt (planOf demoWorld demoJoin).sumRecords w1 ≠ none) ∧
    (∀ fuel res, Select fuel demoJoin demoWorld = some res → res.rc ≠ RC.ABORTED) :=
  Select_progress_divisors demoJoin demoWorld rfl demoJoin_valid demoJoin_counts (by decide)

/-! ## The scans of the nested loop are open up to `ptr` -/

theorem scansOpenTo_iff (n : Nat) (s : SelState) :
    scansOpenTo n s = true ↔
      ∀ i, i < n → ((s.w.scans i).isSome = true ↔ (i : Int) ≤ s.ptr) := by
  unfold scansOpenTo
  simp only [List.all_eq_true, List.mem_range, beq_iff_eq]
  constructor
  · intro h i hi
    rw [h i hi]
    simp
  · intro h i hi
    have := h i hi
    by_cases hp : (i : Int) ≤ s.ptr
    · simp [hp, this.mpr hp]
    · have hn : (s.w.scans i).isSome ≠ true := fun e => hp (this.mp e)
      simp only [hp, decide_False]
      cases hs : (s.w.scans i).isSome
      · rfl
      · exact absurd hs hn

theorem GetNextRec_isSome (i j : Nat) (w : World) :
    ((GetNextRec i w).2.2.scans j).isSome = (w.scans j).isSome := by
  have h := rmCall_scans w
  unfold GetNextRec
  rcases hr : rmCall w with ⟨rc, w1⟩
  rw [hr] at h
  simp only at h ⊢
  by_cases e : rc = RC.OK
  swap
  · rw [if_pos e, h]
  rw [if_neg (not_not.mpr e)]
  cases hs : w1.scans i with
  | none => simp only; rw [h]
  | some l =>
    cases l with
    | nil => simp only; rw [h]
    | cons r rest =>
      simp only [setAt]
      by_cases hj : j = i
      · subst hj
        rw [if_pos rfl, ← h, hs]
        rfl
      · rw [if_neg hj, h]

theorem CloseScan_ok_scans (i : Nat) (w : World) (hok : (CloseScan i w).1 = RC.OK) :
    (CloseScan i w).2.scans = setAt w.scans i none := by
  have h := rmCall_scans w
  unfold CloseScan at hok ⊢
  rcases hr : rmCall w with ⟨rc, w1⟩
  rw [hr] at h hok
  simp only at h hok ⊢
  by_cases e : rc = RC.OK
  swap
  · rw [if_pos e] at hok
    exact absurd hok e
  rw [if_neg (not_not.mpr e)] at hok ⊢
  cases hs : w1.scans i with
  | none =>
    rw [hs] at hok
    simp [RM_SCANSTATE] at hok
  | some l =>
    simp only
    rw [h]

theorem OpenScan_ok_scans (i : Nat) (fh : Option String) (w : World)
    (hok : (OpenScan i fh w).1 = RC.OK) :
    ∃ l, (OpenScan i fh w).2.scans = setAt w.scans i (some l) := by
  have h := rmCall_scans w
  unfold OpenScan at hok ⊢
  rcases hr : rmCall w with ⟨rc, w1⟩
  rw [hr] at h hok
  simp only at h hok ⊢
  by_cases e : rc = RC.OK
  swap
  · rw [if_pos e] at hok
    exact absurd hok e
  rw [if_neg (not_not.mpr e)] at hok ⊢
  split at hok
  · rename_i r h1 h2
    exact ⟨r.records, by simp only; rw [h]⟩
  · simp [RM_SCANSTATE] at hok

theorem fetchData_frame (s s2 : SelState) (h : fetchData s = Ctl.next s2) :
    s2.ptr = s.ptr ∧ s2.w.scans = s.w.scans := by
  unfold fetchData at h
  have a := GetData_scans (s.records s.ptr.toNat) s.w
  rcases h1 : GetData (s.records s.ptr.toNat) s.w with ⟨rc1, d, w1⟩
  rw [h1] at a h
  simp only at a h
  by_cases e1 : rc1 = RC.OK
  swap
  · rw [if_pos e1] at h; cases h
  rw [if_neg (not_not.mpr e1)] at h
  have b := GetIsnull_scans (s.records s.ptr.toNat) w1
  rcases h2 : GetIsnull (s.records s.ptr.toNat) w1 with ⟨rc2, bb, w2⟩
  rw [h2] at b h
  simp only at b h
  by_cases e2 : rc2 = RC.OK
  swap
  · rw [if_pos e2] at h; cases h
  rw [if_neg (not_not.mpr e2)] at h
  cases h
  exact ⟨rfl, by simp only; rw [b, a]⟩

theorem visitTuple_frame (plan : SelectPlan) (s s4 : SelState)
    (h : visitTuple plan s = Ctl.next s4) :
    s4.ptr = s.ptr ∧ s4.w.scans = s.w.scans := by
  unfold visitTuple at h
  simp only at h
  cases hp : progressDue (wrapInt32 (s.cnt + 1)) plan.sumRecords with
  | none => rw [hp] at h; cases h
  | some due =>
    rw [hp] at h
    simp only at h
    have hpp : ∀ (c T : Int) (w w1 : World), printProgress c T w = some w1 →
        w1.scans = w.scans := by
      intro c T w w1 hw
      unfold printProgress at hw
      split at hw
      · cases hw
      · cases hw
        rfl
    cases hw : (if due = true then printProgress (wrapInt32 (s.cnt + 1)) plan.sumRecords s.w
        else some s.w) with
    | none => rw [hw] at h; cases h
    | some w1 =>
      rw [hw] at h
      simp only at h
      have hw1 : w1.scans = s.w.scans := by
        cases due with
        | true => exact hpp _ _ _ _ (by simpa using hw)
        | false =>
          simp only [Bool.false_eq_true, if_false, Option.some.injEq] at hw
          rw [← hw]
      cases he : evalConditions s.data s.isnull plan.conds with
      | none => rw [he] at h; cases h
      | some satisfy =>
        rw [he] at h
        simp only at h
        cases satisfy with
        | false =>
          simp only [Bool.false_eq_true, if_false, Ctl.next.injEq] at h
          rw [← h]
          exact ⟨rfl, hw1⟩
        | true =>
          simp only [if_true] at h
          split at h
          · cases h
          · rename_i w2 hw2
            cases h
            refine ⟨rfl, ?_⟩
            simp only
            rw [hpp _ _ _ _ hw2]
            exact hw1

theorem advanceScan_inv (n : Nat) :
    ∀ (fuel : Nat) (s s1 : SelState), (-1 ≤ s.ptr ∧ s.ptr < n) →
      (∀ i, i < n → ((s.w.scans i).isSome = true ↔ (i : Int) ≤ s.ptr)) →
      advanceScan fuel s = Ctl.next s1 →
      (-1 ≤ s1.ptr ∧ s1.ptr < n) ∧
        ∀ i, i < n → ((s1.w.scans i).isSome = true ↔ (i : Int) ≤ s1.ptr) := by
  intro fuel
  induction fuel with
  | zero =>
    intro s s1 hb hinv h
    unfold advanceScan at h
    by_cases hp : 0 ≤ s.ptr
    · rw [if_pos hp] at h
      cases h
    · rw [if_neg hp] at h
      cases h
      exact ⟨hb, hinv⟩
  | succ fuel ih =>
    intro s s1 hb hinv h
    unfold advanceScan at h
    by_cases hp : 0 ≤ s.ptr
    swap
    · rw [if_neg hp] at h
      cases h
      exact ⟨hb, hinv⟩
    rw [if_pos hp] at h
    simp only at h
    have a := GetNextRec_isSome s.ptr.toNat
    rcases h1 : GetNextRec s.ptr.toNat s.w with ⟨retcode, r, w1⟩
    have a1 : ∀ j, (w1.scans j).isSome = (s.w.scans j).isSome := by
      intro j
      have := a j s.w
      rw [h1] at this
      exact this
    rw [h1] at h
    simp only at h
    by_cases e1 : retcode = RC.RM_EOF
    · rw [if_pos e1] at h
      have b := CloseScan_ok_scans s.ptr.toNat w1
      rcases h2 : CloseScan s.ptr.toNat w1 with ⟨rc, w2⟩
      rw [h2] at b h
      simp only at b h
      by_cases e2 : rc = RC.OK
      swap
      · rw [if_pos e2] at h
        cases h
      rw [if_neg (not_not.mpr e2)] at h
      apply ih _ s1 _ _ h
      · show -1 ≤ s.ptr - 1 ∧ s.ptr - 1 < n
        omega
      · intro i hi
        show ((w2.scans i).isSome = true ↔ (i : Int) ≤ s.ptr - 1)
        rw [b e2]
        unfold setAt
        by_cases hi2 : i = s.ptr.toNat
        · rw [if_pos hi2]
          simp only [Option.isSome_none, Bool.false_eq_true, false_iff]
          omega
        · rw [if_neg hi2, a1 i, hinv i hi]
          omega
    · rw [if_neg e1] at h
      by_cases e3 : retcode = RC.OK
      swap
      · rw [if_pos e3] at h
        cases h
      rw [if_neg (not_not.mpr e3)] at h
      cases h
      refine ⟨hb, ?_⟩
      intro i hi
      show ((w1.scans i).isSome = true ↔ (i : Int) ≤ s.ptr)
      rw [a1 i]
      exact hinv i hi

theorem descendScans_inv (plan : SelectPlan) :
    ∀ (fuel : Nat) (s s3 : SelState), (0 ≤ s.ptr ∧ s.ptr < plan.nRelations) →
      (∀ i, i < plan.nRelations → ((s.w.scans i).isSome = true ↔ (i : Int) ≤ s.ptr)) →
      descendScans plan fuel s = Ctl.next s3 →
      s3.ptr = (plan.nRelations : Int) - 1 ∧
        ∀ i, i < plan.nRelations → ((s3.w.scans i).isSome = true ↔ (i : Int) ≤ s3.ptr) := by
  intro fuel
  induction fuel with
  | zero =>
    intro s s3 hb hinv h
    unfold descendScans at h
    by_cases hp : s.ptr + 1 < plan.nRelations
    · rw [if_pos hp] at h
      cases h
    · rw [if_neg hp] at h
      cases h
      exact ⟨by omega, hinv⟩
  | succ fuel ih =>
    intro s s3 hb hinv h
    unfold descendScans at h
    by_cases hp : s.ptr + 1 < plan.nRelations
    swap
    · rw [if_neg hp] at h
      cases h
      exact ⟨by omega, hinv⟩
    rw [if_pos hp] at h
    simp only at h
    have a := OpenScan_ok_scans (s.ptr + 1).toNat (plan.fileHandles (s.ptr + 1).toNat) s.w
    rcases h1 : OpenScan (s.ptr + 1).toNat (plan.fileHandles (s.ptr + 1).toNat) s.w with ⟨rc, w1⟩
    rw [h1] at a h
    simp only at a h
    by_cases e1 : rc = RC.OK
    swap
    · rw [if_pos e1] at h
      cases h
    rw [if_neg (not_not.mpr e1)] at h
    obtain ⟨l, hl⟩ := a e1
    have b := GetNextRec_isSome (s.ptr + 1).toNat
    rcases h2 : GetNextRec (s.ptr + 1).toNat w1 with ⟨rc2, r, w2⟩
    have b1 : ∀ j, (w2.scans j).isSome = (w1.scans j).isSome := by
      intro j
      have := b j w1
      rw [h2] at this
      exact this
    rw [h2] at h
    simp only at h
    by_cases e2 : rc2 = RC.OK
    swap
    · rw [if_pos e2] at h
      cases h
    rw [if_neg (not_not.mpr e2)] at h
    cases hf : fetchData
        { s with ptr := s.ptr + 1, records := setAt s.records (s.ptr + 1).toNat r, w := w2 } with
    | outOfFuel => rw [hf] at h; cases h
    | ret rc s0 => rw [hf] at h; cases h
    | next s1 =>
      rw [hf] at h
      simp only at h
      obtain ⟨f1, f2⟩ := fetchData_frame _ s1 hf
      simp only at f1 f2
      apply ih s1 s3 _ _ h
      · rw [f1]
        omega
      · intro i hi
        rw [f1, f2, b1 i, hl]
        unfold setAt
        by_cases hi2 : i = (s.ptr + 1).toNat
        · rw [if_pos hi2]
          simp only [Option.isSome_some, true_iff]
          omega
        · rw [if_neg hi2, hinv i hi]
          omega

theorem selectLoopChecked_eq (plan : SelectPlan) :
    ∀ (fuel : Nat) (s : SelState), (-1 ≤ s.ptr ∧ s.ptr < plan.nRelations) →
      (∀ i, i < plan.nRelations → ((s.w.scans i).isSome = true ↔ (i : Int) ≤ s.ptr)) →
      selectLoopChecked plan fuel s = some (selectLoop plan fuel s) ∧
      ∀ s9, selectLoop plan fuel s = Ctl.next s9 →
        s9.ptr = -1 ∧ ∀ i, i < plan.nRelations → s9.w.scans i = none := by
  intro fuel
  induction fuel with
  | zero => intro s _ _; exact ⟨rfl, fun _ h => by cases h⟩
  | succ fuel ih =>
    intro s hb hinv
    unfold selectLoopChecked selectLoop
    have h0 : ¬ scansOpenTo plan.nRelations s = false := by
      rw [(scansOpenTo_iff plan.nRelations s).mpr hinv]
      decide
    rw [if_neg h0]
    cases ha : advanceScan (s.ptr + 1).toNat s with
    | outOfFuel => exact ⟨rfl, fun _ h => by cases h⟩
    | ret rc s0 => exact ⟨rfl, fun _ h => by cases h⟩
    | next s1 =>
      simp only
      obtain ⟨hb1, hinv1⟩ := advanceScan_inv plan.nRelations _ s s1 hb hinv ha
      by_cases hneg : s1.ptr < 0
      · rw [if_pos hneg, if_pos hneg,
          if_pos ⟨by omega, (scansOpenTo_iff plan.nRelations s1).mpr hinv1⟩]
        refine ⟨rfl, ?_⟩
        intro s9 h9
        cases h9
        refine ⟨by omega, ?_⟩
        intro i hi
        have := hinv1 i hi
        cases hs : s1.w.scans i with
        | none => rfl
        | some l =>
          rw [hs] at this
          have := this.mp rfl
          omega
      · rw [if_neg hneg, if_neg hneg]
        cases hf : fetchData s1 with
        | outOfFuel => exact ⟨rfl, fun _ h => by cases h⟩
        | ret rc s0 => exact ⟨rfl, fun _ h => by cases h⟩
        | next s2 =>
          simp only
          obtain ⟨f1, f2⟩ := fetchData_frame s1 s2 hf
          cases hd : descendScans plan plan.nRelations s2 with
          | outOfFuel => exact ⟨rfl, fun _ h => by cases h⟩
          | ret rc s0 => exact ⟨rfl, fun _ h => by cases h⟩
          | next s3 =>
            simp only
            obtain ⟨d1, d2⟩ := descendScans_inv plan plan.nRelations s2 s3
              (by rw [f1]; omega) (by intro i hi; rw [f1, f2]; exact hinv1 i hi) hd
            rw [if_pos ⟨d1, (scansOpenTo_iff plan.nRelations s3).mpr d2⟩]
            cases hv : visitTuple plan s3 with
            | outOfFuel => exact ⟨rfl, fun _ h => by cases h⟩
            | ret rc s0 => exact ⟨rfl, fun _ h => by cases h⟩
            | next s4 =>
              simp only
              obtain ⟨v1, v2⟩ := visitTuple_frame plan s3 s4 hv
              apply ih
              · rw [v1]
                omega
              · intro i hi
                rw [v1, v2]
                exact d2 i hi

/-- C27: in the nested loop of `Select` over `n ≥ 1` relations, whatever the record
manager answers: the loop with the scan invariant tested at every start of the
advance step and at every evaluation of the conditions (there together with
`ptr = n - 1`) and at its exit (together with `ptr = -1`) never fails a test, so
it is the loop itself; this holds from every state with scans `0..ptr` open and
`ptr+1..n-1` not open, and from the state in which `Select` enters the loop after
`OpenScan` on scan 0; and when the loop exits, `ptr = -1` and none of the `n`
scans is open. -/
theorem Select_scans_open_to_ptr (plan : SelectPlan) (hn : 1 ≤ plan.nRelations) :
    (∀ (fuel : Nat) (s : SelState), -1 ≤ s.ptr → s.ptr < plan.nRelations →
      scansOpenTo plan.nRelations s = true →
      selectLoopChecked plan fuel s = some (selectLoop plan fuel s) ∧
      ∀ s9, selectLoop plan fuel s = Ctl.next s9 →
        s9.ptr = -1 ∧ ∀ i, i < plan.nRelations → s9.w.scans i = none) ∧
    (∀ (w : World) (fuel : Nat),
      (OpenScan 0 (plan.fileHandles 0)
        ((Printer.new (plan.projs.map (fun p => p.finalHeader))).PrintHeader
          { w with scans := fun _ => none })).1 = RC.OK →
      selectLoopChecked plan fuel
          (initialState plan (Printer.new (plan.projs.map (fun p => p.finalHeader)))
            (OpenScan 0 (plan.fileHandles 0)
              ((Printer.new (plan.projs.map (fun p => p.finalHeader))).PrintHeader
                { w with scans := fun _ => none })).2) =
        some (selectLoop plan fuel
          (initialState plan (Printer.new (plan.projs.map (fun p => p.finalHeader)))
            (OpenScan 0 (plan.fileHandles 0)
              ((Printer.new (plan.projs.map (fun p => p.finalHeader))).PrintHeader
                { w with scans := fun _ => none })).2)) ∧
      ∀ s9, selectLoop plan fuel
          (initialState plan (Printer.new (plan.projs.map (fun p => p.finalHeader)))
            (OpenScan 0 (plan.fileHandles 0)
              ((Printer.new (plan.projs.map (fun p => p.finalHeader))).PrintHeader
                { w with scans := fun _ => none })).2) = Ctl.next s9 →
        s9.ptr = -1 ∧ ∀ i, i < plan.nRelations → s9.w.scans i = none) := by
  constructor
  · intro fuel s h1 h2 h3
    exact selectLoopChecked_eq plan fuel s ⟨h1, h2⟩ ((scansOpenTo_iff _ _).mp h3)
  · intro w fuel hok
    obtain ⟨l, hl⟩ := OpenScan_ok_scans 0 (plan.fileHandles 0) _ hok
    apply selectLoopChecked_eq plan fuel
    · show (-1 : Int) ≤ 0 ∧ (0 : Int) < plan.nRelations
      omega
    · intro i hi
      show ((OpenScan 0 (plan.fileHandles 0) _).2.scans i).isSome = true ↔ (i : Int) ≤ 0
      rw [hl]
      unfold setAt
      by_cases h0 : i = 0
      · rw [if_pos h0]
        simp [h0]
      · rw [if_neg h0]
        simp only [Printer.PrintHeader, Option.isSome_none, Bool.false_eq_true, false_iff]
        omega

theorem Select_scans_open_to_ptr_witness :
    1 ≤ (planOf demoWorld demoJoin).nRelations ∧
    (∀ (fuel : Nat) (s : SelState), -1 ≤ s.ptr → s.ptr < (planOf demoWorld demoJoin).nRelations →
      scansOpenTo (planOf demoWorld demoJoin).nRelations s = true →
      selectLoopChecked (planOf demoWorld demoJoin) fuel s =
        some (selectLoop (planOf demoWorld demoJoin) fuel s) ∧
      ∀ s9, selectLoop (planOf demoWorld demoJoin) fuel s = Ctl.next s9 →
        s9.ptr = -1 ∧ ∀ i, i < (planOf demoWorld demoJoin).nRelations → s9.w.scans i = none) :=
  ⟨by decide, (Select_scans_open_to_ptr (planOf demoWorld demoJoin) (by decide)).1⟩

/-! ## `Update`: what is written and what is left alone -/

theorem UpdateRec_ok (fh : String) (r : RM_Record) (w : World) (rel : Relation)
    (hf : w.faults = []) (hrel : w.catalog fh = some rel)
    (hany : rel.records.any (fun x => x.rid == r.rid) = true) :
    UpdateRec fh r w =
      (RC.OK, setRelation { w with calls := w.calls ++ [RMCall.updateRec fh r] } fh
        { rel with records := rel.records.map (fun x => if x.rid = r.rid then r else x) }) := by
  unfold UpdateRec
  rw [rmCall_calls, rmCall_ok w hf]
  simp only [ne_eq, not_true_eq_false, if_false, hrel, hany, if_true]

theorem updateRecord_ok (relName : String) (conds : List QL_Condition) (u : DataAttrInfo)
    (off : Nat) (nullable bIsValue : Bool) (v : Value) (cnt : Int)
    (r : RM_Record) (w : World) (relk : Relation) (hf : w.faults = [])
    (hrel : w.catalog relName = some relk) (hr : r ∈ relk.records) :
    updateRecord relName conds u off nullable bIsValue v cnt r w =
      if satisfiesConds conds r then
        Ctl.next (wrapInt32 (cnt + 1),
          setRelation
            { w with
              calls := w.calls ++
                  [RMCall.updateRec relName (updatedRecord u off nullable bIsValue v r)] }
            relName
            { relk with
              records := relk.records.map
                  (fun x => if x.rid = r.rid then updatedRecord u off nullable bIsValue v r
                    else x) })
      else Ctl.next (cnt, w) := by
  unfold updateRecord
  rw [GetData_ok r w hf]
  simp only [ne_eq, not_true_eq_false, if_false]
  rw [GetIsnull_ok r w hf]
  simp only [ne_eq, not_true_eq_false, if_false]
  rw [checkAll_eq]
  simp only
  cases hs : satisfiesConds conds r with
  | false => simp
  | true =>
    simp only [if_true]
    have := UpdateRec_ok relName (updatedRecord u off nullable bIsValue v r) w relk hf hrel
      (List.any_eq_true.mpr ⟨r, hr, by simp [updatedRecord]⟩)
    unfold updatedRecord at this ⊢
    rw [this]
    simp only [ne_eq, not_true_eq_false, if_false]

theorem updateLoop_spec (relName : String) (conds : List QL_Condition) (u : DataAttrInfo)
    (off : Nat) (nullable bIsValue : Bool) (v : Value) :
    ∀ (rem : List RM_Record) (fuel : Nat) (cnt : Int) (w : World) (relk : Relation),
      w.faults = [] → w.scans 0 = some rem → w.catalog relName = some relk →
      (∀ r ∈ rem, r ∈ relk.records) → (rem.map (fun r => r.rid)).Nodup →
      (relk.records.map (fun r => r.rid)).Nodup → rem.length < fuel →
      ∃ c w1, updateLoop relName conds u off nullable bIsValue v fuel cnt w = Ctl.next (c, w1) ∧
        w1.faults = [] ∧ w1.scans 0 = some [] ∧ w1.files = w.files ∧ w1.out = w.out ∧
        w1.calls = w.calls ++ (rem.filter (satisfiesConds conds)).map
          (fun r => RMCall.updateRec relName (updatedRecord u off nullable bIsValue v r)) ∧
        w1.catalog relName = some
          { relk with
            records := relk.records.map (fun x =>
              if x.rid ∈ (rem.filter (satisfiesConds conds)).map (fun r => r.rid) then
                updatedRecord u off nullable bIsValue v x
              else x) } := by
  intro rem
  induction rem with
  | nil =>
    intro fuel cnt w relk hf hs hrel _ _ _ hfuel
    cases fuel with
    | zero => simp at hfuel
    | succ fuel =>
      refine ⟨cnt, w, ?_, hf, hs, rfl, rfl, by simp, ?_⟩
      · unfold updateLoop
        rw [GetNextRec_nil 0 w hf hs]
        simp
      · rw [hrel]
        simp
  | cons r rest ih =>
    intro fuel cnt w relk hf hs hrel hsub hnd hndk hfuel
    cases fuel with
    | zero => simp at hfuel
    | succ fuel =>
      have hnd1 : (rest.map (fun r => r.rid)).Nodup := (List.nodup_cons.mp hnd).2
      have hnotin : r.rid ∉ rest.map (fun r => r.rid) := (List.nodup_cons.mp hnd).1
      have hinj := List.inj_on_of_nodup_map hndk
      have hrk : r ∈ relk.records := hsub r (List.mem_cons_self _ _)
      have hstep : updateLoop relName conds u off nullable bIsValue v (fuel + 1) cnt w =
          match updateRecord relName conds u off nullable bIsValue v cnt r
            { w with scans := setAt w.scans 0 (some rest) } with
          | Ctl.next s => updateLoop relName conds u off nullable bIsValue v fuel s.1 s.2
          | other => other := by
        rw [updateLoop, GetNextRec_cons 0 w r rest hf hs]
        simp
      rw [hstep, updateRecord_ok relName conds u off nullable bIsValue v cnt r
        { w with scans := setAt w.scans 0 (some rest) } relk hf hrel hrk]
      cases hsat : satisfiesConds conds r with
      | false =>
        simp only [Bool.false_eq_true, if_false]
        obtain ⟨c, w1, h1, h2, h3, h4, h5, h6, h7⟩ := ih fuel cnt
          { w with scans := setAt w.scans 0 (some rest) } relk hf (by simp [setAt]) hrel
          (fun x hx => hsub x (List.mem_cons_of_mem _ hx)) hnd1 hndk
          (by simp at hfuel; omega)
        refine ⟨c, w1, h1, h2, h3, h4, h5, ?_, ?_⟩
        · rw [h6, List.filter_cons_of_neg (by simp [hsat])]
        · rw [h7, List.filter_cons_of_neg (by simp [hsat])]
      | true =>
        simp only [if_true]
        have hmapk : ((relk.records.map (fun x =>
            if x.rid = r.rid then updatedRecord u off nullable bIsValue v r else x)).map
            (fun r => r.rid)) = relk.records.map (fun r => r.rid) := by
          rw [List.map_map]
          apply List.map_congr_left
          intro x _
          simp only [Function.comp]
          by_cases hx : x.rid = r.rid
          · rw [if_pos hx]
            simp [updatedRecord, hx]
          · rw [if_neg hx]
        obtain ⟨c, w1, h1, h2, h3, h4, h5, h6, h7⟩ := ih fuel (wrapInt32 (cnt + 1))
          (setRelation
            { w with
              scans := setAt w.scans 0 (some rest),
              calls := w.calls ++
                  [RMCall.updateRec relName (updatedRecord u off nullable bIsValue v r)] }
            relName
            { relk with records := relk.records.map (fun x =>
                if x.rid = r.rid then updatedRecord u off nullable bIsValue v r else x) })
          { relk with records := relk.records.map (fun x =>
              if x.rid = r.rid then updatedRecord u off nullable bIsValue v r else x) }
          hf (by simp [setRelation, setAt]) (by simp [setRelation])
          (fun x hx => by
            have hne : x.rid ≠ r.rid := fun he => hnotin (List.mem_map.mpr ⟨x, hx, he⟩)
            refine List.mem_map.mpr ⟨x, hsub x (List.mem_cons_of_mem _ hx), ?_⟩
            rw [if_neg hne])
          hnd1 (by rw [hmapk]; exact hndk) (by simp at hfuel; omega)
        refine ⟨c, w1, h1, h2, h3, h4, h5, ?_, ?_⟩
        · rw [h6, List.filter_cons_of_pos (by simp [hsat])]
          simp [setRelation]
        · rw [h7, List.filter_cons_of_pos (by simp [hsat])]
          simp only [List.map_map, List.map_cons, List.mem_cons]
          congr 2
          apply List.map_congr_left
          intro x hx
          simp only [Function.comp]
          by_cases hxr : x.rid = r.rid
          · have hxeq : x = r := hinj hx hrk hxr
            subst hxeq
            rw [if_pos rfl, if_pos (Or.inl rfl)]
            have : (updatedRecord u off nullable bIsValue v x).rid = x.rid := rfl
            rw [this, if_neg (fun hm => by
              obtain ⟨y, hy, hxy⟩ := List.mem_map.mp hm
              exact hnotin (List.mem_map.mpr ⟨y, (List.mem_filter.mp hy).1, hxy⟩))]
          · rw [if_neg hxr]
            by_cases hm : x.rid ∈ (rest.filter (satisfiesConds conds)).map (fun r => r.rid)
            · rw [if_pos hm, if_pos (Or.inr hm)]
            · rw [if_neg hm, if_neg (by
                intro h
                rcases h with h | h
                · exact hxr h
                · exact hm h)]

theorem map_rids (l : List RM_Record) (p : RM_Record → Bool) (f : RM_Record → RM_Record)
    (hn : (l.map (fun r => r.rid)).Nodup) :
    l.map (fun x => if x.rid ∈ (l.filter p).map (fun r => r.rid) then f x else x) =
      l.map (fun x => if p x = true then f x else x) := by
  apply List.map_congr_left
  intro x hx
  have hinj := List.inj_on_of_nodup_map hn
  by_cases hp : p x = true
  · have : x.rid ∈ (l.filter p).map (fun r => r.rid) :=
      List.mem_map.mpr ⟨x, List.mem_filter.mpr ⟨hx, hp⟩, rfl⟩
    rw [if_pos this, if_pos hp]
  · have : x.rid ∉ (l.filter p).map (fun r => r.rid) := by
      intro hm
      obtain ⟨y, hy, hxy⟩ := List.mem_map.mp hm
      obtain ⟨hy1, hy2⟩ := List.mem_filter.mp hy
      have := hinj hy1 hx hxy
      subst this
      exact hp hy2
    rw [if_neg this, if_neg hp]

theorem updatedRecord_frame (u : DataAttrInfo) (off : Nat) (bIsValue : Bool) (rhsValue : Value)
    (r : RM_Record) (hty : u.attrType ≠ AttrType.STRING)
    (hnn : ¬ (isNullable u = false ∧ bIsValue = true ∧ rhsValue.type = ValueType.VT_NULL))
    (hidx : isNullable u = true → 0 ≤ u.nullableIndex) :
    (updatedRecord u off (isNullable u) bIsValue rhsValue r).rid = r.rid ∧
    (updatedRecord u off (isNullable u) bIsValue rhsValue r).data.length = r.data.length ∧
    (updatedRecord u off (isNullable u) bIsValue rhsValue r).isnull.length = r.isnull.length ∧
    (∀ k, k < r.data.length →
      (updatedRecord u off (isNullable u) bIsValue rhsValue r).data.getD k 0 =
        if isNullLiteral bIsValue rhsValue = false ∧ u.offset ≤ k ∧ k < u.offset + 4 then
          (if bIsValue then rhsValue.data else r.data.drop off).getD (k - u.offset) 0
        else r.data.getD k 0) ∧
    (∀ j, j < r.isnull.length →
      (updatedRecord u off (isNullable u) bIsValue rhsValue r).isnull.getD j false =
        if (j : Int) = u.nullableIndex ∧ isNullable u = true then isNullLiteral bIsValue rhsValue
        else r.isnull.getD j false) := by
  have hpos : ∀ j : Nat, isNullable u = true → (j = u.nullableIndex.toNat ↔
      (j : Int) = u.nullableIndex) := by
    intro j hn
    have := hidx hn
    omega
  cases hlit : isNullLiteral bIsValue rhsValue with
  | true =>
    have hlit2 : (bIsValue && rhsValue.type == ValueType.VT_NULL) = true := hlit
    have hnull : isNullable u = true := by
      cases hn : isNullable u with
      | true => rfl
      | false =>
        exfalso
        apply hnn
        simp only [Bool.and_eq_true, beq_iff_eq] at hlit2
        exact ⟨hn, hlit2.1, hlit2.2⟩
    have hupd : applyUpdate u off (isNullable u) bIsValue rhsValue r.data r.isnull =
        (r.data, setBool r.isnull u.nullableIndex true) := by
      unfold applyUpdate
      rw [if_pos hlit2]
    unfold updatedRecord
    rw [hupd]
    refine ⟨rfl, rfl, setBool_length _ _ _, ?_, ?_⟩
    · intro k _
      simp
    · intro j hj
      simp only
      rw [setBool_getD _ _ _ _ hj, hnull]
      by_cases h : j = u.nullableIndex.toNat
      · rw [if_pos h, if_pos ⟨(hpos j hnull).mp h, rfl⟩]
      · rw [if_neg h, if_neg (fun hc => h ((hpos j hnull).mpr hc.1))]
  | false =>
    have hlit2 : ¬ (bIsValue && rhsValue.type == ValueType.VT_NULL) = true := by
      intro h
      have : isNullLiteral bIsValue rhsValue = true := h
      rw [hlit] at this
      cases this
    have hupd : applyUpdate u off (isNullable u) bIsValue rhsValue r.data r.isnull =
        (memcpy r.data u.offset (if bIsValue then rhsValue.data else r.data.drop off) 4,
          if isNullable u then setBool r.isnull u.nullableIndex false else r.isnull) := by
      unfold applyUpdate
      rw [if_neg hlit2]
      cases ht : u.attrType with
      | INT => rfl
      | FLOAT => rfl
      | STRING => exact absurd ht hty
    unfold updatedRecord
    rw [hupd]
    refine ⟨rfl, memcpy_length _ _ _ _, ?_, ?_, ?_⟩
    · simp only
      by_cases hn : isNullable u = true
      · rw [if_pos hn, setBool_length]
      · rw [if_neg hn]
    · intro k hk
      simp only
      rw [memcpy_getD _ _ _ _ _ hk]
      simp
    · intro j hj
      simp only
      by_cases hn : isNullable u = true
      · rw [if_pos hn, setBool_getD _ _ _ _ hj]
        by_cases h : j = u.nullableIndex.toNat
        · rw [if_pos h, if_pos ⟨(hpos j hn).mp h, hn⟩]
        · rw [if_neg h, if_neg (fun hc => h ((hpos j hn).mpr hc.1))]
      · rw [if_neg hn, if_neg (fun hc => hn hc.2)]

/-- C28: for every valid `Update` whose target attribute is INT or FLOAT, on a
relation whose records have distinct record ids and with no forced record-manager
failure: `Update` returns 0; `UpdateRec` is called for exactly the scanned records
that satisfy every condition, in scan order, and for no other record; the record
handed over has the record id and the lengths of the scanned one; its data bytes
are those of the scanned record except the 4 bytes at the target's offset, which
are the 4 raw bytes of the right-hand side (the value's, or those at the
right-hand attribute's offset in the scanned record), and its null bits are those
of the scanned record except the target's, which is cleared; for a literal NULL
no data byte changes and the only null bit that changes is the target's, which is
set.  Afterwards the relation holds the updated records in place of the
satisfying ones and the other records as they were. -/
theorem Update_int_float_frame (relName : String) (updAttr : RelAttr) (bIsValue : Bool)
    (rhsRelAttr : RelAttr) (rhsValue : Value) (conditions : List Condition) (w : World)
    (rel : Relation) (hv : validDelete w relName conditions)
    (hrel : w.catalog relName = some rel) (hf : w.faults = [])
    (hb1 : checkAttrBelongsToRel updAttr relName = RC.OK)
    (hb2 : bIsValue = false → checkAttrBelongsToRel rhsRelAttr relName = RC.OK)
    (hty : (mapGet (buildNameMap rel.attrs) updAttr.attrName).attrType ≠ AttrType.STRING)
    (hnn : ¬ (isNullable (mapGet (buildNameMap rel.attrs) updAttr.attrName) = false ∧
      bIsValue = true ∧ rhsValue.type = ValueType.VT_NULL))
    (hidx : isNullable (mapGet (buildNameMap rel.attrs) updAttr.attrName) = true →
      0 ≤ (mapGet (buildNameMap rel.attrs) updAttr.attrName).nullableIndex)
    (hrid : (rel.records.map (fun r => r.rid)).Nodup) :
    ∃ res, Update relName updAttr bIsValue rhsRelAttr rhsValue conditions w = some res ∧
      res.1 = RC.OK ∧
      res.2.calls = w.calls ++
        (rel.records.filter (satisfiesConds (compiledConds w relName conditions))).map
          (fun r => RMCall.updateRec relName
            (updatedRecord (mapGet (buildNameMap rel.attrs) updAttr.attrName)
              (rhsOffset rel.attrs bIsValue rhsRelAttr)
              (isNullable (mapGet (buildNameMap rel.attrs) updAttr.attrName))
              bIsValue rhsValue r)) ∧
      recordsOf res.2 relName = rel.records.map (fun r =>
        if satisfiesConds (compiledConds w relName conditions) r = true then
          updatedRecord (mapGet (buildNameMap rel.attrs) updAttr.attrName)
            (rhsOffset rel.attrs bIsValue rhsRelAttr)
            (isNullable (mapGet (buildNameMap rel.attrs) updAttr.attrName))
            bIsValue rhsValue r
        else r) ∧
      ∀ r : RM_Record,
        (updatedRecord (mapGet (buildNameMap rel.attrs) updAttr.attrName)
          (rhsOffset rel.attrs bIsValue rhsRelAttr)
          (isNullable (mapGet (buildNameMap rel.attrs) updAttr.attrName))
          bIsValue rhsValue r).rid = r.rid ∧
        (updatedRecord (mapGet (buildNameMap rel.attrs) updAttr.attrName)
          (rhsOffset rel.attrs bIsValue rhsRelAttr)
          (isNullable (mapGet (buildNameMap rel.attrs) updAttr.attrName))
          bIsValue rhsValue r).data.length = r.data.length ∧
        (updatedRecord (mapGet (buildNameMap rel.attrs) updAttr.attrName)
          (rhsOffset rel.attrs bIsValue rhsRelAttr)
          (isNullable (mapGet (buildNameMap rel.attrs) updAttr.attrName))
          bIsValue rhsValue r).isnull.length = r.isnull.length ∧
        (∀ k, k < r.data.length →
          (updatedRecord (mapGet (buildNameMap rel.attrs) updAttr.attrName)
            (rhsOffset rel.attrs bIsValue rhsRelAttr)
            (isNullable (mapGet (buildNameMap rel.attrs) updAttr.attrName))
            bIsValue rhsValue r).data.getD k 0 =
            if isNullLiteral bIsValue rhsValue = false ∧
                (mapGet (buildNameMap rel.attrs) updAttr.attrName).offset ≤ k ∧
                k < (mapGet (buildNameMap rel.attrs) updAttr.attrName).offset + 4 then
              (if bIsValue then rhsValue.data
               else r.data.drop (rhsOffset rel.attrs bIsValue rhsRelAttr)).getD
                (k - (mapGet (buildNameMap rel.attrs) updAttr.attrName).offset) 0
            else r.data.getD k 0) ∧
        (∀ j, j < r.isnull.length →
          (updatedRecord (mapGet (buildNameMap rel.attrs) updAttr.attrName)
            (rhsOffset rel.attrs bIsValue rhsRelAttr)
            (isNullable (mapGet (buildNameMap rel.attrs) updAttr.attrName))
            bIsValue rhsValue r).isnull.getD j false =
            if (j : Int) = (mapGet (buildNameMap rel.attrs) updAttr.attrName).nullableIndex ∧
                isNullable (mapGet (buildNameMap rel.attrs) updAttr.attrName) = true then
              isNullLiteral bIsValue rhsValue
            else r.isnull.getD j false) := by
  obtain ⟨hname, rel1, hrel1, hck⟩ := hv
  rw [hrel] at hrel1
  cases hrel1
  have hconds : compiledConds w relName conditions =
      (CheckConditionsValid relName conditions (buildNameMap rel.attrs) []).2 := by
    simp [compiledConds, hrel]
  rw [hconds]
  have hre : GetRelEntry relName w = Except.ok rel.relEntry := by simp [GetRelEntry, hrel]
  have hda : GetDataAttrInfo relName w = Except.ok rel.attrs := by simp [GetDataAttrInfo, hrel]
  have hopen : OpenFile relName w = (RC.OK, { w with files := w.files ++ [relName] }) := by
    simp [OpenFile, rmCall_ok w hf, hrel]
  have hscan : OpenScan 0 (some relName)
      { w with files := w.files ++ [relName], scans := fun _ => none } =
      (RC.OK, { w with files := w.files ++ [relName],
                       scans := setAt (fun _ => none) 0 (some rel.records) }) :=
    OpenScan_ok 0 (some relName) _ rel hf rfl (by simpa using hrel)
  obtain ⟨c, w1, h1, h2, h3, h4, h5, h6, h7⟩ := updateLoop_spec relName
    (CheckConditionsValid relName conditions (buildNameMap rel.attrs) []).2
    (mapGet (buildNameMap rel.attrs) updAttr.attrName)
    (rhsOffset rel.attrs bIsValue rhsRelAttr)
    (isNullable (mapGet (buildNameMap rel.attrs) updAttr.attrName)) bIsValue rhsValue
    rel.records (rel.records.length + 1) 0
    { w with files := w.files ++ [relName],
             scans := setAt (fun _ => none) 0 (some rel.records) } rel hf
    (by simp [setAt]) hrel (fun r hr => hr) hrid hrid (by omega)
  have hclose : CloseFile relName { w1 with scans := setAt w1.scans 0 none } =
      (RC.OK, { w1 with scans := setAt w1.scans 0 none,
                        files := (w.files ++ [relName]).erase relName }) := by
    have hm : relName ∈ w1.files := by rw [h4]; simp
    rw [CloseFile_ok relName { w1 with scans := setAt w1.scans 0 none } h2 hm]
    simp [h4]
  refine ⟨(RC.OK,
    { catalog := w1.catalog,
      faults := w1.faults,
      files := (w.files ++ [relName]).erase relName,
      scans := setAt w1.scans 0 none,
      out := w1.out ++ [Output.updated c],
      calls := w1.calls }), ?hD, ?hP⟩
  case hD =>
    unfold Update
    rw [if_neg hname, hre]
    simp only
    rw [if_neg (not_not.mpr hb1), if_neg (fun h => h.2 (hb2 h.1)), hda]
    simp only
    rw [show CheckConditionsValid relName conditions (buildNameMap rel.attrs) [] =
      (RC.OK, (CheckConditionsValid relName conditions (buildNameMap rel.attrs) []).2) from
      Prod.ext hck rfl]
    simp only
    rw [if_neg (not_not.mpr rfl), if_neg hnn]
    unfold runUpdate
    rw [hopen]
    simp only [ne_eq, not_true_eq_false, if_false]
    rw [hscan]
    simp only [ne_eq, not_true_eq_false, if_false]
    have hlen : ∀ (f : List String) (l : List RM_Record),
        scanLength { w with files := f, scans := setAt (fun _ => none) 0 (some l) } 0 =
          l.length := by
      intro f l
      simp [scanLength, setAt]
    rw [hlen]
    unfold rhsOffset at h1
    rw [h1]
    simp only
    rw [CloseScan_ok 0 w1 [] h2 h3]
    simp only [ne_eq, not_true_eq_false, if_false]
    rw [hclose]
    simp only [ne_eq, not_true_eq_false, if_false]
  case hP =>
    refine ⟨rfl, ?_, ?_, fun r => updatedRecord_frame _ _ _ _ r hty hnn hidx⟩
    · simp only
      rw [h6]
    · simp only [recordsOf, h7]
      exact map_rids rel.records _ _ hrid

theorem Update_int_float_frame_witness :
    validDelete demoWorld "S" [demoIdIsOne] ∧
    ∃ res, demoUpdateId = some res ∧ res.1 = RC.OK ∧
      res.2.calls = demoWorld.calls ++
        (demoS.records.filter (satisfiesConds (compiledConds demoWorld "S" [demoIdIsOne]))).map
          (fun r => RMCall.updateRec "S"
            (updatedRecord
              (mapGet (buildNameMap demoS.attrs) (RelAttr.mk none "id").attrName)
              (rhsOffset demoS.attrs true default)
              (isNullable (mapGet (buildNameMap demoS.attrs) (RelAttr.mk none "id").attrName))
              true { type := ValueType.VT_INT, data := [7, 0, 0, 0] } r)) :=
  ⟨⟨by decide, demoS, rfl, by decide⟩,
    (Update_int_float_frame "S" { relName := none, attrName := "id" } true default
      { type := ValueType.VT_INT, data := [7, 0, 0, 0] } [demoIdIsOne] demoWorld demoS
      ⟨by decide, demoS, rfl, by decide⟩ rfl rfl (by decide) (by decide) (by decide)
      (by decide) (by decide) (by decide)).imp (fun _ h => ⟨h.1, h.2.1, h.2.2.1⟩)⟩

theorem Update_demo_run :
    (demoUpdateId.map (fun res => (res.1, recordsOf res.2 "S", res.2.calls.length))) =
      some (RC.OK,
        [{ rid := 1, data := [7, 0, 0, 0, 97, 108, 0, 0, 0, 0, 0, 0, 0], isnull := [false] },
         { rid := 2, data := [2, 0, 0, 0, 0, 0, 0, 0, 0, 0, 0, 0, 0], isnull := [true] }], 1) := by
  decide

/-! ## `Insert` followed by `SELECT *` -/

theorem fillRecord_cons (a : DataAttrInfo) (rest : List DataAttrInfo) (v : Value)
    (vs : List Value) (data : List Nat) (isnull : List Bool) (idx : Int)
    (hok : (fillRecord (a :: rest) (v :: vs) data isnull idx).1 = RC.OK) :
    (v.type ≠ ValueType.VT_NULL → a.attrType = AttrType.STRING →
      strlen v.data ≤ a.attrDisplayLength) ∧
    fillRecord (a :: rest) (v :: vs) data isnull idx =
      fillRecord rest vs
        (if v.type = ValueType.VT_NULL then data
         else memcpy data a.offset v.data (writeLength a v))
        (if isNullable a then setBool isnull idx (v.type == ValueType.VT_NULL) else isnull)
        (if isNullable a then idx + 1 else idx) := by
  by_cases hn : v.type = ValueType.VT_NULL
  · refine ⟨fun h => absurd hn h, ?_⟩
    rw [fillRecord]
    simp only [hn, if_true]
  · cases ht : a.attrType with
    | INT =>
      refine ⟨(fun _ h => by cases h), ?_⟩
      rw [fillRecord]
      simp only [hn, if_false, ht, writeLength]
    | FLOAT =>
      refine ⟨(fun _ h => by cases h), ?_⟩
      rw [fillRecord]
      simp only [hn, if_false, ht, writeLength]
    | STRING =>
      rw [fillRecord] at hok ⊢
      simp only [hn, if_false, ht, writeLength] at hok ⊢
      by_cases hl : strlen v.data > a.attrDisplayLength
      · rw [if_pos hl] at hok
        cases hok
      · rw [if_neg hl]
        exact ⟨fun _ _ => by omega, rfl⟩

theorem writeLength_le (a : DataAttrInfo) (v : Value)
    (hs : (a.attrType = AttrType.STRING → a.attrDisplayLength + 1 ≤ a.attrSize) ∧
      (a.attrType ≠ AttrType.STRING → 4 ≤ a.attrSize))
    (hl : a.attrType = AttrType.STRING → strlen v.data ≤ a.attrDisplayLength) :
    writeLength a v ≤ a.attrSize := by
  unfold writeLength
  cases ht : a.attrType with
  | INT => simp only; exact hs.2 (by rw [ht]; intro h; cases h)
  | FLOAT => simp only; exact hs.2 (by rw [ht]; intro h; cases h)
  | STRING =>
    simp only
    have := hs.1 ht
    have := hl ht
    omega

theorem fillRecord_frame (attrs : List DataAttrInfo) :
    ∀ (values : List Value) (data : List Nat) (isnull : List Bool) (idx : Int),
      values.length = attrs.length →
      (fillRecord attrs values data isnull idx).1 = RC.OK →
      (∀ a ∈ attrs, (a.attrType = AttrType.STRING → a.attrDisplayLength + 1 ≤ a.attrSize) ∧
        (a.attrType ≠ AttrType.STRING → 4 ≤ a.attrSize)) →
      (fillRecord attrs values data isnull idx).2.1.length = data.length ∧
      ∀ j, j < data.length → (∀ a ∈ attrs, ¬ (a.offset ≤ j ∧ j < a.offset + a.attrSize)) →
        (fillRecord attrs values data isnull idx).2.1.getD j 0 = data.getD j 0 := by
  induction attrs with
  | nil =>
    intro values data isnull idx hl _ _
    cases values with
    | nil => exact ⟨rfl, fun _ _ _ => rfl⟩
    | cons v vs => simp at hl
  | cons a rest ih =>
    intro values data isnull idx hl hok hs
    cases values with
    | nil => simp at hl
    | cons v vs =>
      have hl1 : vs.length = rest.length := by simpa using hl
      obtain ⟨hstr, heq⟩ := fillRecord_cons a rest v vs data isnull idx hok
      rw [heq] at hok ⊢
      have hlen : (if v.type = ValueType.VT_NULL then data
          else memcpy data a.offset v.data (writeLength a v)).length = data.length := by
        by_cases hn : v.type = ValueType.VT_NULL
        · rw [if_pos hn]
        · rw [if_neg hn, memcpy_length]
      obtain ⟨h1, h2⟩ := ih vs _ _ _ hl1 hok (fun b hb => hs b (List.mem_cons_of_mem _ hb))
      refine ⟨by rw [h1, hlen], ?_⟩
      intro j hj hout
      rw [h2 j (by rw [hlen]; exact hj) (fun b hb => hout b (List.mem_cons_of_mem _ hb))]
      by_cases hn : v.type = ValueType.VT_NULL
      · rw [if_pos hn]
      · rw [if_neg hn, memcpy_getD _ _ _ _ _ hj]
        have hw := writeLength_le a v (hs a (List.mem_cons_self _ _)) (hstr hn)
        have := hout a (List.mem_cons_self _ _)
        rw [if_neg (fun hc => this ⟨hc.1, by omega⟩)]

theorem fillRecord_slot (attrs : List DataAttrInfo) :
    ∀ (values : List Value) (data : List Nat) (isnull : List Bool) (idx : Int) (i : Nat),
      values.length = attrs.length →
      (fillRecord attrs values data isnull idx).1 = RC.OK →
      attrs.Pairwise (fun a b => a.offset + a.attrSize ≤ b.offset) →
      (∀ a ∈ attrs, a.offset + a.attrSize ≤ data.length ∧
        (a.attrType = AttrType.STRING → a.attrDisplayLength + 1 ≤ a.attrSize) ∧
        (a.attrType ≠ AttrType.STRING → 4 ≤ a.attrSize)) →
      i < attrs.length → (values.getD i default).type ≠ ValueType.VT_NULL →
      ((attrs.getD i default).attrType = AttrType.STRING →
        strlen (values.getD i default).data ≤ (attrs.getD i default).attrDisplayLength) ∧
      ∀ k, k < writeLength (attrs.getD i default) (values.getD i default) →
        (fillRecord attrs values data isnull idx).2.1.getD ((attrs.getD i default).offset + k) 0 =
          (values.getD i default).data.getD k 0 := by
  induction attrs with
  | nil => intro values data isnull idx i _ _ _ _ hi; simp at hi
  | cons a rest ih =>
    intro values data isnull idx i hl hok hp hs hi hnn
    cases values with
    | nil => simp at hl
    | cons v vs =>
      have hl1 : vs.length = rest.length := by simpa using hl
      obtain ⟨hstr, heq⟩ := fillRecord_cons a rest v vs data isnull idx hok
      rw [heq] at hok ⊢
      have hlen : (if v.type = ValueType.VT_NULL then data
          else memcpy data a.offset v.data (writeLength a v)).length = data.length := by
        by_cases hn : v.type = ValueType.VT_NULL
        · rw [if_pos hn]
        · rw [if_neg hn, memcpy_length]
      obtain ⟨hpa, hpr⟩ := List.pairwise_cons.mp hp
      cases i with
      | zero =>
        simp only [List.getD_cons_zero] at hnn ⊢
        refine ⟨hstr hnn, ?_⟩
        intro k hk
        have hsa := hs a (List.mem_cons_self _ _)
        have hw := writeLength_le a v hsa.2 (hstr hnn)
        obtain ⟨_, h2⟩ := fillRecord_frame rest vs _
          (if isNullable a then setBool isnull idx (v.type == ValueType.VT_NULL) else isnull)
          (if isNullable a then idx + 1 else idx) hl1 hok
          (fun b hb => (hs b (List.mem_cons_of_mem _ hb)).2)
        rw [h2 (a.offset + k) (by rw [hlen]; omega) (fun b hb hc => by
          have := hpa b hb
          omega)]
        rw [if_neg hnn, memcpy_getD _ _ _ _ _ (by omega), if_pos ⟨by omega, by omega⟩]
        congr 1
        omega
      | succ i =>
        simp only [List.getD_cons_succ] at hnn ⊢
        exact ih vs _ _ _ i hl1 hok hpr
          (fun b hb => by
            rw [hlen]
            exact hs b (List.mem_cons_of_mem _ hb))
          (by simpa using hi) hnn

theorem nullBits_at (attrs : List DataAttrInfo) :
    ∀ (values : List Value) (i : Nat), values.length = attrs.length → i < attrs.length →
      isNullable (attrs.getD i default) = true →
      (nullBits attrs values).getD (nullableCountOf (attrs.take i)) false =
        ((values.getD i default).type == ValueType.VT_NULL) := by
  induction attrs with
  | nil => intro values i _ hi; simp at hi
  | cons a rest ih =>
    intro values i hl hi hn
    cases values with
    | nil => simp at hl
    | cons v vs =>
      have hl1 : vs.length = rest.length := by simpa using hl
      cases i with
      | zero =>
        simp only [List.getD_cons_zero] at hn
        simp [nullBits, nullableCountOf, hn]
      | succ i =>
        simp only [List.getD_cons_succ] at hn ⊢
        have h := ih vs i hl1 (by simpa using hi) hn
        unfold nullBits nullableCountOf at h ⊢
        by_cases ha : isNullable a = true
        · simp only [List.zip_cons_cons, List.take_succ_cons, List.filter_cons, ha, if_true,
            List.map_cons, List.length_cons, List.getD_cons_succ]
          exact h
        · simp only [List.zip_cons_cons, List.take_succ_cons, List.filter_cons, ha,
            Bool.false_eq_true, if_false]
          exact h

theorem content_of_prefix (src : List Nat) :
    ∀ (l : List Nat), (∀ k, k ≤ strlen src → l.getD k 0 = src.getD k 0) →
      content l = content src := by
  induction src with
  | nil =>
    intro l h
    have h0 := h 0 (Nat.zero_le _)
    cases l with
    | nil => rfl
    | cons b l1 =>
      have hb : b = 0 := by simpa using h0
      subst hb
      simp [content]
  | cons a rest ih =>
    intro l h
    by_cases ha : a = 0
    · subst ha
      have h0 := h 0 (Nat.zero_le _)
      cases l with
      | nil => simp [content]
      | cons b l1 =>
        have hb : b = 0 := by simpa using h0
        subst hb
        simp [content]
    · have hs : strlen (a :: rest) = strlen rest + 1 := by
        simp [strlen, List.takeWhile_cons, ha]
      have h0 := h 0 (Nat.zero_le _)
      cases l with
      | nil =>
        exfalso
        apply ha
        simpa using h0.symm
      | cons b l1 =>
        have hb : b = a := by simpa using h0
        subst hb
        have := ih l1 (fun k hk => by
          have := h (k + 1) (by omega)
          simpa using this)
        simp only [content, List.takeWhile_cons, bne_iff_ne, ne_eq, ha, not_false_eq_true,
          decide_True, if_true] at this ⊢
        rw [this]

theorem getD_drop_nat (l : List Nat) (n k : Nat) : (l.drop n).getD k 0 = l.getD (n + k) 0 := by
  simp [List.getD_eq_getElem?_getD, List.getElem?_drop]

theorem InsertRec_ok (fh : String) (d : List Nat) (b : List Bool) (w : World) (rel : Relation)
    (hf : w.faults = []) (hrel : w.catalog fh = some rel) :
    InsertRec fh d b w =
      (RC.OK, freshRid rel.records,
        setRelation { w with calls := w.calls ++ [RMCall.insertRec fh d b] } fh
          { rel with
            records := rel.records ++ [{ data := d, isnull := b, rid := freshRid rel.records }] }) := by
  unfold InsertRec
  rw [rmCall_ok _ (by exact hf)]
  simp only [ne_eq, not_true_eq_false, if_false, hrel]

theorem Insert_ok (relName : String) (values : List Value) (w : World) (rel : Relation)
    (hf : w.faults = []) (hrel : w.catalog relName = some rel)
    (hins : (Insert relName values w).1 = RC.OK) :
    values.length = rel.attrs.length ∧
    (checkInsertValues rel.attrs values 0).1 = RC.OK ∧
    (fillRecord rel.attrs values (List.replicate rel.relEntry.tupleLength 0)
      (List.replicate (checkInsertValues rel.attrs values 0).2.toNat false) 0).1 = RC.OK ∧
    (Insert relName values w).2.faults = [] ∧
    (Insert relName values w).2.out = w.out ∧
    (Insert relName values w).2.catalog relName = some
      { relEntry :=
          { rel.relEntry with recordCount := wrapInt32 (rel.relEntry.recordCount + 1) },
        attrs := rel.attrs,
        records := rel.records ++ [insertedRecord rel values] } := by
  have hre : GetRelEntry relName w = Except.ok rel.relEntry := by simp [GetRelEntry, hrel]
  have hda : GetDataAttrInfo relName w = Except.ok rel.attrs := by simp [GetDataAttrInfo, hrel]
  have hopen : OpenFile relName w = (RC.OK, { w with files := w.files ++ [relName] }) := by
    simp [OpenFile, rmCall_ok w hf, hrel]
  unfold insertedRecord
  unfold Insert at hins ⊢
  by_cases hcat : relName = "relcat" ∨ relName = "attrcat"
  · rw [if_pos hcat] at hins
    cases hins
  rw [if_neg hcat, hre] at hins ⊢
  simp only at hins ⊢
  rw [hda] at hins ⊢
  simp only at hins ⊢
  by_cases hl : values.length ≠ rel.attrs.length
  · rw [if_pos hl] at hins
    cases hins
  rw [if_neg hl] at hins ⊢
  rcases hci : checkInsertValues rel.attrs values 0 with ⟨rc0, num⟩
  rw [hci] at hins
  simp only at hins ⊢
  by_cases e0 : rc0 = RC.OK
  swap
  · rw [if_pos e0] at hins
    exact absurd hins e0
  rw [if_neg (not_not.mpr e0)] at hins ⊢
  rcases hfr : fillRecord rel.attrs values (List.replicate rel.relEntry.tupleLength 0)
    (List.replicate num.toNat false) 0 with ⟨rc1, data, isnull⟩
  rw [hfr] at hins
  simp only at hins ⊢
  by_cases e1 : rc1 = RC.OK
  swap
  · rw [if_pos e1] at hins
    exact absurd hins e1
  rw [if_neg (not_not.mpr e1), hopen]
  simp only [ne_eq, not_true_eq_false, if_false]
  rw [InsertRec_ok relName data isnull { w with files := w.files ++ [relName] } rel hf hrel]
  simp only [ne_eq, not_true_eq_false, if_false]
  rw [CloseFile_ok relName _ (by exact hf) (by simp [setRelation])]
  simp only [ne_eq, not_true_eq_false, if_false]
  refine ⟨not_not.mp hl, e0, e1, ?_, ?_, ?_⟩
  · simp [UpdateRelEntry, setRelation, hf]
  · simp [UpdateRelEntry, setRelation]
  · simp [UpdateRelEntry, setRelation]

theorem buildRelNumMap_single (r n : String) : buildRelNumMap [r] n = 0 := by
  simp [buildRelNumMap, List.range_succ]

theorem layout_offset_ge (m : String → Nat) (ps : List DataAttrInfo) :
    ∀ (s : Nat) (k : Int), ∀ q ∈ (layoutProjections m ps s k).1,
      s ≤ q.finalHeader.offset ∧ (isNullable q.projection = true → k ≤ q.finalHeader.nullableIndex) := by
  induction ps with
  | nil => intro s k q hq; simp [layoutProjections] at hq
  | cons p rest ih =>
    intro s k q hq
    simp only [layoutProjections, List.mem_cons] at hq
    rcases hq with rfl | hq
    · refine ⟨Nat.le_refl _, ?_⟩
      intro hn
      simp only at hn
      simp [hn]
    · have := ih _ _ q hq
      refine ⟨by omega, fun hn => ?_⟩
      have h2 := this.2 hn
      by_cases hp : isNullable p = true
      · rw [if_pos hp] at h2
        omega
      · rw [if_neg hp] at h2
        exact h2

theorem projByte_skip (d : Nat → List Nat) (j : Nat) (ps : List Projection) (x : Nat)
    (h : ∀ q ∈ ps, ¬ (q.finalHeader.offset ≤ j ∧ j < q.finalHeader.offset + q.projection.attrSize)) :
    projByte d j ps x = x := by
  induction ps generalizing x with
  | nil => rfl
  | cons p rest ih =>
    simp only [projByte]
    rw [if_neg (h p (List.mem_cons_self _ _))]
    exact ih x (fun q hq => h q (List.mem_cons_of_mem _ hq))

theorem projBit_skip (isn : Nat → List Bool) (j : Nat) (ps : List Projection) (x : Bool)
    (h : ∀ q ∈ ps, ¬ (isNullable q.projection = true ∧ j = q.finalHeader.nullableIndex.toNat)) :
    projBit isn j ps x = x := by
  induction ps generalizing x with
  | nil => rfl
  | cons p rest ih =>
    simp only [projBit]
    rw [if_neg (h p (List.mem_cons_self _ _))]
    exact ih x (fun q hq => h q (List.mem_cons_of_mem _ hq))

theorem layout_nth (m : String → Nat) (ps : List DataAttrInfo) :
    ∀ (s : Nat) (k : Int) (i : Nat), i < ps.length →
      ((layoutProjections m ps s k).1.getD i default).projection = ps.getD i default ∧
      ((layoutProjections m ps s k).1.getD i default).finalHeader.attrType =
        (ps.getD i default).attrType ∧
      ((layoutProjections m ps s k).1.getD i default).finalHeader.nullableIndex =
        (if isNullable (ps.getD i default) then k + (nullableCountOf (ps.take i) : Int)
         else -1) := by
  induction ps with
  | nil => intro s k i h; simp at h
  | cons p rest ih =>
    intro s k i h
    cases i with
    | zero => simp [layoutProjections, nullableCountOf]
    | succ i =>
      have h1 : i < rest.length := by simpa using h
      obtain ⟨e1, e2, e3⟩ := ih (s + upper_align 4 p.attrSize)
        (if isNullable p then k + 1 else k) i h1
      simp only [layoutProjections, List.getD_cons_succ, List.take_succ_cons]
      refine ⟨e1, e2, ?_⟩
      rw [e3]
      by_cases hq : isNullable (rest.getD i default) = true
      · rw [if_pos hq, if_pos hq]
        by_cases hp : isNullable p = true
        · rw [if_pos hp]
          simp only [nullableCountOf, List.filter_cons, hp, if_true, List.length_cons]
          push_cast
          omega
        · rw [if_neg hp]
          simp only [nullableCountOf, List.filter_cons, hp, Bool.false_eq_true, if_false]
      · rw [if_neg hq, if_neg hq]

theorem projByte_at (d : Nat → List Nat) (m : String → Nat) (ps : List DataAttrInfo) :
    ∀ (s : Nat) (k : Int) (i : Nat) (x : Nat), i < ps.length →
      ∀ t, t < (ps.getD i default).attrSize →
        projByte d (((layoutProjections m ps s k).1.getD i default).finalHeader.offset + t)
          (layoutProjections m ps s k).1 x =
          ((d (m (ps.getD i default).relName)).drop (ps.getD i default).offset).getD t 0 := by
  induction ps with
  | nil => intro s k i x h; simp at h
  | cons p rest ih =>
    intro s k i x h t ht
    cases i with
    | zero =>
      simp only [layoutProjections, List.getD_cons_zero, projByte] at ht ⊢
      have hc0 : s ≤ s + t ∧ s + t < s + p.attrSize := ⟨by omega, by omega⟩
      rw [if_pos hc0, projByte_skip]
      · congr 1
        omega
      · intro q hq hc
        have := (layout_offset_ge m rest _ _ q hq).1
        have := upper_align_four_ge p.attrSize
        omega
    | succ i =>
      have h1 : i < rest.length := by simpa using h
      simp only [List.getD_cons_succ] at ht
      have hge := (layout_header m rest (s + upper_align 4 p.attrSize)
        (if isNullable p then k + 1 else k) i h1).1
      have hua := upper_align_four_ge p.attrSize
      simp only [layoutProjections, List.getD_cons_succ, projByte]
      have hnc : ¬ (s ≤ ((layoutProjections m rest (s + upper_align 4 p.attrSize)
          (if isNullable p then k + 1 else k)).1.getD i default).finalHeader.offset + t ∧
          ((layoutProjections m rest (s + upper_align 4 p.attrSize)
          (if isNullable p then k + 1 else k)).1.getD i default).finalHeader.offset + t <
            s + p.attrSize) := by
        intro hc
        omega
      rw [if_neg hnc]
      exact ih _ _ i x h1 t ht

theorem projBit_at (isn : Nat → List Bool) (m : String → Nat) (ps : List DataAttrInfo) :
    ∀ (s : Nat) (k : Int) (i : Nat) (x : Bool), 0 ≤ k → i < ps.length →
      isNullable (ps.getD i default) = true →
        projBit isn (k + (nullableCountOf (ps.take i) : Int)).toNat
          (layoutProjections m ps s k).1 x =
          boolAt (isn (m (ps.getD i default).relName)) (ps.getD i default).nullableIndex := by
  induction ps with
  | nil => intro s k i x _ h; simp at h
  | cons p rest ih =>
    intro s k i x hk h hn
    cases i with
    | zero =>
      simp only [List.getD_cons_zero] at hn
      simp only [layoutProjections, List.getD_cons_zero, projBit, List.take_zero, nullableCountOf,
        List.filter_nil, List.length_nil, Nat.cast_zero, Int.add_zero, hn, if_true, true_and]
      rw [projBit_skip]
      intro q hq hc
      have := (layout_offset_ge m rest (s + upper_align 4 p.attrSize) (k + 1) q hq).2 hc.1
      have := hc.2
      omega
    | succ i =>
      have h1 : i < rest.length := by simpa using h
      simp only [List.getD_cons_succ] at hn
      simp only [layoutProjections, List.getD_cons_succ, projBit, List.take_succ_cons]
      by_cases hp : isNullable p = true
      · have hcnt : (k + (nullableCountOf (p :: rest.take i) : Int)) =
            (k + 1) + (nullableCountOf (rest.take i) : Int) := by
          simp only [nullableCountOf, List.filter_cons, hp, if_true, List.length_cons]
          push_cast
          omega
        rw [hcnt]
        simp only [hp, if_true, true_and]
        rw [if_neg (by omega)]
        exact ih _ _ i x (by omega) h1 hn
      · have hcnt : (k + (nullableCountOf (p :: rest.take i) : Int)) =
            k + (nullableCountOf (rest.take i) : Int) := by
          simp only [nullableCountOf, List.filter_cons, hp, Bool.false_eq_true, if_false]
        rw [hcnt]
        simp only [hp, Bool.false_eq_true, if_false, false_and]
        exact ih _ _ i x hk h1 hn

theorem layout_count (m : String → Nat) (ps : List DataAttrInfo) :
    ∀ (s : Nat) (k : Int),
      (layoutProjections m ps s k).2.2 = k + (nullableCountOf ps : Int) := by
  induction ps with
  | nil => intro s k; simp [layoutProjections, nullableCountOf]
  | cons p rest ih =>
    intro s k
    simp only [layoutProjections, ih]
    by_cases hp : isNullable p = true
    · simp only [nullableCountOf, List.filter_cons, hp, if_true, List.length_cons]
      push_cast
      omega
    · simp only [nullableCountOf, List.filter_cons, hp, Bool.false_eq_true, if_false]

theorem layout_slot_le (m : String → Nat) (ps : List DataAttrInfo) (s : Nat) (k : Int)
    (i : Nat) (hi : i < ps.length) :
    ((layoutProjections m ps s k).1.getD i default).finalHeader.offset +
      (ps.getD i default).attrSize ≤ (layoutProjections m ps s k).2.1 := by
  obtain ⟨e1, _⟩ := layout_header m ps s k i hi
  have hs := sum_take_le (ps.map (fun p => upper_align 4 p.attrSize)) i ps.length hi (by simp)
  have hget : (ps.map (fun p => upper_align 4 p.attrSize)).getD i 0 =
      upper_align 4 (ps.getD i default).attrSize := by
    simp [List.getD_eq_getElem?_getD, List.getElem?_eq_getElem, hi]
  have hall : ((ps.map (fun p => upper_align 4 p.attrSize)).take ps.length).sum =
      (ps.map (fun p => upper_align 4 p.attrSize)).sum := by
    rw [List.take_of_length_le (by simp)]
  rw [hget, hall] at hs
  rw [List.map_take] at e1
  have hge := upper_align_four_ge (ps.getD i default).attrSize
  rw [e1, layout_size]
  omega

theorem count_take_lt (ps : List DataAttrInfo) :
    ∀ i, i < ps.length → isNullable (ps.getD i default) = true →
      nullableCountOf (ps.take i) < nullableCountOf ps := by
  induction ps with
  | nil => intro i hi; simp at hi
  | cons p rest ih =>
    intro i hi hn
    cases i with
    | zero =>
      simp only [List.getD_cons_zero] at hn
      simp [nullableCountOf, hn]
    | succ i =>
      simp only [List.getD_cons_succ] at hn
      have := ih i (by simpa using hi) hn
      unfold nullableCountOf at this ⊢
      by_cases hp : isNullable p = true
      · simp only [List.take_succ_cons, List.filter_cons, hp, if_true, List.length_cons]
        omega
      · simp only [List.take_succ_cons, List.filter_cons, hp, Bool.false_eq_true, if_false]
        exact this

theorem star_row_byte (relName : String) (attrs : List DataAttrInfo) (r : RM_Record) (n : Nat)
    (i : Nat) (hi : i < attrs.length) (t : Nat) (ht : t < (attrs.getD i default).attrSize) :
    (materializeRow (layoutProjections (buildRelNumMap [relName]) attrs 0 0).1
      (tupleData [r]) (tupleIsnull [r])
      (List.replicate (layoutProjections (buildRelNumMap [relName]) attrs 0 0).2.1 0,
        List.replicate n false)).1.getD
      (((layoutProjections (buildRelNumMap [relName]) attrs 0 0).1.getD i
        default).finalHeader.offset + t) 0 =
      r.data.getD ((attrs.getD i default).offset + t) 0 := by
  have hle := layout_slot_le (buildRelNumMap [relName]) attrs 0 0 i hi
  rw [(materializeRow_getD _ _ _ _).1 _ (by simp only [List.length_replicate]; omega)]
  rw [projByte_at _ _ attrs 0 0 i _ hi t ht, buildRelNumMap_single, getD_drop_nat]
  rfl

theorem star_row_bit (relName : String) (attrs : List DataAttrInfo) (r : RM_Record) (n : Nat)
    (i : Nat) (hi : i < attrs.length) (hn : isNullable (attrs.getD i default) = true) :
    boolAt (materializeRow (layoutProjections (buildRelNumMap [relName]) attrs 0 0).1
      (tupleData [r]) (tupleIsnull [r])
      (List.replicate n 0, List.replicate (nullableCountOf attrs) false)).2
      ((layoutProjections (buildRelNumMap [relName]) attrs 0 0).1.getD i
        default).finalHeader.nullableIndex =
      boolAt r.isnull (attrs.getD i default).nullableIndex := by
  obtain ⟨_, _, e3⟩ := layout_nth (buildRelNumMap [relName]) attrs 0 0 i hi
  rw [if_pos hn] at e3
  have hlt := count_take_lt attrs i hi hn
  unfold boolAt
  rw [e3, (materializeRow_getD _ _ _ _).2 _ (by
    simp only [List.length_replicate]
    omega)]
  rw [projBit_at _ _ attrs 0 0 i _ (Int.le_refl 0) hi hn, buildRelNumMap_single]
  rfl

theorem insertedRecord_isnull (rel : Relation) (values : List Value)
    (hlen : values.length = rel.attrs.length)
    (hci : (checkInsertValues rel.attrs values 0).1 = RC.OK)
    (hfill : (fillRecord rel.attrs values (List.replicate rel.relEntry.tupleLength 0)
      (List.replicate (checkInsertValues rel.attrs values 0).2.toNat false) 0).1 = RC.OK) :
    (insertedRecord rel values).isnull = nullBits rel.attrs values := by
  have hcount := checkInsertValues_count rel.attrs values 0 hlen hci
  have hnum : (checkInsertValues rel.attrs values 0).2.toNat = nullableCountOf rel.attrs := by
    rw [hcount]
    simp
  have hbits := fillRecord_isnull rel.attrs values (List.replicate rel.relEntry.tupleLength 0) []
    (List.replicate (checkInsertValues rel.attrs values 0).2.toNat false) hlen (by simp [hnum])
  simp only [List.nil_append, List.length_nil, Nat.cast_zero] at hbits
  exact hbits hfill

theorem planOf_star (relName : String) (conditions : List Condition) (w : World)
    (rel : Relation) (hrel : w.catalog relName = some rel) :
    (planOf w (selectStarFrom relName conditions)).projs =
      (layoutProjections (buildRelNumMap [relName]) rel.attrs 0 0).1 ∧
    (planOf w (selectStarFrom relName conditions)).finalRecordSize =
      (layoutProjections (buildRelNumMap [relName]) rel.attrs 0 0).2.1 ∧
    (planOf w (selectStarFrom relName conditions)).nullableCount =
      (nullableCountOf rel.attrs : Int) := by
  have he : effectiveSelAttrs (selectStarFrom relName conditions).selAttrs = [] := by
    simp [effectiveSelAttrs, isSelectStar, selectStarFrom]
  have hfa : fromAttrs w [relName] = [rel.attrs] := by
    simp [fromAttrs, hrel]
  have hr : (selectStarFrom relName conditions).relations = [relName] := rfl
  simp only [planOf, makePlan, he, hr, hfa, buildProjections_star, List.flatten_cons,
    List.flatten_nil, List.append_nil, layout_count, Int.zero_add, and_self]

theorem filter_only_last (l : List RM_Record) (x : RM_Record) (p : List RM_Record → Bool)
    (hx : p [x] = true) (hl : ∀ r ∈ l, p [r] = false) :
    ((l ++ [x]).map (fun r => [r])).filter p = [[x]] := by
  induction l with
  | nil => simp [hx]
  | cons a rest ih =>
    have ha := hl a (List.mem_cons_self _ _)
    simp only [List.cons_append, List.map_cons, List.filter_cons, ha, Bool.false_eq_true,
      if_false]
    exact ih (fun r hr => hl r (List.mem_cons_of_mem _ hr))

theorem cartesian_single (l : List RM_Record) : cartesian [l] = l.map (fun r => [r]) := by
  induction l with
  | nil => rfl
  | cons a rest ih =>
    simp only [cartesian, List.flatMap_cons, List.map_cons, List.map_nil, List.singleton_append,
      List.cons.injEq, true_and] at ih ⊢
    exact ih

/-- C21: take a relation of the catalog whose tuple buffer is laid out by the
offsets (`slotsInOrder`), whose `nullableIndex` values number its nullable
attributes `0 .. k-1` in that order, and whose `recordCount` is the number of its
records, below 2^31 - 1; let no record-manager call be forced to fail.  For every
value list `Insert` accepts (it returns 0) and every list of valid conditions that
the inserted record satisfies and no earlier record of the relation does,
`SELECT *` on the relation after the `Insert` returns 0 with any fuel above the
number of records and prints exactly one row.  In that row, for the `i`-th
attribute read through its output header: the null flag of a nullable attribute
is whether the `i`-th value is NULL; for a value that is not NULL, the 4 bytes of
an INT or FLOAT attribute are the 4 bytes of the value, and the NUL-terminated
content of a STRING attribute is that of the value. -/
theorem Insert_then_select_star (relName : String) (values : List Value)
    (conditions : List Condition) (w : World) (rel : Relation)
    (hf : w.faults = []) (hrel : w.catalog relName = some rel)
    (hins : (Insert relName values w).1 = RC.OK)
    (hslots : slotsInOrder rel) (hnum : nullableNumbered rel.attrs)
    (hcount : rel.relEntry.recordCount = (rel.records.length : Int))
    (hsmall : rel.records.length + 1 < 2147483648)
    (hcv : ∀ c ∈ conditions, conditionValid (buildAttrMap [relName] [rel.attrs]).1 c)
    (hnew : satisfiesAll
      (planOf (Insert relName values w).2 (selectStarFrom relName conditions)).conds
      [insertedRecord rel values] = true)
    (hold : ∀ r ∈ rel.records, satisfiesAll
      (planOf (Insert relName values w).2 (selectStarFrom relName conditions)).conds
      [r] = false)
    (fuel : Nat) (hfuel : rel.records.length + 1 < fuel) :
    ∃ res row, Select fuel (selectStarFrom relName conditions) (Insert relName values w).2 =
        some res ∧ res.rc = RC.OK ∧
      printedRows res.w.out = printedRows w.out ++ [row] ∧
      (planOf (Insert relName values w).2 (selectStarFrom relName conditions)).projs.map
        (fun p => p.projection) = rel.attrs ∧
      ∀ i, i < rel.attrs.length →
        (isNullable (rel.attrs.getD i default) = true →
          boolAt row.2
            (((planOf (Insert relName values w).2
              (selectStarFrom relName conditions)).projs.getD i default).finalHeader.nullableIndex) =
            ((values.getD i default).type == ValueType.VT_NULL)) ∧
        ((values.getD i default).type ≠ ValueType.VT_NULL →
          (rel.attrs.getD i default).attrType ≠ AttrType.STRING →
          ∀ k, k < 4 →
            row.1.getD
              (((planOf (Insert relName values w).2
                (selectStarFrom relName conditions)).projs.getD i default).finalHeader.offset + k)
              0 = (values.getD i default).data.getD k 0) ∧
        ((values.getD i default).type ≠ ValueType.VT_NULL →
          (rel.attrs.getD i default).attrType = AttrType.STRING →
          content (row.1.drop
            (((planOf (Insert relName values w).2
              (selectStarFrom relName conditions)).projs.getD i default).finalHeader.offset)) =
            content (values.getD i default).data) := by
  obtain ⟨hlen, hci, hfill, hWf, hWout, hWcat⟩ := Insert_ok relName values w rel hf hrel hins
  obtain ⟨hprojs, hsize, hnc⟩ := planOf_star relName conditions (Insert relName values w).2 _ hWcat
  simp only at hprojs hsize hnc
  have hwrap : wrapInt32 (rel.relEntry.recordCount + 1) = (rel.records.length : Int) + 1 := by
    rw [hcount]
    apply wrapInt32_of_range <;> omega
  have hfa : fromAttrs (Insert relName values w).2 (selectStarFrom relName conditions).relations =
      [rel.attrs] := by
    simp [fromAttrs, selectStarFrom, hWcat]
  have hfr : fromRecords (Insert relName values w).2
      (selectStarFrom relName conditions).relations =
      [rel.records ++ [insertedRecord rel values]] := by
    simp [fromRecords, selectStarFrom, hWcat]
  have hv : validSelect (Insert relName values w).2 (selectStarFrom relName conditions) := by
    refine ⟨?_, ?_, ?_⟩
    · intro r hr
      have : r = relName := by simpa [selectStarFrom] using hr
      subst this
      exact ⟨_, hWcat⟩
    · intro a ha
      have he : effectiveSelAttrs (selectStarFrom relName conditions).selAttrs = [] := by
        simp [effectiveSelAttrs, isSelectStar, selectStarFrom]
      rw [he] at ha
      cases ha
    · intro c hc
      rw [hfa]
      exact hcv c hc
  have hc : countsAgree (Insert relName values w).2
      (selectStarFrom relName conditions).relations := by
    intro r hr rel1 h1
    have : r = relName := by simpa [selectStarFrom] using hr
    subst this
    rw [hWcat] at h1
    cases h1
    simp only [hwrap, List.length_append, List.length_singleton]
    push_cast
    rfl
  have hcart := cartesian_single (rel.records ++ [insertedRecord rel values])
  rcases Select_join_run (selectStarFrom relName conditions) (Insert relName values w).2 hWf hv
    (by simp [selectStarFrom]) (by rw [hfr]; simp) hc (by rw [hfr]; simp; omega) fuel with
    ⟨hlow, _⟩ | ⟨_, res, hres, hrc, _, hrows, _, _⟩
  · exfalso
    rw [hfr, hcart] at hlow
    simp at hlow
    omega
  rw [hfr, hcart, filter_only_last _ _ _ hnew hold, hWout] at hrows
  refine ⟨res, _, hres, hrc, hrows, ?_, ?_⟩
  · rw [hprojs]
    exact layout_projection _ _ 0 0
  intro i hi
  have hsl := fillRecord_slot rel.attrs values (List.replicate rel.relEntry.tupleLength 0)
    (List.replicate (checkInsertValues rel.attrs values 0).2.toNat false) 0 i hlen hfill hslots.1
    (fun a ha => by
      simp only [List.length_replicate]
      exact hslots.2 a ha) hi
  have hai : rel.attrs.getD i default ∈ rel.attrs := by
    rw [List.getD_eq_getElem _ _ hi]
    exact List.getElem_mem _
  have hsz := (hslots.2 _ hai).2
  have hrow : projectTuple
      (planOf (Insert relName values w).2 (selectStarFrom relName conditions))
      [insertedRecord rel values] =
      materializeRow (layoutProjections (buildRelNumMap [relName]) rel.attrs 0 0).1
        (tupleData [insertedRecord rel values]) (tupleIsnull [insertedRecord rel values])
        (List.replicate (layoutProjections (buildRelNumMap [relName]) rel.attrs 0 0).2.1 0,
          List.replicate (nullableCountOf rel.attrs) false) := by
    simp [projectTuple, hprojs, hsize, hnc]
  rw [hrow, hprojs]
  refine ⟨?_, ?_, ?_⟩
  · intro hn
    rw [star_row_bit relName rel.attrs _ _ i hi hn, insertedRecord_isnull rel values hlen hci hfill,
      hnum i hi hn]
    unfold boolAt
    rw [Int.toNat_ofNat]
    exact nullBits_at rel.attrs values i hlen hi hn
  · intro hnn hty k hk
    obtain ⟨_, hb⟩ := hsl hnn
    have hw : writeLength (rel.attrs.getD i default) (values.getD i default) = 4 := by
      unfold writeLength
      cases ht : (rel.attrs.getD i default).attrType with
      | INT => rfl
      | FLOAT => rfl
      | STRING => exact absurd ht hty
    have h4 := hsz.2 hty
    rw [star_row_byte relName rel.attrs _ _ i hi k (by omega)]
    exact hb k (by omega)
  · intro hnn hty
    obtain ⟨hstr, hb⟩ := hsl hnn
    have hw : writeLength (rel.attrs.getD i default) (values.getD i default) =
        strlen (values.getD i default).data + 1 := by
      unfold writeLength
      rw [hty]
    have hd := hsz.1 hty
    have hs := hstr hty
    apply content_of_prefix
    intro k hk
    rw [getD_drop_nat, star_row_byte relName rel.attrs _ _ i hi k (by omega)]
    exact hb k (by omega)

theorem Insert_then_select_star_witness :
    slotsInOrder demoS ∧ nullableNumbered demoS.attrs ∧
    (Insert "S" demoInsertValues demoWorld).1 = RC.OK ∧
    ∃ res row, Select 4 (selectStarFrom "S" [demoIdIsFive])
        (Insert "S" demoInsertValues demoWorld).2 = some res ∧ res.rc = RC.OK ∧
      printedRows res.w.out = printedRows demoWorld.out ++ [row] :=
  ⟨by unfold slotsInOrder; decide, by unfold nullableNumbered; decide, by decide,
    (Insert_then_select_star "S" demoInsertValues [demoIdIsFive] demoWorld demoS rfl rfl
      (by decide) (by unfold slotsInOrder; decide) (by unfold nullableNumbered; decide)
      (by decide) (by decide)
      (fun c hc => by
        have : c = demoIdIsFive := by simpa using hc
        subst this
        exact ⟨demoSId, by decide, by decide⟩)
      (by decide) (by decide) 4 (by decide)).imp
      (fun _ h => h.imp (fun _ h2 => ⟨h2.1, h2.2.1, h2.2.2.1⟩))⟩

theorem Insert_select_demo_row :
    projectTuple (planOf (Insert "S" demoInsertValues demoWorld).2
      (selectStarFrom "S" [demoIdIsFive])) [insertedRecord demoS demoInsertValues] =
      ([5, 0, 0, 0, 98, 111, 98, 0, 0, 0, 0, 0, 0, 0, 0, 0], [false]) := by
  decide

/-! ## The null bits `Select` writes and `Print` reads -/

theorem printCounters_length (attrs : List DataAttrInfo) :
    ∀ k : Int, (printCounters attrs k).length = attrs.length := by
  induction attrs with
  | nil => intro k; rfl
  | cons a rest ih => intro k; simp [printCounters, ih]

theorem printCounters_getD (attrs : List DataAttrInfo) :
    ∀ (k : Int) (i : Nat), i < attrs.length →
      (printCounters attrs k).getD i 0 = k + (nullableCountOf (attrs.take i) : Int) := by
  induction attrs with
  | nil => intro k i hi; simp at hi
  | cons a rest ih =>
    intro k i hi
    cases i with
    | zero => simp [printCounters, nullableCountOf]
    | succ i =>
      simp only [printCounters, List.getD_cons_succ, List.take_succ_cons]
      rw [ih _ i (by simpa using hi)]
      by_cases ha : isNullable a = true
      · rw [if_pos ha]
        simp only [nullableCountOf, List.filter_cons, ha, if_true, List.length_cons]
        push_cast
        omega
      · rw [if_neg ha]
        simp only [nullableCountOf, List.filter_cons, ha, Bool.false_eq_true, if_false]

theorem headers_getD (m : String → Nat) (ps : List DataAttrInfo) :
    ∀ (s : Nat) (k : Int) (i : Nat), i < ps.length →
      ((layoutProjections m ps s k).1.map (fun p => p.finalHeader)).getD i default =
        ((layoutProjections m ps s k).1.getD i default).finalHeader ∧
      isNullable (((layoutProjections m ps s k).1.getD i default).finalHeader) =
        isNullable (ps.getD i default) := by
  induction ps with
  | nil => intro s k i hi; simp at hi
  | cons p rest ih =>
    intro s k i hi
    cases i with
    | zero => simp [layoutProjections, isNullable]
    | succ i =>
      simp only [layoutProjections, List.map_cons, List.getD_cons_succ]
      exact ih _ _ i (by simpa using hi)

theorem isNullable_header (p : DataAttrInfo) (o : Nat) (n : Int) :
    isNullable { p with offset := o, nullableIndex := n } = isNullable p := rfl

theorem headers_count (m : String → Nat) (ps : List DataAttrInfo) :
    ∀ (s : Nat) (k : Int) (i : Nat),
      nullableCountOf (((layoutProjections m ps s k).1.map (fun p => p.finalHeader)).take i) =
        nullableCountOf (ps.take i) := by
  induction ps with
  | nil => intro s k i; simp [layoutProjections]
  | cons p rest ih =>
    intro s k i
    cases i with
    | zero => simp
    | succ i =>
      have h := ih (s + upper_align 4 p.attrSize) (if isNullable p then k + 1 else k) i
      have hp := isNullable_header p s (if isNullable p then k else -1)
      unfold nullableCountOf at h ⊢
      simp only [layoutProjections, List.map_cons, List.take_succ_cons, List.filter_cons, hp]
      by_cases hn : isNullable p = true
      · rw [if_pos hn] at h
        simp only [hn, if_true, List.length_cons]
        rw [h]
      · rw [if_neg hn] at h
        simp only [hn, Bool.false_eq_true, if_false]
        exact h

/-- C31: for the header list `finalHeaders` that the layout loop of `Select`
(lines 149-159) builds from any projection list, and the null-bit array of line
161 (of length the final `nullableIndex`, whatever it holds from the row before)
after the projection loop of lines 222-228: the array has one entry per column
lacking NOTNULL; at every such column `i` the running counter with which `Print`
indexes the array (lines 170-176) equals `finalHeaders[i].nullableIndex`, and the
entry there is the null bit the projection loop copied for column `i`, not one
written for another column; every NOTNULL column has `nullableIndex` -1; so the
flag `Print` takes for column `i` is the bit `Select` wrote at
`finalHeaders[i].nullableIndex`. -/
theorem Print_reads_bits_Select_wrote (m : String → Nat) (ps : List DataAttrInfo)
    (data : Nat → List Nat) (isnull : Nat → List Bool) (buf : List Nat) (old : List Bool)
    (hold : old.length = (layoutProjections m ps 0 0).2.2.toNat) :
    (finalHeadersOf (layoutProjections m ps 0 0).1).length = ps.length ∧
    (layoutProjections m ps 0 0).2.2 =
      (nullableCountOf (finalHeadersOf (layoutProjections m ps 0 0).1) : Int) ∧
    (materializeRow (layoutProjections m ps 0 0).1 data isnull
      (buf, old)).2.length =
      nullableCountOf (finalHeadersOf (layoutProjections m ps 0 0).1) ∧
    (∀ (bits : List Bool) (i : Nat), i < ps.length →
      (nullFlags (finalHeadersOf (layoutProjections m ps 0 0).1) bits 0).getD i
          false =
        (isNullable ((finalHeadersOf (layoutProjections m ps 0 0).1).getD i default)
          && boolAt bits
            ((printCounters (finalHeadersOf (layoutProjections m ps 0 0).1) 0).getD
              i 0))) ∧
    ∀ i, i < ps.length →
      ((finalHeadersOf (layoutProjections m ps 0 0).1).getD i default =
        { ps.getD i default with
          offset := ((finalHeadersOf (layoutProjections m ps 0 0).1).getD i default).offset,
          nullableIndex := ((finalHeadersOf (layoutProjections m ps 0 0).1).getD i default).nullableIndex }) ∧
      (isNullable ((finalHeadersOf (layoutProjections m ps 0 0).1).getD i default)
          = true →
        (printCounters (finalHeadersOf (layoutProjections m ps 0 0).1) 0).getD i 0 =
          ((finalHeadersOf (layoutProjections m ps 0 0).1).getD i default).nullableIndex ∧
        boolAt (materializeRow (layoutProjections m ps 0 0).1 data isnull
            (buf, old)).2
            ((finalHeadersOf (layoutProjections m ps 0 0).1).getD i default).nullableIndex =
          boolAt (isnull (m (ps.getD i default).relName)) (ps.getD i default).nullableIndex) ∧
      (isNullable ((finalHeadersOf (layoutProjections m ps 0 0).1).getD i default)
          = false →
        ((finalHeadersOf (layoutProjections m ps 0 0).1).getD i default).nullableIndex = -1) ∧
      (nullFlags (finalHeadersOf (layoutProjections m ps 0 0).1)
          (materializeRow (layoutProjections m ps 0 0).1 data isnull
            (buf, old)).2 0).getD i
          false =
        (isNullable ((finalHeadersOf (layoutProjections m ps 0 0).1).getD i default)
          && boolAt (materializeRow (layoutProjections m ps 0 0).1 data isnull
            (buf, old)).2
            ((finalHeadersOf (layoutProjections m ps 0 0).1).getD i default).nullableIndex) := by
  have hlen : (finalHeadersOf (layoutProjections m ps 0 0).1).length =
      ps.length := by
    have := congrArg List.length (layout_projection m ps 0 0)
    simpa [finalHeadersOf] using this
  have hall : nullableCountOf (finalHeadersOf (layoutProjections m ps 0 0).1) =
      nullableCountOf ps := by
    have h := headers_count m ps 0 0 ps.length
    have hl : ((layoutProjections m ps 0 0).1.map (fun p => p.finalHeader)).length ≤
        ps.length := Nat.le_of_eq hlen
    rw [List.take_of_length_le hl, List.take_of_length_le (Nat.le_refl _)] at h
    exact h
  have hcnt : (layoutProjections m ps 0 0).2.2 = (nullableCountOf ps : Int) := by
    rw [layout_count]
    omega
  have hrowlen : (materializeRow (layoutProjections m ps 0 0).1 data isnull
      (buf, old)).2.length =
      nullableCountOf ps := by
    rw [(materializeRow_length _ _ _ _).2]
    simp only [hold, hcnt, Int.toNat_ofNat]
  have hctr : ∀ i, i < ps.length →
      (printCounters (finalHeadersOf (layoutProjections m ps 0 0).1) 0).getD i 0 =
        (nullableCountOf (ps.take i) : Int) := by
    intro i hi
    rw [printCounters_getD _ 0 i (by rw [hlen]; exact hi)]
    unfold finalHeadersOf
    rw [headers_count]
    omega
  have hflag : ∀ (bits : List Bool) (i : Nat), i < ps.length →
      (nullFlags (finalHeadersOf (layoutProjections m ps 0 0).1) bits 0).getD i
          false =
        (isNullable ((finalHeadersOf (layoutProjections m ps 0 0).1).getD i default)
          && boolAt bits (nullableCountOf (ps.take i) : Int)) := by
    intro bits i hi
    rw [nullFlags_getD _ bits 0 i (by rw [hlen]; exact hi)]
    unfold finalHeadersOf
    rw [headers_count, Int.zero_add]
  refine ⟨hlen, by rw [hcnt, hall], by rw [hrowlen, hall], ?_, ?_⟩
  · intro bits i hi
    rw [hflag bits i hi, hctr i hi]
  intro i hi
  obtain ⟨hget, hnul⟩ := headers_getD m ps 0 0 i hi
  have hget1 : (finalHeadersOf (layoutProjections m ps 0 0).1).getD i default =
      ((layoutProjections m ps 0 0).1.getD i default).finalHeader := hget
  obtain ⟨hproj, _, hidx⟩ := layout_nth m ps 0 0 i hi
  rw [Int.zero_add] at hidx
  have hshape : ∀ (L : List DataAttrInfo), ∀ (s : Nat) (k : Int) (j : Nat), j < L.length →
      ((layoutProjections m L s k).1.getD j default).finalHeader =
        { L.getD j default with
          offset := ((layoutProjections m L s k).1.getD j default).finalHeader.offset,
          nullableIndex :=
            ((layoutProjections m L s k).1.getD j default).finalHeader.nullableIndex } := by
    intro L
    induction L with
    | nil => intro s k j hj; simp at hj
    | cons p rest ih =>
      intro s k j hj
      cases j with
      | zero => simp [layoutProjections]
      | succ j =>
        simp only [layoutProjections, List.getD_cons_succ]
        exact ih _ _ j (by simpa using hj)
  rw [hget1, hnul]
  refine ⟨hshape ps 0 0 i hi, ?_, ?_, ?_⟩
  · intro hn
    rw [hctr i hi, hidx, if_pos hn]
    refine ⟨rfl, ?_⟩
    have hlt := count_take_lt ps i hi hn
    unfold boolAt
    rw [(materializeRow_getD _ _ _ _).2 _ (by
      simp only [hold, hcnt, Int.toNat_ofNat]
      exact hlt)]
    have := projBit_at isnull m ps 0 0 i
      (old.getD (nullableCountOf (ps.take i) : Int).toNat false) (Int.le_refl 0) hi hn
    rw [Int.zero_add] at this
    rw [this]
    rfl
  · intro hn
    rw [hidx, if_neg (by rw [hn]; exact Bool.false_ne_true)]
  · rw [hflag _ i hi, hget1, hnul, hidx]
    by_cases hn : isNullable (ps.getD i default) = true
    · rw [if_pos hn]
    · rw [if_neg hn]
      have : isNullable (ps.getD i default) = false := by
        cases h : isNullable (ps.getD i default) with
        | true => exact absurd h hn
        | false => rfl
      rw [this]
      rfl

theorem Print_reads_bits_demo :
    (finalHeadersOf (layoutProjections (buildRelNumMap ["S", "T"]) demoMixedProjections 0 0).1).map
        (fun h => h.nullableIndex) = [0, -1, 1] ∧
    printCounters
      (finalHeadersOf (layoutProjections (buildRelNumMap ["S", "T"]) demoMixedProjections 0 0).1)
      0 = [0, 1, 1] ∧
    (layoutProjections (buildRelNumMap ["S", "T"]) demoMixedProjections 0 0).2.2 = 2 := by
  decide

theorem Print_reads_bits_Select_wrote_witness :
    [true, true].length =
      (layoutProjections (buildRelNumMap ["S", "T"]) demoMixedProjections 0 0).2.2.toNat ∧
    (finalHeadersOf
      (layoutProjections (buildRelNumMap ["S", "T"]) demoMixedProjections 0 0).1).length =
        demoMixedProjections.length ∧
    (layoutProjections (buildRelNumMap ["S", "T"]) demoMixedProjections 0 0).2.2 =
      (nullableCountOf (finalHeadersOf
        (layoutProjections (buildRelNumMap ["S", "T"]) demoMixedProjections 0 0).1) : Int) :=
  ⟨by decide,
    (Print_reads_bits_Select_wrote (buildRelNumMap ["S", "T"]) demoMixedProjections
      (tupleData [demoS.records.getD 1 default, demoT.records.getD 0 default])
      (tupleIsnull [demoS.records.getD 1 default, demoT.records.getD 0 default])
      (List.replicate 20 0) [true, true] (by decide)).1,
    (Print_reads_bits_Select_wrote (buildRelNumMap ["S", "T"]) demoMixedProjections
      (tupleData [demoS.records.getD 1 default, demoT.records.getD 0 default])
      (tupleIsnull [demoS.records.getD 1 default, demoT.records.getD 0 default])
      (List.replicate 20 0) [true, true] (by decide)).2.1⟩

theorem Print_reads_bits_demo_row :
    nullFlags
      (finalHeadersOf (layoutProjections (buildRelNumMap ["S", "T"]) demoMixedProjections 0 0).1)
      (materializeRow (layoutProjections (buildRelNumMap ["S", "T"]) demoMixedProjections 0 0).1
        (tupleData [demoS.records.getD 1 default, demoT.records.getD 0 default])
        (tupleIsnull [demoS.records.getD 1 default, demoT.records.getD 0 default])
        (List.replicate 20 0, [true, true])).2 0 = [true, false, false] := by
  decide

theorem makePlan_headers (args : SelectArgs) (relEntries : List RelCatEntry)
    (attrInfo : List (List DataAttrInfo)) (attrMap : AttrMap) :
    (makePlan args relEntries attrInfo attrMap).projs =
      (layoutProjections (buildRelNumMap args.relations)
        (buildProjections attrMap attrInfo (effectiveSelAttrs args.selAttrs)) 0 0).1 ∧
    (makePlan args relEntries attrInfo attrMap).nullableCount =
      (layoutProjections (buildRelNumMap args.relations)
        (buildProjections attrMap attrInfo (effectiveSelAttrs args.selAttrs)) 0 0).2.2 :=
  ⟨rfl, rfl⟩

/-! ## The rows of a join against the specification's reading -/

theorem fromAttrs_eq (w : World) (relations : List String) :
    fromAttrs w relations = relations.map (attrsOf w) := rfl

theorem flatMap_attrsOf (w : World) (relations : List String) :
    relations.flatMap (attrsOf w) = (fromAttrs w relations).flatten := rfl

theorem zip_fromAttrs (w : World) (relations : List String) :
    relations.zip (fromAttrs w relations) = relations.map (fun r => (r, attrsOf w r)) := by
  rw [fromAttrs_eq]
  induction relations with
  | nil => rfl
  | cons r rest ih => simp [ih]

theorem find_unique (l : List DataAttrInfo) (n : String) (d : DataAttrInfo) (hd : d ∈ l)
    (hn : d.attrName = n) (hu : ∀ e ∈ l, e.attrName = n → e = d) :
    l.find? (fun e => e.attrName == n) = some d := by
  induction l with
  | nil => cases hd
  | cons x rest ih =>
    by_cases hx : x.attrName = n
    · have := hu x (List.mem_cons_self _ _) hx
      subst this
      simp [List.find?_cons, hx]
    · have hdr : d ∈ rest := by
        rcases List.mem_cons.mp hd with e | e
        · exact absurd (e ▸ hn) hx
        · exact e
      have hb : (x.attrName == n) = false := by simpa using hx
      rw [List.find?_cons, hb]
      exact ih hdr (fun e he => hu e (List.mem_cons_of_mem _ he))

theorem mem_flatMap_attrsOf (w : World) (relations : List String) (d : DataAttrInfo) :
    d ∈ relations.flatMap (attrsOf w) ↔ ∃ r ∈ relations, d ∈ attrsOf w r := by
  simp [List.mem_flatMap]

theorem attrMap_some (w : World) (relations : List String) (hwn : wellNamed w relations)
    (k1 n : String) (d : DataAttrInfo)
    (h : (buildAttrMap relations (fromAttrs w relations)).1 (k1, n) = some d) :
    d.attrName = n ∧
    (k1 ≠ "" → k1 ∈ relations ∧ d ∈ attrsOf w k1) ∧
    (k1 = "" → d ∈ relations.flatMap (attrsOf w) ∧
      ∀ e ∈ relations.flatMap (attrsOf w), e.attrName = n → e = d) := by
  obtain ⟨hnd, hne, hattrs⟩ := hwn
  have hlen : relations.length = (fromAttrs w relations).length := by
    rw [fromAttrs_eq, List.length_map]
  have hnames : ∀ attrs ∈ fromAttrs w relations, (attrs.map (fun d => d.attrName)).Nodup := by
    intro attrs ha
    rw [fromAttrs_eq, List.mem_map] at ha
    obtain ⟨r, hr, rfl⟩ := ha
    exact (hattrs r hr).1
  obtain ⟨_, h2, h3, h4⟩ := buildAttrMap_facts relations (fromAttrs w relations) hlen hnd hne
    hnames
  rw [zip_fromAttrs] at h3 h4
  by_cases hk : k1 = ""
  · subst hk
    have h1 : relationsWith n (fromAttrs w relations) = 1 := by
      by_contra hc
      rw [h2 n hc] at h
      cases h
    have hall : ∀ e ∈ relations.flatMap (attrsOf w), e.attrName = n → e = d := by
      intro e he hen
      obtain ⟨r, hr, her⟩ := (mem_flatMap_attrsOf w relations e).mp he
      have := h3 (r, attrsOf w r) (List.mem_map.mpr ⟨r, hr, rfl⟩) e her (by rw [hen]; exact h1)
      rw [hen, h] at this
      exact (Option.some.inj this).symm
    have hpos : 0 < ((fromAttrs w relations).filter
        (fun attrs => decide (n ∈ attrs.map (fun d => d.attrName)))).length := by
      unfold relationsWith at h1
      omega
    obtain ⟨attrs, hmem⟩ := List.exists_mem_of_length_pos hpos
    rw [List.mem_filter] at hmem
    obtain ⟨hin, ha⟩ := hmem
    simp only [decide_eq_true_eq, List.mem_map] at ha
    obtain ⟨e, he, hen⟩ := ha
    rw [fromAttrs_eq, List.mem_map] at hin
    obtain ⟨r, hr, rfl⟩ := hin
    have hef : e ∈ relations.flatMap (attrsOf w) :=
      (mem_flatMap_attrsOf w relations e).mpr ⟨r, hr, he⟩
    have hed := hall e hef hen
    subst hed
    exact ⟨hen, fun hc => absurd rfl hc, fun _ => ⟨hef, hall⟩⟩
  · have hq : (buildAttrMap relations (fromAttrs w relations)).1 (k1, n) =
        (buildQualified (relations.zip (fromAttrs w relations))).1 (k1, n) := by
      unfold buildAttrMap
      simp only
      rw [addUnqualified_foldl, unqFold_other]
      intro e _ _ hc
      exact hk (Prod.mk.inj hc).1.symm
    rw [hq] at h
    unfold buildQualified at h
    rw [foldl_addQualified_eq, zip_fromAttrs] at h
    by_cases hex : ∃ p ∈ (relations.map (fun r => (r, attrsOf w r))).flatMap
        (fun ra => ra.2.map (fun a => (ra.1, a))), (p.1, p.2.attrName) = (k1, n)
    · obtain ⟨p, hp, hpk⟩ := hex
      have hkeys := pairKeys_nodup (relations.map (fun r => (r, attrsOf w r)))
        (by
          have hm : (relations.map (fun r => (r, attrsOf w r))).map Prod.fst = relations := by
            rw [List.map_map]
            exact List.map_id _
          rw [hm]
          exact hnd)
        (by
          intro ra hra
          obtain ⟨r, hr, rfl⟩ := List.mem_map.mp hra
          exact (hattrs r hr).1)
      have hval := qualFold_mem _ (fun _ => none, fun _ => 0) hkeys p hp
      rw [hpk, h] at hval
      have hd : d = p.2 := Option.some.inj hval
      simp only [List.mem_flatMap, List.mem_map] at hp
      obtain ⟨ra, ⟨r, hr, hra⟩, a, ha, hpa⟩ := hp
      subst hra
      subst hpa
      simp only at hpk hd ha
      have hr1 : r = k1 := (Prod.mk.inj hpk).1
      have hn1 : a.attrName = n := (Prod.mk.inj hpk).2
      subst hr1
      subst hd
      exact ⟨hn1, fun _ => ⟨hr, ha⟩, fun hc => absurd hc hk⟩
    · rw [qualFold_other _ _ _ (fun p hp hc => hex ⟨p, hp, hc⟩)] at h
      cases h

theorem specResolve_eq (w : World) (relations : List String) (hwn : wellNamed w relations)
    (a : RelAttr) (hq : a.relName ≠ some "") (d : DataAttrInfo)
    (h : (buildAttrMap relations (fromAttrs w relations)).1 (make_tag a) = some d) :
    specResolve w relations a = d ∧ d.relName ∈ relations := by
  cases hr : a.relName with
  | none =>
    have ht : make_tag a = ("", a.attrName) := by simp [make_tag, hr]
    rw [ht] at h
    obtain ⟨hn, _, hu⟩ := attrMap_some w relations hwn "" a.attrName d h
    obtain ⟨hd, hall⟩ := hu rfl
    obtain ⟨r, hrm, hdr⟩ := (mem_flatMap_attrsOf w relations d).mp hd
    refine ⟨?_, ?_⟩
    · unfold specResolve
      rw [hr]
      simp only
      rw [find_unique _ _ d hd hn hall]
      rfl
    · rw [(hwn.2.2 r hrm).2 d hdr]
      exact hrm
  | some r =>
    have hne : r ≠ "" := fun e => hq (by rw [hr, e])
    have ht : make_tag a = (r, a.attrName) := by simp [make_tag, hr]
    rw [ht] at h
    obtain ⟨hn, hk, _⟩ := attrMap_some w relations hwn r a.attrName d h
    obtain ⟨hrm, hdr⟩ := hk hne
    have hinj := List.inj_on_of_nodup_map (hwn.2.2 r hrm).1
    refine ⟨?_, ?_⟩
    · unfold specResolve
      rw [hr]
      simp only
      rw [if_pos hrm, find_unique _ _ d hdr hn
        (fun e he hen => hinj he hdr (by rw [hen, hn]))]
      rfl
    · rw [(hwn.2.2 r hrm).2 d hdr]
      exact hrm

theorem relNumFold (relations : List String) (hnd : relations.Nodup) :
    ∀ k, k ≤ relations.length → ∀ i, i < k →
      ((List.range k).foldl
        (fun (m : String → Nat) i => fun key => if key = relations.getD i "" then i else m key)
        (fun _ => 0)) (relations.getD i "") = i := by
  intro k
  induction k with
  | zero => intro _ i hi; omega
  | succ k ih =>
    intro hk i hi
    rw [List.range_succ, List.foldl_append]
    simp only [List.foldl_cons, List.foldl_nil]
    by_cases hik : i = k
    · subst hik
      rw [if_pos rfl]
    · have hne : relations.getD i "" ≠ relations.getD k "" := by
        rw [List.getD_eq_getElem _ _ (by omega : i < relations.length),
          List.getD_eq_getElem _ _ (by omega : k < relations.length)]
        intro he
        exact hik ((List.Nodup.getElem_inj_iff hnd).mp he)
      rw [if_neg hne]
      exact ih (by omega) i (by omega)

theorem buildRelNumMap_indexOf (relations : List String) (hnd : relations.Nodup) (r : String)
    (hr : r ∈ relations) : buildRelNumMap relations r = relations.indexOf r := by
  have hlt := List.indexOf_lt_length.2 hr
  have hget : relations.getD (relations.indexOf r) "" = r := by
    rw [List.getD_eq_getElem _ _ hlt]
    exact List.getElem_indexOf hlt
  have := relNumFold relations hnd relations.length (Nat.le_refl _) (relations.indexOf r) hlt
  rw [hget] at this
  exact this

theorem memcpy_slot (pre src : List Nat) (n a S : Nat) (hn : n ≤ a) :
    memcpy (pre ++ List.replicate (a + S) 0) pre.length src n =
      (pre ++ (List.range a).map (fun k => if k < n then src.getD k 0 else 0)) ++
        List.replicate S 0 := by
  apply list_ext_getD _ _ 0
  · simp [memcpy_length]
  · intro j hj
    rw [memcpy_length] at hj
    rw [memcpy_getD _ _ _ _ _ hj]
    simp only [List.length_append, List.length_replicate] at hj
    by_cases h1 : j < pre.length
    · rw [if_neg (by omega), List.getD_append _ _ _ _ h1, List.append_assoc,
        List.getD_append _ _ _ _ h1]
    · have h1' : pre.length ≤ j := by omega
      rw [List.append_assoc, List.getD_append_right _ _ _ _ h1',
        List.getD_append_right _ _ _ _ h1']
      by_cases h2 : j - pre.length < a
      · rw [List.getD_append _ _ _ _ (by simp; exact h2)]
        simp only [List.getD_eq_getElem?_getD, List.getElem?_map, List.getElem?_range h2,
          Option.map_some', Option.getD_some]
        by_cases h3 : j - pre.length < n
        · rw [if_pos ⟨h1', by omega⟩, if_pos h3]
        · rw [if_neg (fun hc => h3 (by omega)), if_neg h3]
          simp only [List.getElem?_replicate]
          split <;> rfl
      · rw [if_neg (fun hc => h2 (by omega)),
          List.getD_append_right _ _ _ _ (by simp; omega)]
        simp only [List.getD_eq_getElem?_getD, List.getElem?_replicate, List.length_map,
          List.length_range]
        split <;> split <;> rfl

theorem specSlot_eq (r : RM_Record) (d : DataAttrInfo) :
    specSlot r d = (List.range (upper_align 4 d.attrSize)).map
      (fun k => if k < d.attrSize then (r.data.drop d.offset).getD k 0 else 0) := by
  unfold specSlot
  apply List.map_congr_left
  intro k _
  rw [getD_drop_nat]

theorem specSlot_length (r : RM_Record) (d : DataAttrInfo) :
    (specSlot r d).length = upper_align 4 d.attrSize := by
  simp [specSlot]

theorem materializeRow_cons (p : Projection) (ps : List Projection) (d : Nat → List Nat)
    (i : Nat → List Bool) (b : List Nat × List Bool) :
    materializeRow (p :: ps) d i b = materializeRow ps d i (materializeOne d i b p) := rfl

theorem materialize_layout (m : String → Nat) (t : List RM_Record) (ps : List DataAttrInfo) :
    ∀ (pre : List Nat) (preB sufB : List Bool), sufB.length = nullableCountOf ps →
      materializeRow (layoutProjections m ps pre.length (preB.length : Int)).1
        (tupleData t) (tupleIsnull t)
        (pre ++ List.replicate ((ps.map (fun p => upper_align 4 p.attrSize)).sum) 0,
          preB ++ sufB) =
      (pre ++ ps.flatMap (fun d => specSlot (t.getD (m d.relName) default) d),
        preB ++ (ps.filter isNullable).map
          (fun d => boolAt (t.getD (m d.relName) default).isnull d.nullableIndex)) := by
  induction ps with
  | nil =>
    intro pre preB sufB h
    have : sufB = [] := List.length_eq_zero.mp (by simpa [nullableCountOf] using h)
    subst this
    simp [layoutProjections, materializeRow]
  | cons p rest ih =>
    intro pre preB sufB h
    have hua := upper_align_four_ge p.attrSize
    have hdata : memcpy
        (pre ++ List.replicate (((p :: rest).map (fun p => upper_align 4 p.attrSize)).sum) 0)
        pre.length ((tupleData t (m p.relName)).drop p.offset) p.attrSize =
        (pre ++ specSlot (t.getD (m p.relName) default) p) ++
          List.replicate ((rest.map (fun p => upper_align 4 p.attrSize)).sum) 0 := by
      rw [List.map_cons, List.sum_cons, memcpy_slot _ _ _ _ _ hua, specSlot_eq]
      rfl
    have hlen1 : pre.length + upper_align 4 p.attrSize =
        (pre ++ specSlot (t.getD (m p.relName) default) p).length := by
      rw [List.length_append, specSlot_length]
    have hfinal : pre ++ specSlot (t.getD (m p.relName) default) p ++
        rest.flatMap (fun d => specSlot (t.getD (m d.relName) default) d) =
        pre ++ (p :: rest).flatMap (fun d => specSlot (t.getD (m d.relName) default) d) := by
      rw [List.flatMap_cons, List.append_assoc]
    by_cases hp : isNullable p = true
    · have hsuf : ∃ x suf1, sufB = x :: suf1 ∧ suf1.length = nullableCountOf rest := by
        cases sufB with
        | nil => simp [nullableCountOf, List.filter_cons, hp] at h
        | cons x suf1 =>
          refine ⟨x, suf1, rfl, ?_⟩
          simpa [nullableCountOf, List.filter_cons, hp] using h
      obtain ⟨x, suf1, rfl, hs1⟩ := hsuf
      have hlen2 : ((preB.length : Int) + 1) =
          ((preB ++ [boolAt (tupleIsnull t (m p.relName)) p.nullableIndex]).length : Int) := by
        simp
      simp only [layoutProjections, hp, if_true]
      rw [materializeRow_cons]
      simp only [materializeOne, hp, if_true]
      rw [hdata, setBool_append, hlen1, hlen2,
        show preB ++ boolAt (tupleIsnull t (m p.relName)) p.nullableIndex :: suf1 =
          (preB ++ [boolAt (tupleIsnull t (m p.relName)) p.nullableIndex]) ++ suf1 by simp]
      rw [ih _ _ suf1 hs1, hfinal]
      simp [List.filter_cons, hp, tupleIsnull]
    · have hs1 : sufB.length = nullableCountOf rest := by
        simpa [nullableCountOf, List.filter_cons, hp] using h
      simp only [layoutProjections, hp, Bool.false_eq_true, if_false]
      rw [materializeRow_cons]
      simp only [materializeOne, hp, Bool.false_eq_true, if_false]
      rw [hdata, hlen1, ih _ _ sufB hs1, hfinal]
      simp [List.filter_cons, hp]

theorem all_congr_mem {α : Type} (l : List α) (p q : α → Bool) (h : ∀ x ∈ l, p x = q x) :
    l.all p = l.all q := by
  induction l with
  | nil => rfl
  | cons x rest ih =>
    simp only [List.all_cons]
    rw [h x (List.mem_cons_self _ _), ih (fun y hy => h y (List.mem_cons_of_mem _ hy))]

theorem all_map_congr {α β : Type} (l : List α) (f : α → β) (p : β → Bool) (q : α → Bool)
    (h : ∀ x ∈ l, p (f x) = q x) : (l.map f).all p = l.all q := by
  induction l with
  | nil => rfl
  | cons x rest ih =>
    simp only [List.map_cons, List.all_cons]
    rw [h x (List.mem_cons_self _ _), ih (fun y hy => h y (List.mem_cons_of_mem _ hy))]

theorem specSelected_star (w : World) (args : SelectArgs)
    (hs : isSelectStar args.selAttrs = true) :
    specSelected w args = args.relations.flatMap (attrsOf w) := by
  unfold specSelected
  unfold isSelectStar at hs
  rcases hsa : args.selAttrs with _ | ⟨a, _ | ⟨b, rest⟩⟩
  · rw [hsa] at hs
    cases hs
  · rw [hsa] at hs
    have ha : a.attrName = "*" := by simpa using hs
    simp only
    rw [if_pos ha]
  · rw [hsa] at hs
    cases hs

theorem specSelected_list (w : World) (args : SelectArgs)
    (hs : ¬ isSelectStar args.selAttrs = true) :
    specSelected w args = args.selAttrs.map (specResolve w args.relations) := by
  unfold specSelected
  unfold isSelectStar at hs
  rcases hsa : args.selAttrs with _ | ⟨a, _ | ⟨b, rest⟩⟩
  · rfl
  · rw [hsa] at hs
    have ha : ¬ a.attrName = "*" := by simpa using hs
    simp only
    rw [if_neg ha]
    rfl
  · rfl

theorem ite_false_eq_and (b x : Bool) : (if b = true then x else false) = (b && x) := by
  cases b <;> rfl

theorem mapGet_some {κ ν : Type} [Inhabited ν] (m : κ → Option ν) (key : κ) (v : ν)
    (h : m key = some v) : mapGet m key = v := by
  unfold mapGet
  rw [h]

theorem evalCondition_spec (w : World) (args : SelectArgs)
    (hwn : wellNamed w args.relations) (c : Condition)
    (hq : c.lhsAttr.relName ≠ some "" ∧ (c.bRhsIsAttr = true → c.rhsAttr.relName ≠ some ""))
    (hcv : conditionValid (buildAttrMap args.relations (fromAttrs w args.relations)).1 c)
    (t : List RM_Record) :
    (evalCondition (tupleData t) (tupleIsnull t)
      (compileCondition (buildAttrMap args.relations (fromAttrs w args.relations)).1
        (buildRelNumMap args.relations) c) == some true) =
      specHolds w args.relations t c := by
  obtain ⟨l, hl, hrest⟩ := hcv
  obtain ⟨hl1, hl2⟩ := specResolve_eq w args.relations hwn c.lhsAttr hq.1 l hl
  have hli := buildRelNumMap_indexOf args.relations hwn.1 l.relName hl2
  cases hb : c.bRhsIsAttr with
  | true =>
    rw [hb] at hrest
    simp only [if_true] at hrest
    obtain ⟨r, hr, _⟩ := hrest
    obtain ⟨hr1, hr2⟩ := specResolve_eq w args.relations hwn c.rhsAttr (hq.2 hb) r hr
    have hri := buildRelNumMap_indexOf args.relations hwn.1 r.relName hr2
    unfold specHolds compileCondition evalCondition
    simp only [hb, if_true, mapGet_some _ _ _ hl, mapGet_some _ _ _ hr, hl1, hr1, hli, hri,
      ite_false_eq_and, recordOf, tupleData, tupleIsnull]
  | false =>
    unfold specHolds compileCondition evalCondition
    simp only [hb, Bool.false_eq_true, if_false, mapGet_some _ _ _ hl, hl1, hli,
      ite_false_eq_and, recordOf, tupleData, tupleIsnull]

theorem satisfiesAll_spec (w : World) (args : SelectArgs) (hv : validSelect w args)
    (hwn : wellNamed w args.relations) (hpq : plainQualifiers args) (t : List RM_Record) :
    satisfiesAll (planOf w args).conds t =
      args.conditions.all (specHolds w args.relations t) := by
  have hconds : (planOf w args).conds = args.conditions.map
      (compileCondition (buildAttrMap args.relations (fromAttrs w args.relations)).1
        (buildRelNumMap args.relations)) := rfl
  rw [hconds]
  unfold satisfiesAll
  apply all_map_congr
  intro c hc
  exact evalCondition_spec w args hwn c (hpq.2 c hc) (hv.2.2 c hc) t

theorem projections_spec (w : World) (args : SelectArgs) (hv : validSelect w args)
    (hwn : wellNamed w args.relations) (hpq : plainQualifiers args)
    (hsel : args.selAttrs ≠ []) :
    buildProjections (buildAttrMap args.relations (fromAttrs w args.relations)).1
      (fromAttrs w args.relations) (effectiveSelAttrs args.selAttrs) = specSelected w args ∧
    ∀ d ∈ specSelected w args, d.relName ∈ args.relations := by
  have hstar : ∀ d ∈ args.relations.flatMap (attrsOf w), d.relName ∈ args.relations := by
    intro d hd
    obtain ⟨r, hr, hdr⟩ := (mem_flatMap_attrsOf w args.relations d).mp hd
    rw [(hwn.2.2 r hr).2 d hdr]
    exact hr
  have hres : ∀ a ∈ effectiveSelAttrs args.selAttrs, a ∈ args.selAttrs →
      mapGet (buildAttrMap args.relations (fromAttrs w args.relations)).1 (make_tag a) =
        specResolve w args.relations a ∧
      (specResolve w args.relations a).relName ∈ args.relations := by
    intro a ha hmem
    have h1 := (hv.2.1 a ha).1
    obtain ⟨d, hd⟩ := Option.isSome_iff_exists.mp h1
    obtain ⟨e1, e2⟩ := specResolve_eq w args.relations hwn a (hpq.1 a hmem) d hd
    rw [mapGet_some _ _ _ hd, e1]
    exact ⟨rfl, e2⟩
  by_cases hs : isSelectStar args.selAttrs = true
  · have he : effectiveSelAttrs args.selAttrs = [] := by simp [effectiveSelAttrs, hs]
    rw [he, buildProjections_star]
    have hsp := specSelected_star w args hs
    rw [hsp]
    exact ⟨rfl, hstar⟩
  · have he : effectiveSelAttrs args.selAttrs = args.selAttrs := by
      simp [effectiveSelAttrs, hs]
    rw [he] at hres ⊢
    have hlen : ¬ args.selAttrs.length = 0 := by
      intro h0
      exact hsel (List.length_eq_zero.mp h0)
    have hbp : buildProjections (buildAttrMap args.relations (fromAttrs w args.relations)).1
        (fromAttrs w args.relations) args.selAttrs =
        args.selAttrs.map (specResolve w args.relations) := by
      unfold buildProjections
      rw [if_neg hlen]
      apply List.map_congr_left
      intro a ha
      exact (hres a ha ha).1
    have hsp := specSelected_list w args hs
    rw [hbp, hsp]
    refine ⟨rfl, ?_⟩
    intro d hd
    obtain ⟨a, ha, rfl⟩ := List.mem_map.mp hd
    exact (hres a ha ha).2

theorem projectTuple_spec (w : World) (args : SelectArgs) (hv : validSelect w args)
    (hwn : wellNamed w args.relations) (hpq : plainQualifiers args)
    (hsel : args.selAttrs ≠ []) (t : List RM_Record) :
    projectTuple (planOf w args) t = specProject args.relations (specSelected w args) t := by
  obtain ⟨hps, hrel⟩ := projections_spec w args hv hwn hpq hsel
  have hprojs : (planOf w args).projs =
      (layoutProjections (buildRelNumMap args.relations) (specSelected w args) 0 0).1 := by
    rw [← hps]
    rfl
  have hsize : (planOf w args).finalRecordSize =
      ((specSelected w args).map (fun p => upper_align 4 p.attrSize)).sum := by
    rw [← hps]
    have : (planOf w args).finalRecordSize =
        (layoutProjections (buildRelNumMap args.relations)
          (buildProjections (buildAttrMap args.relations (fromAttrs w args.relations)).1
            (fromAttrs w args.relations) (effectiveSelAttrs args.selAttrs)) 0 0).2.1 := rfl
    rw [this, layout_size, Nat.zero_add]
  have hcount : (planOf w args).nullableCount.toNat = nullableCountOf (specSelected w args) := by
    rw [← hps]
    have : (planOf w args).nullableCount =
        (layoutProjections (buildRelNumMap args.relations)
          (buildProjections (buildAttrMap args.relations (fromAttrs w args.relations)).1
            (fromAttrs w args.relations) (effectiveSelAttrs args.selAttrs)) 0 0).2.2 := rfl
    rw [this, layout_count]
    simp
  have hm := materialize_layout (buildRelNumMap args.relations) t (specSelected w args) [] []
    (List.replicate (nullableCountOf (specSelected w args)) false) (by simp)
  simp only [List.length_nil, Nat.cast_zero, List.nil_append] at hm
  unfold projectTuple
  rw [hprojs, hsize, hcount, hm]
  unfold specProject recordOf
  have hidx : ∀ d ∈ specSelected w args,
      buildRelNumMap args.relations d.relName = args.relations.indexOf d.relName :=
    fun d hd => buildRelNumMap_indexOf args.relations hwn.1 d.relName (hrel d hd)
  congr 1
  · apply List.flatMap_congr
    intro d hd
    rw [hidx d hd]
  · apply List.map_congr_left
    intro d hd
    rw [hidx d (List.mem_of_mem_filter hd)]

/-- C8 (amended): for every valid `Select` over `n ≥ 1` relations with pairwise
distinct names that all have a record, with all record-manager calls succeeding,
with every relation's catalog `recordCount` equal to the number of records its scan
yields and with the product of the counts within a 32-bit signed `int`, the
sequence of tuples handed to the printer is `specRows`: the Cartesian product of
the record lists in lexicographic order of scan positions (relation 0 outermost),
restricted to the combinations on which every condition's `checkSatisfy` is true,
each projected onto the selected attributes in select order.  The right-hand side
reads the catalog, the statement and the records only; the catalog is taken to
name every descriptor after its relation, with distinct attribute names within a
relation, and the statement to have a select list and no empty qualifier. -/
theorem Select_prints_join (args : SelectArgs) (w : World) (hf : w.faults = [])
    (hv : validSelect w args) (hwn : wellNamed w args.relations)
    (hpq : plainQualifiers args) (hsel : args.selAttrs ≠ [])
    (hn : args.relations ≠ [])
    (hne : ∀ L ∈ fromRecords w args.relations, L ≠ [])
    (hc : countsAgree w args.relations)
    (hprod : ((fromRecords w args.relations).map List.length).prod < 2147483648) :
    ∃ N, ∀ fuel, N ≤ fuel → ∃ res, Select fuel args w = some res ∧ res.rc = RC.OK ∧
      printedRows res.w.out = printedRows w.out ++ specRows w args := by
  refine ⟨(cartesian (fromRecords w args.relations)).length + 1, fun fuel hfuel => ?_⟩
  rcases Select_join_run args w hf hv hn hne hc hprod fuel with ⟨h1, _⟩ | ⟨_, res, h1, h2, _, h4, _⟩
  · omega
  · refine ⟨res, h1, h2, ?_⟩
    rw [h4]
    unfold specRows
    have hfilter : (cartesian (fromRecords w args.relations)).filter
        (satisfiesAll (planOf w args).conds) =
        (cartesian (fromRecords w args.relations)).filter
          (fun t => args.conditions.all (specHolds w args.relations t)) :=
      List.filter_congr (fun t _ => satisfiesAll_spec w args hv hwn hpq t)
    rw [hfilter]
    congr 1
    apply List.map_congr_left
    intro t _
    exact projectTuple_spec w args hv hwn hpq hsel t

/-- C8 (amended), on the small database:
`SELECT S.name, T.score FROM S, T WHERE S.id = T.sid` hands the printer the two
tuples `("al", 90.5)` and `(NULL, 75.0)`. -/
theorem Select_prints_join_witness :
    (demoWorld.faults = [] ∧ wellNamed demoWorld demoJoin.relations ∧
      plainQualifiers demoJoin ∧ demoJoin.relations ≠ [] ∧
      (∀ L ∈ fromRecords demoWorld demoJoin.relations, L ≠ []) ∧
      ((fromRecords demoWorld demoJoin.relations).map List.length).prod < 2147483648) ∧
    specRows demoWorld demoJoin =
      [([97, 108, 0, 0, 0, 0, 0, 0, 0, 0, 0, 0, 0, 0, 181, 66], [false, false]),
       ([0, 0, 0, 0, 0, 0, 0, 0, 0, 0, 0, 0, 0, 0, 150, 66], [true, false])] ∧
    ∃ N, ∀ fuel, N ≤ fuel → ∃ res, Select fuel demoJoin demoWorld = some res ∧
      res.rc = RC.OK ∧
      printedRows res.w.out = printedRows demoWorld.out ++ specRows demoWorld demoJoin :=
  ⟨⟨rfl, by unfold wellNamed; decide, by unfold plainQualifiers; decide, by decide, by decide,
      by decide⟩,
    by decide,
    Select_prints_join demoJoin demoWorld rfl demoJoin_valid (by unfold wellNamed; decide)
      (by unfold plainQualifiers; decide) (by decide) (by decide) (by decide) demoJoin_counts
      (by decide)⟩

theorem demoSelfJoin_valid : validSelect demoWorld demoSelfJoin := by
  refine ⟨?_, ?_, ?_⟩
  · intro r hr
    have : r = "S" := by simpa [demoSelfJoin] using hr
    subst this
    exact ⟨demoS, rfl⟩
  · intro a ha
    have hs : effectiveSelAttrs demoSelfJoin.selAttrs = [] := rfl
    rw [hs] at ha
    cases ha
  · intro c hc
    simp [demoSelfJoin] at hc

theorem demoSelfJoin_counts : countsAgree demoWorld demoSelfJoin.relations := by
  intro r hr rel hrel
  have : r = "S" := by simpa [demoSelfJoin] using hr
  subst this
  have h : demoWorld.catalog "S" = some demoS := rfl
  rw [h] at hrel
  cases hrel
  rfl

/-- A FROM list that names a relation twice is not rejected, and every attribute
is then read from the last occurrence (`relNumMap`, lines 105-107, keeps the last
index of a name): `SELECT * FROM S, S` prints, for the combinations
`(r1, r1), (r1, r2), (r2, r1), (r2, r2)`, the rows `(1, al, 1, al)`,
`(2, NULL, 2, NULL)`, `(1, al, 1, al)`, `(2, NULL, 2, NULL)`. -/
theorem Select_self_join_rows :
    ¬ demoSelfJoin.relations.Nodup ∧
    ∀ fuel, 5 ≤ fuel → ∃ res, Select fuel demoSelfJoin demoWorld = some res ∧
      res.rc = RC.OK ∧
      printedRows res.w.out =
        [([1, 0, 0, 0, 97, 108, 0, 0, 0, 0, 0, 0, 0, 0, 0, 0,
           1, 0, 0, 0, 97, 108, 0, 0, 0, 0, 0, 0, 0, 0, 0, 0], [false, false]),
         ([2, 0, 0, 0, 0, 0, 0, 0, 0, 0, 0, 0, 0, 0, 0, 0,
           2, 0, 0, 0, 0, 0, 0, 0, 0, 0, 0, 0, 0, 0, 0, 0], [true, true]),
         ([1, 0, 0, 0, 97, 108, 0, 0, 0, 0, 0, 0, 0, 0, 0, 0,
           1, 0, 0, 0, 97, 108, 0, 0, 0, 0, 0, 0, 0, 0, 0, 0], [false, false]),
         ([2, 0, 0, 0, 0, 0, 0, 0, 0, 0, 0, 0, 0, 0, 0, 0,
           2, 0, 0, 0, 0, 0, 0, 0, 0, 0, 0, 0, 0, 0, 0, 0], [true, true])] := by
  refine ⟨by decide, fun fuel hfuel => ?_⟩
  rcases Select_join_run demoSelfJoin demoWorld rfl demoSelfJoin_valid (by decide) (by decide)
    demoSelfJoin_counts (by decide) fuel with ⟨h1, _⟩ | ⟨_, res, h1, h2, _, h4, _⟩
  · have : (cartesian (fromRecords demoWorld demoSelfJoin.relations)).length = 4 := by decide
    omega
  · exact ⟨res, h1, h2, h4.trans (by decide)⟩

end RebaseDB
